import Mathlib

/-!
# plexi link statistics: a shallow embedding of `apps/plexi/plexi-link-statistics.c`

The development follows the default configuration of the module
(`PLEXI_DENSE_LINK_STATISTICS == 1`): a statistics record is a 16-bit
`metainfo` word (enable: bit 0, metric: bits 1-4, id: bits 5-9, window: bits
10-15) followed by a 16-bit value.  Machine words are natural numbers; the
type invariant `< 65536` of a `uint16_t` field is stated where it is needed.
`int` is 32 bits wide, so none of the intermediate results below wraps.

Pointers into the statistics pool are slot numbers, the null pointer is
`none`.  Functions that can run into undefined behaviour of the C program (a
division by zero, a chain of records that never ends) return an `Option`,
`none` standing for "no defined result".

Besides the three handlers of the statistics resource, the moving average, the
two packet callbacks and the accessors of `plexi-link-statistics.c`, the
development covers the two readers of the records in the other resources: the
neighbor list of `apps/plexi/plexi-neighbors.c` with its aggregation per
neighbor, and the `stats` subresource of the links resource of
`apps/plexi/plexi-tsch.c`; and the read and the removal of slotframes of
`apps/plexi/plexi-tsch.c`.  A reply is the text the handler prints; the reply
buffer is taken to be large enough for it.
-/

namespace Plexi

/-! ## Definitions -/

/-! ### `STATISTIC_METRIC` and `STATISTIC_METRIC_ACTIVITY` -/

abbrev NONE : Nat := 0
abbrev PDR : Nat := 11
abbrev ETX : Nat := 12
abbrev RSSI : Nat := 13
abbrev LQI : Nat := 14
abbrev ASN : Nat := 15

abbrev ENABLE : Nat := 0
abbrev DISABLE : Nat := 1

/-! ### 16-bit values -/

/-- The all-ones word: `(plexi_stats_value_t)(-1)` and
`(plexi_stats_value_t)0xFFFFFFFFFFFFFFFF` for the 16-bit `plexi_stats_value_t`. -/
abbrev SENTINEL : Nat := 65535

/-- A 16-bit word read as `plexi_stats_value_st` (`int16_t`, two's complement). -/
def to_int16 (w : Nat) : Int :=
  if w < 32768 then (w : Int) else (w : Int) - 65536

/-- An `int` stored into a 16-bit object (reduction modulo 2^16). -/
def of_int (i : Int) : Nat :=
  (i % 65536).toNat

/-! ### The record and its bit-packed accessors -/

/-- The `struct plexi_stats_struct` of the dense mode. `next` is a slot of the
statistics pool or the null pointer. -/
structure plexi_stats where
  next : Option Nat
  metainfo : Nat
  value : Nat
deriving DecidableEq, Repr

/-- `plexi_get_statistics_id`: `(uint16_t)(stats->metainfo >> 5) & 31`, and
`(uint16_t)(-1)` for a null record. -/
def plexi_get_statistics_id (stats : Option plexi_stats) : Nat :=
  match stats with
  | none => 65535
  | some st => (st.metainfo >>> 5) &&& 31

/-- `plexi_set_statistics_id`: the return code and the record afterwards. -/
def plexi_set_statistics_id (stats : Option plexi_stats) (id : Nat) : Nat × Option plexi_stats :=
  match stats with
  | none => (0, none)
  | some st =>
    if id < 32 then
      (1, some { st with metainfo := (st.metainfo &&& 64543) ||| (id <<< 5) })
    else
      (0, some st)

/-- `plexi_get_statistics_enable`: `(uint8_t)(stats->metainfo & 1)`, and
`(uint8_t)(-1)` for a null record. -/
def plexi_get_statistics_enable (stats : Option plexi_stats) : Nat :=
  match stats with
  | none => 255
  | some st => st.metainfo &&& 1

/-- `plexi_set_statistics_enable`: the return code and the record afterwards. -/
def plexi_set_statistics_enable (stats : Option plexi_stats) (enable : Nat) :
    Nat × Option plexi_stats :=
  match stats with
  | none => (0, none)
  | some st =>
    if enable < 2 then
      (1, some { st with metainfo := (st.metainfo &&& 65534) ||| enable })
    else
      (0, some st)

/-- `plexi_get_statistics_metric`: `(uint8_t)((stats->metainfo >> 1) & 15)`, and
`(uint8_t)(-1)` for a null record. -/
def plexi_get_statistics_metric (stats : Option plexi_stats) : Nat :=
  match stats with
  | none => 255
  | some st => (st.metainfo >>> 1) &&& 15

/-- `plexi_set_statistics_metric`: the return code and the record afterwards. -/
def plexi_set_statistics_metric (stats : Option plexi_stats) (metric : Nat) :
    Nat × Option plexi_stats :=
  match stats with
  | none => (0, none)
  | some st =>
    if metric < 16 then
      (1, some { st with metainfo := (st.metainfo &&& 65505) ||| (metric <<< 1) })
    else
      (0, some st)

/-- `plexi_get_statistics_window`: `(uint16_t)(stats->metainfo >> 10)`, and
`(uint16_t)(-1)` for a null record. -/
def plexi_get_statistics_window (stats : Option plexi_stats) : Nat :=
  match stats with
  | none => 65535
  | some st => st.metainfo >>> 10

/-- `plexi_set_statistics_window`: the return code and the record afterwards. -/
def plexi_set_statistics_window (stats : Option plexi_stats) (window : Nat) :
    Nat × Option plexi_stats :=
  match stats with
  | none => (0, none)
  | some st =>
    if window < 64 then
      (1, some { st with metainfo := (st.metainfo &&& 1023) ||| (window <<< 10) })
    else
      (0, some st)

/-- A setter called on the record `st` itself (a non-null pointer), its return
code dropped as the handlers do: the record afterwards. -/
def applied (setter : Option plexi_stats → Nat → Nat × Option plexi_stats)
    (st : plexi_stats) (v : Nat) : plexi_stats :=
  match (setter (some st) v).2 with
  | some st1 => st1
  | none => st

/-! ### The statistics pool -/

/-- `PLEXI_MAX_STATISTICS`, the default number of blocks of the pool. -/
abbrev PLEXI_MAX_STATISTICS : Nat := 2

/-- One block of `MEMB(plexi_stats_mem, plexi_stats, PLEXI_MAX_STATISTICS)`: its
use counter and the record stored in it. -/
structure memb_block where
  count : Nat
  obj : plexi_stats
deriving DecidableEq, Repr

/-- Modelled from the spec: the pool of `lib/memb` (not among the sources), a
"bounded arena with a fixed maximum count of StatRecord instances". The number
of blocks is the length of the list. -/
abbrev memb := List memb_block

/-- The position of the first element that satisfies `p`. -/
def first_index {α : Type} (p : α → Bool) : List α → Option Nat
  | [] => none
  | a :: l => if p a then some 0 else (first_index p l).map (fun i => i + 1)

/-- Modelled from the spec: `memb_inmemb` of `lib/memb` (not among the sources):
the pointer lies inside the memory of the pool. -/
def memb_inmemb (m : memb) (ptr : Option Nat) : Bool :=
  match ptr with
  | none => false
  | some i => decide (i < m.length)

/-- Modelled from the spec: `memb_alloc` of `lib/memb` (not among the sources):
"allocation fails (not blocks) when exhausted" and "never overwrites or
evicts". The first unused block is marked used and returned; what the block
holds is left as it is. -/
def memb_alloc (m : memb) : Option Nat × memb :=
  match first_index (fun b => decide (b.count = 0)) m with
  | none => (none, m)
  | some i =>
    match m[i]? with
    | some b => (some i, m.set i { b with count := 1 })
    | none => (none, m)

/-- Modelled from the spec: `memb_free` of `lib/memb` (not among the sources):
the block is returned to the pool; a "no-op" on a pointer that is not a block
of the pool or a block that is not in use. -/
def memb_free (m : memb) (ptr : Option Nat) : memb :=
  match ptr with
  | none => m
  | some i =>
    match m[i]? with
    | some b => if 0 < b.count then m.set i { b with count := b.count - 1 } else m
    | none => m

/-- The number of blocks in use. -/
def memb_used (m : memb) : Nat :=
  m.countP (fun b => decide (b.count ≠ 0))

/-- The record stored in block `i` replaced by `f` of it. -/
def memb_store (m : memb) (i : Nat) (f : plexi_stats → plexi_stats) : memb :=
  match m[i]? with
  | some b => m.set i { b with obj := f b.obj }
  | none => m

/-! ### The schedule -/

/-- A link-layer address (`linkaddr_t`), its bytes read as one number. -/
abbrev linkaddr_t := Nat

/-- Modelled from the spec: `struct tsch_link` of the schedule layer (not among
the sources): "identifier, owning slotframe id, timeslot, channel offset,
option flags, neighbor address" and the slot `data` for the chain of records. -/
structure tsch_link where
  handle : Nat
  slotframe_handle : Nat
  timeslot : Nat
  channel_offset : Nat
  link_options : Nat
  addr : linkaddr_t
  data : Option Nat
deriving DecidableEq, Repr

/-- Modelled from the spec: `struct tsch_slotframe` of the schedule layer (not
among the sources): a handle and the list of its links, and the number of its
slots, "a small integer id and a slot count" (`size.val`, which only the
handlers of the slotframe resource read). -/
structure tsch_slotframe where
  handle : Nat
  links_list : List tsch_link
  size : Nat := 0
deriving DecidableEq, Repr

/-- The state the handlers work on: the schedule and the pool. -/
structure plexi_state where
  schedule : List tsch_slotframe
  plexi_stats_mem : memb
deriving DecidableEq, Repr

/-- Modelled from the spec: `tsch_schedule_get_slotframe_by_handle` (not among
the sources), "get_slotframe_by_id(id) -> Option<Slotframe>": the position of
the first slotframe with that handle. -/
def tsch_schedule_get_slotframe_by_handle (schedule : List tsch_slotframe) (handle : Int) :
    Option Nat :=
  first_index (fun sf => decide ((sf.handle : Int) = handle)) schedule

/-- Modelled from the spec: `tsch_schedule_get_link_by_timeslot` (not among the
sources), "get_link_by_timeslot(frame, slot) -> Option<Link>": the position of
the first link of the slotframe at that timeslot. -/
def tsch_schedule_get_link_by_timeslot (sf : tsch_slotframe) (timeslot : Int) : Option Nat :=
  first_index (fun l => decide ((l.timeslot : Int) = timeslot)) sf.links_list

/-- The link at position `(i, j)`: link `j` of slotframe `i`. -/
def link_at (schedule : List tsch_slotframe) (p : Nat × Nat) : Option tsch_link :=
  match schedule[p.1]? with
  | some sf => sf.links_list[p.2]?
  | none => none

/-- The assignment `link->data = ptr` for the link at position `(i, j)`. -/
def set_link_data (schedule : List tsch_slotframe) (p : Nat × Nat) (ptr : Option Nat) :
    List tsch_slotframe :=
  match schedule[p.1]? with
  | some sf =>
    match sf.links_list[p.2]? with
    | some l =>
      schedule.set p.1 { sf with links_list := sf.links_list.set p.2 { l with data := ptr } }
    | none => schedule
  | none => schedule

/-- The slotframes a statistics handler visits: the one found by handle when the
frame filter is set (`flags & 1`), else all of them in the order of
`tsch_schedule_get_slotframe_next`. -/
def stats_walk_frames (schedule : List tsch_slotframe) (flags : Nat) (frame : Int) : List Nat :=
  if flags &&& 1 ≠ 0 then
    match tsch_schedule_get_slotframe_by_handle schedule frame with
    | some i => [i]
    | none => []
  else
    List.range schedule.length

/-- The links of one slotframe a statistics handler visits: the one found by
timeslot when the slot filter is set (`flags & 2`), else all of them in the
order of `tsch_schedule_get_link_next`. -/
def stats_walk_links (sf : tsch_slotframe) (flags : Nat) (slot : Int) : List Nat :=
  if flags &&& 2 ≠ 0 then
    match tsch_schedule_get_link_by_timeslot sf slot with
    | some j => [j]
    | none => []
  else
    List.range sf.links_list.length

/-- The two nested `do ... while` loops of the statistics handlers: the
positions of the links whose body is run, in order. The loops read only the
handles and timeslots, which the bodies never write. -/
def stats_walk (schedule : List tsch_slotframe) (flags : Nat) (frame slot : Int) :
    List (Nat × Nat) :=
  (stats_walk_frames schedule flags frame).flatMap (fun i =>
    match schedule[i]? with
    | some sf => (stats_walk_links sf flags slot).map (fun j => (i, j))
    | none => [])

/-! ### `plexi_purge_statistics` and the link-removal callback -/

/-- `plexi_purge_statistics(stats)`: the record is returned to the pool when the
pointer lies in the pool (dense mode: there are no enhanced records to free). -/
def plexi_purge_statistics (m : memb) (stats : Option Nat) : memb :=
  if memb_inmemb m stats then memb_free m stats else m

/-- `plexi_purge_link_statistics(link)`, registered as
`TSCH_CALLBACK_REMOVE_LINK`: `plexi_purge_statistics((plexi_stats *)link->data)`. -/
def plexi_purge_link_statistics (s : plexi_state) (link : tsch_link) : plexi_state :=
  { s with plexi_stats_mem := plexi_purge_statistics s.plexi_stats_mem link.data }

/-! ### Chains of records -/

/-- The slots of the chain that starts at `ptr`, following `next` up to the null
pointer; `none` when the chain leaves the pool or has not ended after `fuel`
records. -/
def stats_chain (m : memb) : Nat → Option Nat → Option (List Nat)
  | _, none => some []
  | 0, some _ => none
  | fuel + 1, some i =>
    match m[i]? with
    | none => none
    | some b => (stats_chain m fuel b.obj.next).map (fun c => i :: c)

/-- The slots of the chain of a link, as the handlers walk it: they follow
`link->data` only when `memb_inmemb` holds for it. A chain without a repeated
slot has at most as many records as the pool has blocks. -/
def link_chain (m : memb) (l : tsch_link) : Option (List Nat) :=
  if memb_inmemb m l.data then stats_chain m m.length l.data else some []

/-- The record of a block as a reader of the chain sees it: `metainfo` and
`value`, the `next` pointer blanked. -/
def record_view (m : memb) (i : Nat) : plexi_stats :=
  match m[i]? with
  | some b => { b.obj with next := none }
  | none => { next := none, metainfo := 0, value := 0 }

/-- The records stored in the given slots. -/
def chain_records (m : memb) (c : List Nat) : List plexi_stats :=
  c.map (record_view m)

/-- The records of the chain of a link in chain order (`metainfo` and `value`
of each). -/
def link_records (m : memb) (l : tsch_link) : List plexi_stats :=
  chain_records m ((link_chain m l).getD [])

/-- The records of the chain of the link at a position of the schedule. -/
def records_at (s : plexi_state) (p : Nat × Nat) : List plexi_stats :=
  match link_at s.schedule p with
  | some l => link_records s.plexi_stats_mem l
  | none => []

/-! ### Chains, position by position -/

/-- The positions of all links of the schedule. -/
def all_positions (schedule : List tsch_slotframe) : List (Nat × Nat) :=
  (List.range schedule.length).flatMap (fun i =>
    match schedule[i]? with
    | some sf => (List.range sf.links_list.length).map (fun j => (i, j))
    | none => [])

/-- The slots of the chain of the link at a position of the schedule. -/
def chain_at (s : plexi_state) (p : Nat × Nat) : List Nat :=
  match link_at s.schedule p with
  | some l => (link_chain s.plexi_stats_mem l).getD []
  | none => []

/-- The list `c` is the chain that starts at `ptr`: each slot holds a record
whose `next` is the following slot, the last one the null pointer. -/
def is_chain (m : memb) : Option Nat → List Nat → Prop
  | ptr, [] => ptr = none
  | ptr, i :: c => ptr = some i ∧ ∃ b, m[i]? = some b ∧ is_chain m b.obj.next c

/-- A well-formed state: the chain of every link ends inside the pool and
repeats no slot, no slot is on the chains of two links, the slots on chains are
in use, and the fields of every block are 16-bit words. -/
def wf_state (s : plexi_state) : Prop :=
  (∀ p ∈ all_positions s.schedule, ∀ l, link_at s.schedule p = some l →
    (link_chain s.plexi_stats_mem l).isSome = true) ∧
  (∀ p ∈ all_positions s.schedule, (chain_at s p).Nodup) ∧
  (∀ p ∈ all_positions s.schedule, ∀ q ∈ all_positions s.schedule, p ≠ q →
    ∀ i ∈ chain_at s p, i ∉ chain_at s q) ∧
  (∀ p ∈ all_positions s.schedule, ∀ i ∈ chain_at s p, ∀ b,
    s.plexi_stats_mem[i]? = some b → b.count ≠ 0) ∧
  (∀ b ∈ s.plexi_stats_mem, b.obj.metainfo < 65536 ∧ b.obj.value < 65536)

instance (s : plexi_state) : Decidable (wf_state s) := by
  unfold wf_state
  infer_instance

/-! ### `plexi_post_stats_handler` -/

/-- The status codes the statistics handlers set. -/
inductive coap_status where
  | CHANGED_2_04
  | BAD_REQUEST_4_00
  | NOT_FOUND_4_04
  | INTERNAL_SERVER_ERROR_5_00
  | NOT_IMPLEMENTED_5_01
  | DELETED_2_02
deriving DecidableEq, Repr

/-- What a handler leaves in the response: the status code it set (`none` when
it set none) and the payload. -/
structure coap_response where
  status : Option coap_status
  payload : String
deriving DecidableEq, Repr

/-- The local variables of `plexi_post_stats_handler` that the JSON fields fill:
the record `stats`, the three numeric filters, the address filter, the bit set
`flags` (1 frame, 2 slot, 4 channel, 8 address, 16 id) and the mark
`to_initialize` of an explicit value. -/
structure post_request where
  stats : plexi_stats
  channel : Int
  slot : Int
  slotframe : Int
  tna : linkaddr_t
  flags : Nat
  to_init : Bool
deriving DecidableEq, Repr

/-- How the `while(last_stats != NULL)` loop over a chain ends. -/
inductive scan_result where
  | found (last_stats : Nat)
  | conflict
  | at_end (previous_stats : Option Nat)
deriving DecidableEq, Repr

/-- The loop `while(last_stats != NULL)` of `plexi_post_stats_handler`: it stops
at the first record with the requested metric (and the requested id when
`flags & 16`), returns the error when a record has one of the two but not the
other, and otherwise moves on with `previous_stats = last_stats`. -/
def post_stats_scan (m : memb) (stats : plexi_stats) (flags : Nat) :
    Nat → Option Nat → Option Nat → Option scan_result
  | _, none, previous_stats => some (scan_result.at_end previous_stats)
  | 0, some _, _ => none
  | fuel + 1, some i, _ =>
    match m[i]? with
    | none => none
    | some b =>
      if plexi_get_statistics_metric (some stats) = plexi_get_statistics_metric (some b.obj) ∧
          (flags &&& 16 = 0 ∨ (flags &&& 16 ≠ 0 ∧
            plexi_get_statistics_id (some b.obj) = plexi_get_statistics_id (some stats))) then
        some (scan_result.found i)
      else if (plexi_get_statistics_metric (some stats) = plexi_get_statistics_metric (some b.obj)
            ∧ flags &&& 16 ≠ 0 ∧
            plexi_get_statistics_id (some b.obj) ≠ plexi_get_statistics_id (some stats)) ∨
          (plexi_get_statistics_metric (some stats) ≠ plexi_get_statistics_metric (some b.obj)
            ∧ flags &&& 16 ≠ 0 ∧
            plexi_get_statistics_id (some b.obj) = plexi_get_statistics_id (some stats)) then
        some scan_result.conflict
      else
        post_stats_scan m stats flags fuel b.obj.next (some i)

/-- The initialisation of a freshly allocated record `link_stats` from the
request, in the order of the source. -/
def post_stats_new_record (link_stats stats : plexi_stats) (to_init : Bool) : plexi_stats :=
  let r := applied plexi_set_statistics_id link_stats (plexi_get_statistics_id (some stats))
  let r := { r with next := none }
  let r := applied plexi_set_statistics_window r (plexi_get_statistics_window (some stats))
  let r := applied plexi_set_statistics_metric r (plexi_get_statistics_metric (some stats))
  let r :=
    if plexi_get_statistics_metric (some r) = RSSI then
      { r with value := 18446744073709551615 % 65536 }
    else
      { r with value := of_int (-1) }
  let r := applied plexi_set_statistics_enable r (plexi_get_statistics_enable (some stats))
  if to_init then { r with value := stats.value } else r

/-- The update of a matching record `last_stats` in place: window, enable flag
and value are overwritten from the request. -/
def post_stats_update_record (last_stats stats : plexi_stats) : plexi_stats :=
  let r := applied plexi_set_statistics_window last_stats
    (plexi_get_statistics_window (some stats))
  let r := applied plexi_set_statistics_enable r (plexi_get_statistics_enable (some stats))
  { r with value := stats.value }

/-- The body of the inner `do ... while` loop of `plexi_post_stats_handler` for
the link at position `p`: the channel and address filters, the search of the
chain, and then either the creation of a record at the end of the chain or the
update of the matching one. The result is the error response if the handler
returns from here, the state afterwards, and whether `installed = 1` was
reached. -/
def post_stats_link (req : post_request) (s : plexi_state) (p : Nat × Nat) :
    Option (Option coap_response × plexi_state × Bool) :=
  match link_at s.schedule p with
  | none => some (none, s, false)
  | some link =>
    if (req.flags &&& 4 = 0 ∨ (link.channel_offset : Int) = req.channel) ∧
        (req.flags &&& 8 = 0 ∨ link.addr = req.tna) then
      let m := s.plexi_stats_mem
      let scan :=
        if memb_inmemb m link.data then
          post_stats_scan m req.stats req.flags m.length link.data none
        else
          some (scan_result.at_end none)
      match scan with
      | none => none
      | some scan_result.conflict =>
        some (some ⟨some coap_status.BAD_REQUEST_4_00,
          "Statistics ID represents a different metric"⟩, s, false)
      | some (scan_result.at_end previous_stats) =>
        if link.link_options ≠ 1 ∧
            (plexi_get_statistics_metric (some req.stats) = ETX ∨
              plexi_get_statistics_metric (some req.stats) = PDR) then
          some (some ⟨some coap_status.BAD_REQUEST_4_00,
            "Broadcast cells cannot measure ETX and PDR"⟩, s, false)
        else
          match memb_alloc m with
          | (none, _) =>
            some (some ⟨some coap_status.INTERNAL_SERVER_ERROR_5_00,
              "Not enough memory (too many statistics)"⟩, s, false)
          | (some link_stats, m1) =>
            let m2 := memb_store m1 link_stats
              (fun r => post_stats_new_record r req.stats req.to_init)
            match previous_stats with
            | some prev =>
              let m3 := memb_store m2 prev (fun r => { r with next := some link_stats })
              some (none, { s with plexi_stats_mem := m3 }, true)
            | none =>
              let schedule1 := set_link_data s.schedule p (some link_stats)
              some (none, { schedule := schedule1, plexi_stats_mem := m2 }, true)
      | some (scan_result.found last_stats) =>
        let m1 := memb_store m last_stats (fun r => post_stats_update_record r req.stats)
        some (none, { s with plexi_stats_mem := m1 }, true)
    else
      some (none, s, false)

/-- The walk of `plexi_post_stats_handler` over the visited links: the body is
run link by link, the first error ends the request. The result carries the
error response if there is one, the state, and `installed`. -/
def post_stats_loop (req : post_request) :
    List (Nat × Nat) → plexi_state → Bool → Option (Option coap_response × plexi_state × Bool)
  | [], s, installed => some (none, s, installed)
  | p :: ps, s, installed =>
    match post_stats_link req s p with
    | none => none
    | some (some r, s1, _) => some (some r, s1, installed)
    | some (none, s1, touched) => post_stats_loop req ps s1 (installed || touched)

/-- The case `'}'` of `plexi_post_stats_handler`: the end of the JSON object,
where the request collected so far is applied to the schedule. -/
def post_stats_end_element (req : post_request) (s : plexi_state) :
    Option (coap_response × plexi_state) :=
  if plexi_get_statistics_metric (some req.stats) = NONE then
    some (⟨some coap_status.BAD_REQUEST_4_00,
      "Invalid statistics configuration (metric missing)"⟩, s)
  else if stats_walk_frames s.schedule req.flags req.slotframe = [] then
    some (⟨some coap_status.NOT_FOUND_4_04, "No slotframes found"⟩, s)
  else
    match post_stats_loop req (stats_walk s.schedule req.flags req.slotframe req.slot)
        s false with
    | none => none
    | some (some r, s1, _) => some (r, s1)
    | some (none, s1, installed) =>
      if installed then
        some (⟨some coap_status.CHANGED_2_04, ""⟩, s1)
      else
        some (⟨some coap_status.NOT_FOUND_4_04,
          "Link not found to install statistics resource"⟩, s1)

/-- What `plexi_json_find_field` hands to the handler: the parser state it
returns, with the field name left in `field_buf` and the value under the
cursor (`jsonparse_get_value_as_int`, `jsonparse_copy_value`). The JSON parser
itself is not among the sources. -/
inductive json_event where
  | object_start
  | object_end
  | number (field : String) (value : Int)
  | string (field : String) (value : String)
  | other
deriving DecidableEq, Repr

/-- The locals of `plexi_post_stats_handler` before the first field is read:
`stats = { .next = NULL, .metainfo = 0, .value = 0 }`, the filters at -1, no
flag set. -/
def post_request_init : post_request :=
  { stats := { next := none, metainfo := 0, value := 0 }
    channel := -1
    slot := -1
    slotframe := -1
    tna := 0
    flags := 0
    to_init := false }

/-- The loop `while((state = plexi_json_find_field(...)))` of
`plexi_post_stats_handler` with its `switch`. `eui64` stands for
`plexi_eui64_to_linkaddr` on the copied value; `js_ok` says whether the parser
ended with `JSON_ERROR_OK`. -/
def post_stats_parse (eui64 : String → Option linkaddr_t) (js_ok : Bool) (s : plexi_state) :
    List json_event → post_request → Option (coap_response × plexi_state)
  | [], _ =>
    if js_ok then some (⟨none, ""⟩, s)
    else some (⟨some coap_status.BAD_REQUEST_4_00, "Can only support JSON payload format"⟩, s)
  | json_event.object_start :: evs, req =>
    let st := applied plexi_set_statistics_window req.stats 0
    let st := applied plexi_set_statistics_enable st DISABLE
    let st := applied plexi_set_statistics_metric st NONE
    let st := { st with value := of_int (-1) }
    let st := applied plexi_set_statistics_id st (of_int (-1))
    post_stats_parse eui64 js_ok s evs
      { req with stats := st, channel := -1, slot := -1, slotframe := -1 }
  | json_event.object_end :: _, req => post_stats_end_element req s
  | json_event.number field value :: evs, req =>
    if field = "frame" then
      post_stats_parse eui64 js_ok s evs
        { req with slotframe := value, flags := req.flags ||| 1 }
    else if field = "slot" then
      post_stats_parse eui64 js_ok s evs { req with slot := value, flags := req.flags ||| 2 }
    else if field = "channel" then
      post_stats_parse eui64 js_ok s evs
        { req with channel := value, flags := req.flags ||| 4 }
    else if field = "value" then
      post_stats_parse eui64 js_ok s evs
        { req with stats := { req.stats with value := of_int value }, to_init := true }
    else if field = "id" then
      let st := applied plexi_set_statistics_id req.stats (of_int value)
      if plexi_get_statistics_id (some st) < 1 then
        some (⟨some coap_status.BAD_REQUEST_4_00,
          "Invalid statistics configuration (invalid id)"⟩, s)
      else
        post_stats_parse eui64 js_ok s evs { req with stats := st, flags := req.flags ||| 16 }
    else if field = "enable" then
      let st :=
        if of_int value = 1 then applied plexi_set_statistics_enable req.stats ENABLE
        else applied plexi_set_statistics_enable req.stats DISABLE
      post_stats_parse eui64 js_ok s evs { req with stats := st }
    else
      post_stats_parse eui64 js_ok s evs req
  | json_event.string field value :: evs, req =>
    if field = "tna" then
      match eui64 value with
      | none =>
        some (⟨some coap_status.BAD_REQUEST_4_00, "Invalid target node address"⟩, s)
      | some a =>
        post_stats_parse eui64 js_ok s evs { req with tna := a, flags := req.flags ||| 8 }
    else if field = "enable" then
      let st :=
        if value = "y" ∨ value = "yes" ∨ value = "true" then
          applied plexi_set_statistics_enable req.stats ENABLE
        else if value = "n" ∨ value = "no" ∨ value = "false" then
          applied plexi_set_statistics_enable req.stats DISABLE
        else req.stats
      post_stats_parse eui64 js_ok s evs { req with stats := st }
    else if field = "metric" then
      if value = "etx" then
        post_stats_parse eui64 js_ok s evs
          { req with stats := applied plexi_set_statistics_metric req.stats ETX }
      else if value = "rssi" then
        post_stats_parse eui64 js_ok s evs
          { req with stats := applied plexi_set_statistics_metric req.stats RSSI }
      else if value = "lqi" then
        post_stats_parse eui64 js_ok s evs
          { req with stats := applied plexi_set_statistics_metric req.stats LQI }
      else if value = "asn" then
        post_stats_parse eui64 js_ok s evs
          { req with stats := applied plexi_set_statistics_metric req.stats ASN }
      else if value = "pdr" then
        post_stats_parse eui64 js_ok s evs
          { req with stats := applied plexi_set_statistics_metric req.stats PDR }
      else
        some (⟨some coap_status.NOT_IMPLEMENTED_5_01, "Unknown metric"⟩, s)
    else
      post_stats_parse eui64 js_ok s evs req
  | json_event.other :: evs, req => post_stats_parse eui64 js_ok s evs req

/-- The function `plexi_post_stats_handler` on a request whose payload has
arrived whole and whose accepted format is JSON: the parsing loop started from
the initial locals. -/
def plexi_post_stats_handler (eui64 : String → Option linkaddr_t) (js_ok : Bool)
    (events : List json_event) (s : plexi_state) : Option (coap_response × plexi_state) :=
  post_stats_parse eui64 js_ok s events post_request_init


/-! ### `plexi_update_ewma_statistics` -/

/-- `plexi_update_ewma_statistics(metric, old_value, new_value)`.
`old_value` is the word the pointer refers to (`none` for a null pointer); the
result is that word after the call.  The outer `none` is the undefined
behaviour of `100 * 256 / v` for `v == 0`. -/
def plexi_update_ewma_statistics (metric : Nat) (old_value : Option Nat) (new_value : Nat) :
    Option (Option Nat) :=
  match old_value with
  | none => some none
  | some old =>
    if metric = RSSI then
      let v : Int := to_int16 new_value
      let v : Int :=
        if old ≠ SENTINEL then Int.tdiv (v * 10 + to_int16 old * 90) 100 else v
      some (some (of_int v))
    else
      let v : Nat := new_value
      let v : Nat :=
        if old ≠ SENTINEL then ((new_value * 10 + old * 90) / 100) % 65536 else v
      if metric = LQI ∨ metric = ETX then
        some (some v)
      else if metric = PDR then
        if v = 0 then none else some (some ((100 * 256 / v) % 65536))
      else
        some (some old)

/-- The value word of one record after a run of packet-sent events: each event
with transmission count `c` calls `plexi_update_ewma_statistics(metric,
&stats->value, 256 * c)`, the argument converted to the 16-bit
`plexi_stats_value_t` (the loop body of `plexi_packet_sent`). -/
def packet_sent_updates (metric : Nat) : Nat → List Nat → Option Nat
  | value, [] => some value
  | value, c :: cs =>
    match plexi_update_ewma_statistics metric (some value) ((256 * c) % 65536) with
    | some (some value1) => packet_sent_updates metric value1 cs
    | _ => none

/-- The 90/10 moving average of a run of samples as the specification words it:
seeded with the first sample, every later sample `s` turns the average `e` into
`(s * 10 + e * 90) / 100`. -/
def spec_ewma : Nat → List Nat → Nat
  | e, [] => e
  | e, s :: ss => spec_ewma ((s * 10 + e * 90) / 100) ss

/-- The PDR the specification derives from transmission counts `c :: cs`:
`25600 / ewma(256 * c, ...)`. -/
def spec_pdr (c : Nat) (cs : List Nat) : Nat :=
  25600 / spec_ewma (256 * c) (cs.map (fun x => 256 * x))

/-- The schedule with every `data` pointer blanked: what the handlers never
write. -/
def skeleton (schedule : List tsch_slotframe) : List tsch_slotframe :=
  schedule.map (fun sf =>
    { sf with links_list := sf.links_list.map (fun l => { l with data := none }) })

/-! ### What an Upsert looks for in a chain -/

/-- The record `r` is the one the request looks for: it has the requested
metric and, when the request supplies an id (`flags & 16`), the requested id. -/
def stats_match (stats : plexi_stats) (flags : Nat) (r : plexi_stats) : Prop :=
  plexi_get_statistics_metric (some stats) = plexi_get_statistics_metric (some r) ∧
    (flags &&& 16 = 0 ∨ (flags &&& 16 ≠ 0 ∧
      plexi_get_statistics_id (some r) = plexi_get_statistics_id (some stats)))

instance (stats : plexi_stats) (flags : Nat) (r : plexi_stats) :
    Decidable (stats_match stats flags r) := by
  unfold stats_match
  infer_instance

/-- The record `r` has the requested metric under another id, or the requested
id under another metric (only when the request supplies an id). -/
def stats_conflict (stats : plexi_stats) (flags : Nat) (r : plexi_stats) : Prop :=
  (plexi_get_statistics_metric (some stats) = plexi_get_statistics_metric (some r)
      ∧ flags &&& 16 ≠ 0 ∧
      plexi_get_statistics_id (some r) ≠ plexi_get_statistics_id (some stats)) ∨
    (plexi_get_statistics_metric (some stats) ≠ plexi_get_statistics_metric (some r)
      ∧ flags &&& 16 ≠ 0 ∧
      plexi_get_statistics_id (some r) = plexi_get_statistics_id (some stats))

instance (stats : plexi_stats) (flags : Nat) (r : plexi_stats) :
    Decidable (stats_conflict stats flags r) := by
  unfold stats_conflict
  infer_instance

/-- How the search of a chain ends, by position in the chain. -/
inductive match_result where
  | found (k : Nat)
  | conflict
  | absent
deriving DecidableEq, Repr

/-- The search of `post_stats_scan` read on the list of the records of a chain. -/
def match_records (stats : plexi_stats) (flags : Nat) : List plexi_stats → match_result
  | [] => match_result.absent
  | r :: rs =>
    if stats_match stats flags r then match_result.found 0
    else if stats_conflict stats flags r then match_result.conflict
    else
      match match_records stats flags rs with
      | match_result.found k => match_result.found (k + 1)
      | match_result.conflict => match_result.conflict
      | match_result.absent => match_result.absent

/-- The result of `post_stats_scan` that corresponds to a result by position:
the slot of the record found, or the last slot of the chain as
`previous_stats`. -/
def scan_of_match (c : List Nat) (previous_stats : Option Nat) : match_result → scan_result
  | match_result.found k => scan_result.found (c.getD k 0)
  | match_result.conflict => scan_result.conflict
  | match_result.absent =>
    scan_result.at_end (match c.getLast? with
      | some k => some k
      | none => previous_stats)

/-- The channel and address filters of the request on a link. -/
def link_selected (req : post_request) (link : tsch_link) : Prop :=
  (req.flags &&& 4 = 0 ∨ (link.channel_offset : Int) = req.channel) ∧
    (req.flags &&& 8 = 0 ∨ link.addr = req.tna)

instance (req : post_request) (link : tsch_link) : Decidable (link_selected req link) := by
  unfold link_selected
  infer_instance

/-- The check before a record is created: ETX and PDR only on a link whose
options are exactly 1. -/
def creation_refused (req : post_request) (link : tsch_link) : Prop :=
  link.link_options ≠ 1 ∧
    (plexi_get_statistics_metric (some req.stats) = ETX ∨
      plexi_get_statistics_metric (some req.stats) = PDR)

instance (req : post_request) (link : tsch_link) : Decidable (creation_refused req link) := by
  unfold creation_refused
  infer_instance

/-- The record a reader finds at the end of the chain after a creation. -/
def created_view (req : post_request) : plexi_stats :=
  { next := none
    metainfo := req.stats.metainfo
    value := if req.to_init then req.stats.value else SENTINEL }

/-- The 16-bit invariants of the local record `stats` of the handler. -/
def request_words (req : post_request) : Prop :=
  req.stats.metainfo < 65536 ∧ req.stats.value < 65536

instance (req : post_request) : Decidable (request_words req) := by
  unfold request_words
  infer_instance

/-- Whether the link at a position passes the channel and address filters of
the request. -/
def selected_at (req : post_request) (s : plexi_state) (q : Nat × Nat) : Bool :=
  match link_at s.schedule q with
  | some l => decide (link_selected req l)
  | none => false

/-- Whether the body of the walk has to create a record on the link at a
position: the link passes the filters and the search of its chain finds
neither the record looked for nor a conflicting one. -/
def needs_record (req : post_request) (s : plexi_state) (q : Nat × Nat) : Bool :=
  selected_at req s q &&
    decide (match_records req.stats req.flags (records_at s q) = match_result.absent)

/-- The records of a chain after the body of the walk has run on it without an
error: the record looked for updated in place, or a new record at the end. -/
def records_after (req : post_request) (R : List plexi_stats) : List plexi_stats :=
  match match_records req.stats req.flags R with
  | match_result.found k =>
    match R[k]? with
    | some r => R.set k (post_stats_update_record r req.stats)
    | none => R
  | match_result.absent => R ++ [created_view req]
  | match_result.conflict => R

/-- Whether the check before a creation refuses the link at a position. -/
def refused_at (req : post_request) (s : plexi_state) (q : Nat × Nat) : Bool :=
  match link_at s.schedule q with
  | some l => decide (creation_refused req l)
  | none => false

/-- The local record of the handler once a JSON object has been opened: its
words are 16-bit words, and its value is the sentinel unless the request has
supplied a value. -/
def request_consistent (req : post_request) : Prop :=
  request_words req ∧ (req.to_init = false → req.stats.value = SENTINEL)

/-- The link at a position, if the request selects it, already holds the record
looked for with the window, enable flag and value of the request. -/
def settled_at (req : post_request) (s : plexi_state) (q : Nat × Nat) : Prop :=
  selected_at req s q = true →
    ∃ k r, match_records req.stats req.flags (records_at s q) = match_result.found k ∧
      (records_at s q)[k]? = some r ∧
      plexi_get_statistics_window (some r) = plexi_get_statistics_window (some req.stats) ∧
      plexi_get_statistics_enable (some r) = plexi_get_statistics_enable (some req.stats) ∧
      r.value = req.stats.value

/-! ### Example states and requests -/

/-- A link of slotframe 1 at the given timeslot, on channel offset 5, toward no
particular neighbor. -/
def example_link (timeslot link_options : Nat) (data : Option Nat) : tsch_link :=
  { handle := timeslot
    slotframe_handle := 1
    timeslot := timeslot
    channel_offset := 5
    link_options := link_options
    addr := 0
    data := data }

/-- A block that has never been used. -/
def free_block : memb_block :=
  { count := 0, obj := { next := none, metainfo := 0, value := 0 } }

/-- One slotframe with three transmit links without statistics, and the default
pool of two free blocks. -/
def three_links_state : plexi_state :=
  { schedule := [{ handle := 1
                   links_list := [example_link 3 1 none, example_link 4 1 none,
                     example_link 5 1 none] }]
    plexi_stats_mem := [free_block, free_block] }

/-- One slotframe with two transmit links without statistics, and the default
pool of two free blocks. -/
def two_links_state : plexi_state :=
  { schedule := [{ handle := 1
                   links_list := [example_link 3 1 none, example_link 4 1 none] }]
    plexi_stats_mem := [free_block, free_block] }

/-- One link whose chain holds an RSSI record with id 3 followed by an LQI
record with id 4; the pool of two blocks is full. -/
def two_records_state : plexi_state :=
  { schedule := [{ handle := 1, links_list := [example_link 3 1 (some 0)] }]
    plexi_stats_mem :=
      [{ count := 1, obj := { next := some 1, metainfo := 123, value := 65535 } },
       { count := 1, obj := { next := none, metainfo := 157, value := 65535 } }] }

/-- One link whose chain holds an RSSI record with id 3; one block is free. -/
def one_record_state : plexi_state :=
  { schedule := [{ handle := 1, links_list := [example_link 3 1 (some 0)] }]
    plexi_stats_mem :=
      [{ count := 1, obj := { next := none, metainfo := 123, value := 65535 } }, free_block] }

/-- One shared link (options transmit, receive and shared) without statistics. -/
def shared_link_state : plexi_state :=
  { schedule := [{ handle := 1, links_list := [example_link 3 7 none] }]
    plexi_stats_mem := [free_block, free_block] }

/-- The locals of the handler for a request with the given `metainfo` word and
flags, without filters and without an explicit value. -/
def example_request (metainfo flags : Nat) : post_request :=
  { stats := { next := none, metainfo := metainfo, value := 65535 }
    channel := -1
    slot := -1
    slotframe := -1
    tna := 0
    flags := flags
    to_init := false }

/-- The JSON object with the fields metric "rssi" and id 7, as the parser hands
it to the handler. -/
def rssi_id7_events : List json_event :=
  [json_event.object_start, json_event.string "metric" "rssi", json_event.number "id" 7,
    json_event.object_end]

/-- An address conversion that accepts no text. -/
def no_address : String → Option linkaddr_t := fun _ => none

/-! ### The links a statistics handler works on -/

/-- The test at the head of the body of the walk, the same in the three
handlers: the channel filter (`flags & 4`) and the neighbor filter
(`flags & 8`) on the link. -/
def stats_link_filter (flags : Nat) (channel : Int) (tna : linkaddr_t) (link : tsch_link) :
    Bool :=
  decide ((flags &&& 4 = 0 ∨ (link.channel_offset : Int) = channel) ∧
    (flags &&& 8 = 0 ∨ link.addr = tna))

/-- The links on which a statistics handler works: those the two loops reach
(by handle and by timeslot when these filters are set) and that pass the test
at the head of the body, in the order of the walk. -/
def stats_visited (schedule : List tsch_slotframe) (flags : Nat) (frame slot channel : Int)
    (tna : linkaddr_t) : List (Nat × Nat) :=
  (stats_walk schedule flags frame slot).filter (fun p =>
    match link_at schedule p with
    | some l => stats_link_filter flags channel tna l
    | none => false)

/-- The reference of the spec, "a naive O(n) reference filter": all links of all
slotframes are scanned and those that satisfy every supplied filter are
kept. -/
def naive_filter_scan (schedule : List tsch_slotframe) (flags : Nat)
    (frame slot channel : Int) (tna : linkaddr_t) : List (Nat × Nat) :=
  (all_positions schedule).filter (fun p =>
    match schedule[p.1]?, link_at schedule p with
    | some sf, some l =>
      decide ((flags &&& 1 = 0 ∨ (sf.handle : Int) = frame) ∧
        (flags &&& 2 = 0 ∨ (l.timeslot : Int) = slot) ∧
        (flags &&& 4 = 0 ∨ (l.channel_offset : Int) = channel) ∧
        (flags &&& 8 = 0 ∨ l.addr = tna))
    | _, _ => false)

/-- Two slotframes, with handles 1 and 2, holding links at the timeslots 3 and 4
and at the timeslots 3 and 6, on the channel offsets 5, 5, 5 and 9. -/
def two_frames_schedule : List tsch_slotframe :=
  [{ handle := 1, links_list := [example_link 3 1 none, example_link 4 1 none] },
   { handle := 2
     links_list :=
       [{ handle := 7, slotframe_handle := 2, timeslot := 3, channel_offset := 5,
          link_options := 1, addr := 0, data := none },
        { handle := 8, slotframe_handle := 2, timeslot := 6, channel_offset := 9,
          link_options := 1, addr := 0, data := none }] }]


/-! ### `plexi_execute_over_link_stats` -/

/-- An `int` converted to `unsigned int` (32 bits). -/
def to_unsigned (i : Int) : Nat :=
  (i % 4294967296).toNat

/-- `plexi_execute_over_link_stats(callback, link, target)`: the return code and
the arguments `(id, metric, value)` of the calls of `callback`, one per record
of the chain in chain order. `value` is the value of the record read as
`plexi_stats_value_st` when a target is given and is the address of the link,
and -1 otherwise. The result is `none` when the chain never ends or leaves the
pool. -/
def plexi_execute_over_link_stats (m : memb) (link : tsch_link) (target : Option linkaddr_t) :
    Option (Nat × List (Nat × Nat × Int)) :=
  if memb_inmemb m link.data then
    (stats_chain m m.length link.data).map (fun c =>
      (1, c.map (fun i =>
        (plexi_get_statistics_id (some (record_view m i)),
          plexi_get_statistics_metric (some (record_view m i)),
          match target with
          | some t => if t = link.addr then to_int16 (record_view m i).value else -1
          | none => -1))))
  else
    some (0, [])

/-! ### The neighbor list: `aggregate_statistics` -/

/-- The `struct aggregate_stats_struct` of plexi-neighbors.c. The sums are
`int`, `asn` is `unsigned int`. The sums are those of at most as many 16-bit
values as the pool has blocks, so they stay in the range of `int`. -/
structure aggregate_stats_struct where
  rssi : Int
  lqi : Int
  etx : Int
  pdr : Int
  asn : Nat
  rssi_counter : Int
  lqi_counter : Int
  asn_counter : Int
  etx_counter : Int
  pdr_counter : Int
deriving DecidableEq, Repr

/-- The value `plexi_get_neighbors_handler` resets `temp_aggregate_stats` to for
every neighbor: `.rssi = (int)0xFFFFFFFFFFFFFFFF` (that is -1), the other sums
-1, `.asn = -1` converted to `unsigned int`, the counters 0. -/
def aggregate_stats_init : aggregate_stats_struct :=
  { rssi := -1, lqi := -1, etx := -1, pdr := -1, asn := to_unsigned (-1)
    rssi_counter := 0, lqi_counter := 0, asn_counter := 0, etx_counter := 0
    pdr_counter := 0 }

/-- `aggregate_statistics(id, metric, value)` on `temp_aggregate_stats`. The
comparisons of `asn` with -1 and with `value` are made in `unsigned int`. -/
def aggregate_statistics (a : aggregate_stats_struct) (_id : Nat) (metric : Nat)
    (value : Int) : aggregate_stats_struct :=
  if value ≠ -1 then
    if metric = RSSI then
      { a with rssi := (if a.rssi = -1 then value else a.rssi + value)
               rssi_counter := a.rssi_counter + 1 }
    else if metric = LQI then
      { a with lqi := (if a.lqi = -1 then value else a.lqi + value)
               lqi_counter := a.lqi_counter + 1 }
    else if metric = ETX then
      { a with etx := (if a.etx = -1 then value else a.etx + value)
               etx_counter := a.etx_counter + 1 }
    else if metric = PDR then
      { a with pdr := (if a.pdr = -1 then value else a.pdr + value)
               pdr_counter := a.pdr_counter + 1 }
    else if metric = ASN then
      { a with asn := (if a.asn = to_unsigned (-1) ∨ to_unsigned value > a.asn
                        then to_unsigned value else a.asn)
               asn_counter := a.asn_counter + 1 }
    else a
  else a

/-- The links of the schedule in the order of the loops over
`tsch_schedule_get_slotframe_next` and `tsch_schedule_get_link_next`. -/
def all_links (schedule : List tsch_slotframe) : List tsch_link :=
  schedule.flatMap (fun sf => sf.links_list)

/-- The two `while` loops of `plexi_get_neighbors_handler` for one neighbor
`lla`: `plexi_execute_over_link_stats(aggregate_statistics, link, lla)` on every
link of every slotframe. -/
def aggregate_links (m : memb) (lla : linkaddr_t) :
    List tsch_link → aggregate_stats_struct → Option aggregate_stats_struct
  | [], a => some a
  | link :: links, a =>
    match plexi_execute_over_link_stats m link (some lla) with
    | none => none
    | some (_, calls) =>
      aggregate_links m lla links
        (calls.foldl (fun a c => aggregate_statistics a c.1 c.2.1 c.2.2) a)

/-- What `temp_aggregate_stats` holds when `plexi_get_neighbors_handler` comes to
print the neighbor `lla`. -/
def neighbor_aggregate (s : plexi_state) (lla : linkaddr_t) : Option aggregate_stats_struct :=
  aggregate_links s.plexi_stats_mem lla (all_links s.schedule) aggregate_stats_init

/-- The statistics fields of the object `plexi_get_neighbors_handler` prints for
a neighbor at the base URL (`base_len == uri_len`), in the order printed: the
label and the number (`asn` is printed in hexadecimal). The test of `asn`
against -1 is made in `unsigned int`. -/
def neighbor_object_fields (a : aggregate_stats_struct) : List (String × Int) :=
  (if a.rssi < -1 then [("rssi", Int.tdiv a.rssi a.rssi_counter)] else []) ++
  (if a.lqi > -1 then [("lqi", Int.tdiv a.lqi a.lqi_counter)] else []) ++
  (if a.etx > -1 then [("etx", Int.tdiv (Int.tdiv a.etx 256) a.etx_counter)] else []) ++
  (if a.pdr > -1 then [("pdr", Int.tdiv a.pdr a.pdr_counter)] else []) ++
  (if a.asn > to_unsigned (-1) then [("asn", (a.asn : Int))] else [])

/-- The samples of a metric that the specification folds for a neighbor: the
values, read as signed 16-bit numbers, of the records of that metric on the
links whose address is the neighbor, the sentinel left out, each record once
(links in schedule order, records in chain order). -/
def contributing_values (s : plexi_state) (lla : linkaddr_t) (metric : Nat) : List Int :=
  (all_links s.schedule).flatMap (fun l =>
    if l.addr = lla then
      ((link_records s.plexi_stats_mem l).filter (fun r =>
        decide (plexi_get_statistics_metric (some r) = metric ∧
          to_int16 r.value ≠ -1))).map (fun r => to_int16 r.value)
    else [])

/-! ### The links resource: `print_stats` and the read of the `stats` subresource -/

/-- The number `n` as `%x` prints it. -/
def print_hex (n : Nat) : String :=
  (Nat.toDigits 16 n).asString

/-- `print_stats(id, metric, value)` of plexi-tsch.c: the text appended to the
reply, given the flag `first_stat` (which the call clears). The reply buffer is
taken to be large enough. -/
def print_stats (first_stat : Bool) (id metric : Nat) (value : Int) : String :=
  (if first_stat then "" else ",") ++ "\x7b\"id\":" ++ toString id ++ ",\"value\":" ++
    (if metric = ASN then "\"" ++ print_hex (to_unsigned value) ++ "\"\x7d"
     else if metric = RSSI then toString value ++ "\x7d"
     else toString (to_unsigned value) ++ "\x7d")

/-- The text the calls of `print_stats` for one link append to the reply, with
`first_stat` set before the first call. -/
def print_stats_calls : Bool → List (Nat × Nat × Int) → String
  | _, [] => ""
  | first_stat, c :: cs => print_stats first_stat c.1 c.2.1 c.2.2 ++ print_stats_calls false cs

/-- The filters of `plexi_get_links_handler`: the bit set `flag` (8 id, 4 frame,
2 slot, 1 channel) and the values of the query variables as `unsigned long`. -/
structure links_query where
  flag : Nat
  id : Nat
  frame : Nat
  slot : Nat
  channel : Nat
deriving DecidableEq, Repr

/-- The loop over the links of `plexi_get_links_handler` for the subresource
`stats` (the branch `LINK_STATS_LABEL`): for every link that passes the
filters, the separator and `plexi_execute_over_link_stats(print_stats, link,
NULL)`; a link without statistics ends the request. The result holds the
response set by an early return, the reply so far and `first_item`. -/
def links_stats_loop (m : memb) (q : links_query) :
    List (tsch_slotframe × tsch_link) → String → Bool →
      Option (Option coap_response × String × Bool)
  | [], content, first_item => some (none, content, first_item)
  | (sf, link) :: rest, content, first_item =>
    if (q.flag &&& 4 = 0 ∨ q.frame = sf.handle) ∧
        (q.flag &&& 2 = 0 ∨ q.slot = link.timeslot) ∧
        (q.flag &&& 1 = 0 ∨ q.channel = link.channel_offset) ∧
        (q.flag &&& 8 = 0 ∨ q.id = link.handle) then
      let content := content ++ (if first_item then "[" else ",")
      match plexi_execute_over_link_stats m link none with
      | none => none
      | some (code, calls) =>
        if code = 0 then
          some (some ⟨some coap_status.NOT_FOUND_4_04, "No specified statistics was found"⟩,
            content, false)
        else
          links_stats_loop m q rest (content ++ print_stats_calls true calls) false
    else
      links_stats_loop m q rest content first_item

/-- The function `plexi_get_links_handler` on a request for the subresource
`stats` (URL `6top/cellList/stats`) whose accepted format is JSON and whose
query variables have been read into `q`. -/
def plexi_get_links_handler (q : links_query) (s : plexi_state) : Option coap_response :=
  match links_stats_loop s.plexi_stats_mem q
      (s.schedule.flatMap (fun sf => sf.links_list.map (fun l => (sf, l)))) "" true with
  | none => none
  | some (some r, _, _) => some r
  | some (none, content, first_item) =>
    if first_item then
      some ⟨some coap_status.NOT_FOUND_4_04, "No specified statistics resource not found"⟩
    else
      some ⟨none, content ++ "]"⟩

/-- The link L1 of the running example: slotframe 1, timeslot 3, channel offset
5, toward the neighbor 9, with one ETX record with id 7 (word 249) in block 0. -/
def etx_record_state (value : Nat) : plexi_state :=
  { schedule :=
      [{ handle := 1
         links_list :=
           [{ handle := 3, slotframe_handle := 1, timeslot := 3, channel_offset := 5,
              link_options := 1, addr := 9, data := some 0 }] }]
    plexi_stats_mem :=
      [{ count := 1, obj := { next := none, metainfo := 249, value := value } }, free_block] }

/-- One link toward the neighbor 9 with one ASN record with id 7 (word 255)
holding `value`. -/
def asn_record_state (value : Nat) : plexi_state :=
  { schedule :=
      [{ handle := 1
         links_list :=
           [{ handle := 3, slotframe_handle := 1, timeslot := 3, channel_offset := 5,
              link_options := 1, addr := 9, data := some 0 }] }]
    plexi_stats_mem :=
      [{ count := 1, obj := { next := none, metainfo := 255, value := value } }, free_block] }

/-- The sum `aggregate_statistics` keeps for a metric among RSSI, LQI, ETX and
PDR. -/
def aggregate_sum (a : aggregate_stats_struct) (metric : Nat) : Int :=
  if metric = RSSI then a.rssi
  else if metric = LQI then a.lqi
  else if metric = ETX then a.etx
  else a.pdr

/-- The counter `aggregate_statistics` keeps for a metric among RSSI, LQI, ETX
and PDR. -/
def aggregate_counter (a : aggregate_stats_struct) (metric : Nat) : Int :=
  if metric = RSSI then a.rssi_counter
  else if metric = LQI then a.lqi_counter
  else if metric = ETX then a.etx_counter
  else a.pdr_counter

/-- A sum that starts from the mark -1: the first sample replaces the mark, the
later ones are added (and a sum that comes back to -1 is taken for the mark). -/
def sum_from_mark (acc : Int) (vs : List Int) : Int :=
  vs.foldl (fun acc v => if acc = -1 then v else acc + v) acc

/-- The arguments of the calls of the callback for one link and one target, from
the records of the link. -/
def link_calls (m : memb) (target : Option linkaddr_t) (link : tsch_link) :
    List (Nat × Nat × Int) :=
  (link_records m link).map (fun r =>
    (plexi_get_statistics_id (some r), plexi_get_statistics_metric (some r),
      match target with
      | some t => if t = link.addr then to_int16 r.value else -1
      | none => -1))

/-- The samples among the calls of the callback that count for a metric. -/
def call_values (metric : Nat) (calls : List (Nat × Nat × Int)) : List Int :=
  (calls.filter (fun c => decide (c.2.1 = metric ∧ c.2.2 ≠ -1))).map (fun c => c.2.2)


/-! ### The query of a statistics read or delete -/

/-- The local variables of `plexi_get_stats_handler` and
`plexi_delete_stats_handler` that the query variables fill: the bit set `flags`
(1 frame, 2 slot, 4 channel, 8 address, 16 metric, 32 enable, 64 id) and the
values, which are `int`. -/
structure stats_query where
  flags : Nat
  frame : Int
  slot : Int
  channel : Int
  tna : linkaddr_t
  metric : Int
  enable : Int
  id : Int
deriving DecidableEq, Repr

/-- The C library function `strtoul(text, &end, 10)` for a 32-bit
`unsigned long`: white space is skipped, a sign is accepted, the decimal digits
that follow are read; without a digit the result is 0, a number that does not
fit gives `ULONG_MAX`, a minus sign negates in `unsigned long`. -/
def strtoul (text : String) : Nat :=
  let cs := text.toList.dropWhile (fun c => c.isWhitespace)
  let negative := decide (cs.head? = some '-')
  let cs := if cs.head? = some '-' ∨ cs.head? = some '+' then cs.tail else cs
  let v := (cs.takeWhile (fun c => c.isDigit)).foldl (fun acc c => acc * 10 + (c.toNat - 48)) 0
  if v > 4294967295 then 4294967295
  else if negative then (4294967296 - v) % 4294967296
  else v

/-- An `unsigned int` stored into an `int` (32 bits, two's complement). -/
def to_int32 (n : Nat) : Int :=
  if n % 4294967296 < 2147483648 then ((n % 4294967296 : Nat) : Int)
  else ((n % 4294967296 : Nat) : Int) - 4294967296

/-- Modelled from the spec: `REST.get_query_variable` of the REST engine (not
among the sources): the text of the query variable `name` when the query has
it. The query is the list of its `name=text` pairs. -/
def get_query_variable (query : List (String × String)) (name : String) : Option String :=
  query.lookup name

/-- The part of the two handlers that reads the query: the variables `frame`,
`slot`, `channel`, `tna`, `metric`, `enable` and `id` in this order, then the
test that ends an unsupported query. `eui64` stands for
`plexi_eui64_to_linkaddr`; `tna0` is what the local `tna`, which has no
initial value, holds when the conversion has not filled it. -/
def stats_query_parse (eui64 : String → Option linkaddr_t) (tna0 : linkaddr_t)
    (query : List (String × String)) : coap_response ⊕ stats_query :=
  let q : stats_query :=
    { flags := 0, frame := -1, slot := -1, channel := -1, tna := tna0, metric := NONE
      enable := ENABLE, id := -1 }
  let q : stats_query := match get_query_variable query "frame" with
    | some t => { q with frame := to_int32 (strtoul t), flags := q.flags ||| 1 }
    | none => q
  let q : stats_query := match get_query_variable query "slot" with
    | some t => { q with slot := to_int32 (strtoul t), flags := q.flags ||| 2 }
    | none => q
  let q : stats_query := match get_query_variable query "channel" with
    | some t => { q with channel := to_int32 (strtoul t), flags := q.flags ||| 4 }
    | none => q
  let q : stats_query := match get_query_variable query "tna" with
    | some t => { q with tna := (eui64 t).getD tna0, flags := q.flags ||| 8 }
    | none => q
  let metric : Option Int := match get_query_variable query "metric" with
    | some t =>
      if t = "etx" then some ETX
      else if t = "rssi" then some RSSI
      else if t = "lqi" then some LQI
      else if t = "pdr" then some PDR
      else if t = "asn" then some ASN
      else none
    | none => some q.metric
  match metric with
  | none => Sum.inl ⟨some coap_status.NOT_FOUND_4_04, "Unrecognized metric"⟩
  | some metric =>
    let q : stats_query := if (get_query_variable query "metric").isSome
      then { q with metric := metric, flags := q.flags ||| 16 } else q
    let q : stats_query := match get_query_variable query "enable" with
      | some t =>
        if t = "y" ∨ t = "yes" ∨ t = "true" ∨ t = "1" then
          { q with enable := ENABLE, flags := q.flags ||| 32 }
        else if t = "n" ∨ t = "no" ∨ t = "false" ∨ t = "0" then
          { q with enable := DISABLE, flags := q.flags ||| 32 }
        else { q with flags := q.flags ||| 32 }
      | none => q
    let q : stats_query := match get_query_variable query "id" with
      | some t => { q with id := to_int32 (strtoul t), flags := q.flags ||| 64 }
      | none => q
    if query.isEmpty = false ∧ (q.flags = 0 ∨ (q.flags &&& 1 ≠ 0 ∧ q.frame < 0) ∨
        (q.flags &&& 2 ≠ 0 ∧ q.slot < 0) ∨ (q.flags &&& 4 ≠ 0 ∧ q.channel < 0)) then
      Sum.inl ⟨some coap_status.NOT_IMPLEMENTED_5_01,
        "Supports queries only on slot frame id and/or slotoffset and channeloffset"⟩
    else
      Sum.inr q

/-- The test on a record in the loops over a chain of the two handlers: the
metric, enable and id filters. -/
def stats_record_filter (q : stats_query) (r : plexi_stats) : Bool :=
  decide ((q.flags &&& 16 = 0 ∨ q.metric = (plexi_get_statistics_metric (some r) : Int)) ∧
    (q.flags &&& 32 = 0 ∨ q.enable = (plexi_get_statistics_enable (some r) : Int)) ∧
    (q.flags &&& 64 = 0 ∨ q.id = (plexi_get_statistics_id (some r) : Int)))

/-- The label printed for a metric (nothing for a metric without label). -/
def stats_metric_label (metric : Nat) : String :=
  if metric = ETX then "etx"
  else if metric = RSSI then "rssi"
  else if metric = LQI then "lqi"
  else if metric = PDR then "pdr"
  else if metric = ASN then "asn"
  else ""

/-- The beginning, common to the read and the delete, of the object printed for
a record: id, frame, slot, channel, the metric when it has a label, and the
enable flag. -/
def stats_object_head (link : tsch_link) (id metric enable : Nat) : String :=
  "\x7b\"id\":" ++ toString id ++ ",\"frame\":" ++ toString link.slotframe_handle ++
    ",\"slot\":" ++ toString link.timeslot ++ ",\"channel\":" ++
    toString link.channel_offset ++
    (if stats_metric_label metric = "" then ""
     else ",\"metric\":\"" ++ stats_metric_label metric ++ "\"") ++
    (if enable = ENABLE then ",\"enable\":1"
     else if enable = DISABLE then ",\"enable\":0" else "")

/-! ### `plexi_get_stats_handler` -/

/-- What `plexi_get_stats_handler` prints for one record that passes the
filters: the separator, then the field named by the subresource or, in the last
branch, the object. `na` stands for the text `plexi_linkaddr_to_eui64` writes;
the null address is 0. The reply buffer is taken to be large enough. -/
def get_stats_print (na : linkaddr_t → String) (q : stats_query) (uri_subresource : String)
    (link : tsch_link) (first_item : Bool) (r : plexi_stats) : String :=
  (if first_item then (if q.flags &&& 64 = 0 then "[" else "") else ",") ++
  (if uri_subresource = "frame" then toString link.slotframe_handle
   else if uri_subresource = "slot" then toString link.timeslot
   else if uri_subresource = "channel" then toString link.channel_offset
   else if uri_subresource = "metric" then
     stats_metric_label (plexi_get_statistics_metric (some r))
   else if uri_subresource = "enable" then
     (if plexi_get_statistics_enable (some r) = ENABLE then "1"
      else if plexi_get_statistics_enable (some r) = DISABLE then "0" else "")
   else if uri_subresource = "tna" then
     (if link.addr ≠ 0 then "\"" ++ na link.addr ++ "\"" else "")
   else if uri_subresource = "id" then toString (plexi_get_statistics_id (some r))
   else
     stats_object_head link (plexi_get_statistics_id (some r))
       (plexi_get_statistics_metric (some r)) (plexi_get_statistics_enable (some r)) ++
     (if link.addr ≠ 0 then ",\"tna\":\"" ++ na link.addr ++ "\"" else "") ++ "\x7d")

/-- The body of the walk of `plexi_get_stats_handler` on one link: the reply and
`first_item` afterwards (`none` when the chain never ends). -/
def get_stats_link (na : linkaddr_t → String) (q : stats_query) (uri_subresource : String)
    (m : memb) (link : tsch_link) (content : String) (first_item : Bool) :
    Option (String × Bool) :=
  if stats_link_filter q.flags q.channel q.tna link then
    match link_chain m link with
    | none => none
    | some c =>
      some (c.foldl (fun (acc : String × Bool) i =>
        if stats_record_filter q (record_view m i) then
          (acc.1 ++ get_stats_print na q uri_subresource link acc.2 (record_view m i), false)
        else acc) (content, first_item))
  else
    some (content, first_item)

/-- The walk of `plexi_get_stats_handler` over the visited links. -/
def get_stats_loop (na : linkaddr_t → String) (q : stats_query) (uri_subresource : String)
    (s : plexi_state) : List (Nat × Nat) → String → Bool → Option (String × Bool)
  | [], content, first_item => some (content, first_item)
  | p :: ps, content, first_item =>
    match link_at s.schedule p with
    | none => get_stats_loop na q uri_subresource s ps content first_item
    | some link =>
      match get_stats_link na q uri_subresource s.plexi_stats_mem link content first_item with
      | none => none
      | some (content1, first1) => get_stats_loop na q uri_subresource s ps content1 first1

/-- The function `plexi_get_stats_handler` on a request whose accepted format is
JSON. `uri_subresource` is what follows the URL of the resource and its `/`
(empty at the base URL); a response without status code is the default
content response. -/
def plexi_get_stats_handler (eui64 : String → Option linkaddr_t) (na : linkaddr_t → String)
    (tna0 : linkaddr_t) (uri_subresource : String) (query : List (String × String))
    (s : plexi_state) : Option coap_response :=
  match stats_query_parse eui64 tna0 query with
  | Sum.inl r => some r
  | Sum.inr q =>
    if uri_subresource ≠ "" ∧ uri_subresource ≠ "frame" ∧ uri_subresource ≠ "slot" ∧
        uri_subresource ≠ "channel" ∧ uri_subresource ≠ "window" ∧
        uri_subresource ≠ "metric" ∧ uri_subresource ≠ "value" ∧ uri_subresource ≠ "tna" ∧
        uri_subresource ≠ "enable" ∧ uri_subresource ≠ "id" then
      some ⟨some coap_status.NOT_FOUND_4_04, "Invalid subresource"⟩
    else if stats_walk_frames s.schedule q.flags q.frame = [] then
      some ⟨some coap_status.NOT_FOUND_4_04, "No slotframes found"⟩
    else
      match get_stats_loop na q uri_subresource s
          (stats_walk s.schedule q.flags q.frame q.slot) "" true with
      | none => none
      | some (content, first_item) =>
        if first_item then
          some ⟨some coap_status.NOT_FOUND_4_04, "No specified statistics resource found"⟩
        else
          some ⟨none, content ++ (if q.flags &&& 64 = 0 then "]" else "")⟩

/-! ### `plexi_delete_stats_handler` -/

/-- What the `to_print` block of `plexi_delete_stats_handler` prints for a
removed record, from the copies `local_id`, `local_metric` and `local_enable`
taken before the record was freed: the separator and the object. No copy of
the value is taken (`local_value` is commented out). The address of the link
is printed when the local `tna` is the null address. -/
def delete_stats_print (na : linkaddr_t → String) (q : stats_query) (link : tsch_link)
    (first_item : Bool) (local_id local_metric local_enable : Nat) : String :=
  (if first_item then "[" else ",") ++
    (stats_object_head link local_id local_metric local_enable ++
      (if q.tna = 0 then ",\"tna\":\"" ++ na link.addr ++ "\"" else "") ++ "\x7d")

/-- The loop `while(last_stats != NULL)` of `plexi_delete_stats_handler` over
the chain of one link. The arguments are the pool, `link->data`,
`previous_stats`, `last_stats`, the reply and `first_item`. The result is
`none` where the C program has no defined result: a pointer outside the pool, a
null `previous_stats` that is dereferenced, or a loop that does not advance
(a matching record while the second test of the address fails). -/
def delete_stats_chain (na : linkaddr_t → String) (q : stats_query) (link : tsch_link) :
    Nat → memb → Option Nat → Option Nat → Option Nat → String → Bool →
      Option (memb × Option Nat × String × Bool)
  | _, m, data, _, none, content, first_item => some (m, data, content, first_item)
  | 0, _, _, _, some _, _, _ => none
  | fuel + 1, m, data, previous_stats, some i, content, first_item =>
    match m[i]? with
    | none => none
    | some b =>
      if stats_record_filter q b.obj then
        if q.flags &&& 8 = 0 ∨ q.tna = link.addr then
          let content1 := content ++ delete_stats_print na q link first_item
            (plexi_get_statistics_id (some b.obj)) (plexi_get_statistics_metric (some b.obj))
            (plexi_get_statistics_enable (some b.obj))
          if data = some i then
            delete_stats_chain na q link fuel (plexi_purge_statistics m (some i))
              b.obj.next previous_stats b.obj.next content1 false
          else
            match previous_stats with
            | none => none
            | some k =>
              delete_stats_chain na q link fuel
                (plexi_purge_statistics
                  (memb_store m k (fun o => { o with next := b.obj.next })) (some i))
                data previous_stats b.obj.next content1 false
        else
          none
      else
        delete_stats_chain na q link fuel m data (some i) b.obj.next content first_item

/-- The body of the walk of `plexi_delete_stats_handler` on the link at `p`. -/
def delete_stats_link (na : linkaddr_t → String) (q : stats_query) (s : plexi_state)
    (p : Nat × Nat) (content : String) (first_item : Bool) :
    Option (plexi_state × String × Bool) :=
  match link_at s.schedule p with
  | none => some (s, content, first_item)
  | some link =>
    if stats_link_filter q.flags q.channel q.tna link = true ∧
        memb_inmemb s.plexi_stats_mem link.data = true then
      match delete_stats_chain na q link s.plexi_stats_mem.length s.plexi_stats_mem link.data
          none link.data content first_item with
      | none => none
      | some (m1, data1, content1, first1) =>
        some (⟨set_link_data s.schedule p data1, m1⟩, content1, first1)
    else
      some (s, content, first_item)

/-- The walk of `plexi_delete_stats_handler` over the visited links. -/
def delete_stats_loop (na : linkaddr_t → String) (q : stats_query) :
    List (Nat × Nat) → plexi_state → String → Bool → Option (plexi_state × String × Bool)
  | [], s, content, first_item => some (s, content, first_item)
  | p :: ps, s, content, first_item =>
    match delete_stats_link na q s p content first_item with
    | none => none
    | some (s1, content1, first1) => delete_stats_loop na q ps s1 content1 first1

/-- The function `plexi_delete_stats_handler` after the query has been read into
`q`: the test of the subresource, the lookup of the first slotframe, the walk
and the response. -/
def delete_stats_run (na : linkaddr_t → String) (q : stats_query) (uri_subresource : String)
    (s : plexi_state) : Option (coap_response × plexi_state) :=
  if uri_subresource ≠ "" then
    some (⟨some coap_status.NOT_FOUND_4_04, "Subresources are not allowed"⟩, s)
  else if stats_walk_frames s.schedule q.flags q.frame = [] then
    some (⟨some coap_status.NOT_FOUND_4_04, "No slotframes found"⟩, s)
  else
    match delete_stats_loop na q (stats_walk s.schedule q.flags q.frame q.slot) s "" true with
    | none => none
    | some (s1, content, first_item) =>
      if first_item then
        some (⟨some coap_status.NOT_FOUND_4_04, "Nothing to delete"⟩, s1)
      else
        some (⟨none, content ++ "]"⟩, s1)

/-- The function `plexi_delete_stats_handler` on a request whose accepted format
is JSON. -/
def plexi_delete_stats_handler (eui64 : String → Option linkaddr_t)
    (na : linkaddr_t → String) (tna0 : linkaddr_t) (uri_subresource : String)
    (query : List (String × String)) (s : plexi_state) : Option (coap_response × plexi_state) :=
  match stats_query_parse eui64 tna0 query with
  | Sum.inl r => some (r, s)
  | Sum.inr q => delete_stats_run na q uri_subresource s

/-- A stand-in for the text of an address: the number in decimal. -/
def plain_address : linkaddr_t → String := fun a => toString a

/-- One link at timeslot 0 of slotframe 0 whose chain holds an RSSI record with
id 3. -/
def slot_zero_state : plexi_state :=
  { schedule :=
      [{ handle := 0
         links_list :=
           [{ handle := 0, slotframe_handle := 0, timeslot := 0, channel_offset := 0,
              link_options := 1, addr := 9, data := some 0 }] }]
    plexi_stats_mem :=
      [{ count := 1, obj := { next := none, metainfo := 123, value := 65535 } }, free_block] }

/-- One link toward the neighbor 9 whose chain holds an RSSI record with id 3, an
ETX record with id 7 and an LQI record with id 4, in the blocks 2, 0 and 1 of a
pool of four. -/
def three_records_state : plexi_state :=
  { schedule :=
      [{ handle := 1
         links_list :=
           [{ handle := 3, slotframe_handle := 1, timeslot := 3, channel_offset := 5,
              link_options := 1, addr := 9, data := some 2 },
            example_link 4 1 none] }]
    plexi_stats_mem :=
      [{ count := 1, obj := { next := some 1, metainfo := 249, value := 281 } },
       { count := 1, obj := { next := none, metainfo := 157, value := 40 } },
       { count := 1, obj := { next := some 0, metainfo := 123, value := 65486 } },
       free_block] }


/-- The text the `to_print` blocks append to the reply for the records `rs`
removed from the chain of one link, in the order of their removal. -/
def delete_entries_text (na : linkaddr_t → String) (q : stats_query) (link : tsch_link) :
    Bool → List plexi_stats → String
  | _, [] => ""
  | first_item, r :: rs =>
    delete_stats_print na q link first_item (plexi_get_statistics_id (some r))
      (plexi_get_statistics_metric (some r)) (plexi_get_statistics_enable (some r)) ++
      delete_entries_text na q link false rs


/-! ### What a delete does to the records of a link -/

/-- The link at `q` passes the channel and address filters of the query. -/
def delete_selected (qr : stats_query) (s : plexi_state) (q : Nat × Nat) : Bool :=
  match link_at s.schedule q with
  | some l => stats_link_filter qr.flags qr.channel qr.tna l
  | none => false

/-- The records that pass the metric, enable and id filters of the query on a
link that passes its channel and address filters. -/
def removed_at (qr : stats_query) (s : plexi_state) (q : Nat × Nat) : List plexi_stats :=
  if delete_selected qr s q then (records_at s q).filter (stats_record_filter qr) else []

/-- The other records of the link, in the order of the chain. -/
def records_after_delete (qr : stats_query) (s : plexi_state) (q : Nat × Nat) :
    List plexi_stats :=
  if delete_selected qr s q then
    (records_at s q).filter (fun r => !stats_record_filter qr r)
  else records_at s q

/-- The use counters of `lib/memb` are 0 or 1. -/
def pool_counts (s : plexi_state) : Prop :=
  ∀ b ∈ s.plexi_stats_mem, b.count ≤ 1

instance (s : plexi_state) : Decidable (pool_counts s) := by
  unfold pool_counts
  infer_instance

/-- The text a delete prints for the records removed from the link at `q`. -/
def removed_text (na : linkaddr_t → String) (qr : stats_query) (s : plexi_state)
    (q : Nat × Nat) (first_item : Bool) : String :=
  match link_at s.schedule q with
  | some l => delete_entries_text na qr l first_item (removed_at qr s q)
  | none => ""


/-- The text a delete prints for the records removed on the links of a walk. -/
def removed_text_walk (na : linkaddr_t → String) (qr : stats_query) (s : plexi_state) :
    List (Nat × Nat) → Bool → String
  | [], _ => ""
  | p :: ps, first_item =>
    removed_text na qr s p first_item ++
      removed_text_walk na qr s ps (first_item && (removed_at qr s p).isEmpty)

/-- The object a delete prints for a removed record: the id, metric and enable
flag of the record and the frame, slot and channel of its link (and the address
of the link when the local `tna` is null). The value of the record is not an
argument. -/
def delete_stats_object (na : linkaddr_t → String) (qr : stats_query) (link : tsch_link)
    (id metric enable : Nat) : String :=
  stats_object_head link id metric enable ++
    (if qr.tna = 0 then ",\"tna\":\"" ++ na link.addr ++ "\"" else "") ++ "\x7d"

/-- The objects of the records a delete removes, link by link in the order of the
walk and record by record in the order of the chain. -/
def removed_objects (na : linkaddr_t → String) (qr : stats_query) (s : plexi_state)
    (ps : List (Nat × Nat)) : List String :=
  ps.flatMap (fun p =>
    match link_at s.schedule p with
    | some l =>
      (removed_at qr s p).map (fun r =>
        delete_stats_object na qr l (plexi_get_statistics_id (some r))
          (plexi_get_statistics_metric (some r)) (plexi_get_statistics_enable (some r)))
    | none => [])

/-- Texts written one after the other, a comma before each. -/
def comma_before : List String → String
  | [] => ""
  | e :: es => "," ++ e ++ comma_before es

/-- A JSON array of the given texts, which are not none: `[e1,e2,...]`. -/
def json_array : List String → String
  | [] => "[]"
  | e :: es => "[" ++ e ++ comma_before es ++ "]"

/-- Texts written one after the other as the handlers print them: `[` before the
first one when nothing has been printed yet, a comma before each other one. -/
def entries_text (first_item : Bool) : List String → String
  | [] => ""
  | e :: es => (if first_item then "[" else ",") ++ e ++ comma_before es


/-- A run of `n` successive calls `plexi_update_ewma_statistics(metric,
&stats->value, s)` with the same sample `s` on one record: the value word the
record holds afterwards, `none` if one of the calls has no defined result. -/
def ewma_updates (metric : Nat) (s : Nat) : Nat → Nat → Option Nat
  | 0, value => some value
  | n + 1, value =>
    match plexi_update_ewma_statistics metric (some value) s with
    | some (some value1) => ewma_updates metric s n value1
    | _ => none

/-- One dedicated link with the options transmit and receive (3), not shared,
without statistics. -/
def tx_rx_link_state : plexi_state :=
  { schedule := [{ handle := 1, links_list := [example_link 3 3 none] }]
    plexi_stats_mem := [free_block, free_block] }

/-- A field of the payload that the parsing loop of `plexi_post_stats_handler`
reads and passes: a number field other than the id, a string field (an address
that `plexi_eui64_to_linkaddr` accepts, a metric with one of the five labels),
or a token of another type. The braces and the id field are not among them. -/
def plain_field (eui64 : String → Option linkaddr_t) : json_event → Bool
  | json_event.number field _ => decide (field ≠ "id")
  | json_event.string field value =>
    if field = "tna" then (eui64 value).isSome
    else if field = "enable" then true
    else if field = "metric" then
      decide (value = "etx" ∨ value = "rssi" ∨ value = "lqi" ∨ value = "asn" ∨ value = "pdr")
    else true
  | json_event.other => true
  | json_event.object_start => false
  | json_event.object_end => false

/-- The number of records reachable from the chains of all links. -/
def records_total (s : plexi_state) : Nat :=
  ((all_positions s.schedule).map (fun p => (chain_at s p).length)).sum

/-- The accounting of the pool: as many blocks are in use as there are records
on the chains of all links. -/
def pool_accounted (s : plexi_state) : Prop :=
  memb_used s.plexi_stats_mem = records_total s

instance (s : plexi_state) : Decidable (pool_accounted s) := by
  unfold pool_accounted
  infer_instance

/-- The invariant of the statistics store: a well-formed state (in particular
no record on two chains) whose use counters are 0 or 1 and whose pool is
accounted for. -/
def pool_invariant (s : plexi_state) : Prop :=
  wf_state s ∧ pool_counts s ∧ pool_accounted s

instance (s : plexi_state) : Decidable (pool_invariant s) := by
  unfold pool_invariant
  infer_instance

/-! ### The packet callbacks -/

/-- Modelled from the spec: the attributes of the packet buffer that the two
packet callbacks read with `packetbuf_attr` (the packet buffer is not among the
sources), "on_packet_received(slotframe_id, timeslot, sender_addr, rssi, lqi,
asn)" and "on_packet_sent(slotframe_id, timeslot, ack_received, tx_count)". -/
structure packetbuf where
  tsch_slotframe : Nat
  tsch_timeslot : Nat
  rssi : Nat
  link_quality : Nat
  tsch_asn_2_1 : Nat
  mac_ack : Nat
  tsch_transmissions : Nat
deriving DecidableEq, Repr

/-- The loop `while(stats != NULL) { ...; stats = stats->next; }` of the two
packet callbacks over the chain of a link. `body` is the body of the loop: the
value word of the record after it (`none` when it has no defined result). The
loop writes the value of one record after the other; `none` when the chain
leaves the pool or has not ended after `fuel` records. -/
def packet_update_chain (body : plexi_stats → Option Nat) :
    Nat → memb → Option Nat → Option memb
  | _, m, none => some m
  | 0, _, some _ => none
  | fuel + 1, m, some i =>
    match m[i]? with
    | none => none
    | some b =>
      match body b.obj with
      | none => none
      | some v =>
        packet_update_chain body fuel (memb_store m i (fun r => { r with value := v }))
          b.obj.next

/-- The body of the loop of `plexi_packet_received` on the record `stats`: the
moving average of the RSSI (the attribute read as `int16_t`) or of the LQI, or
the assignment of the ASN attribute; the value word of the record afterwards. -/
def packet_received_value (pkt : packetbuf) (stats : plexi_stats) : Option Nat :=
  if plexi_get_statistics_metric (some stats) = RSSI then
    let s_value : Int := to_int16 (pkt.rssi % 65536)
    let u_value : Nat := of_int s_value
    match plexi_update_ewma_statistics (plexi_get_statistics_metric (some stats))
        (some stats.value) u_value with
    | some (some v) => some v
    | _ => none
  else if plexi_get_statistics_metric (some stats) = LQI then
    match plexi_update_ewma_statistics (plexi_get_statistics_metric (some stats))
        (some stats.value) (pkt.link_quality % 65536) with
    | some (some v) => some v
    | _ => none
  else if plexi_get_statistics_metric (some stats) = ASN then
    some (pkt.tsch_asn_2_1 % 65536)
  else
    some stats.value

/-- The body of the loop of `plexi_packet_sent` on the record `stats`: for ETX
and PDR the moving average of `256 * transmissions`; the value word of the
record afterwards. -/
def packet_sent_value (pkt : packetbuf) (stats : plexi_stats) : Option Nat :=
  if plexi_get_statistics_metric (some stats) = ETX ∨
      plexi_get_statistics_metric (some stats) = PDR then
    match plexi_update_ewma_statistics (plexi_get_statistics_metric (some stats))
        (some stats.value) ((256 * pkt.tsch_transmissions) % 65536) with
    | some (some v) => some v
    | _ => none
  else
    some stats.value

/-- The part of the two packet callbacks they share: the slotframe the packet
names is looked up by handle, the link by timeslot, and the loop runs over the
chain of the link when `memb_inmemb` holds for `link->data`. The callbacks
dereference `link` unchecked: `none` when there is no such link. -/
def packet_update_link (body : plexi_stats → Option Nat) (pkt : packetbuf) (s : plexi_state) :
    Option plexi_state :=
  match tsch_schedule_get_slotframe_by_handle s.schedule ((pkt.tsch_slotframe % 65536 : Nat) : Int)
    with
  | none => none
  | some i =>
    match s.schedule[i]? with
    | none => none
    | some slotframe =>
      match tsch_schedule_get_link_by_timeslot slotframe
          ((pkt.tsch_timeslot % 65536 : Nat) : Int) with
      | none => none
      | some j =>
        match slotframe.links_list[j]? with
        | none => none
        | some link =>
          if memb_inmemb s.plexi_stats_mem link.data then
            (packet_update_chain body s.plexi_stats_mem.length s.plexi_stats_mem link.data).map
              (fun m1 => { s with plexi_stats_mem := m1 })
          else
            some s

/-- The function `plexi_packet_received` (with `TSCH_WITH_LINK_STATISTICS`, dense
mode). -/
def plexi_packet_received (pkt : packetbuf) (s : plexi_state) : Option plexi_state :=
  packet_update_link (packet_received_value pkt) pkt s

/-- The function `plexi_packet_sent(mac_status)` (with
`TSCH_WITH_LINK_STATISTICS`); `tx_ok` stands for `mac_status == MAC_TX_OK`. -/
def plexi_packet_sent (tx_ok : Bool) (pkt : packetbuf) (s : plexi_state) : Option plexi_state :=
  if tx_ok = true ∧ pkt.mac_ack ≠ 0 then
    packet_update_link (packet_sent_value pkt) pkt s
  else
    some s

/-- A record with its enable flag (bit 0) and its window (bits 10-15) cleared:
what is left are the metric, the id, the value and the place in the chain. -/
def blank_flags_record (r : plexi_stats) : plexi_stats :=
  { r with metainfo := r.metainfo &&& 1022 }

/-- A state with the enable flags and windows of all records cleared. Two states
with the same image differ only in the enable flags and windows of records. -/
def blank_flags (s : plexi_state) : plexi_state :=
  { s with plexi_stats_mem :=
      s.plexi_stats_mem.map (fun b => { b with obj := blank_flags_record b.obj }) }

/-- The value words of the records of the pool, block by block. -/
def pool_values (s : plexi_state) : List Nat :=
  s.plexi_stats_mem.map (fun b => b.obj.value)

/-- One link at timeslot 3 of slotframe 1 whose chain holds an RSSI record with
id 3 (value -90) followed by an ETX record with id 4 (value 256), with the
given enable flag and window in both records. -/
def sampled_state (enable window : Nat) : plexi_state :=
  { schedule := [{ handle := 1, links_list := [example_link 3 1 (some 0)] }]
    plexi_stats_mem :=
      [{ count := 1
         obj := { next := some 1, metainfo := 122 + enable + 1024 * window, value := 65446 } },
       { count := 1
         obj := { next := none, metainfo := 152 + enable + 1024 * window, value := 256 } }] }

/-- A packet on timeslot 3 of slotframe 1 with an RSSI of -80, an LQI of 100,
acknowledged after two transmissions. -/
def example_packet : packetbuf :=
  { tsch_slotframe := 1, tsch_timeslot := 3, rssi := 65456, link_quality := 100,
    tsch_asn_2_1 := 7, mac_ack := 1, tsch_transmissions := 2 }

/-! ### The slotframe resource of `plexi-tsch.c` -/

/-- Modelled from the spec: `tsch_schedule_remove_slotframe` of the schedule
layer (not among the sources): the slotframe at position `i` leaves the
schedule; the return code is 1. -/
def tsch_schedule_remove_slotframe (schedule : List tsch_slotframe) (i : Nat) :
    Nat × List tsch_slotframe :=
  (1, schedule.eraseIdx i)

/-- The pointer `uri_subresource`: the url after the base url (`uri_tail`), a
leading `/` skipped. -/
def uri_subresource_of (uri_tail : String) : String :=
  match uri_tail.toList with
  | '/' :: cs => String.mk cs
  | _ => uri_tail

/-- The test `!strncmp(label, query, n)` on the pointer `query`: whether the
first `n` characters agree; a null pointer gives no defined result. -/
def strncmp_eq (label : String) (query : Option String) (n : Nat) : Option Bool :=
  match query with
  | none => none
  | some text => some (decide (label.toList.take n = text.toList.take n))

/-- The text `CONTENT_PRINTF` adds for a slotframe in
`plexi_get_slotframe_handler`: the handle or the size for the subresources
`frame` and `slots`, else the whole object. -/
def get_slotframe_print (uri_subresource : String) (slotframe : tsch_slotframe) : String :=
  if uri_subresource = "frame" then toString slotframe.handle
  else if uri_subresource = "slots" then toString slotframe.size
  else "\x7b\"frame\":" ++ toString slotframe.handle ++ ",\"slots\":" ++
    toString slotframe.size ++ "\x7d"

/-- The loop `while(slotframe)` of `plexi_get_slotframe_handler` over the
slotframes in the order of `tsch_schedule_get_slotframe_next`: the reply
content and `item_counter` afterwards. `query` is the local pointer of that
name, `query_value` the text of the query variable found, `value` its number.
The result is `none` when a test reads through a null `query`. -/
def get_slotframe_loop (uri_tail : String) (query query_value : Option String) (value : Nat) :
    List tsch_slotframe → String → Nat → Option (String × Nat)
  | [], content, item_counter => some (content, item_counter)
  | slotframe :: rest, content, item_counter =>
    let selected : Option Bool :=
      if query_value.isNone then some true
      else
        match strncmp_eq "frame" query 5 with
        | none => none
        | some by_id =>
          if by_id = true ∧ slotframe.handle = value then some true
          else
            match strncmp_eq "slots" query 5 with
            | none => none
            | some by_size => some (decide (by_size = true ∧ slotframe.size = value))
    match selected with
    | none => none
    | some false => get_slotframe_loop uri_tail query query_value value rest content item_counter
    | some true =>
      let content1 : Option String :=
        if item_counter > 0 then some (content ++ ",")
        else if query_value.isSome ∧ uri_tail = "" then
          match strncmp_eq "frame" query 5 with
          | none => none
          | some by_id => if by_id = true ∧ slotframe.handle = value then some "" else some content
        else some content
      match content1 with
      | none => none
      | some content1 =>
        get_slotframe_loop uri_tail query query_value value rest
          (content1 ++ get_slotframe_print (uri_subresource_of uri_tail) slotframe)
          (item_counter + 1)

/-- The function `plexi_get_slotframe_handler` on a request whose accepted format
is JSON. `uri_tail` is the url after the base url of the resource and
`query_vars` the query of the request. The local pointer `query` is
initialised to `NULL` and never assigned. -/
def plexi_get_slotframe_handler (uri_tail : String) (query_vars : List (String × String))
    (schedule : List tsch_slotframe) : Option coap_response :=
  let query : Option String := none
  let uri_subresource := uri_subresource_of uri_tail
  let query_value :=
    match get_query_variable query_vars "frame" with
    | some text => some text
    | none => get_query_variable query_vars "slots"
  let value : Nat :=
    match query_value with
    | some text => strtoul text
    | none => 4294967295
  if (uri_tail.length > 1 ∧ uri_subresource ≠ "frame" ∧ uri_subresource ≠ "slots") ∨
      (query.isSome ∧ query_value.isNone) then
    some ⟨some coap_status.NOT_IMPLEMENTED_5_01,
      "Supports only slot frame id XOR size as subresource or query"⟩
  else
    match get_slotframe_loop uri_tail query query_value value schedule "[" 0 with
    | none => none
    | some (content, item_counter) =>
      let closing : Option String :=
        if query.isNone ∨ uri_tail ≠ "" then some (content ++ "]")
        else
          match strncmp_eq "frame" query 5 with
          | none => none
          | some by_id => if by_id = true then some content else some (content ++ "]")
      match closing with
      | none => none
      | some content1 =>
        if item_counter > 0 then some ⟨none, content1⟩
        else some ⟨some coap_status.NOT_FOUND_4_04, "No slotframe was found"⟩

/-- The text `CONTENT_PRINTF` adds for a removed slotframe in
`plexi_delete_slotframe_handler`. -/
def delete_slotframe_print (id slots : Nat) : String :=
  "\x7b\"frame\":" ++ toString id ++ ", \"slots\":" ++ toString slots ++ "\x7d"

/-- The loop `while((sf = tsch_schedule_get_slotframe_next(NULL)))` of
`plexi_delete_slotframe_handler`: the first slotframe of the schedule is
removed and printed until none is left. The result is the schedule, the reply
content and `first_item` afterwards; `none` when the loop has not ended after
`fuel` rounds. -/
def delete_slotframe_loop :
    Nat → List tsch_slotframe → String → Bool → Option (List tsch_slotframe × String × Bool)
  | _, [], content, first_item => some ([], content, first_item)
  | 0, _ :: _, _, _ => none
  | fuel + 1, sf :: rest, content, first_item =>
    let content1 := if first_item then content ++ "[" else content ++ ","
    let slots := sf.size
    let id := sf.handle
    let removed := tsch_schedule_remove_slotframe (sf :: rest) 0
    let content2 :=
      if removed.1 ≠ 0 then content1 ++ delete_slotframe_print id slots else content1
    delete_slotframe_loop fuel removed.2 content2 false

/-- The function `plexi_delete_slotframe_handler` on a request whose accepted
format is JSON: the response and the schedule afterwards. `uri_tail` is the url
after the base url of the resource and `query_vars` the query of the request.
The local pointer `query` is initialised to `NULL` and never assigned. -/
def plexi_delete_slotframe_handler (uri_tail : String) (query_vars : List (String × String))
    (schedule : List tsch_slotframe) : Option (coap_response × List tsch_slotframe) :=
  if uri_tail.length > 1 then
    some (⟨some coap_status.NOT_IMPLEMENTED_5_01,
      "Subresources are not supported for DELETE method"⟩, schedule)
  else
    let query : Option String := none
    let query_value := get_query_variable query_vars "frame"
    if query.isSome ∧ query_value.isSome then
      let id := to_int32 (strtoul (query_value.getD ""))
      match tsch_schedule_get_slotframe_by_handle schedule id with
      | none => some (⟨some coap_status.DELETED_2_02, ""⟩, schedule)
      | some i =>
        let removed := tsch_schedule_remove_slotframe schedule i
        if removed.1 ≠ 0 then
          let slots := ((schedule[i]?).map (fun sf => sf.size)).getD 0
          some (⟨some coap_status.DELETED_2_02, delete_slotframe_print (to_unsigned id) slots⟩,
            removed.2)
        else
          some (⟨some coap_status.DELETED_2_02, ""⟩, removed.2)
    else if query.isNone then
      match delete_slotframe_loop schedule.length schedule "" true with
      | none => none
      | some (schedule1, content, first_item) =>
        some (⟨some coap_status.DELETED_2_02,
          if first_item then content else content ++ "]"⟩, schedule1)
    else
      some (⟨some coap_status.NOT_IMPLEMENTED_5_01,
        "Supports only slot frame id as query".take 29⟩, schedule)

/-- The schedule of the examples of the slotframe resource: slotframe 1 with 13
slots and slotframe 3 with 101 slots, without links. -/
def two_slotframes : List tsch_slotframe :=
  [{ handle := 1, links_list := [], size := 13 },
   { handle := 3, links_list := [], size := 101 }]

/-! ### The neighbor list: `plexi_get_neighbors_handler` -/

/-- The null address `linkaddr_null`. -/
abbrev linkaddr_null : linkaddr_t := 0

/-- The object `plexi_get_neighbors_handler` prints for a neighbor at the base
url: the address `buf` and the statistics that have a sample. -/
def neighbor_object_print (buf : String) (a : aggregate_stats_struct) : String :=
  "\x7b\"tna\":\"" ++ buf ++ "\"" ++
  (if a.rssi < -1 then ",\"rssi\":" ++ toString (Int.tdiv a.rssi a.rssi_counter) else "") ++
  (if a.lqi > -1 then ",\"lqi\":" ++ toString (to_unsigned (Int.tdiv a.lqi a.lqi_counter))
    else "") ++
  (if a.etx > -1 then ",\"etx\":" ++ toString (Int.tdiv (Int.tdiv a.etx 256) a.etx_counter)
    else "") ++
  (if a.pdr > -1 then ",\"pdr\":" ++ toString (to_unsigned (Int.tdiv a.pdr a.pdr_counter))
    else "") ++
  (if a.asn > to_unsigned (-1) then ",\"asn\":\"" ++ print_hex a.asn ++ "\"" else "") ++
  "\x7d"

/-- The loop of `plexi_get_neighbors_handler` over the neighbor table (the
link-layer addresses of its entries, in table order): the reply content
afterwards. `na` stands for `plexi_linkaddr_to_eui64`; `last_next_hop` stays
null, so the body is run for every neighbor. The address filter `tna` is not
read in the loop. The result is `none` when a chain of records never ends. -/
def get_neighbors_loop (na : linkaddr_t → String) (uri_tail : String) (s : plexi_state) :
    List linkaddr_t → String → Bool → Bool → Option String
  | [], content, _, _ => some content
  | lla :: rest, content, first_item, found =>
    let uri_subresource := uri_subresource_of uri_tail
    let content1 := if first_item then content else if found then content ++ "," else content
    let buf := na lla
    let success := buf.length
    if uri_subresource = "tna" then
      if success ≠ 0 then
        get_neighbors_loop na uri_tail s rest (content1 ++ "\"" ++ buf ++ "\"") false true
      else
        get_neighbors_loop na uri_tail s rest content1 false found
    else
      match neighbor_aggregate s lla with
      | none => none
      | some a =>
        if a.rssi < -1 ∧ uri_subresource = "rssi" then
          get_neighbors_loop na uri_tail s rest
            (content1 ++ toString (Int.tdiv a.rssi a.rssi_counter)) false true
        else if a.lqi > -1 ∧ uri_subresource = "lqi" then
          get_neighbors_loop na uri_tail s rest
            (content1 ++ toString (to_unsigned (Int.tdiv a.lqi a.lqi_counter))) false true
        else if a.etx > -1 ∧ uri_subresource = "etx" then
          get_neighbors_loop na uri_tail s rest
            (content1 ++ toString (Int.tdiv (Int.tdiv a.etx 256) a.etx_counter)) false true
        else if a.pdr > -1 ∧ uri_subresource = "pdr" then
          get_neighbors_loop na uri_tail s rest
            (content1 ++ toString (to_unsigned (Int.tdiv a.pdr a.pdr_counter))) false true
        else if a.asn > to_unsigned (-1) ∧ uri_subresource = "asn" then
          get_neighbors_loop na uri_tail s rest
            (content1 ++ "\"" ++ print_hex a.asn ++ "\"") false true
        else if uri_tail = "" then
          get_neighbors_loop na uri_tail s rest (content1 ++ neighbor_object_print buf a)
            false true
        else
          get_neighbors_loop na uri_tail s rest content1 false found

/-- The function `plexi_get_neighbors_handler` (with
`PLEXI_WITH_LINK_STATISTICS`) on a request whose accepted format is JSON.
`uri_tail` is the url (which is not empty) after the base url of the resource,
`query_vars` the query of the request and `neighbors` the neighbor table;
`eui64` stands for `plexi_eui64_to_linkaddr`. The local pointer `query` is initialised to `NULL`
and never assigned. -/
def plexi_get_neighbors_handler (eui64 : String → Option linkaddr_t)
    (na : linkaddr_t → String) (uri_tail : String) (query_vars : List (String × String))
    (neighbors : List linkaddr_t) (s : plexi_state) : Option coap_response :=
  let query : Option String := none
  let uri_subresource := uri_subresource_of uri_tail
  let query_value := get_query_variable query_vars "tna"
  let parsed : Option linkaddr_t :=
    match query_value with
    | some text => eui64 text
    | none => some linkaddr_null
  match parsed with
  | none => some ⟨some coap_status.BAD_REQUEST_4_00, "Bad node address format"⟩
  | some tna =>
    if (uri_tail.length > 1 ∧ uri_subresource ≠ "tna" ∧ uri_subresource ≠ "rssi" ∧
          uri_subresource ≠ "lqi" ∧ uri_subresource ≠ "etx" ∧ uri_subresource ≠ "pdr" ∧
          uri_subresource ≠ "asn") ∨ (query.isSome ∧ query_value.isNone) then
      some ⟨some coap_status.BAD_REQUEST_4_00, "Supports only queries on neighbor address"⟩
    else
      let content := if tna = linkaddr_null then "[" else ""
      match get_neighbors_loop na uri_tail s neighbors content true false with
      | none => none
      | some content1 =>
        some ⟨none, if tna = linkaddr_null then content1 ++ "]" else content1⟩

/-- An address conversion that reads every text as the address 5. -/
def address_five : String → Option linkaddr_t := fun _ => some 5

/-- Two transmit links: the first without statistics, the second holding an
RSSI record with id 3; one block of the pool is free. -/
def mismatch_state : plexi_state :=
  { schedule := [{ handle := 1
                   links_list := [example_link 3 1 none, example_link 4 1 (some 0)] }]
    plexi_stats_mem :=
      [{ count := 1, obj := { next := none, metainfo := 123, value := 65535 } }, free_block] }

/-- The state `mismatch_state` after an RSSI record with id 7 has been created
on the first link. -/
def mismatch_reached_state : plexi_state :=
  { schedule := [{ handle := 1
                   links_list := [example_link 3 1 (some 1), example_link 4 1 (some 0)] }]
    plexi_stats_mem :=
      [{ count := 1, obj := { next := none, metainfo := 123, value := 65535 } },
       { count := 1, obj := { next := none, metainfo := 251, value := 65535 } }] }

/-- Three transmit links: the first holds an enabled RSSI record with id 7,
window 5 and value 100, the others have no statistics; one block of the pool is
free. -/
def window_record_state : plexi_state :=
  { schedule := [{ handle := 1
                   links_list := [example_link 3 1 (some 0), example_link 4 1 none,
                     example_link 5 1 none] }]
    plexi_stats_mem :=
      [{ count := 1, obj := { next := none, metainfo := 5370, value := 100 } }, free_block] }

/-- The text of one statistics field of the object of a neighbor, from its label
and its number: the LQI and the PDR are printed with `%u`, the ASN in
hexadecimal between quotes, the RSSI and the ETX with `%d`. -/
def neighbor_field_text (f : String × Int) : String :=
  ",\"" ++ f.1 ++ "\":" ++
    (if f.1 = "lqi" ∨ f.1 = "pdr" then toString (to_unsigned f.2)
     else if f.1 = "asn" then "\"" ++ print_hex f.2.toNat ++ "\""
     else toString f.2)

/-- The text of the statistics fields of the object of a neighbor. -/
def neighbor_fields_text : List (String × Int) → String
  | [] => ""
  | f :: fs => neighbor_field_text f ++ neighbor_fields_text fs

/-- The statistics fields reported for the neighbor `lla`: those of
`neighbor_object_fields` on what `temp_aggregate_stats` holds for it. -/
def neighbor_summary_fields (s : plexi_state) (lla : linkaddr_t) : List (String × Int) :=
  match neighbor_aggregate s lla with
  | some a => neighbor_object_fields a
  | none => []

/-- The neighbor summary, the reference of the read of the neighbor list at the
base url: one object per neighbor, made of its address and of its statistics
fields, the objects separated by commas. -/
def neighbor_objects_text (na : linkaddr_t → String) (s : plexi_state) :
    Bool → List linkaddr_t → String
  | _, [] => ""
  | first_item, lla :: rest =>
    (if first_item then "" else ",") ++
      ("\x7b\"tna\":\"" ++ na lla ++ "\"" ++ neighbor_fields_text (neighbor_summary_fields s lla)
        ++ "\x7d") ++ neighbor_objects_text na s false rest

/-- Two links toward the neighbor 9, the first with an LQI record holding 100,
the second with an LQI record holding 105. -/
def two_samples_state : plexi_state :=
  { schedule :=
      [{ handle := 1
         links_list :=
           [{ handle := 3, slotframe_handle := 1, timeslot := 3, channel_offset := 5,
              link_options := 1, addr := 9, data := some 0 },
            { handle := 4, slotframe_handle := 1, timeslot := 4, channel_offset := 5,
              link_options := 1, addr := 9, data := some 1 }] }]
    plexi_stats_mem :=
      [{ count := 1, obj := { next := none, metainfo := 124, value := 100 } },
       { count := 1, obj := { next := none, metainfo := 156, value := 105 } }] }

/-- The text `plexi_get_stats_handler` prints for a list of records, each with
its link, one call of `get_stats_print` per record; `first_item` is set before
the first. -/
def get_stats_entries (na : linkaddr_t → String) (q : stats_query) (uri_subresource : String) :
    Bool → List (tsch_link × plexi_stats) → String
  | _, [] => ""
  | first_item, e :: es =>
    get_stats_print na q uri_subresource e.1 first_item e.2 ++
      get_stats_entries na q uri_subresource false es

/-- The records a read reports according to the reference of the spec: the
links the naive scan keeps, in its order, and on each the records that pass
the metric, enable and id filters, in chain order, each with its link. -/
def naive_scan_records (q : stats_query) (s : plexi_state) : List (tsch_link × plexi_stats) :=
  (naive_filter_scan s.schedule q.flags q.frame q.slot q.channel q.tna).flatMap (fun p =>
    match link_at s.schedule p with
    | some l => ((records_at s p).filter (stats_record_filter q)).map (fun r => (l, r))
    | none => [])

/-- The reply of a read according to the reference of the spec: the records of
the links the naive scan keeps are printed, and the reply is not-found when
there is none. -/
def naive_get_stats_reply (na : linkaddr_t → String) (q : stats_query)
    (uri_subresource : String) (s : plexi_state) : coap_response :=
  if (naive_scan_records q s).isEmpty then
    ⟨some coap_status.NOT_FOUND_4_04, "No specified statistics resource found"⟩
  else
    ⟨none, get_stats_entries na q uri_subresource true (naive_scan_records q s) ++
      (if q.flags &&& 64 = 0 then "]" else "")⟩

/-- Two slotframes with the links of `two_frames_schedule`; the link at timeslot
3 of slotframe 1 holds an RSSI record with id 3, the link at timeslot 3 of
slotframe 2 an LQI record with id 4. -/
def scan_example_state : plexi_state :=
  { schedule :=
      [{ handle := 1, links_list := [example_link 3 1 (some 0), example_link 4 1 none] },
       { handle := 2
         links_list :=
           [{ handle := 7, slotframe_handle := 2, timeslot := 3, channel_offset := 5,
              link_options := 1, addr := 0, data := some 1 },
            { handle := 8, slotframe_handle := 2, timeslot := 6, channel_offset := 9,
              link_options := 1, addr := 0, data := none }] }]
    plexi_stats_mem :=
      [{ count := 1, obj := { next := none, metainfo := 123, value := 65446 } },
       { count := 1, obj := { next := none, metainfo := 157, value := 100 } }] }

/-- The locals of the Upsert handler for a request for RSSI with id 3 on the
links at timeslot 3 and channel offset 5. -/
def scan_example_request : post_request :=
  { stats := { next := none, metainfo := 123, value := 65535 }
    channel := 5
    slot := 3
    slotframe := -1
    tna := 0
    flags := 22
    to_init := false }

/-- Two links toward the neighbor 9, each with an ETX record with id 7 (word
249): the first holds 600, the second 700. -/
def two_etx_samples_state : plexi_state :=
  { schedule :=
      [{ handle := 1
         links_list :=
           [{ handle := 3, slotframe_handle := 1, timeslot := 3, channel_offset := 5,
              link_options := 1, addr := 9, data := some 0 },
            { handle := 4, slotframe_handle := 1, timeslot := 4, channel_offset := 5,
              link_options := 1, addr := 9, data := some 1 }] }]
    plexi_stats_mem :=
      [{ count := 1, obj := { next := none, metainfo := 249, value := 600 } },
       { count := 1, obj := { next := none, metainfo := 249, value := 700 } }] }

/-! ## Theorems -/

/-! ### 16-bit arithmetic -/

theorem to_int16_range (w : Nat) (h : w < 65536) :
    -32768 ≤ to_int16 w ∧ to_int16 w ≤ 32767 := by
  unfold to_int16
  split <;> constructor <;> omega

theorem of_int_lt (x : Int) : of_int x < 65536 := by
  unfold of_int
  have h1 : 0 ≤ x % 65536 := Int.emod_nonneg _ (by norm_num)
  have h2 : x % 65536 < 65536 := Int.emod_lt_of_pos _ (by norm_num)
  omega

theorem of_int_to_int16 (w : Nat) (h : w < 65536) : of_int (to_int16 w) = w := by
  unfold of_int to_int16
  split <;> omega

theorem to_int16_of_int (x : Int) (h1 : -32768 ≤ x) (h2 : x ≤ 32767) :
    to_int16 (of_int x) = x := by
  unfold of_int to_int16
  split <;> omega

theorem tdiv_blend_range (a b : Int) (ha1 : -32768 ≤ a) (ha2 : a ≤ 32767)
    (hb1 : -32768 ≤ b) (hb2 : b ≤ 32767) :
    -32768 ≤ Int.tdiv (a * 10 + b * 90) 100 ∧ Int.tdiv (a * 10 + b * 90) 100 ≤ 32767 := by
  rcases Int.lt_or_le (a * 10 + b * 90) 0 with hneg | hpos
  · have h : Int.tdiv (-(-(a * 10 + b * 90))) 100 = -(Int.tdiv (-(a * 10 + b * 90)) 100) :=
      Int.neg_tdiv _ _
    rw [neg_neg] at h
    rw [h, Int.tdiv_eq_ediv (by omega) (by norm_num)]
    constructor <;> omega
  · rw [Int.tdiv_eq_ediv hpos (by norm_num)]
    constructor <;> omega

/-! ### Bit fields of the `metainfo` word -/

theorem testBit_of_lt_two_pow (v w j : Nat) (hv : v < 2 ^ w) (hj : w ≤ j) :
    v.testBit j = false := by
  apply Nat.testBit_lt_two_pow
  calc v < 2 ^ w := hv
    _ ≤ 2 ^ j := Nat.pow_le_pow_right (by norm_num) hj

theorem testBit_65534 (j : Nat) :
    Nat.testBit 65534 j = decide (j < 16 ∧ ¬ (0 ≤ j ∧ j < 0 + 1)) := by
  by_cases hj : j < 16
  · interval_cases j <;> decide
  · rw [testBit_of_lt_two_pow 65534 16 j (by norm_num) (by omega)]
    simp [hj]

theorem testBit_65505 (j : Nat) :
    Nat.testBit 65505 j = decide (j < 16 ∧ ¬ (1 ≤ j ∧ j < 1 + 4)) := by
  by_cases hj : j < 16
  · interval_cases j <;> decide
  · rw [testBit_of_lt_two_pow 65505 16 j (by norm_num) (by omega)]
    simp [hj]

theorem testBit_64543 (j : Nat) :
    Nat.testBit 64543 j = decide (j < 16 ∧ ¬ (5 ≤ j ∧ j < 5 + 5)) := by
  by_cases hj : j < 16
  · interval_cases j <;> decide
  · rw [testBit_of_lt_two_pow 64543 16 j (by norm_num) (by omega)]
    simp [hj]

theorem testBit_1023 (j : Nat) :
    Nat.testBit 1023 j = decide (j < 16 ∧ ¬ (10 ≤ j ∧ j < 10 + 6)) := by
  by_cases hj : j < 16
  · interval_cases j <;> decide
  · rw [testBit_of_lt_two_pow 1023 16 j (by norm_num) (by omega)]
    simp [hj]

theorem testBit_field (off width mi j : Nat) :
    (((mi >>> off) &&& (2 ^ width - 1)).testBit j) =
      (decide (j < width) && mi.testBit (off + j)) := by
  rw [Nat.testBit_and, Nat.testBit_shiftRight, Nat.testBit_two_pow_sub_one, Bool.and_comm]

theorem testBit_update (mask off width mi v j : Nat)
    (hmask : ∀ j, mask.testBit j = decide (j < 16 ∧ ¬ (off ≤ j ∧ j < off + width)))
    (hv : v < 2 ^ width) :
    (((mi &&& mask) ||| (v <<< off)).testBit j) =
      if off ≤ j ∧ j < off + width then v.testBit (j - off)
      else (decide (j < 16) && mi.testBit j) := by
  rw [Nat.testBit_or, Nat.testBit_and, Nat.testBit_shiftLeft, hmask]
  by_cases h1 : off ≤ j
  · by_cases h2 : j < off + width
    · simp [h1, h2]
    · have : v.testBit (j - off) = false := testBit_of_lt_two_pow v width _ hv (by omega)
      simp [h1, h2, this, Bool.and_comm]
  · simp [h1, Bool.and_comm]

theorem field_update_same (mask off width mi v : Nat)
    (hmask : ∀ j, mask.testBit j = decide (j < 16 ∧ ¬ (off ≤ j ∧ j < off + width)))
    (hv : v < 2 ^ width) :
    (((mi &&& mask) ||| (v <<< off)) >>> off) &&& (2 ^ width - 1) = v := by
  apply Nat.eq_of_testBit_eq
  intro j
  rw [testBit_field, testBit_update mask off width mi v _ hmask hv]
  by_cases hj : j < width
  · simp [hj]
  · simp [hj, testBit_of_lt_two_pow v width j hv (by omega)]

theorem field_update_other (mask off width off2 width2 mi v : Nat)
    (hmask : ∀ j, mask.testBit j = decide (j < 16 ∧ ¬ (off ≤ j ∧ j < off + width)))
    (hv : v < 2 ^ width) (hdis : off2 + width2 ≤ off ∨ off + width ≤ off2)
    (h16 : off2 + width2 ≤ 16) :
    (((mi &&& mask) ||| (v <<< off)) >>> off2) &&& (2 ^ width2 - 1)
      = (mi >>> off2) &&& (2 ^ width2 - 1) := by
  apply Nat.eq_of_testBit_eq
  intro j
  rw [testBit_field, testBit_field, testBit_update mask off width mi v _ hmask hv]
  by_cases hj : j < width2
  · have h1 : ¬ (off ≤ off2 + j ∧ off2 + j < off + width) := by omega
    have h2 : off2 + j < 16 := by omega
    simp [hj, h1, h2]
  · simp [hj]

theorem shift_update_same (mi v : Nat) (hv : v < 2 ^ 6) :
    ((mi &&& 1023) ||| (v <<< 10)) >>> 10 = v := by
  apply Nat.eq_of_testBit_eq
  intro j
  rw [Nat.testBit_shiftRight, testBit_update 1023 10 6 mi v _ testBit_1023 hv]
  by_cases hj : j < 6
  · have h1 : 10 ≤ 10 + j ∧ 10 + j < 10 + 6 := by omega
    simp [h1]
  · have h1 : ¬ (10 ≤ 10 + j ∧ 10 + j < 10 + 6) := by omega
    have h2 : ¬ (10 + j < 16) := by omega
    simp [h1, h2, testBit_of_lt_two_pow v 6 j hv (by omega)]

theorem shift_update_other (mask off width mi v : Nat)
    (hmask : ∀ j, mask.testBit j = decide (j < 16 ∧ ¬ (off ≤ j ∧ j < off + width)))
    (hv : v < 2 ^ width) (hdis : off + width ≤ 10) (hmi : mi < 65536) :
    ((mi &&& mask) ||| (v <<< off)) >>> 10 = mi >>> 10 := by
  apply Nat.eq_of_testBit_eq
  intro j
  rw [Nat.testBit_shiftRight, Nat.testBit_shiftRight,
    testBit_update mask off width mi v _ hmask hv]
  have h1 : ¬ (off ≤ 10 + j ∧ 10 + j < off + width) := by omega
  by_cases hj : 10 + j < 16
  · simp [h1, hj]
  · simp [h1, hj, testBit_of_lt_two_pow mi 16 (10 + j) (by simpa using hmi) (by omega)]

theorem update_lt (mask off width mi v : Nat) (hmask : mask < 2 ^ 16) (hv : v < 2 ^ width)
    (h16 : off + width ≤ 16) : (mi &&& mask) ||| (v <<< off) < 65536 := by
  have h1 : mi &&& mask < 2 ^ 16 := Nat.and_lt_two_pow mi hmask
  have h2 : v <<< off < 2 ^ 16 := by
    rw [Nat.shiftLeft_eq]
    calc v * 2 ^ off < 2 ^ width * 2 ^ off := Nat.mul_lt_mul_of_pos_right hv (by positivity)
      _ = 2 ^ (width + off) := (pow_add 2 width off).symm
      _ ≤ 2 ^ 16 := Nat.pow_le_pow_right (by norm_num) (by omega)
  exact Nat.or_lt_two_pow h1 h2

theorem and_1_eq_mod (a : Nat) : a &&& 1 = a % 2 :=
  Nat.and_pow_two_sub_one_eq_mod a 1

theorem field_metric_eq (a : Nat) : (a >>> 1) &&& 15 = a / 2 % 16 := by
  rw [Nat.shiftRight_eq_div_pow]
  exact Nat.and_pow_two_sub_one_eq_mod (a / 2 ^ 1) 4

theorem field_id_eq (a : Nat) : (a >>> 5) &&& 31 = a / 32 % 32 := by
  rw [Nat.shiftRight_eq_div_pow]
  exact Nat.and_pow_two_sub_one_eq_mod (a / 2 ^ 5) 5

theorem field_window_eq (a : Nat) : a >>> 10 = a / 1024 := by
  rw [Nat.shiftRight_eq_div_pow]

theorem metainfo_ext (a b : Nat) (ha : a < 65536) (hb : b < 65536)
    (he : a &&& 1 = b &&& 1) (hm : (a >>> 1) &&& 15 = (b >>> 1) &&& 15)
    (hi : (a >>> 5) &&& 31 = (b >>> 5) &&& 31) (hw : a >>> 10 = b >>> 10) : a = b := by
  rw [and_1_eq_mod, and_1_eq_mod] at he
  rw [field_metric_eq, field_metric_eq] at hm
  rw [field_id_eq, field_id_eq] at hi
  rw [field_window_eq, field_window_eq] at hw
  omega

/-! ### The moving average -/

/-- C1: for RSSI, LQI and ETX the call stores the sample itself when the old
word is the all-ones sentinel, and otherwise `(s * 10 + old * 90) / 100`,
truncated toward zero, the two words read as `int16_t` for RSSI and as unsigned
words for LQI and ETX; the result fits the 16-bit storage. -/
theorem ewma_stores_blend (m old s : Nat) (hm : m = RSSI ∨ m = LQI ∨ m = ETX)
    (hold : old < 65536) (hs : s < 65536) :
    ∃ w, plexi_update_ewma_statistics m (some old) s = some (some w) ∧ w < 65536 ∧
      (old = SENTINEL → w = s) ∧
      (old ≠ SENTINEL → m = RSSI →
        to_int16 w = Int.tdiv (to_int16 s * 10 + to_int16 old * 90) 100) ∧
      (old ≠ SENTINEL → m ≠ RSSI → w = (s * 10 + old * 90) / 100) := by
  rcases hm with hm | hm | hm
  · subst hm
    by_cases ho : old = SENTINEL
    · refine ⟨s, ?_, hs, fun _ => rfl, fun h => absurd ho h, fun h => absurd ho h⟩
      simp [plexi_update_ewma_statistics, ho, of_int_to_int16 s hs]
    · have hr := tdiv_blend_range (to_int16 s) (to_int16 old)
        (to_int16_range s hs).1 (to_int16_range s hs).2
        (to_int16_range old hold).1 (to_int16_range old hold).2
      refine ⟨of_int (Int.tdiv (to_int16 s * 10 + to_int16 old * 90) 100), ?_, of_int_lt _,
        fun h => absurd h ho, fun _ _ => to_int16_of_int _ hr.1 hr.2, fun _ h => absurd rfl h⟩
      simp [plexi_update_ewma_statistics, ho]
  · subst hm
    by_cases ho : old = SENTINEL
    · refine ⟨s, ?_, hs, fun _ => rfl, fun h => absurd ho h, fun h => absurd ho h⟩
      simp [plexi_update_ewma_statistics, ho]
    · have hb : (s * 10 + old * 90) / 100 < 65536 := by omega
      refine ⟨(s * 10 + old * 90) / 100, ?_, hb, fun h => absurd h ho,
        fun _ h => absurd h (by decide), fun _ _ => rfl⟩
      simp [plexi_update_ewma_statistics, ho, Nat.mod_eq_of_lt hb]
  · subst hm
    by_cases ho : old = SENTINEL
    · refine ⟨s, ?_, hs, fun _ => rfl, fun h => absurd ho h, fun h => absurd ho h⟩
      simp [plexi_update_ewma_statistics, ho]
    · have hb : (s * 10 + old * 90) / 100 < 65536 := by omega
      refine ⟨(s * 10 + old * 90) / 100, ?_, hb, fun h => absurd h ho,
        fun _ h => absurd h (by decide), fun _ _ => rfl⟩
      simp [plexi_update_ewma_statistics, ho, Nat.mod_eq_of_lt hb]

/-- Witness of C1: an RSSI record holding -100 that receives the sample -36. -/
theorem ewma_stores_blend_witness :
    ∃ w, plexi_update_ewma_statistics RSSI (some 65436) 65500 = some (some w) ∧ w < 65536 ∧
      (65436 = SENTINEL → w = 65500) ∧
      (65436 ≠ SENTINEL → RSSI = RSSI →
        to_int16 w = Int.tdiv (to_int16 65500 * 10 + to_int16 65436 * 90) 100) ∧
      (65436 ≠ SENTINEL → RSSI ≠ RSSI → w = (65500 * 10 + 65436 * 90) / 100) :=
  ewma_stores_blend RSSI 65436 65500 (Or.inl rfl) (by decide) (by decide)

/-- C2 (the code departs from the claim): a PDR record at the sentinel that
receives two packet-sent events with one transmission each ends at 222, while
`25600 / ewma(256, 256)` is 100: the second update blends the sample with the
stored quotient 100 instead of the running average 256. -/
theorem pdr_feeds_back_quotient :
    packet_sent_updates PDR SENTINEL [1, 1] = some 222 ∧ spec_pdr 1 [1] = 100 := by
  decide

/-- C3 (the code departs from the claim): for metric PDR, a sentinel record and
the sample 0, the blended value is 0 and `100 * 256 / v` is evaluated with
`v == 0`; the model has no defined result there. The same happens for the old
value 1. -/
theorem pdr_divides_by_zero :
    plexi_update_ewma_statistics PDR (some SENTINEL) 0 = none ∧
      plexi_update_ewma_statistics PDR (some 1) 0 = none := by
  decide

/-! ### Positions in the schedule -/

theorem first_index_map {α β : Type} (p : β → Bool) (g : α → β) (l : List α) :
    first_index p (l.map g) = first_index (fun a => p (g a)) l := by
  induction l with
  | nil => rfl
  | cons a l ih => simp [first_index, ih]

theorem first_index_lt {α : Type} (p : α → Bool) (l : List α) (i : Nat)
    (h : first_index p l = some i) : i < l.length := by
  induction l generalizing i with
  | nil => simp [first_index] at h
  | cons a l ih =>
    simp only [first_index] at h
    split at h
    · simp at h; subst h; simp
    · cases hf : first_index p l with
      | none => simp [hf] at h
      | some k =>
        simp [hf] at h
        subst h
        have := ih k hf
        simp; omega

theorem first_index_spec {α : Type} (p : α → Bool) (l : List α) (i : Nat)
    (h : first_index p l = some i) : ∃ a, l[i]? = some a ∧ p a = true := by
  induction l generalizing i with
  | nil => simp [first_index] at h
  | cons a l ih =>
    simp only [first_index] at h
    split at h
    · rename_i hp
      simp at h; subst h
      exact ⟨a, by simp, hp⟩
    · cases hf : first_index p l with
      | none => simp [hf] at h
      | some k =>
        simp [hf] at h
        subst h
        obtain ⟨b, hb, hpb⟩ := ih k hf
        exact ⟨b, by simpa using hb, hpb⟩

theorem first_index_none {α : Type} (p : α → Bool) (l : List α)
    (h : first_index p l = none) : ∀ a ∈ l, p a = false := by
  induction l with
  | nil => simp
  | cons a l ih =>
    simp only [first_index] at h
    split at h
    · simp at h
    · rename_i hp
      cases hf : first_index p l with
      | none =>
        intro x hx
        rcases List.mem_cons.mp hx with rfl | hx
        · simpa using hp
        · exact ih hf x hx
      | some k => simp [hf] at h

theorem link_at_skeleton (schedule : List tsch_slotframe) (p : Nat × Nat) :
    link_at (skeleton schedule) p =
      (link_at schedule p).map (fun l => { l with data := none }) := by
  unfold link_at skeleton
  rw [List.getElem?_map]
  cases schedule[p.1]? with
  | none => rfl
  | some sf => simp [List.getElem?_map]

theorem skeleton_set_link_data (schedule : List tsch_slotframe) (p : Nat × Nat)
    (ptr : Option Nat) : skeleton (set_link_data schedule p ptr) = skeleton schedule := by
  cases h1 : schedule[p.1]? with
  | none => simp only [set_link_data, h1]
  | some sf =>
    cases h2 : sf.links_list[p.2]? with
    | none => simp only [set_link_data, h1, h2]
    | some l =>
      simp only [set_link_data, h1, h2, skeleton]
      apply List.ext_getElem?
      intro i
      simp only [List.getElem?_map, List.getElem?_set]
      by_cases hi : p.1 = i
      · subst hi
        have hlt : p.1 < schedule.length := by
          rcases List.getElem?_eq_some_iff.mp h1 with ⟨h, _⟩
          exact h
        simp only [if_true, hlt, h1, Option.map_some']
        congr 2
        apply List.ext_getElem?
        intro j
        simp only [List.getElem?_map, List.getElem?_set]
        by_cases hj : p.2 = j
        · subst hj
          have hlt2 : p.2 < sf.links_list.length := by
            rcases List.getElem?_eq_some_iff.mp h2 with ⟨h, _⟩
            exact h
          simp [hlt2, h2]
        · simp [hj]
      · simp [hi]

theorem link_at_set_link_data (schedule : List tsch_slotframe) (p q : Nat × Nat)
    (ptr : Option Nat) :
    link_at (set_link_data schedule p ptr) q =
      if q = p then (link_at schedule p).map (fun l => { l with data := ptr })
      else link_at schedule q := by
  cases h1 : schedule[p.1]? with
  | none =>
    simp only [set_link_data, h1]
    by_cases hq : q = p
    · subst hq; simp [link_at, h1]
    · simp [hq]
  | some sf =>
    have hlt : p.1 < schedule.length := by
      rcases List.getElem?_eq_some_iff.mp h1 with ⟨h, _⟩
      exact h
    cases h2 : sf.links_list[p.2]? with
    | none =>
      simp only [set_link_data, h1, h2]
      by_cases hq : q = p
      · subst hq; simp [link_at, h1, h2]
      · simp [hq]
    | some l =>
      have hlt2 : p.2 < sf.links_list.length := by
        rcases List.getElem?_eq_some_iff.mp h2 with ⟨h, _⟩
        exact h
      simp only [set_link_data, h1, h2]
      by_cases hq : q = p
      · subst hq
        simp [link_at, h1, h2, List.getElem?_set, hlt, hlt2]
      · simp only [hq, if_false]
        unfold link_at
        by_cases hq1 : p.1 = q.1
        · have hq2 : p.2 ≠ q.2 := by
            intro h
            apply hq
            exact (Prod.ext hq1 h).symm
          simp only [List.getElem?_set, hq1, if_true]
          rw [← hq1]
          simp [hlt, h1, List.getElem?_set, hq2]
        · simp [List.getElem?_set, hq1]

theorem walk_frames_skeleton (schedule : List tsch_slotframe) (flags : Nat) (frame : Int) :
    stats_walk_frames (skeleton schedule) flags frame = stats_walk_frames schedule flags frame := by
  unfold stats_walk_frames tsch_schedule_get_slotframe_by_handle skeleton
  rw [first_index_map, List.length_map]

theorem walk_links_skeleton (sf : tsch_slotframe) (flags : Nat) (slot : Int) :
    stats_walk_links { sf with links_list := sf.links_list.map (fun l => { l with data := none }) }
      flags slot = stats_walk_links sf flags slot := by
  unfold stats_walk_links tsch_schedule_get_link_by_timeslot
  simp only [first_index_map, List.length_map]

theorem stats_walk_skeleton (schedule : List tsch_slotframe) (flags : Nat) (frame slot : Int) :
    stats_walk (skeleton schedule) flags frame slot = stats_walk schedule flags frame slot := by
  unfold stats_walk
  rw [walk_frames_skeleton]
  congr 1
  funext i
  unfold skeleton
  rw [List.getElem?_map]
  cases schedule[i]? with
  | none => rfl
  | some sf => simp only [Option.map_some', walk_links_skeleton]

theorem all_positions_skeleton (schedule : List tsch_slotframe) :
    all_positions (skeleton schedule) = all_positions schedule := by
  unfold all_positions
  have hl : (skeleton schedule).length = schedule.length := by simp [skeleton]
  rw [hl]
  congr 1
  funext i
  unfold skeleton
  rw [List.getElem?_map]
  cases schedule[i]? with
  | none => rfl
  | some sf => simp

theorem mem_all_positions (schedule : List tsch_slotframe) (p : Nat × Nat) :
    p ∈ all_positions schedule ↔ ∃ l, link_at schedule p = some l := by
  unfold all_positions link_at
  simp only [List.mem_flatMap, List.mem_range]
  constructor
  · rintro ⟨i, hi, hp⟩
    cases hsf : schedule[i]? with
    | none => simp [hsf] at hp
    | some sf =>
      simp only [hsf, List.mem_map, List.mem_range] at hp
      obtain ⟨j, hj, rfl⟩ := hp
      simp only [hsf]
      exact ⟨sf.links_list[j], by simp [hj]⟩
  · rintro ⟨l, hl⟩
    cases hsf : schedule[p.1]? with
    | none => simp [hsf] at hl
    | some sf =>
      simp only [hsf] at hl
      have h1 : p.1 < schedule.length := by
        rcases List.getElem?_eq_some_iff.mp hsf with ⟨h, _⟩
        exact h
      have h2 : p.2 < sf.links_list.length := by
        rcases List.getElem?_eq_some_iff.mp hl with ⟨h, _⟩
        exact h
      refine ⟨p.1, h1, ?_⟩
      simp only [hsf, List.mem_map, List.mem_range]
      exact ⟨p.2, h2, rfl⟩

/-! ### The pool -/

theorem memb_store_length (m : memb) (i : Nat) (f : plexi_stats → plexi_stats) :
    (memb_store m i f).length = m.length := by
  unfold memb_store
  cases m[i]? with
  | none => rfl
  | some b => simp

theorem memb_store_getElem? (m : memb) (i k : Nat) (f : plexi_stats → plexi_stats) :
    (memb_store m i f)[k]? =
      if k = i then (m[i]?).map (fun b => { b with obj := f b.obj }) else m[k]? := by
  unfold memb_store
  cases h : m[i]? with
  | none =>
    by_cases hk : k = i
    · subst hk; simp [h]
    · simp [hk]
  | some b =>
    have hlt : i < m.length := by
      rcases List.getElem?_eq_some_iff.mp h with ⟨h1, _⟩
      exact h1
    by_cases hk : k = i
    · subst hk; simp [List.getElem?_set, hlt]
    · have hk2 : i ≠ k := fun e => hk e.symm
      simp [List.getElem?_set, hk, hk2]

theorem memb_store_id (m : memb) (i : Nat) (f : plexi_stats → plexi_stats)
    (h : ∀ b, m[i]? = some b → f b.obj = b.obj) : memb_store m i f = m := by
  apply List.ext_getElem?
  intro k
  rw [memb_store_getElem?]
  by_cases hk : k = i
  · subst hk
    cases hb : m[k]? with
    | none => simp
    | some b => simp [h b hb]
  · simp [hk]

theorem memb_alloc_some (m m1 : memb) (j : Nat) (h : memb_alloc m = (some j, m1)) :
    ∃ b, m[j]? = some b ∧ b.count = 0 ∧ m1 = m.set j { b with count := 1 } := by
  unfold memb_alloc at h
  cases hf : first_index (fun b => decide (b.count = 0)) m with
  | none => simp [hf] at h
  | some i =>
    obtain ⟨b, hb, hp⟩ := first_index_spec _ m i hf
    simp only [hf, hb] at h
    simp only [Prod.mk.injEq, Option.some.injEq] at h
    obtain ⟨rfl, rfl⟩ := h
    exact ⟨b, hb, by simpa using hp, rfl⟩

theorem memb_alloc_none (m m1 : memb) (h : memb_alloc m = (none, m1)) :
    m1 = m ∧ ∀ b ∈ m, b.count ≠ 0 := by
  unfold memb_alloc at h
  cases hf : first_index (fun b => decide (b.count = 0)) m with
  | none =>
    simp only [hf, Prod.mk.injEq, true_and] at h
    refine ⟨h.symm, ?_⟩
    intro b hb
    have := first_index_none _ m hf b hb
    simpa using this
  | some i =>
    obtain ⟨b, hb, _⟩ := first_index_spec _ m i hf
    simp [hf, hb] at h

theorem memb_alloc_of_free (m : memb) (h : ∃ b ∈ m, b.count = 0) :
    ∃ j m1, memb_alloc m = (some j, m1) := by
  cases hr : memb_alloc m with
  | mk r m1 =>
    cases r with
    | none =>
      obtain ⟨b, hb, hc⟩ := h
      exact absurd hc ((memb_alloc_none m m1 hr).2 b hb)
    | some j => exact ⟨j, m1, rfl⟩

theorem countP_set_used (m : memb) (j : Nat) (b b1 : memb_block) (hb : m[j]? = some b) :
    memb_used (m.set j b1) + (if b.count ≠ 0 then 1 else 0) =
      memb_used m + (if b1.count ≠ 0 then 1 else 0) := by
  unfold memb_used
  induction m generalizing j with
  | nil => simp at hb
  | cons a m ih =>
    cases j with
    | zero =>
      simp only [List.getElem?_cons_zero, Option.some.injEq] at hb
      subst hb
      simp only [List.set_cons_zero, List.countP_cons]
      simp only [decide_eq_true_eq]
      omega
    | succ j =>
      simp only [List.getElem?_cons_succ] at hb
      have := ih j hb
      simp only [List.set_cons_succ, List.countP_cons]
      omega

theorem memb_used_store (m : memb) (i : Nat) (f : plexi_stats → plexi_stats) :
    memb_used (memb_store m i f) = memb_used m := by
  cases h : m[i]? with
  | none => simp only [memb_store, h]
  | some b =>
    simp only [memb_store, h]
    have := countP_set_used m i b { b with obj := f b.obj } h
    simp only at this
    omega

theorem memb_used_alloc (m m1 : memb) (j : Nat) (h : memb_alloc m = (some j, m1)) :
    memb_used m1 = memb_used m + 1 := by
  obtain ⟨b, hb, hc, rfl⟩ := memb_alloc_some m m1 j h
  have := countP_set_used m j b { b with count := 1 } hb
  simp [hc] at this
  omega

/-! ### Chains -/

theorem is_chain_of_stats_chain (m : memb) (fuel : Nat) (ptr : Option Nat) (c : List Nat)
    (h : stats_chain m fuel ptr = some c) : is_chain m ptr c := by
  induction fuel generalizing ptr c with
  | zero =>
    cases ptr with
    | none => simp [stats_chain] at h; subst h; simp [is_chain]
    | some i => simp [stats_chain] at h
  | succ fuel ih =>
    cases ptr with
    | none => simp [stats_chain] at h; subst h; simp [is_chain]
    | some i =>
      simp only [stats_chain] at h
      cases hb : m[i]? with
      | none => simp [hb] at h
      | some b =>
        simp only [hb] at h
        cases hc : stats_chain m fuel b.obj.next with
        | none => simp [hc] at h
        | some c1 =>
          simp only [hc, Option.map_some', Option.some.injEq] at h
          subst h
          exact ⟨rfl, b, hb, ih _ _ hc⟩

theorem stats_chain_of_is_chain (m : memb) (fuel : Nat) (ptr : Option Nat) (c : List Nat)
    (h : is_chain m ptr c) (hf : c.length ≤ fuel) : stats_chain m fuel ptr = some c := by
  induction c generalizing ptr fuel with
  | nil =>
    simp only [is_chain] at h
    subst h
    cases fuel <;> rfl
  | cons i c ih =>
    obtain ⟨rfl, b, hb, hc⟩ := h
    cases fuel with
    | zero => simp at hf
    | succ fuel =>
      simp only [stats_chain, hb]
      rw [ih fuel _ hc (by simpa using hf)]
      rfl

theorem is_chain_unique (m : memb) (ptr : Option Nat) (c1 c2 : List Nat)
    (h1 : is_chain m ptr c1) (h2 : is_chain m ptr c2) : c1 = c2 := by
  induction c1 generalizing ptr c2 with
  | nil =>
    simp only [is_chain] at h1
    subst h1
    cases c2 with
    | nil => rfl
    | cons j c2 => simp [is_chain] at h2
  | cons i c1 ih =>
    obtain ⟨rfl, b, hb, hc⟩ := h1
    cases c2 with
    | nil => simp [is_chain] at h2
    | cons j c2 =>
      obtain ⟨hij, b2, hb2, hc2⟩ := h2
      simp only [Option.some.injEq] at hij
      subst hij
      rw [hb] at hb2
      simp only [Option.some.injEq] at hb2
      subst hb2
      rw [ih _ _ hc hc2]

theorem is_chain_lt (m : memb) (ptr : Option Nat) (c : List Nat) (h : is_chain m ptr c) :
    ∀ i ∈ c, i < m.length := by
  induction c generalizing ptr with
  | nil => simp
  | cons i c ih =>
    obtain ⟨_, b, hb, hc⟩ := h
    intro k hk
    rcases List.mem_cons.mp hk with rfl | hk
    · rcases List.getElem?_eq_some_iff.mp hb with ⟨h1, _⟩
      exact h1
    · exact ih _ hc k hk

theorem nodup_length_le (c : List Nat) (n : Nat) (hn : c.Nodup) (hlt : ∀ i ∈ c, i < n) :
    c.length ≤ n := by
  have hsub : c ⊆ List.range n := fun i hi => List.mem_range.mpr (hlt i hi)
  have := (List.subperm_of_subset hn hsub).length_le
  simpa using this

/-- The chain is the same in a pool that agrees on the `next` pointers of its
slots. -/
theorem is_chain_congr (m m1 : memb) (ptr : Option Nat) (c : List Nat)
    (h : is_chain m ptr c)
    (hag : ∀ i ∈ c, ∀ b, m[i]? = some b → ∃ b1, m1[i]? = some b1 ∧ b1.obj.next = b.obj.next) :
    is_chain m1 ptr c := by
  induction c generalizing ptr with
  | nil => exact h
  | cons i c ih =>
    obtain ⟨rfl, b, hb, hc⟩ := h
    obtain ⟨b1, hb1, hn⟩ := hag i (List.mem_cons_self _ _) b hb
    refine ⟨rfl, b1, hb1, ?_⟩
    rw [hn]
    exact ih _ hc (fun k hk => hag k (List.mem_cons_of_mem _ hk))

/-- Appending the slot `j` to a non-empty chain: the last record now points to
`j`, the record in `j` ends the chain, the other records keep their `next`. -/
theorem is_chain_append (m m1 : memb) (ptr : Option Nat) (c : List Nat) (k j : Nat)
    (h : is_chain m ptr (c ++ [k])) (hnd : (c ++ [k]).Nodup) (hj : j ∉ c ++ [k])
    (hag : ∀ i ∈ c, ∀ b, m[i]? = some b → ∃ b1, m1[i]? = some b1 ∧ b1.obj.next = b.obj.next)
    (hk : ∃ bk, m1[k]? = some bk ∧ bk.obj.next = some j)
    (hjn : ∃ bj, m1[j]? = some bj ∧ bj.obj.next = none) :
    is_chain m1 ptr (c ++ [k, j]) := by
  induction c generalizing ptr with
  | nil =>
    obtain ⟨rfl, b, hb, hc⟩ := h
    obtain ⟨bk, hbk, hnk⟩ := hk
    obtain ⟨bj, hbj, hnj⟩ := hjn
    refine ⟨rfl, bk, hbk, ?_⟩
    rw [hnk]
    refine ⟨rfl, bj, hbj, ?_⟩
    rw [hnj]
    rfl
  | cons i c ih =>
    obtain ⟨rfl, b, hb, hc⟩ := h
    obtain ⟨b1, hb1, hn⟩ := hag i (List.mem_cons_self _ _) b hb
    refine ⟨rfl, b1, hb1, ?_⟩
    rw [hn]
    apply ih _ hc
    · exact (List.nodup_cons.mp hnd).2
    · intro hmem
      exact hj (List.mem_cons_of_mem _ hmem)
    · exact fun x hx => hag x (List.mem_cons_of_mem _ hx)

theorem chain_records_congr (m m1 : memb) (c : List Nat)
    (hag : ∀ i ∈ c, record_view m1 i = record_view m i) :
    chain_records m1 c = chain_records m c := by
  unfold chain_records
  exact List.map_congr_left hag

/-! ### The accessors on records -/

theorem get_id_lt (r : plexi_stats) : plexi_get_statistics_id (some r) < 32 := by
  simp only [plexi_get_statistics_id]
  exact Nat.lt_succ_of_le Nat.and_le_right

theorem get_metric_lt (r : plexi_stats) : plexi_get_statistics_metric (some r) < 16 := by
  simp only [plexi_get_statistics_metric]
  exact Nat.lt_succ_of_le Nat.and_le_right

theorem get_enable_lt (r : plexi_stats) : plexi_get_statistics_enable (some r) < 2 := by
  simp only [plexi_get_statistics_enable]
  exact Nat.lt_succ_of_le Nat.and_le_right

theorem get_window_lt (r : plexi_stats) (h : r.metainfo < 65536) :
    plexi_get_statistics_window (some r) < 64 := by
  simp only [plexi_get_statistics_window, field_window_eq]
  omega

theorem applied_set_id (r : plexi_stats) (v : Nat) (hv : v < 32) :
    applied plexi_set_statistics_id r v =
      { r with metainfo := (r.metainfo &&& 64543) ||| (v <<< 5) } := by
  simp [applied, plexi_set_statistics_id, hv]

theorem applied_set_window (r : plexi_stats) (v : Nat) (hv : v < 64) :
    applied plexi_set_statistics_window r v =
      { r with metainfo := (r.metainfo &&& 1023) ||| (v <<< 10) } := by
  simp [applied, plexi_set_statistics_window, hv]

theorem applied_set_metric (r : plexi_stats) (v : Nat) (hv : v < 16) :
    applied plexi_set_statistics_metric r v =
      { r with metainfo := (r.metainfo &&& 65505) ||| (v <<< 1) } := by
  simp [applied, plexi_set_statistics_metric, hv]

theorem applied_set_enable (r : plexi_stats) (v : Nat) (hv : v < 2) :
    applied plexi_set_statistics_enable r v =
      { r with metainfo := (r.metainfo &&& 65534) ||| (v <<< 0) } := by
  simp [applied, plexi_set_statistics_enable, hv]

/-- The four setters in the order of a creation overwrite the whole word. -/
theorem created_word (x s : Nat) (hs : s < 65536) :
    ((((x &&& 64543 ||| ((s >>> 5) &&& 31) <<< 5) &&& 1023 ||| (s >>> 10) <<< 10) &&& 65505
      ||| ((s >>> 1) &&& 15) <<< 1) &&& 65534 ||| (s &&& 1) <<< 0) = s := by
  have hi : (s >>> 5) &&& 31 < 2 ^ 5 := Nat.lt_succ_of_le Nat.and_le_right
  have hm : (s >>> 1) &&& 15 < 2 ^ 4 := Nat.lt_succ_of_le Nat.and_le_right
  have he : s &&& 1 < 2 ^ 1 := Nat.lt_succ_of_le Nat.and_le_right
  have hw : s >>> 10 < 2 ^ 6 := by
    rw [field_window_eq]
    omega
  have b1 := update_lt 64543 5 5 x _ (by norm_num) hi (by norm_num)
  have b2 := update_lt 1023 10 6 (x &&& 64543 ||| ((s >>> 5) &&& 31) <<< 5) _ (by norm_num) hw
    (by norm_num)
  have b3 := update_lt 65505 1 4
    ((x &&& 64543 ||| ((s >>> 5) &&& 31) <<< 5) &&& 1023 ||| (s >>> 10) <<< 10) _
    (by norm_num) hm (by norm_num)
  apply metainfo_ext _ _ (update_lt 65534 0 1 _ _ (by norm_num) he (by norm_num)) hs
  · exact field_update_same 65534 0 1 _ _ testBit_65534 he
  · refine (field_update_other 65534 0 1 1 4 _ _ testBit_65534 he (by norm_num)
      (by norm_num)).trans ?_
    exact field_update_same 65505 1 4 _ _ testBit_65505 hm
  · refine (field_update_other 65534 0 1 5 5 _ _ testBit_65534 he (by norm_num)
      (by norm_num)).trans ?_
    refine (field_update_other 65505 1 4 5 5 _ _ testBit_65505 hm (by norm_num)
      (by norm_num)).trans ?_
    refine (field_update_other 1023 10 6 5 5 _ _ testBit_1023 hw (by norm_num)
      (by norm_num)).trans ?_
    exact field_update_same 64543 5 5 _ _ testBit_64543 hi
  · rw [shift_update_other 65534 0 1 _ _ testBit_65534 he (by norm_num) b3,
      shift_update_other 65505 1 4 _ _ testBit_65505 hm (by norm_num) b2]
    exact shift_update_same _ _ hw

theorem new_record_eq (link_stats stats : plexi_stats) (ti : Bool)
    (hs : stats.metainfo < 65536) :
    post_stats_new_record link_stats stats ti =
      { next := none, metainfo := stats.metainfo,
        value := if ti then stats.value else SENTINEL } := by
  have hv : of_int (-1) = 65535 := by decide
  unfold post_stats_new_record
  simp only [applied_set_id _ _ (get_id_lt stats), applied_set_window _ _ (get_window_lt stats hs),
    applied_set_metric _ _ (get_metric_lt stats), applied_set_enable _ _ (get_enable_lt stats)]
  simp only [plexi_get_statistics_id, plexi_get_statistics_window, plexi_get_statistics_metric,
    plexi_get_statistics_enable]
  have hw := created_word link_stats.metainfo stats.metainfo hs
  split <;> split <;> simp_all

/-- The two setters of an update in place change the window and enable fields
only. -/
theorem updated_word (x s : Nat) (hs : s < 65536) :
    let u := ((x &&& 1023 ||| (s >>> 10) <<< 10) &&& 65534 ||| (s &&& 1) <<< 0)
    u < 65536 ∧ u &&& 1 = s &&& 1 ∧ (u >>> 1) &&& 15 = (x >>> 1) &&& 15 ∧
      (u >>> 5) &&& 31 = (x >>> 5) &&& 31 ∧ u >>> 10 = s >>> 10 := by
  have he : s &&& 1 < 2 ^ 1 := Nat.lt_succ_of_le Nat.and_le_right
  have hw : s >>> 10 < 2 ^ 6 := by
    rw [field_window_eq]
    omega
  have b1 := update_lt 1023 10 6 x _ (by norm_num) hw (by norm_num)
  refine ⟨update_lt 65534 0 1 _ _ (by norm_num) he (by norm_num), ?_, ?_, ?_, ?_⟩
  · exact field_update_same 65534 0 1 _ _ testBit_65534 he
  · refine (field_update_other 65534 0 1 1 4 _ _ testBit_65534 he (by norm_num)
      (by norm_num)).trans ?_
    exact field_update_other 1023 10 6 1 4 _ _ testBit_1023 hw (by norm_num) (by norm_num)
  · refine (field_update_other 65534 0 1 5 5 _ _ testBit_65534 he (by norm_num)
      (by norm_num)).trans ?_
    exact field_update_other 1023 10 6 5 5 _ _ testBit_1023 hw (by norm_num) (by norm_num)
  · rw [shift_update_other 65534 0 1 _ _ testBit_65534 he (by norm_num) b1]
    exact shift_update_same _ _ hw

theorem update_record_eq (r stats : plexi_stats) (hs : stats.metainfo < 65536) :
    post_stats_update_record r stats =
      { next := r.next,
        metainfo := ((r.metainfo &&& 1023 ||| (stats.metainfo >>> 10) <<< 10) &&& 65534
          ||| (stats.metainfo &&& 1) <<< 0),
        value := stats.value } := by
  unfold post_stats_update_record
  simp only [applied_set_window _ _ (get_window_lt stats hs),
    applied_set_enable _ _ (get_enable_lt stats)]
  simp only [plexi_get_statistics_window, plexi_get_statistics_enable]

theorem update_record_fields (r stats : plexi_stats) (hs : stats.metainfo < 65536) :
    (post_stats_update_record r stats).next = r.next ∧
    (post_stats_update_record r stats).value = stats.value ∧
    (post_stats_update_record r stats).metainfo < 65536 ∧
    plexi_get_statistics_id (some (post_stats_update_record r stats)) =
      plexi_get_statistics_id (some r) ∧
    plexi_get_statistics_metric (some (post_stats_update_record r stats)) =
      plexi_get_statistics_metric (some r) ∧
    plexi_get_statistics_window (some (post_stats_update_record r stats)) =
      plexi_get_statistics_window (some stats) ∧
    plexi_get_statistics_enable (some (post_stats_update_record r stats)) =
      plexi_get_statistics_enable (some stats) := by
  rw [update_record_eq r stats hs]
  obtain ⟨h1, h2, h3, h4, h5⟩ := updated_word r.metainfo stats.metainfo hs
  simp only [plexi_get_statistics_id, plexi_get_statistics_metric, plexi_get_statistics_window,
    plexi_get_statistics_enable]
  exact ⟨trivial, trivial, h1, h4, h3, h5, h2⟩

theorem update_record_settled (r stats : plexi_stats) (hr : r.metainfo < 65536)
    (hs : stats.metainfo < 65536)
    (hw : plexi_get_statistics_window (some r) = plexi_get_statistics_window (some stats))
    (he : plexi_get_statistics_enable (some r) = plexi_get_statistics_enable (some stats))
    (hv : r.value = stats.value) : post_stats_update_record r stats = r := by
  rw [update_record_eq r stats hs]
  obtain ⟨h1, h2, h3, h4, h5⟩ := updated_word r.metainfo stats.metainfo hs
  simp only [plexi_get_statistics_window, plexi_get_statistics_enable] at hw he
  have hmi := metainfo_ext _ r.metainfo h1 hr (by rw [h2, he]) h3 h4 (by rw [h5, hw])
  cases r with
  | mk n mi v =>
    simp only at hmi hv
    simp only [hmi, hv]

/-! ### The search of a chain -/

theorem record_view_of_some (m : memb) (i : Nat) (b : memb_block) (hb : m[i]? = some b) :
    record_view m i = { b.obj with next := none } := by
  simp [record_view, hb]

theorem scan_of_match_cons (i : Nat) (c : List Nat) (prev : Option Nat) (r : match_result) :
    scan_of_match (i :: c) prev
      (match r with
        | match_result.found k => match_result.found (k + 1)
        | match_result.conflict => match_result.conflict
        | match_result.absent => match_result.absent) =
      scan_of_match c (some i) r := by
  cases r with
  | found k => simp [scan_of_match]
  | conflict => rfl
  | absent =>
    cases c with
    | nil => simp [scan_of_match]
    | cons j c =>
      simp only [scan_of_match, List.getLast?_cons_cons]
      cases hl : (j :: c).getLast? with
      | none => simp at hl
      | some k => rfl

/-- The loop over the chain computes what `match_records` computes on the list
of its records. -/
theorem scan_eq (m : memb) (stats : plexi_stats) (flags : Nat) (c : List Nat) :
    ∀ (fuel : Nat) (ptr prev : Option Nat), is_chain m ptr c → c.length ≤ fuel →
      post_stats_scan m stats flags fuel ptr prev =
        some (scan_of_match c prev (match_records stats flags (chain_records m c))) := by
  induction c with
  | nil =>
    intro fuel ptr prev h _
    simp only [is_chain] at h
    subst h
    cases fuel <;> simp [post_stats_scan, chain_records, match_records, scan_of_match]
  | cons i c ih =>
    intro fuel ptr prev h hf
    obtain ⟨rfl, b, hb, hc⟩ := h
    cases fuel with
    | zero => simp at hf
    | succ fuel =>
      have hlen : c.length ≤ fuel := by simpa using hf
      have hview := record_view_of_some m i b hb
      simp only [post_stats_scan, hb, chain_records, List.map_cons, match_records, hview,
        stats_match, stats_conflict, plexi_get_statistics_metric, plexi_get_statistics_id]
      split
      · simp [scan_of_match]
      · split
        · rfl
        · rw [ih fuel _ (some i) hc hlen]
          rw [← scan_of_match_cons i c prev]
          rfl

theorem match_records_found (stats : plexi_stats) (flags : Nat) (R : List plexi_stats)
    (k : Nat) (h : match_records stats flags R = match_result.found k) :
    ∃ r, R[k]? = some r ∧ stats_match stats flags r := by
  induction R generalizing k with
  | nil => simp [match_records] at h
  | cons r R ih =>
    simp only [match_records] at h
    split at h
    · rename_i hm
      simp only [match_result.found.injEq] at h
      subst h
      exact ⟨r, by simp, hm⟩
    · split at h
      · simp at h
      · cases hr : match_records stats flags R with
        | found j =>
          simp only [hr, match_result.found.injEq] at h
          subst h
          obtain ⟨r1, h1, h2⟩ := ih j hr
          exact ⟨r1, by simpa using h1, h2⟩
        | conflict => simp [hr] at h
        | absent => simp [hr] at h

theorem match_records_absent_iff (stats : plexi_stats) (flags : Nat) (R : List plexi_stats) :
    match_records stats flags R = match_result.absent ↔
      ∀ r ∈ R, ¬ stats_match stats flags r ∧ ¬ stats_conflict stats flags r := by
  induction R with
  | nil => simp [match_records]
  | cons r R ih =>
    simp only [match_records, List.mem_cons, forall_eq_or_imp]
    by_cases hm : stats_match stats flags r
    · simp [hm]
    · by_cases hc : stats_conflict stats flags r
      · simp [hm, hc]
      · simp only [hm, hc, if_false, not_false_eq_true, and_self, true_and]
        rw [← ih]
        cases match_records stats flags R <;> simp

theorem match_records_conflict (stats : plexi_stats) (flags : Nat) (R : List plexi_stats)
    (hno : ∀ r ∈ R, ¬ stats_match stats flags r)
    (hex : ∃ r ∈ R, stats_conflict stats flags r) :
    match_records stats flags R = match_result.conflict := by
  cases h : match_records stats flags R with
  | found k =>
    obtain ⟨r, hr, hm⟩ := match_records_found stats flags R k h
    exact absurd hm (hno r (List.getElem?_mem hr))
  | conflict => rfl
  | absent =>
    obtain ⟨r, hr, hc⟩ := hex
    exact absurd hc (((match_records_absent_iff stats flags R).mp h) r hr).2

theorem match_records_no_match (stats : plexi_stats) (flags : Nat) (R : List plexi_stats)
    (hno : ∀ r ∈ R, ¬ stats_match stats flags r) :
    match_records stats flags R = match_result.conflict ∨
      match_records stats flags R = match_result.absent := by
  cases h : match_records stats flags R with
  | found k =>
    obtain ⟨r, hr, hm⟩ := match_records_found stats flags R k h
    exact absurd hm (hno r (List.getElem?_mem hr))
  | conflict => exact Or.inl rfl
  | absent => exact Or.inr rfl

theorem match_records_append (stats : plexi_stats) (flags : Nat) (R : List plexi_stats)
    (r : plexi_stats) (h : match_records stats flags R = match_result.absent)
    (hm : stats_match stats flags r) :
    match_records stats flags (R ++ [r]) = match_result.found R.length := by
  induction R with
  | nil => simp [match_records, hm]
  | cons a R ih =>
    have ha := (match_records_absent_iff stats flags (a :: R)).mp h
    have h1 := ha a (List.mem_cons_self _ _)
    have h2 : match_records stats flags R = match_result.absent :=
      (match_records_absent_iff stats flags R).mpr
        (fun x hx => ha x (List.mem_cons_of_mem _ hx))
    simp [match_records, h1.1, h1.2, ih h2]

/-- The search reads only the id and the metric of the records. -/
theorem match_records_congr (stats : plexi_stats) (flags : Nat) (R R1 : List plexi_stats)
    (hlen : R1.length = R.length)
    (h : ∀ (k : Nat) (r r1 : plexi_stats), R[k]? = some r → R1[k]? = some r1 →
      plexi_get_statistics_id (some r1) = plexi_get_statistics_id (some r) ∧
      plexi_get_statistics_metric (some r1) = plexi_get_statistics_metric (some r)) :
    match_records stats flags R1 = match_records stats flags R := by
  induction R generalizing R1 with
  | nil =>
    cases R1 with
    | nil => rfl
    | cons a R1 => simp at hlen
  | cons r R ih =>
    cases R1 with
    | nil => simp at hlen
    | cons r1 R1 =>
      have h0 := h 0 r r1 (by simp) (by simp)
      have ht := ih R1 (by simpa using hlen) (by
        intro k a a1 ha ha1
        exact h (k + 1) a a1 (by simpa using ha) (by simpa using ha1))
      simp only [match_records, stats_match, stats_conflict, h0.1, h0.2, ht]

/-! ### Well-formed states -/

theorem chain_at_of_link (s : plexi_state) (p : Nat × Nat) (l : tsch_link)
    (hl : link_at s.schedule p = some l) :
    chain_at s p = (link_chain s.plexi_stats_mem l).getD [] := by
  simp [chain_at, hl]

theorem chain_at_of_none (s : plexi_state) (p : Nat × Nat)
    (hl : link_at s.schedule p = none) : chain_at s p = [] := by
  simp [chain_at, hl]

theorem records_at_eq (s : plexi_state) (p : Nat × Nat) :
    records_at s p = chain_records s.plexi_stats_mem (chain_at s p) := by
  unfold records_at chain_at link_records
  cases link_at s.schedule p with
  | none => rfl
  | some l => rfl

theorem link_chain_cases (m : memb) (l : tsch_link) (c : List Nat)
    (h : link_chain m l = some c) :
    (memb_inmemb m l.data = true ∧ is_chain m l.data c) ∨
      (memb_inmemb m l.data = false ∧ c = []) := by
  unfold link_chain at h
  by_cases hin : memb_inmemb m l.data = true
  · rw [if_pos hin] at h
    exact Or.inl ⟨hin, is_chain_of_stats_chain m _ _ _ h⟩
  · rw [if_neg hin] at h
    simp only [Option.some.injEq] at h
    exact Or.inr ⟨by simpa using hin, h.symm⟩

theorem link_chain_of_is_chain (m : memb) (l : tsch_link) (c : List Nat)
    (hin : memb_inmemb m l.data = true) (h : is_chain m l.data c) (hlen : c.length ≤ m.length) :
    link_chain m l = some c := by
  unfold link_chain
  rw [if_pos hin]
  exact stats_chain_of_is_chain m _ _ _ h hlen

theorem link_chain_lt (m : memb) (l : tsch_link) (c : List Nat)
    (h : link_chain m l = some c) : ∀ i ∈ c, i < m.length := by
  rcases link_chain_cases m l c h with ⟨_, hc⟩ | ⟨_, rfl⟩
  · exact is_chain_lt m _ _ hc
  · simp

/-- What a well-formed state says about the chain of the link at `p`. -/
theorem wf_link (s : plexi_state) (p : Nat × Nat) (l : tsch_link) (hwf : wf_state s)
    (hl : link_at s.schedule p = some l) :
    link_chain s.plexi_stats_mem l = some (chain_at s p) ∧ (chain_at s p).Nodup ∧
      (∀ i ∈ chain_at s p, ∃ b, s.plexi_stats_mem[i]? = some b ∧ b.count ≠ 0) ∧
      (chain_at s p).length ≤ s.plexi_stats_mem.length := by
  obtain ⟨h1, h2, _, h4, _⟩ := hwf
  have hp : p ∈ all_positions s.schedule := (mem_all_positions _ _).mpr ⟨l, hl⟩
  have hsome := h1 p hp l hl
  obtain ⟨c, hc⟩ := Option.isSome_iff_exists.mp hsome
  have hca : chain_at s p = c := by rw [chain_at_of_link s p l hl, hc]; rfl
  rw [hca]
  have hnd : c.Nodup := hca ▸ h2 p hp
  have hlt := link_chain_lt _ l c hc
  refine ⟨hc, hnd, ?_, nodup_length_le c _ hnd hlt⟩
  intro i hi
  have hil := hlt i hi
  refine ⟨s.plexi_stats_mem[i], by simp [hil], ?_⟩
  exact h4 p hp i (hca ▸ hi) _ (by simp [hil])

theorem wf_disjoint (s : plexi_state) (p q : Nat × Nat) (hwf : wf_state s) (hpq : p ≠ q) :
    ∀ i ∈ chain_at s p, i ∉ chain_at s q := by
  intro i hi hiq
  have hp : p ∈ all_positions s.schedule := by
    cases h : link_at s.schedule p with
    | none => rw [chain_at_of_none s p h] at hi; simp at hi
    | some l => exact (mem_all_positions _ _).mpr ⟨l, h⟩
  have hq : q ∈ all_positions s.schedule := by
    cases h : link_at s.schedule q with
    | none => rw [chain_at_of_none s q h] at hiq; simp at hiq
    | some l => exact (mem_all_positions _ _).mpr ⟨l, h⟩
  exact hwf.2.2.1 p hp q hq hpq i hi hiq

theorem memb_inmemb_congr (m m1 : memb) (ptr : Option Nat) (h : m1.length = m.length) :
    memb_inmemb m1 ptr = memb_inmemb m ptr := by
  unfold memb_inmemb
  rw [h]

/-- The chain of a link is the same in a pool of the same size that agrees on
the slots of the chain. -/
theorem link_chain_congr (m m1 : memb) (l : tsch_link) (c : List Nat)
    (h : link_chain m l = some c) (hlen : m1.length = m.length)
    (hnd : c.Nodup) (hsame : ∀ i ∈ c, m1[i]? = m[i]?) : link_chain m1 l = some c := by
  rcases link_chain_cases m l c h with ⟨hin, hc⟩ | ⟨hin, rfl⟩
  · apply link_chain_of_is_chain
    · rw [memb_inmemb_congr m m1 _ hlen]; exact hin
    · apply is_chain_congr m m1 _ _ hc
      intro i hi b hb
      exact ⟨b, by rw [hsame i hi]; exact hb, rfl⟩
    · rw [hlen]
      exact nodup_length_le c _ hnd (is_chain_lt m _ _ hc)
  · unfold link_chain
    rw [memb_inmemb_congr m m1 _ hlen, hin]
    rfl

theorem record_view_congr (m m1 : memb) (i : Nat) (h : m1[i]? = m[i]?) :
    record_view m1 i = record_view m i := by
  unfold record_view
  rw [h]

/-- A step that works on the chain of the link at `p` only: the state
afterwards is well formed and the chains of the other links are as before. -/
theorem wf_after (s s1 : plexi_state) (p : Nat × Nat) (l1 : tsch_link) (c1 : List Nat)
    (hwf : wf_state s)
    (hpos : all_positions s1.schedule = all_positions s.schedule)
    (hother : ∀ q, q ≠ p → link_at s1.schedule q = link_at s.schedule q)
    (hlen : s1.plexi_stats_mem.length = s.plexi_stats_mem.length)
    (hsame : ∀ q, q ≠ p → ∀ i ∈ chain_at s q, s1.plexi_stats_mem[i]? = s.plexi_stats_mem[i]?)
    (hp : link_at s1.schedule p = some l1) (hc1 : link_chain s1.plexi_stats_mem l1 = some c1)
    (hnd : c1.Nodup) (hdis : ∀ i ∈ c1, ∀ q, q ≠ p → i ∉ chain_at s q)
    (hused : ∀ i ∈ c1, ∀ b, s1.plexi_stats_mem[i]? = some b → b.count ≠ 0)
    (hwords : ∀ b ∈ s1.plexi_stats_mem, b.obj.metainfo < 65536 ∧ b.obj.value < 65536) :
    wf_state s1 ∧ chain_at s1 p = c1 ∧
      ∀ q, q ≠ p → chain_at s1 q = chain_at s q ∧ records_at s1 q = records_at s q := by
  have hcp : chain_at s1 p = c1 := by rw [chain_at_of_link s1 p l1 hp, hc1]; rfl
  have hq : ∀ q, q ≠ p → ∀ lq, link_at s.schedule q = some lq →
      link_chain s1.plexi_stats_mem lq = some (chain_at s q) := by
    intro q hqp lq hlq
    obtain ⟨h1, h2, _, _⟩ := wf_link s q lq hwf hlq
    exact link_chain_congr _ _ lq _ h1 hlen h2 (hsame q hqp)
  have hcq : ∀ q, q ≠ p → chain_at s1 q = chain_at s q := by
    intro q hqp
    cases hlq : link_at s.schedule q with
    | none =>
      rw [chain_at_of_none s q hlq, chain_at_of_none s1 q (by rw [hother q hqp]; exact hlq)]
    | some lq =>
      rw [chain_at_of_link s1 q lq (by rw [hother q hqp]; exact hlq), hq q hqp lq hlq]
      rfl
  refine ⟨⟨?_, ?_, ?_, ?_, hwords⟩, hcp, ?_⟩
  · intro q hqpos lq hlq
    by_cases hqp : q = p
    · subst hqp
      rw [hp] at hlq
      simp only [Option.some.injEq] at hlq
      subst hlq
      rw [hc1]; rfl
    · rw [hother q hqp] at hlq
      rw [hq q hqp lq hlq]; rfl
  · intro q _
    by_cases hqp : q = p
    · subst hqp; rw [hcp]; exact hnd
    · rw [hcq q hqp]
      cases hlq : link_at s.schedule q with
      | none => rw [chain_at_of_none s q hlq]; exact List.nodup_nil
      | some lq => exact (wf_link s q lq hwf hlq).2.1
  · intro q1 _ q2 _ hne i hi hi2
    by_cases h1 : q1 = p
    · subst h1
      have h2 : q2 ≠ q1 := fun e => hne e.symm
      rw [hcp] at hi
      rw [hcq q2 h2] at hi2
      exact hdis i hi q2 h2 hi2
    · by_cases h2 : q2 = p
      · subst h2
        rw [hcp] at hi2
        rw [hcq q1 h1] at hi
        exact hdis i hi2 q1 h1 hi
      · rw [hcq q1 h1] at hi
        rw [hcq q2 h2] at hi2
        exact wf_disjoint s q1 q2 hwf hne i hi hi2
  · intro q hqpos i hi b hb
    by_cases hqp : q = p
    · subst hqp
      rw [hcp] at hi
      exact hused i hi b hb
    · rw [hcq q hqp] at hi
      rw [hsame q hqp i hi] at hb
      rw [hpos] at hqpos
      exact hwf.2.2.2.1 q hqpos i hi b hb
  · intro q hqp
    refine ⟨hcq q hqp, ?_⟩
    rw [records_at_eq, records_at_eq, hcq q hqp]
    apply chain_records_congr
    intro i hi
    exact record_view_congr _ _ i (hsame q hqp i hi)

/-! ### The body of the walk, case by case -/

theorem link_scan_eq (req : post_request) (s : plexi_state) (p : Nat × Nat) (l : tsch_link)
    (hwf : wf_state s) (hl : link_at s.schedule p = some l) :
    (if memb_inmemb s.plexi_stats_mem l.data then
        post_stats_scan s.plexi_stats_mem req.stats req.flags s.plexi_stats_mem.length
          l.data none
      else some (scan_result.at_end none)) =
      some (scan_of_match (chain_at s p) none
        (match_records req.stats req.flags (records_at s p))) := by
  obtain ⟨h1, _, _, h4⟩ := wf_link s p l hwf hl
  rw [records_at_eq]
  rcases link_chain_cases _ l _ h1 with ⟨hin, hc⟩ | ⟨hin, he⟩
  · rw [if_pos hin]
    exact scan_eq _ _ _ _ _ _ _ hc h4
  · rw [hin, he]
    simp [chain_records, match_records, scan_of_match]

theorem post_link_skip (req : post_request) (s : plexi_state) (p : Nat × Nat)
    (h : ∀ l, link_at s.schedule p = some l → ¬ link_selected req l) :
    post_stats_link req s p = some (none, s, false) := by
  unfold post_stats_link
  cases hl : link_at s.schedule p with
  | none => rfl
  | some l =>
    have := h l hl
    unfold link_selected at this
    simp only [if_neg this]

theorem post_link_conflict (req : post_request) (s : plexi_state) (p : Nat × Nat)
    (l : tsch_link) (hwf : wf_state s) (hl : link_at s.schedule p = some l)
    (hsel : link_selected req l)
    (hm : match_records req.stats req.flags (records_at s p) = match_result.conflict) :
    post_stats_link req s p =
      some (some ⟨some coap_status.BAD_REQUEST_4_00,
        "Statistics ID represents a different metric"⟩, s, false) := by
  unfold link_selected at hsel
  unfold post_stats_link
  simp only [hl, if_pos hsel, link_scan_eq req s p l hwf hl, hm, scan_of_match]

theorem post_link_refused (req : post_request) (s : plexi_state) (p : Nat × Nat)
    (l : tsch_link) (hwf : wf_state s) (hl : link_at s.schedule p = some l)
    (hsel : link_selected req l)
    (hm : match_records req.stats req.flags (records_at s p) = match_result.absent)
    (hr : creation_refused req l) :
    post_stats_link req s p =
      some (some ⟨some coap_status.BAD_REQUEST_4_00,
        "Broadcast cells cannot measure ETX and PDR"⟩, s, false) := by
  unfold link_selected at hsel
  unfold creation_refused at hr
  unfold post_stats_link
  simp only [hl, if_pos hsel, link_scan_eq req s p l hwf hl, hm, scan_of_match, if_pos hr]

theorem post_link_full (req : post_request) (s : plexi_state) (p : Nat × Nat)
    (l : tsch_link) (hwf : wf_state s) (hl : link_at s.schedule p = some l)
    (hsel : link_selected req l)
    (hm : match_records req.stats req.flags (records_at s p) = match_result.absent)
    (hr : ¬ creation_refused req l)
    (hfull : ∀ b ∈ s.plexi_stats_mem, b.count ≠ 0) :
    post_stats_link req s p =
      some (some ⟨some coap_status.INTERNAL_SERVER_ERROR_5_00,
        "Not enough memory (too many statistics)"⟩, s, false) := by
  unfold link_selected at hsel
  unfold creation_refused at hr
  have ha : ∃ m1, memb_alloc s.plexi_stats_mem = (none, m1) := by
    cases h : memb_alloc s.plexi_stats_mem with
    | mk r m1 =>
      cases r with
      | none => exact ⟨m1, rfl⟩
      | some j =>
        obtain ⟨b, hb, hc, _⟩ := memb_alloc_some _ _ _ h
        exact absurd hc (hfull b (List.getElem?_mem hb))
  obtain ⟨m1, ha⟩ := ha
  unfold post_stats_link
  simp only [hl, if_pos hsel, link_scan_eq req s p l hwf hl, hm, scan_of_match, if_neg hr, ha]

theorem nodup_getElem?_inj (xs : List Nat) (hnd : xs.Nodup) (n k i : Nat)
    (h1 : xs[n]? = some i) (h2 : xs[k]? = some i) : n = k := by
  obtain ⟨hn, e1⟩ := List.getElem?_eq_some_iff.mp h1
  obtain ⟨hk, e2⟩ := List.getElem?_eq_some_iff.mp h2
  exact (List.Nodup.getElem_inj_iff hnd).mp (e1.trans e2.symm)

theorem update_record_view (r stats : plexi_stats) (hs : stats.metainfo < 65536) :
    ({ post_stats_update_record r stats with next := none } : plexi_stats) =
      post_stats_update_record { r with next := none } stats := by
  rw [update_record_eq r stats hs, update_record_eq _ stats hs]

theorem mem_memb_store (m : memb) (i : Nat) (f : plexi_stats → plexi_stats) (b1 : memb_block)
    (h : b1 ∈ memb_store m i f) :
    b1 ∈ m ∨ ∃ b, m[i]? = some b ∧ b1 = { b with obj := f b.obj } := by
  obtain ⟨n, hn⟩ := List.mem_iff_getElem?.mp h
  rw [memb_store_getElem?] at hn
  by_cases hni : n = i
  · subst hni
    simp only [if_true] at hn
    cases hb : m[n]? with
    | none => simp [hb] at hn
    | some b =>
      simp only [hb, Option.map_some', Option.some.injEq] at hn
      exact Or.inr ⟨b, rfl, hn.symm⟩
  · simp only [hni, if_false] at hn
    exact Or.inl (List.getElem?_mem hn)

/-- The body on a link whose chain holds the record looked for: the record is
updated in place, nothing else changes. -/
theorem post_link_update (req : post_request) (s : plexi_state) (p : Nat × Nat)
    (l : tsch_link) (k : Nat) (hwf : wf_state s) (hreq : request_words req)
    (hl : link_at s.schedule p = some l) (hsel : link_selected req l)
    (hm : match_records req.stats req.flags (records_at s p) = match_result.found k) :
    ∃ s1 r, post_stats_link req s p = some (none, s1, true) ∧ wf_state s1 ∧
      s1.schedule = s.schedule ∧
      s1.plexi_stats_mem.length = s.plexi_stats_mem.length ∧
      memb_used s1.plexi_stats_mem = memb_used s.plexi_stats_mem ∧
      (records_at s p)[k]? = some r ∧
      records_at s1 p = (records_at s p).set k (post_stats_update_record r req.stats) ∧
      ∀ q, q ≠ p → records_at s1 q = records_at s q := by
  obtain ⟨hc, hnd, hused, hclen⟩ := wf_link s p l hwf hl
  obtain ⟨r, hr, _⟩ := match_records_found _ _ _ _ hm
  have hrec := records_at_eq s p
  have hr2 := hr
  rw [hrec, chain_records, List.getElem?_map] at hr2
  cases hck : (chain_at s p)[k]? with
  | none => simp [hck] at hr2
  | some i =>
    simp only [hck, Option.map_some', Option.some.injEq] at hr2
    have hic : i ∈ chain_at s p := List.getElem?_mem hck
    obtain ⟨b, hb, hbc⟩ := hused i hic
    have hgetD : (chain_at s p).getD k 0 = i := by
      rw [List.getD_eq_getElem?_getD, hck]; rfl
    have hstep : post_stats_link req s p =
        some (none, ⟨s.schedule, memb_store s.plexi_stats_mem i
          (fun r => post_stats_update_record r req.stats)⟩, true) := by
      unfold link_selected at hsel
      unfold post_stats_link
      simp only [hl, if_pos hsel, link_scan_eq req s p l hwf hl, hm, scan_of_match, hgetD]
    have hget : ∀ n, (memb_store s.plexi_stats_mem i
        (fun r => post_stats_update_record r req.stats))[n]? =
        if n = i then some { b with obj := post_stats_update_record b.obj req.stats }
        else s.plexi_stats_mem[n]? := by
      intro n
      rw [memb_store_getElem?, hb]
      rfl
    have hfields := update_record_fields b.obj req.stats hreq.1
    have hafter := wf_after s ⟨s.schedule, memb_store s.plexi_stats_mem i
        (fun r => post_stats_update_record r req.stats)⟩ p l (chain_at s p) hwf rfl
      (fun _ _ => rfl)
      (memb_store_length s.plexi_stats_mem i (fun r => post_stats_update_record r req.stats))
      (by
        intro q hq n hn
        have hne : n ≠ i := by
          intro e
          subst e
          exact wf_disjoint s q p hwf hq n hn hic
        simp only [hget, hne, if_false])
      hl
      (by
        rcases link_chain_cases _ l _ hc with ⟨hin, hch⟩ | ⟨hin, he⟩
        · apply link_chain_of_is_chain
          · rw [memb_inmemb_congr _ _ _ (memb_store_length _ _ _)]; exact hin
          · apply is_chain_congr _ _ _ _ hch
            intro n _ bn hbn
            by_cases hni : n = i
            · rw [hni, hb] at hbn
              simp only [Option.some.injEq] at hbn
              subst hbn
              exact ⟨_, by rw [hget, if_pos hni], hfields.1⟩
            · exact ⟨bn, by simp only [hget, hni, if_false]; exact hbn, rfl⟩
          · simp only [memb_store_length]; exact hclen
        · rw [he] at hic
          simp at hic)
      hnd
      (fun n hn q hq => wf_disjoint s p q hwf (fun e => hq e.symm) n hn)
      (by
        intro n hn bn hbn
        simp only [hget] at hbn
        by_cases hni : n = i
        · simp only [hni, if_true, Option.some.injEq] at hbn
          subst hbn
          exact hbc
        · simp only [hni, if_false] at hbn
          obtain ⟨b2, hb2, hc2⟩ := hused n hn
          rw [hb2] at hbn
          simp only [Option.some.injEq] at hbn
          subst hbn
          exact hc2)
      (by
        intro b1 hb1
        rcases mem_memb_store s.plexi_stats_mem i
          (fun r => post_stats_update_record r req.stats) b1 hb1 with h | ⟨b2, hb2, rfl⟩
        · exact hwf.2.2.2.2 b1 h
        · rw [hb] at hb2
          simp only [Option.some.injEq] at hb2
          subst hb2
          exact ⟨hfields.2.2.1, by rw [hfields.2.1]; exact hreq.2⟩)
    obtain ⟨hwf1, hchain1, hframe⟩ := hafter
    refine ⟨_, r, hstep, hwf1, rfl,
      memb_store_length s.plexi_stats_mem i (fun r => post_stats_update_record r req.stats),
      memb_used_store s.plexi_stats_mem i (fun r => post_stats_update_record r req.stats), hr, ?_,
      fun q hq => (hframe q hq).2⟩
    rw [records_at_eq, hchain1, hrec]
    apply List.ext_getElem?
    intro n
    simp only [chain_records, List.getElem?_set, List.getElem?_map, List.length_map]
    by_cases hnk : k = n
    · subst hnk
      have hklt : k < (chain_at s p).length := (List.getElem?_eq_some_iff.mp hck).1
      simp only [if_true, hklt, hck, Option.map_some', Option.some.injEq]
      rw [← hr2]
      unfold record_view
      simp only [hget, if_true, hb]
      exact update_record_view b.obj req.stats hreq.1
    · simp only [hnk, if_false]
      cases hcn : (chain_at s p)[n]? with
      | none => rfl
      | some i1 =>
        simp only [Option.map_some', Option.some.injEq]
        have hne : i1 ≠ i := by
          intro e
          subst e
          exact hnk (nodup_getElem?_inj _ hnd _ _ _ hck hcn)
        apply record_view_congr
        simp only [hget, hne, if_false]

theorem wf_used (s : plexi_state) (q : Nat × Nat) (i : Nat) (hwf : wf_state s)
    (hi : i ∈ chain_at s q) : ∃ b, s.plexi_stats_mem[i]? = some b ∧ b.count ≠ 0 := by
  cases hl : link_at s.schedule q with
  | none => rw [chain_at_of_none s q hl] at hi; simp at hi
  | some l => exact (wf_link s q l hwf hl).2.2.1 i hi

/-- The body on a link whose chain holds the record looked for, with the fields
the request writes already in it: nothing changes. -/
theorem post_link_noop (req : post_request) (s : plexi_state) (p : Nat × Nat)
    (l : tsch_link) (k : Nat) (r : plexi_stats) (hwf : wf_state s) (hreq : request_words req)
    (hl : link_at s.schedule p = some l) (hsel : link_selected req l)
    (hm : match_records req.stats req.flags (records_at s p) = match_result.found k)
    (hr : (records_at s p)[k]? = some r)
    (hw : plexi_get_statistics_window (some r) = plexi_get_statistics_window (some req.stats))
    (he : plexi_get_statistics_enable (some r) = plexi_get_statistics_enable (some req.stats))
    (hv : r.value = req.stats.value) :
    post_stats_link req s p = some (none, s, true) := by
  have hr2 := hr
  rw [records_at_eq, chain_records, List.getElem?_map] at hr2
  cases hck : (chain_at s p)[k]? with
  | none => simp [hck] at hr2
  | some i =>
    simp only [hck, Option.map_some', Option.some.injEq] at hr2
    have hic : i ∈ chain_at s p := List.getElem?_mem hck
    obtain ⟨b, hb, _⟩ := wf_used s p i hwf hic
    have hgetD : (chain_at s p).getD k 0 = i := by
      rw [List.getD_eq_getElem?_getD, hck]; rfl
    have hview := record_view_of_some _ i b hb
    rw [hview] at hr2
    subst hr2
    have hid : memb_store s.plexi_stats_mem i
        (fun r => post_stats_update_record r req.stats) = s.plexi_stats_mem := by
      apply memb_store_id
      intro b2 hb2
      rw [hb] at hb2
      simp only [Option.some.injEq] at hb2
      subst hb2
      exact update_record_settled b.obj req.stats
        (hwf.2.2.2.2 b (List.getElem?_mem hb)).1 hreq.1 hw he hv
    unfold link_selected at hsel
    unfold post_stats_link
    simp only [hl, if_pos hsel, link_scan_eq req s p l hwf hl, hm, scan_of_match, hgetD, hid]

theorem alloc_store_getElem? (m m1 : memb) (j : Nat) (f : plexi_stats → plexi_stats)
    (ha : memb_alloc m = (some j, m1)) :
    ∃ bj, m[j]? = some bj ∧ bj.count = 0 ∧
      ∀ n : Nat, (memb_store m1 j f)[n]? = if n = j then some ⟨1, f bj.obj⟩ else m[n]? := by
  obtain ⟨bj, hbj, hcj, rfl⟩ := memb_alloc_some m m1 j ha
  refine ⟨bj, hbj, hcj, ?_⟩
  intro n
  have hlt : j < m.length := (List.getElem?_eq_some_iff.mp hbj).1
  rw [memb_store_getElem?]
  by_cases hn : n = j
  · subst hn
    simp [List.getElem?_set, hlt]
  · have hn2 : j ≠ n := fun e => hn e.symm
    simp [hn, List.getElem?_set, hn2]

theorem getElem?_length_eq (m m1 : memb) (h : ∀ n : Nat, m1[n]? = none ↔ m[n]? = none) :
    m1.length = m.length := by
  have h1 := h m.length
  have h2 := h m1.length
  simp only [List.getElem?_eq_none_iff] at h1 h2
  have a := h1.mpr (Nat.le_refl _)
  have b := h2.mp (Nat.le_refl _)
  omega

/-- The lemma `wf_after` with the state afterwards given by its schedule and
its pool. -/
theorem wf_after_mk (s : plexi_state) (sched1 : List tsch_slotframe) (m1 : memb)
    (p : Nat × Nat) (l1 : tsch_link) (c1 : List Nat)
    (hwf : wf_state s)
    (hpos : all_positions sched1 = all_positions s.schedule)
    (hother : ∀ q, q ≠ p → link_at sched1 q = link_at s.schedule q)
    (hlen : m1.length = s.plexi_stats_mem.length)
    (hsame : ∀ q, q ≠ p → ∀ i ∈ chain_at s q, m1[i]? = s.plexi_stats_mem[i]?)
    (hp : link_at sched1 p = some l1) (hc1 : link_chain m1 l1 = some c1)
    (hnd : c1.Nodup) (hdis : ∀ i ∈ c1, ∀ q, q ≠ p → i ∉ chain_at s q)
    (hused : ∀ i ∈ c1, ∀ b, m1[i]? = some b → b.count ≠ 0)
    (hwords : ∀ b ∈ m1, b.obj.metainfo < 65536 ∧ b.obj.value < 65536) :
    wf_state ⟨sched1, m1⟩ ∧ chain_at ⟨sched1, m1⟩ p = c1 ∧
      ∀ q, q ≠ p → chain_at ⟨sched1, m1⟩ q = chain_at s q ∧
        records_at ⟨sched1, m1⟩ q = records_at s q :=
  wf_after s ⟨sched1, m1⟩ p l1 c1 hwf hpos hother hlen hsame hp hc1 hnd hdis hused hwords

theorem record_view_eq (m : memb) (i : Nat) (b : memb_block) (r : plexi_stats)
    (hb : m[i]? = some b) (hr : r = { b.obj with next := none }) : record_view m i = r := by
  rw [record_view_of_some m i b hb, hr]

/-- The body on a link whose chain holds neither the record looked for nor a
conflicting one, when creation is allowed and a block is free: one record is
appended to the chain, nothing else changes. -/
theorem post_link_create (req : post_request) (s : plexi_state) (p : Nat × Nat)
    (l : tsch_link) (hwf : wf_state s) (hreq : request_words req)
    (hl : link_at s.schedule p = some l) (hsel : link_selected req l)
    (hm : match_records req.stats req.flags (records_at s p) = match_result.absent)
    (hr : ¬ creation_refused req l)
    (hfree : ∃ b ∈ s.plexi_stats_mem, b.count = 0) :
    ∃ s1, post_stats_link req s p = some (none, s1, true) ∧ wf_state s1 ∧
      skeleton s1.schedule = skeleton s.schedule ∧
      s1.plexi_stats_mem.length = s.plexi_stats_mem.length ∧
      memb_used s1.plexi_stats_mem = memb_used s.plexi_stats_mem + 1 ∧
      records_at s1 p = records_at s p ++ [created_view req] ∧
      ∀ q, q ≠ p → records_at s1 q = records_at s q := by
  obtain ⟨hc, hnd, hused, hclen⟩ := wf_link s p l hwf hl
  obtain ⟨j, m1, ha⟩ := memb_alloc_of_free _ hfree
  obtain ⟨bj, hbj, hcj, hget2⟩ := alloc_store_getElem? _ m1 j
    (fun r => post_stats_new_record r req.stats req.to_init) ha
  have hnew : post_stats_new_record bj.obj req.stats req.to_init = created_view req :=
    new_record_eq _ _ _ hreq.1
  simp only [hnew] at hget2
  have hjlt : j < s.plexi_stats_mem.length := (List.getElem?_eq_some_iff.mp hbj).1
  have hjfree : ∀ q, j ∉ chain_at s q := by
    intro q hj
    obtain ⟨b, hb, hcb⟩ := wf_used s q j hwf hj
    rw [hbj] at hb
    simp only [Option.some.injEq] at hb
    subst hb
    exact hcb hcj
  have hlen2 : (memb_store m1 j
      (fun r => post_stats_new_record r req.stats req.to_init)).length =
      s.plexi_stats_mem.length := by
    obtain ⟨_, _, _, rfl⟩ := memb_alloc_some _ m1 j ha
    rw [memb_store_length, List.length_set]
  have hused2 : memb_used (memb_store m1 j
      (fun r => post_stats_new_record r req.stats req.to_init)) =
      memb_used s.plexi_stats_mem + 1 := by
    rw [memb_used_store, memb_used_alloc _ _ _ ha]
  have hwords2 : ∀ b ∈ memb_store m1 j
      (fun r => post_stats_new_record r req.stats req.to_init),
      b.obj.metainfo < 65536 ∧ b.obj.value < 65536 := by
    intro b hb
    obtain ⟨n, hn⟩ := List.mem_iff_getElem?.mp hb
    rw [hget2] at hn
    by_cases hnj : n = j
    · simp only [hnj, if_true, Option.some.injEq] at hn
      subst hn
      refine ⟨hreq.1, ?_⟩
      simp only [created_view]
      split
      · exact hreq.2
      · decide
    · simp only [hnj, if_false] at hn
      exact hwf.2.2.2.2 b (List.getElem?_mem hn)
  have hrec := records_at_eq s p
  unfold link_selected at hsel
  unfold creation_refused at hr
  cases hlast : (chain_at s p).getLast? with
  | none =>
    have hnil : chain_at s p = [] := List.getLast?_eq_none_iff.mp hlast
    have hstep : post_stats_link req s p =
        some (none, ⟨set_link_data s.schedule p (some j), memb_store m1 j
          (fun r => post_stats_new_record r req.stats req.to_init)⟩, true) := by
      unfold post_stats_link
      simp only [hl, if_pos hsel, link_scan_eq req s p l hwf hl, hm, scan_of_match,
        if_neg hr, ha, hlast]
    have hafter := wf_after_mk s (set_link_data s.schedule p (some j)) (memb_store m1 j
        (fun r => post_stats_new_record r req.stats req.to_init)) p
      { l with data := some j } [j] hwf
      (by rw [← all_positions_skeleton, skeleton_set_link_data, all_positions_skeleton])
      (by
        intro q hq
        rw [link_at_set_link_data, if_neg hq])
      hlen2
      (by
        intro q _ n hn
        have hne : n ≠ j := by
          intro e
          subst e
          exact hjfree q hn
        rw [hget2, if_neg hne])
      (by
        rw [link_at_set_link_data, if_pos rfl, hl]
        rfl)
      (by
        apply link_chain_of_is_chain
        · simp only [memb_inmemb, hlen2, hjlt, decide_True]
        · exact ⟨rfl, ⟨1, created_view req⟩, by rw [hget2, if_pos rfl], rfl⟩
        · rw [hlen2]
          simp only [List.length_singleton]
          omega)
      (List.nodup_singleton j)
      (by
        intro n hn q _
        simp only [List.mem_singleton] at hn
        subst hn
        exact hjfree q)
      (by
        intro n hn b hb
        simp only [List.mem_singleton] at hn
        subst hn
        rw [hget2, if_pos rfl] at hb
        simp only [Option.some.injEq] at hb
        subst hb
        exact Nat.one_ne_zero)
      hwords2
    obtain ⟨hwf1, hchain1, hframe⟩ := hafter
    refine ⟨_, hstep, hwf1, skeleton_set_link_data _ _ _, hlen2, hused2, ?_,
      fun q hq => (hframe q hq).2⟩
    rw [records_at_eq, hchain1, hrec, hnil]
    simp only [chain_records, List.map_cons, List.map_nil, List.nil_append]
    rw [record_view_eq (memb_store m1 j
      (fun r => post_stats_new_record r req.stats req.to_init)) j ⟨1, created_view req⟩
      (created_view req) (by rw [hget2, if_pos rfl]) rfl]
  | some kk =>
    obtain ⟨c0, hc0⟩ := List.getLast?_eq_some_iff.mp hlast
    have hkc : kk ∈ chain_at s p := by rw [hc0]; simp
    obtain ⟨bk, hbk, hck⟩ := hused kk hkc
    have hkj : kk ≠ j := by
      intro e
      subst e
      exact hjfree p hkc
    have hget3 : ∀ n : Nat, (memb_store (memb_store m1 j
        (fun r => post_stats_new_record r req.stats req.to_init)) kk
        (fun r => { r with next := some j }))[n]? =
        if n = kk then some { bk with obj := { bk.obj with next := some j } }
        else if n = j then some ⟨1, created_view req⟩ else s.plexi_stats_mem[n]? := by
      intro n
      rw [memb_store_getElem?, hget2, hget2, if_neg hkj, hbk]
      rfl
    have hlen3 : (memb_store (memb_store m1 j
        (fun r => post_stats_new_record r req.stats req.to_init)) kk
        (fun r => { r with next := some j })).length = s.plexi_stats_mem.length := by
      rw [memb_store_length, hlen2]
    have hstep : post_stats_link req s p =
        some (none, ⟨s.schedule, memb_store (memb_store m1 j
          (fun r => post_stats_new_record r req.stats req.to_init)) kk
          (fun r => { r with next := some j })⟩, true) := by
      unfold post_stats_link
      simp only [hl, if_pos hsel, link_scan_eq req s p l hwf hl, hm, scan_of_match,
        if_neg hr, ha, hlast]
    have hjc : j ∉ chain_at s p := hjfree p
    have hnd2 : (chain_at s p ++ [j]).Nodup := by
      apply List.Nodup.append hnd (List.nodup_singleton j)
      intro x hx hx2
      simp only [List.mem_singleton] at hx2
      subst hx2
      exact hjc hx
    have hlt2 : ∀ i ∈ chain_at s p ++ [j], i < s.plexi_stats_mem.length := by
      intro i hi
      rcases List.mem_append.mp hi with h | h
      · exact link_chain_lt _ l _ hc i h
      · simp only [List.mem_singleton] at h
        subst h
        exact hjlt
    have hafter := wf_after_mk s s.schedule (memb_store (memb_store m1 j
        (fun r => post_stats_new_record r req.stats req.to_init)) kk
        (fun r => { r with next := some j })) p l (chain_at s p ++ [j]) hwf rfl
      (fun _ _ => rfl) hlen3
      (by
        intro q hq n hn
        have hne : n ≠ j := by
          intro e
          subst e
          exact hjfree q hn
        have hnk : n ≠ kk := by
          intro e
          subst e
          exact wf_disjoint s q p hwf hq n hn hkc
        rw [hget3, if_neg hnk, if_neg hne])
      hl
      (by
        rcases link_chain_cases _ l _ hc with ⟨hin, hch⟩ | ⟨_, he⟩
        · apply link_chain_of_is_chain
          · rw [memb_inmemb_congr _ _ _ hlen3]; exact hin
          · have happ : chain_at s p ++ [j] = c0 ++ [kk, j] := by
              rw [hc0]; simp
            rw [happ]
            rw [hc0] at hch hnd hjc
            apply is_chain_append _ _ _ c0 kk j hch hnd hjc
            · intro i hi b hb
              have hik : i ≠ kk := by
                intro e
                subst e
                have := (List.nodup_append.mp hnd).2.2
                exact this hi (List.mem_singleton_self _)
              have hij : i ≠ j := by
                intro e
                subst e
                exact hjc (List.mem_append_left _ hi)
              exact ⟨b, by rw [hget3, if_neg hik, if_neg hij]; exact hb, rfl⟩
            · exact ⟨_, by rw [hget3, if_pos rfl], rfl⟩
            · exact ⟨_, by rw [hget3, if_neg (fun e => hkj e.symm), if_pos rfl], rfl⟩
          · rw [hlen3]
            exact nodup_length_le _ _ hnd2 hlt2
        · rw [he] at hkc
          simp at hkc)
      hnd2
      (by
        intro n hn q hq
        rcases List.mem_append.mp hn with h | h
        · exact wf_disjoint s p q hwf (fun e => hq e.symm) n h
        · simp only [List.mem_singleton] at h
          subst h
          exact hjfree q)
      (by
        intro n hn b hb
        rw [hget3] at hb
        by_cases hnk : n = kk
        · simp only [hnk, if_true, Option.some.injEq] at hb
          subst hb
          exact hck
        · by_cases hnj : n = j
          · subst hnj
            rw [if_neg hnk, if_pos rfl] at hb
            simp only [Option.some.injEq] at hb
            subst hb
            exact Nat.one_ne_zero
          · simp only [hnk, hnj, if_false] at hb
            rcases List.mem_append.mp hn with h | h
            · obtain ⟨b2, hb2, hc2⟩ := hused n h
              rw [hb2] at hb
              simp only [Option.some.injEq] at hb
              subst hb
              exact hc2
            · simp only [List.mem_singleton] at h
              exact absurd h hnj)
      (by
        intro b hb
        rcases mem_memb_store (memb_store m1 j
          (fun r => post_stats_new_record r req.stats req.to_init)) kk
          (fun r => { r with next := some j }) b hb with h | ⟨b2, hb2, rfl⟩
        · exact hwords2 b h
        · exact hwords2 b2 (List.getElem?_mem hb2))
    obtain ⟨hwf1, hchain1, hframe⟩ := hafter
    refine ⟨_, hstep, hwf1, rfl, hlen3, ?_, ?_, fun q hq => (hframe q hq).2⟩
    · exact (memb_used_store (memb_store m1 j
        (fun r => post_stats_new_record r req.stats req.to_init)) kk
        (fun r => { r with next := some j })).trans hused2
    · rw [records_at_eq, hchain1, hrec]
      simp only [chain_records, List.map_append, List.map_cons, List.map_nil]
      congr 1
      · apply List.map_congr_left
        intro n hn
        have hnj : n ≠ j := by
          intro e
          subst e
          exact hjc hn
        by_cases hnk : n = kk
        · subst hnk
          rw [record_view_of_some _ n bk hbk]
          exact record_view_eq _ n { bk with obj := { bk.obj with next := some j } } _
            (by rw [hget3, if_pos rfl]) rfl
        · apply record_view_congr
          rw [hget3, if_neg hnk, if_neg hnj]
      · rw [record_view_eq (memb_store (memb_store m1 j
          (fun r => post_stats_new_record r req.stats req.to_init)) kk
          (fun r => { r with next := some j })) j ⟨1, created_view req⟩ (created_view req)
          (by rw [hget3, if_neg (fun e => hkj e.symm), if_pos rfl]) rfl]

/-! ### One step of the walk -/

theorem memb_free_block_iff (m : memb) :
    (∃ b ∈ m, b.count = 0) ↔ memb_used m < m.length := by
  unfold memb_used
  constructor
  · rintro ⟨b, hb, hc⟩
    have hle := List.countP_le_length (fun b : memb_block => decide (b.count ≠ 0)) (l := m)
    rcases Nat.lt_or_ge (List.countP (fun b : memb_block => decide (b.count ≠ 0)) m)
      m.length with h | h
    · exact h
    · have heq : List.countP (fun b : memb_block => decide (b.count ≠ 0)) m = m.length :=
        Nat.le_antisymm hle h
      have := (List.countP_eq_length.mp heq) b hb
      simp [hc] at this
  · intro h
    by_contra hno
    have hall : ∀ a ∈ m, (fun b : memb_block => decide (b.count ≠ 0)) a = true := by
      intro a ha
      by_contra hc
      apply hno
      refine ⟨a, ha, ?_⟩
      simpa using hc
    have := List.countP_eq_length.mpr hall
    omega

theorem link_at_of_skeleton (sched sched1 : List tsch_slotframe) (p : Nat × Nat)
    (h : skeleton sched1 = skeleton sched) :
    (link_at sched1 p).map (fun l => ({ l with data := none } : tsch_link)) =
      (link_at sched p).map (fun l => ({ l with data := none } : tsch_link)) := by
  rw [← link_at_skeleton, ← link_at_skeleton, h]

theorem selected_of_skeleton (req : post_request) (s s1 : plexi_state) (p : Nat × Nat)
    (h : skeleton s1.schedule = skeleton s.schedule) :
    selected_at req s1 p = selected_at req s p := by
  have := link_at_of_skeleton s.schedule s1.schedule p h
  unfold selected_at
  cases h1 : link_at s1.schedule p with
  | none =>
    cases h2 : link_at s.schedule p with
    | none => rfl
    | some l => simp [h1, h2] at this
  | some l1 =>
    cases h2 : link_at s.schedule p with
    | none => simp [h1, h2] at this
    | some l =>
      simp only [h1, h2, Option.map_some', Option.some.injEq, tsch_link.mk.injEq] at this
      simp only [link_selected, this.2.2.2.1, this.2.2.2.2.2.1]

theorem selected_at_true (req : post_request) (s : plexi_state) (p : Nat × Nat)
    (h : selected_at req s p = true) :
    ∃ l, link_at s.schedule p = some l ∧ link_selected req l := by
  unfold selected_at at h
  cases hl : link_at s.schedule p with
  | none => simp [hl] at h
  | some l =>
    simp only [hl, decide_eq_true_eq] at h
    exact ⟨l, rfl, h⟩

theorem selected_at_of_link (req : post_request) (s : plexi_state) (p : Nat × Nat)
    (l : tsch_link) (hl : link_at s.schedule p = some l) :
    selected_at req s p = decide (link_selected req l) := by
  simp [selected_at, hl]

/-- What one step of the walk does, in all cases. -/
theorem post_link_step (req : post_request) (s : plexi_state) (p : Nat × Nat)
    (hwf : wf_state s) (hreq : request_words req) :
    ∃ r s1 t, post_stats_link req s p = some (r, s1, t) ∧ wf_state s1 ∧
      skeleton s1.schedule = skeleton s.schedule ∧
      s1.plexi_stats_mem.length = s.plexi_stats_mem.length ∧
      (∀ q, q ≠ p → records_at s1 q = records_at s q) ∧
      (r ≠ none → s1 = s) ∧
      (r = none → t = selected_at req s p) ∧
      (r = none → selected_at req s p = false → s1 = s) ∧
      (r = none → selected_at req s p = true →
        records_at s1 p = records_after req (records_at s p) ∧
        match_records req.stats req.flags (records_at s p) ≠ match_result.conflict) := by
  cases hl : link_at s.schedule p with
  | none =>
    have hsk := post_link_skip req s p (fun l h => by rw [hl] at h; simp at h)
    have hsel : selected_at req s p = false := by simp [selected_at, hl]
    exact ⟨none, s, false, hsk, hwf, rfl, rfl, fun _ _ => rfl, fun _ => rfl,
      fun _ => hsel.symm, fun _ _ => rfl, fun _ h => by rw [hsel] at h; simp at h⟩
  | some l =>
    have hsa := selected_at_of_link req s p l hl
    by_cases hsel : link_selected req l
    · have hst : selected_at req s p = true := by rw [hsa]; simpa using hsel
      cases hm : match_records req.stats req.flags (records_at s p) with
      | conflict =>
        exact ⟨_, s, false, post_link_conflict req s p l hwf hl hsel hm, hwf, rfl, rfl,
          fun _ _ => rfl, fun _ => rfl, fun h => by simp at h, fun h => by simp at h,
          fun h => by simp at h⟩
      | absent =>
        by_cases hr : creation_refused req l
        · exact ⟨_, s, false, post_link_refused req s p l hwf hl hsel hm hr, hwf, rfl, rfl,
            fun _ _ => rfl, fun _ => rfl, fun h => by simp at h, fun h => by simp at h,
            fun h => by simp at h⟩
        · by_cases hfree : ∃ b ∈ s.plexi_stats_mem, b.count = 0
          · obtain ⟨s1, h1, h2, h3, h4, _, h6, h7⟩ :=
              post_link_create req s p l hwf hreq hl hsel hm hr hfree
            refine ⟨none, s1, true, h1, h2, h3, h4, h7, fun h => absurd rfl h,
              fun _ => hst.symm, fun _ h => by rw [hst] at h; simp at h, fun _ _ => ⟨?_, ?_⟩⟩
            · rw [h6]
              simp only [records_after, hm]
            · simp
          · have hfull : ∀ b ∈ s.plexi_stats_mem, b.count ≠ 0 :=
              fun b hb hc => hfree ⟨b, hb, hc⟩
            exact ⟨_, s, false, post_link_full req s p l hwf hl hsel hm hr hfull, hwf, rfl,
              rfl, fun _ _ => rfl, fun _ => rfl, fun h => by simp at h, fun h => by simp at h,
              fun h => by simp at h⟩
      | found k =>
        obtain ⟨s1, r, h1, h2, h3, h4, _, h6, h7, h8⟩ :=
          post_link_update req s p l k hwf hreq hl hsel hm
        refine ⟨none, s1, true, h1, h2, by rw [h3], h4, h8, fun h => absurd rfl h,
          fun _ => hst.symm, fun _ h => by rw [hst] at h; simp at h, fun _ _ => ⟨?_, ?_⟩⟩
        · rw [h7]
          simp only [records_after, hm, h6]
        · simp
    · have hst : selected_at req s p = false := by rw [hsa]; simpa using hsel
      have hsk := post_link_skip req s p (fun l1 h => by
        rw [hl] at h
        simp only [Option.some.injEq] at h
        subst h
        exact hsel)
      exact ⟨none, s, false, hsk, hwf, rfl, rfl, fun _ _ => rfl, fun _ => rfl,
        fun _ => hst.symm, fun _ _ => rfl, fun _ h => by rw [hst] at h; simp at h⟩

/-! ### The walk over the visited links -/

theorem post_loop_nil (req : post_request) (s : plexi_state) (inst : Bool) :
    post_stats_loop req [] s inst = some (none, s, inst) := rfl

theorem post_loop_cons_ok (req : post_request) (p : Nat × Nat) (ps : List (Nat × Nat))
    (s s1 : plexi_state) (inst t : Bool)
    (h : post_stats_link req s p = some (none, s1, t)) :
    post_stats_loop req (p :: ps) s inst = post_stats_loop req ps s1 (inst || t) := by
  simp only [post_stats_loop, h]

theorem post_loop_cons_error (req : post_request) (p : Nat × Nat) (ps : List (Nat × Nat))
    (s s1 : plexi_state) (inst t : Bool) (r : coap_response)
    (h : post_stats_link req s p = some (some r, s1, t)) :
    post_stats_loop req (p :: ps) s inst = some (some r, s1, inst) := by
  simp only [post_stats_loop, h]

/-- The walk always ends on a well-formed state, in a well-formed state, and it
leaves the chains of the links it does not visit as they are. -/
theorem post_loop_run (req : post_request) (hreq : request_words req) :
    ∀ (ps : List (Nat × Nat)) (s : plexi_state) (inst : Bool), wf_state s →
      ∃ r s1 i1, post_stats_loop req ps s inst = some (r, s1, i1) ∧ wf_state s1 ∧
        skeleton s1.schedule = skeleton s.schedule ∧
        s1.plexi_stats_mem.length = s.plexi_stats_mem.length ∧
        ∀ q, q ∉ ps → records_at s1 q = records_at s q := by
  intro ps
  induction ps with
  | nil =>
    intro s inst hwf
    exact ⟨none, s, inst, rfl, hwf, rfl, rfl, fun _ _ => rfl⟩
  | cons p ps ih =>
    intro s inst hwf
    obtain ⟨r, s1, t, h1, h2, h3, h4, h5, h6, _⟩ := post_link_step req s p hwf hreq
    cases r with
    | some e =>
      refine ⟨some e, s1, inst, post_loop_cons_error req p ps s s1 inst t e h1, h2, h3, h4, ?_⟩
      intro q hq
      exact h5 q (fun e => hq (e ▸ List.mem_cons_self _ _))
    | none =>
      obtain ⟨r2, s2, i2, g1, g2, g3, g4, g5⟩ := ih s1 (inst || t) h2
      refine ⟨r2, s2, i2, ?_, g2, g3.trans h3, g4.trans h4, ?_⟩
      · rw [post_loop_cons_ok req p ps s s1 inst t h1, g1]
      · intro q hq
        rw [g5 q (fun h => hq (List.mem_cons_of_mem _ h)),
          h5 q (fun e => hq (e ▸ List.mem_cons_self _ _))]

theorem post_loop_append (req : post_request) (pre ps : List (Nat × Nat)) :
    ∀ (s : plexi_state) (inst : Bool) (s1 : plexi_state) (i1 : Bool),
      post_stats_loop req pre s inst = some (none, s1, i1) →
      post_stats_loop req (pre ++ ps) s inst = post_stats_loop req ps s1 i1 := by
  induction pre with
  | nil =>
    intro s inst s1 i1 h
    simp only [post_stats_loop, Option.some.injEq, Prod.mk.injEq, true_and] at h
    obtain ⟨rfl, rfl⟩ := h
    rfl
  | cons p pre ih =>
    intro s inst s1 i1 h
    simp only [List.cons_append, post_stats_loop] at h ⊢
    cases hp : post_stats_link req s p with
    | none => simp [hp] at h
    | some x =>
      obtain ⟨r, s2, t⟩ := x
      cases r with
      | some e => simp [hp] at h
      | none =>
        simp only [hp] at h ⊢
        exact ih s2 (inst || t) s1 i1 h

/-- The state in which the walk reaches a link: the links visited before it
were handled without an error. -/
theorem post_loop_prefix (req : post_request) (hreq : request_words req)
    (pre : List (Nat × Nat)) (s s1 : plexi_state) (inst i1 : Bool) (hwf : wf_state s)
    (h : post_stats_loop req pre s inst = some (none, s1, i1)) :
    wf_state s1 ∧ skeleton s1.schedule = skeleton s.schedule ∧
      s1.plexi_stats_mem.length = s.plexi_stats_mem.length ∧
      ∀ q, q ∉ pre → records_at s1 q = records_at s q := by
  obtain ⟨r, s2, i2, g1, g2, g3, g4, g5⟩ := post_loop_run req hreq pre s inst hwf
  rw [h] at g1
  simp only [Option.some.injEq, Prod.mk.injEq] at g1
  obtain ⟨_, rfl, _⟩ := g1
  exact ⟨g2, g3, g4, g5⟩

theorem stats_walk_frames_nodup (schedule : List tsch_slotframe) (flags : Nat) (frame : Int) :
    (stats_walk_frames schedule flags frame).Nodup := by
  unfold stats_walk_frames
  split
  · split
    · exact List.nodup_singleton _
    · exact List.nodup_nil
  · exact List.nodup_range _

theorem stats_walk_links_nodup (sf : tsch_slotframe) (flags : Nat) (slot : Int) :
    (stats_walk_links sf flags slot).Nodup := by
  unfold stats_walk_links
  split
  · split
    · exact List.nodup_singleton _
    · exact List.nodup_nil
  · exact List.nodup_range _

/-- The walk visits no link twice. -/
theorem stats_walk_nodup (schedule : List tsch_slotframe) (flags : Nat) (frame slot : Int) :
    (stats_walk schedule flags frame slot).Nodup := by
  unfold stats_walk
  rw [List.nodup_flatMap]
  constructor
  · intro i _
    cases schedule[i]? with
    | none => exact List.nodup_nil
    | some sf =>
      apply List.Nodup.map _ (stats_walk_links_nodup sf flags slot)
      intro a b hab
      simpa using hab
  · apply List.Nodup.pairwise_of_forall_ne (stats_walk_frames_nodup schedule flags frame)
    intro a _ b _ hab
    simp only [Function.onFun]
    intro x hx1 hx2
    have h1 : x.1 = a := by
      cases ha : schedule[a]? with
      | none => simp [ha] at hx1
      | some sf =>
        simp only [ha, List.mem_map] at hx1
        obtain ⟨j, _, rfl⟩ := hx1
        rfl
    have h2 : x.1 = b := by
      cases hb : schedule[b]? with
      | none => simp [hb] at hx2
      | some sf =>
        simp only [hb, List.mem_map] at hx2
        obtain ⟨j, _, rfl⟩ := hx2
        rfl
    exact hab (h1.symm.trans h2)

theorem stats_walk_frames_ne_nil (schedule : List tsch_slotframe) (flags : Nat)
    (frame slot : Int) (p : Nat × Nat) (h : p ∈ stats_walk schedule flags frame slot) :
    stats_walk_frames schedule flags frame ≠ [] := by
  intro he
  unfold stats_walk at h
  rw [he] at h
  simp at h

theorem not_mem_of_split (walk pre post : List (Nat × Nat)) (p : Nat × Nat)
    (hnd : walk.Nodup) (h : walk = pre ++ p :: post) : p ∉ pre ∧ p ∉ post := by
  rw [h] at hnd
  have h1 := List.nodup_append.mp hnd
  have h2 := List.nodup_cons.mp h1.2.1
  exact ⟨fun hp => h1.2.2 hp (List.mem_cons_self _ _), h2.1⟩

/-- The case `'}'` in terms of the walk: the request names a metric and the
walk visits the link `p` after the links `pre`. -/
theorem end_element_split (req : post_request) (s : plexi_state)
    (pre post : List (Nat × Nat)) (p : Nat × Nat)
    (hmetric : plexi_get_statistics_metric (some req.stats) ≠ NONE)
    (hwalk : stats_walk s.schedule req.flags req.slotframe req.slot = pre ++ p :: post) :
    post_stats_end_element req s =
      match post_stats_loop req (pre ++ p :: post) s false with
      | none => none
      | some (some r, s1, _) => some (r, s1)
      | some (none, s1, installed) =>
        if installed then
          some (⟨some coap_status.CHANGED_2_04, ""⟩, s1)
        else
          some (⟨some coap_status.NOT_FOUND_4_04,
            "Link not found to install statistics resource"⟩, s1) := by
  have hne : stats_walk_frames s.schedule req.flags req.slotframe ≠ [] :=
    stats_walk_frames_ne_nil _ _ _ req.slot p (by rw [hwalk]; simp)
  unfold post_stats_end_element
  rw [if_neg hmetric, if_neg hne, hwalk]

/-- The request ends with the error of the link `p` when the walk reaches `p`
and the body returns an error there. -/
theorem end_element_error (req : post_request) (s s1 : plexi_state)
    (pre post : List (Nat × Nat)) (p : Nat × Nat) (inst t : Bool) (e : coap_response)
    (hmetric : plexi_get_statistics_metric (some req.stats) ≠ NONE)
    (hwalk : stats_walk s.schedule req.flags req.slotframe req.slot = pre ++ p :: post)
    (hpre : post_stats_loop req pre s false = some (none, s1, inst))
    (hstep : post_stats_link req s1 p = some (some e, s1, t)) :
    post_stats_end_element req s = some (e, s1) := by
  rw [end_element_split req s pre post p hmetric hwalk,
    post_loop_append req pre (p :: post) s false s1 inst hpre,
    post_loop_cons_error req p post s1 s1 inst t e hstep]

/-- The link `p` when the walk reaches it: its fields and its chain are as at
the start of the request. -/
theorem walk_reaches (req : post_request) (hreq : request_words req) (s s1 : plexi_state)
    (pre post : List (Nat × Nat)) (p : Nat × Nat) (inst : Bool) (l : tsch_link)
    (hwf : wf_state s)
    (hwalk : stats_walk s.schedule req.flags req.slotframe req.slot = pre ++ p :: post)
    (hpre : post_stats_loop req pre s false = some (none, s1, inst))
    (hl : link_at s.schedule p = some l) :
    wf_state s1 ∧ records_at s1 p = records_at s p ∧ p ∉ post ∧
      s1.plexi_stats_mem.length = s.plexi_stats_mem.length ∧
      ∃ l1, link_at s1.schedule p = some l1 ∧ (link_selected req l1 ↔ link_selected req l) ∧
        (creation_refused req l1 ↔ creation_refused req l) := by
  obtain ⟨h1, h2, h3, h4⟩ := post_loop_prefix req hreq pre s s1 false inst hwf hpre
  have hnot := not_mem_of_split _ pre post p (stats_walk_nodup _ _ _ _) hwalk
  refine ⟨h1, h4 p hnot.1, hnot.2, h3, ?_⟩
  have hlk := link_at_of_skeleton s.schedule s1.schedule p h2
  cases hl1 : link_at s1.schedule p with
  | none => simp [hl1, hl] at hlk
  | some l1 =>
    simp only [hl1, hl, Option.map_some', Option.some.injEq, tsch_link.mk.injEq] at hlk
    refine ⟨l1, rfl, ?_, ?_⟩
    · simp only [link_selected, hlk.2.2.2.1, hlk.2.2.2.2.2.1]
    · simp only [creation_refused, hlk.2.2.2.2.1]

theorem conflict_of_unique (stats : plexi_stats) (flags : Nat) (R : List plexi_stats)
    (hid : flags &&& 16 ≠ 0)
    (hmetrics : (R.map (fun r => plexi_get_statistics_metric (some r))).Nodup)
    (hids : (R.map (fun r => plexi_get_statistics_id (some r))).Nodup)
    (hex : ∃ r ∈ R,
      (plexi_get_statistics_metric (some r) = plexi_get_statistics_metric (some stats) ∧
        plexi_get_statistics_id (some r) ≠ plexi_get_statistics_id (some stats)) ∨
      (plexi_get_statistics_id (some r) = plexi_get_statistics_id (some stats) ∧
        plexi_get_statistics_metric (some r) ≠ plexi_get_statistics_metric (some stats))) :
    match_records stats flags R = match_result.conflict := by
  obtain ⟨r, hr, hcase⟩ := hex
  apply match_records_conflict
  · intro r1 hr1 hm1
    obtain ⟨hmm, hmi⟩ := hm1
    have hi1 : plexi_get_statistics_id (some r1) = plexi_get_statistics_id (some stats) := by
      rcases hmi with h | ⟨_, h⟩
      · exact absurd h hid
      · exact h
    rcases hcase with ⟨h1, h2⟩ | ⟨h1, h2⟩
    · have e := List.inj_on_of_nodup_map hmetrics hr hr1 (h1.trans hmm)
      subst e
      exact h2 hi1
    · have e := List.inj_on_of_nodup_map hids hr hr1 (h1.trans hi1.symm)
      subst e
      exact h2 hmm.symm
  · refine ⟨r, hr, ?_⟩
    rcases hcase with ⟨h1, h2⟩ | ⟨h1, h2⟩
    · exact Or.inl ⟨h1.symm, hid, h2⟩
    · exact Or.inr ⟨fun e => h2 e.symm, hid, h1⟩

/-- C7 (amended): an Upsert with an id reaches a link whose chain has at most one
record per metric and pairwise distinct ids, and that holds a record with the
requested metric under another id or the requested id under another metric:
the body of the walk on that link gives the bad-request error "Statistics ID
represents a different metric" and changes nothing, and the request ends with
that error in the state in which the link was reached. In that state the chain
of the link and the chains of the links not visited before it are as at the
start of the request, and the pool has as many blocks; what was created or
updated on the links visited before stays. When the link is the first one
visited, the state is the one of the start. -/
theorem upsert_rejects_id_metric_mismatch (req : post_request) (s s1 : plexi_state)
    (pre post : List (Nat × Nat)) (p : Nat × Nat) (inst : Bool) (l : tsch_link)
    (hwf : wf_state s) (hreq : request_words req)
    (hmetric : plexi_get_statistics_metric (some req.stats) ≠ NONE)
    (hid : req.flags &&& 16 ≠ 0)
    (hwalk : stats_walk s.schedule req.flags req.slotframe req.slot = pre ++ p :: post)
    (hpre : post_stats_loop req pre s false = some (none, s1, inst))
    (hl : link_at s.schedule p = some l) (hsel : link_selected req l)
    (hmetrics : ((records_at s p).map (fun r => plexi_get_statistics_metric (some r))).Nodup)
    (hids : ((records_at s p).map (fun r => plexi_get_statistics_id (some r))).Nodup)
    (hex : ∃ r ∈ records_at s p,
      (plexi_get_statistics_metric (some r) = plexi_get_statistics_metric (some req.stats) ∧
        plexi_get_statistics_id (some r) ≠ plexi_get_statistics_id (some req.stats)) ∨
      (plexi_get_statistics_id (some r) = plexi_get_statistics_id (some req.stats) ∧
        plexi_get_statistics_metric (some r) ≠
          plexi_get_statistics_metric (some req.stats))) :
    post_stats_link req s1 p =
        some (some ⟨some coap_status.BAD_REQUEST_4_00,
          "Statistics ID represents a different metric"⟩, s1, false) ∧
      post_stats_end_element req s =
        some (⟨some coap_status.BAD_REQUEST_4_00,
          "Statistics ID represents a different metric"⟩, s1) ∧
      records_at s1 p = records_at s p ∧
      (∀ q, q ∉ pre → records_at s1 q = records_at s q) ∧
      s1.plexi_stats_mem.length = s.plexi_stats_mem.length ∧
      (pre = [] → s1 = s) := by
  obtain ⟨hwf1, hrec, _, hlen, l1, hl1, hsel1, _⟩ :=
    walk_reaches req hreq s s1 pre post p inst l hwf hwalk hpre hl
  obtain ⟨_, _, _, hoth⟩ := post_loop_prefix req hreq pre s s1 false inst hwf hpre
  have hm := conflict_of_unique req.stats req.flags (records_at s p) hid hmetrics hids hex
  rw [← hrec] at hm
  have hstep := post_link_conflict req s1 p l1 hwf1 hl1 (hsel1.mpr hsel) hm
  refine ⟨hstep, end_element_error req s s1 pre post p inst false _ hmetric hwalk hpre hstep,
    hrec, hoth, hlen, ?_⟩
  intro hnil
  rw [hnil] at hpre
  simp only [post_stats_loop, Option.some.injEq, Prod.mk.injEq, true_and] at hpre
  exact hpre.1.symm

/-- C8: an Upsert for ETX or PDR reaches a link that carries the shared option
(bit 4 of `link_options`) and has no record matching the request: the request
ends with a bad-request error, in the state in which the link was reached;
nothing is allocated and the records of the link are those it had at the
start. -/
theorem upsert_rejects_delivery_metric_on_shared_link (req : post_request)
    (s s1 : plexi_state) (pre post : List (Nat × Nat)) (p : Nat × Nat) (inst : Bool)
    (l : tsch_link) (hwf : wf_state s) (hreq : request_words req)
    (hm : plexi_get_statistics_metric (some req.stats) = ETX ∨
      plexi_get_statistics_metric (some req.stats) = PDR)
    (hwalk : stats_walk s.schedule req.flags req.slotframe req.slot = pre ++ p :: post)
    (hpre : post_stats_loop req pre s false = some (none, s1, inst))
    (hl : link_at s.schedule p = some l) (hsel : link_selected req l)
    (hshared : l.link_options &&& 4 ≠ 0)
    (hnomatch : ∀ r ∈ records_at s p, ¬ stats_match req.stats req.flags r) :
    ∃ msg, post_stats_end_element req s = some (⟨some coap_status.BAD_REQUEST_4_00, msg⟩, s1) ∧
      records_at s1 p = records_at s p := by
  obtain ⟨hwf1, hrec, _, _, l1, hl1, hsel1, href1⟩ :=
    walk_reaches req hreq s s1 pre post p inst l hwf hwalk hpre hl
  have hmetric : plexi_get_statistics_metric (some req.stats) ≠ NONE := by
    rcases hm with h | h <;> rw [h] <;> decide
  have hne1 : l.link_options ≠ 1 := by
    intro e
    rw [e] at hshared
    exact hshared (by decide)
  have href : creation_refused req l := ⟨hne1, hm⟩
  rw [← hrec] at hnomatch
  rcases match_records_no_match req.stats req.flags _ hnomatch with hc | ha
  · have hstep := post_link_conflict req s1 p l1 hwf1 hl1 (hsel1.mpr hsel) hc
    exact ⟨_, end_element_error req s s1 pre post p inst false _ hmetric hwalk hpre hstep,
      hrec⟩
  · have hstep := post_link_refused req s1 p l1 hwf1 hl1 (hsel1.mpr hsel) ha (href1.mpr href)
    exact ⟨_, end_element_error req s s1 pre post p inst false _ hmetric hwalk hpre hstep,
      hrec⟩

theorem refused_of_skeleton (req : post_request) (s s1 : plexi_state) (p : Nat × Nat)
    (h : skeleton s1.schedule = skeleton s.schedule) :
    refused_at req s1 p = refused_at req s p := by
  have := link_at_of_skeleton s.schedule s1.schedule p h
  unfold refused_at
  cases h1 : link_at s1.schedule p with
  | none =>
    cases h2 : link_at s.schedule p with
    | none => rfl
    | some l => simp [h1, h2] at this
  | some l1 =>
    cases h2 : link_at s.schedule p with
    | none => simp [h1, h2] at this
    | some l =>
      simp only [h1, h2, Option.map_some', Option.some.injEq, tsch_link.mk.injEq] at this
      simp only [creation_refused, this.2.2.2.2.1]

theorem needs_record_congr (req : post_request) (s s1 : plexi_state) (q : Nat × Nat)
    (hsk : skeleton s1.schedule = skeleton s.schedule)
    (hrec : records_at s1 q = records_at s q) :
    needs_record req s1 q = needs_record req s q := by
  unfold needs_record
  rw [selected_of_skeleton req s s1 q hsk, hrec]

/-- One step of the walk on a link that raises no error. -/
theorem post_link_ok (req : post_request) (s : plexi_state) (p : Nat × Nat)
    (hwf : wf_state s) (hreq : request_words req)
    (hok : selected_at req s p = true →
      match_records req.stats req.flags (records_at s p) ≠ match_result.conflict ∧
      (needs_record req s p = true → refused_at req s p = false))
    (hfree : needs_record req s p = true →
      memb_used s.plexi_stats_mem < s.plexi_stats_mem.length) :
    ∃ s1, post_stats_link req s p = some (none, s1, selected_at req s p) ∧ wf_state s1 ∧
      skeleton s1.schedule = skeleton s.schedule ∧
      s1.plexi_stats_mem.length = s.plexi_stats_mem.length ∧
      memb_used s1.plexi_stats_mem =
        memb_used s.plexi_stats_mem + (if needs_record req s p = true then 1 else 0) ∧
      (∀ q, q ≠ p → records_at s1 q = records_at s q) ∧
      (selected_at req s p = true → records_at s1 p = records_after req (records_at s p)) ∧
      (selected_at req s p = false → s1 = s) := by
  cases hst : selected_at req s p with
  | false =>
    have hsk := post_link_skip req s p (fun l hl hsel => by
      rw [selected_at_of_link req s p l hl] at hst
      simp at hst
      exact hst hsel)
    have hn : needs_record req s p = false := by simp [needs_record, hst]
    exact ⟨s, hsk, hwf, rfl, rfl, by simp [hn], fun _ _ => rfl,
      fun h => by simp at h, fun _ => rfl⟩
  | true =>
    obtain ⟨l, hl, hsel⟩ := selected_at_true req s p hst
    obtain ⟨hnc, hnr⟩ := hok hst
    cases hm : match_records req.stats req.flags (records_at s p) with
    | conflict => exact absurd hm hnc
    | absent =>
      have hn : needs_record req s p = true := by simp [needs_record, hst, hm]
      have href : ¬ creation_refused req l := by
        have := hnr hn
        simp only [refused_at, hl, decide_eq_false_iff_not] at this
        exact this
      have hfb := (memb_free_block_iff s.plexi_stats_mem).mpr (hfree hn)
      obtain ⟨s1, h1, h2, h3, h4, h5, h6, h7⟩ :=
        post_link_create req s p l hwf hreq hl hsel hm href hfb
      refine ⟨s1, h1, h2, h3, h4, by simp [hn, h5], h7, fun _ => ?_, fun h => by simp at h⟩
      rw [h6]
      simp only [records_after, hm]
    | found k =>
      have hn : needs_record req s p = false := by simp [needs_record, hm]
      obtain ⟨s1, r, h1, h2, h3, h4, h5, h6, h7, h8⟩ :=
        post_link_update req s p l k hwf hreq hl hsel hm
      refine ⟨s1, h1, h2, by rw [h3], h4, by simp [hn, h5], h8, fun _ => ?_,
        fun h => by simp at h⟩
      rw [h7]
      simp only [records_after, hm, h6]

/-- The walk over links none of which raises an error: every selected link gets
its record updated or a new record appended, as long as blocks are free. -/
theorem post_loop_installs (req : post_request) (hreq : request_words req) :
    ∀ (ps : List (Nat × Nat)) (s : plexi_state) (inst : Bool), wf_state s → ps.Nodup →
      (∀ q ∈ ps, selected_at req s q = true →
        match_records req.stats req.flags (records_at s q) ≠ match_result.conflict ∧
        (needs_record req s q = true → refused_at req s q = false)) →
      (ps.filter (needs_record req s)).length + memb_used s.plexi_stats_mem ≤
        s.plexi_stats_mem.length →
      ∃ s1 i1, post_stats_loop req ps s inst = some (none, s1, i1) ∧ wf_state s1 ∧
        skeleton s1.schedule = skeleton s.schedule ∧
        s1.plexi_stats_mem.length = s.plexi_stats_mem.length ∧
        memb_used s1.plexi_stats_mem =
          memb_used s.plexi_stats_mem + (ps.filter (needs_record req s)).length ∧
        (∀ q ∈ ps, selected_at req s q = true →
          records_at s1 q = records_after req (records_at s q)) ∧
        (∀ q, (q ∉ ps ∨ selected_at req s q = false) → records_at s1 q = records_at s q) := by
  intro ps
  induction ps with
  | nil =>
    intro s inst hwf _ _ _
    exact ⟨s, inst, rfl, hwf, rfl, rfl, by simp, by simp, fun _ _ => rfl⟩
  | cons p ps ih =>
    intro s inst hwf hnd hok hcount
    obtain ⟨hpn, hnd2⟩ := List.nodup_cons.mp hnd
    have hfilter : ((p :: ps).filter (needs_record req s)).length =
        (if needs_record req s p = true then 1 else 0) +
          (ps.filter (needs_record req s)).length := by
      rw [List.filter_cons]
      split
      · simp only [List.length_cons]
        omega
      · omega
    obtain ⟨s1, h1, h2, h3, h4, h5, h6, h7, h8⟩ := post_link_ok req s p hwf hreq
      (hok p (List.mem_cons_self _ _))
      (by
        intro hn
        rw [hfilter, if_pos hn] at hcount
        omega)
    have hcongr : ∀ q ∈ ps, needs_record req s1 q = needs_record req s q := by
      intro q hq
      exact needs_record_congr req s s1 q h3 (h6 q (fun e => hpn (e ▸ hq)))
    have hfeq : ps.filter (needs_record req s1) = ps.filter (needs_record req s) :=
      List.filter_congr hcongr
    obtain ⟨s2, i2, g1, g2, g3, g4, g5, g6, g7⟩ := ih s1 (inst || selected_at req s p) h2 hnd2
      (by
        intro q hq hsel
        have hqp : q ≠ p := fun e => hpn (e ▸ hq)
        rw [selected_of_skeleton req s s1 q h3] at hsel
        rw [h6 q hqp, hcongr q hq, refused_of_skeleton req s s1 q h3]
        exact hok q (List.mem_cons_of_mem _ hq) hsel)
      (by
        rw [hfeq, h4, h5]
        rw [hfilter] at hcount
        omega)
    refine ⟨s2, i2, ?_, g2, g3.trans h3, g4.trans h4, ?_, ?_, ?_⟩
    · rw [post_loop_cons_ok req p ps s s1 inst _ h1, g1]
    · rw [g5, hfeq, h5, hfilter]
      omega
    · intro q hq hsel
      rcases List.mem_cons.mp hq with rfl | hq2
      · rw [g7 q (Or.inl hpn), h7 hsel]
      · have hqp : q ≠ p := fun e => hpn (e ▸ hq2)
        rw [g6 q hq2 (by rw [selected_of_skeleton req s s1 q h3]; exact hsel), h6 q hqp]
    · intro q hq
      by_cases hqp : q = p
      · subst hqp
        rcases hq with h | h
        · exact absurd (List.mem_cons_self _ _) h
        · rw [g7 q (Or.inl hpn), h8 h]
      · rw [g7 q (by
          rcases hq with h | h
          · exact Or.inl (fun hm => h (List.mem_cons_of_mem _ hm))
          · exact Or.inr (by rw [selected_of_skeleton req s s1 q h3]; exact h)), h6 q hqp]

/-- C5 (amended): an Upsert has to create a record on the link `p` and on as many
links visited before `p` as the pool has free blocks, the links visited before
`p` raising no other error: the records are created on those earlier links, the
request fails at `p` with the out-of-memory error, and in the state it leaves
every link visited before `p` has its old records followed by the new one
(or its matching record updated in place), every other chain is as it was,
and the pool is full. Every record that existed is at its position in its
chain with its id and metric, and is unchanged unless it is the record the
request looks for on a link visited before `p`, which has the enable flag, the
window and the value of the request. -/
theorem upsert_fails_when_pool_exhausted (req : post_request) (s : plexi_state)
    (pre post : List (Nat × Nat)) (p : Nat × Nat)
    (hwf : wf_state s) (hreq : request_words req)
    (hmetric : plexi_get_statistics_metric (some req.stats) ≠ NONE)
    (hwalk : stats_walk s.schedule req.flags req.slotframe req.slot = pre ++ p :: post)
    (hok : ∀ q ∈ pre, selected_at req s q = true →
      match_records req.stats req.flags (records_at s q) ≠ match_result.conflict ∧
      (needs_record req s q = true → refused_at req s q = false))
    (hcount : (pre.filter (needs_record req s)).length + memb_used s.plexi_stats_mem =
      s.plexi_stats_mem.length)
    (hp : needs_record req s p = true) (hperm : refused_at req s p = false) :
    ∃ s1, post_stats_end_element req s =
        some (⟨some coap_status.INTERNAL_SERVER_ERROR_5_00,
          "Not enough memory (too many statistics)"⟩, s1) ∧
      (∀ q ∈ pre, needs_record req s q = true →
        records_at s1 q = records_at s q ++ [created_view req]) ∧
      (∀ q ∈ pre, ∀ k r, selected_at req s q = true →
        match_records req.stats req.flags (records_at s q) = match_result.found k →
        (records_at s q)[k]? = some r →
        records_at s1 q = (records_at s q).set k (post_stats_update_record r req.stats)) ∧
      (∀ q, (q ∉ pre ∨ selected_at req s q = false) → records_at s1 q = records_at s q) ∧
      memb_used s1.plexi_stats_mem = s1.plexi_stats_mem.length ∧
      (∀ q i r, (records_at s q)[i]? = some r →
        ∃ r1, (records_at s1 q)[i]? = some r1 ∧
          plexi_get_statistics_id (some r1) = plexi_get_statistics_id (some r) ∧
          plexi_get_statistics_metric (some r1) = plexi_get_statistics_metric (some r) ∧
          ((q ∉ pre ∨ selected_at req s q = false ∨
              match_records req.stats req.flags (records_at s q) ≠ match_result.found i) →
            r1 = r) ∧
          (q ∈ pre → selected_at req s q = true →
            match_records req.stats req.flags (records_at s q) = match_result.found i →
            plexi_get_statistics_enable (some r1) =
                plexi_get_statistics_enable (some req.stats) ∧
              plexi_get_statistics_window (some r1) =
                plexi_get_statistics_window (some req.stats) ∧
              r1.value = req.stats.value)) := by
  have hndw := stats_walk_nodup s.schedule req.flags req.slotframe req.slot
  have hnot := not_mem_of_split _ pre post p hndw hwalk
  rw [hwalk] at hndw
  have hndpre : pre.Nodup := (List.nodup_append.mp hndw).1
  obtain ⟨s1, i1, g1, g2, g3, g4, g5, g6, g7⟩ :=
    post_loop_installs req hreq pre s false hwf hndpre hok (Nat.le_of_eq hcount)
  have hrecp : records_at s1 p = records_at s p := g7 p (Or.inl hnot.1)
  have hneed : needs_record req s1 p = true := by
    rw [needs_record_congr req s s1 p g3 hrecp]; exact hp
  have hfull : memb_used s1.plexi_stats_mem = s1.plexi_stats_mem.length := by
    rw [g5, g4]; omega
  simp only [needs_record, Bool.and_eq_true, decide_eq_true_eq] at hneed
  obtain ⟨l1, hl1, hsel1⟩ := selected_at_true req s1 p hneed.1
  have href1 : ¬ creation_refused req l1 := by
    have h := refused_of_skeleton req s s1 p g3
    rw [hperm] at h
    simp only [refused_at, hl1, decide_eq_false_iff_not] at h
    exact h
  have hnofree : ∀ b ∈ s1.plexi_stats_mem, b.count ≠ 0 := by
    intro b hb hc
    have := (memb_free_block_iff s1.plexi_stats_mem).mp ⟨b, hb, hc⟩
    omega
  have hstep := post_link_full req s1 p l1 g2 hl1 hsel1 hneed.2 href1 hnofree
  refine ⟨s1, end_element_error req s s1 pre post p i1 false _ hmetric hwalk g1 hstep,
    ?_, ?_, g7, hfull, ?_⟩
  · intro q hq hn
    simp only [needs_record, Bool.and_eq_true, decide_eq_true_eq] at hn
    rw [g6 q hq hn.1]
    simp only [records_after, hn.2]
  · intro q hq k r hsel hm hr
    rw [g6 q hq hsel]
    simp only [records_after, hm, hr]
  · intro q i r hr
    by_cases hq : q ∈ pre ∧ selected_at req s q = true
    · obtain ⟨hqp, hqs⟩ := hq
      rw [g6 q hqp hqs]
      cases hm : match_records req.stats req.flags (records_at s q) with
      | conflict => exact absurd hm (hok q hqp hqs).1
      | absent =>
        refine ⟨r, ?_, rfl, rfl, fun _ => rfl, fun _ _ h => by simp at h⟩
        simp only [records_after, hm]
        have hi : i < (records_at s q).length := (List.getElem?_eq_some_iff.mp hr).1
        rw [List.getElem?_append_left hi]
        exact hr
      | found k =>
        obtain ⟨r0, hr0, _⟩ := match_records_found _ _ _ k hm
        simp only [records_after, hm, hr0]
        by_cases hik : i = k
        · subst hik
          have e : r0 = r := by
            rw [hr] at hr0
            exact (Option.some.inj hr0).symm
          subst e
          have hi : i < (records_at s q).length := (List.getElem?_eq_some_iff.mp hr).1
          obtain ⟨_, f2, _, f4, f5, f6, f7⟩ := update_record_fields r0 req.stats hreq.1
          refine ⟨post_stats_update_record r0 req.stats, ?_, f4, f5, ?_, fun _ _ _ =>
            ⟨f7, f6, f2⟩⟩
          · rw [List.getElem?_set_self hi]
          · intro h
            rcases h with h | h | h
            · exact absurd hqp h
            · rw [hqs] at h; simp at h
            · exact absurd rfl h
        · refine ⟨r, ?_, rfl, rfl, fun _ => rfl, fun _ _ h => ?_⟩
          · rw [List.getElem?_set_ne (fun e => hik e.symm)]
            exact hr
          · simp only [match_result.found.injEq] at h
            exact absurd h.symm hik
    · have hq2 : q ∉ pre ∨ selected_at req s q = false := by
        by_cases h1 : q ∈ pre
        · right
          cases hs : selected_at req s q with
          | false => rfl
          | true => exact absurd ⟨h1, hs⟩ hq
        · exact Or.inl h1
      rw [g7 q hq2]
      refine ⟨r, hr, rfl, rfl, fun _ => rfl, fun h1 h2 _ => ?_⟩
      rcases hq2 with h | h
      · exact absurd h1 h
      · rw [h2] at h; simp at h

/-! ### Running the same request again -/

theorem records_after_settled (req : post_request) (R : List plexi_stats)
    (hc : request_consistent req)
    (hm : match_records req.stats req.flags R ≠ match_result.conflict) :
    ∃ k r, match_records req.stats req.flags (records_after req R) = match_result.found k ∧
      (records_after req R)[k]? = some r ∧
      plexi_get_statistics_window (some r) = plexi_get_statistics_window (some req.stats) ∧
      plexi_get_statistics_enable (some r) = plexi_get_statistics_enable (some req.stats) ∧
      r.value = req.stats.value := by
  cases hmr : match_records req.stats req.flags R with
  | conflict => exact absurd hmr hm
  | absent =>
    have hmatch : stats_match req.stats req.flags (created_view req) := by
      refine ⟨rfl, ?_⟩
      by_cases hf : req.flags &&& 16 = 0
      · exact Or.inl hf
      · exact Or.inr ⟨hf, rfl⟩
    refine ⟨R.length, created_view req, ?_, ?_, rfl, rfl, ?_⟩
    · simp only [records_after, hmr]
      exact match_records_append _ _ _ _ hmr hmatch
    · simp only [records_after, hmr]
      simp
    · simp only [created_view]
      cases hti : req.to_init with
      | true => simp
      | false => simp [hc.2 hti]
  | found k =>
    obtain ⟨r, hr, _⟩ := match_records_found _ _ _ _ hmr
    have hf := update_record_fields r req.stats hc.1.1
    have hklt : k < R.length := (List.getElem?_eq_some_iff.mp hr).1
    refine ⟨k, post_stats_update_record r req.stats, ?_, ?_, hf.2.2.2.2.2.1, hf.2.2.2.2.2.2,
      hf.2.1⟩
    · simp only [records_after, hmr, hr]
      rw [match_records_congr req.stats req.flags R _ (by simp), hmr]
      intro n a a1 ha ha1
      rw [List.getElem?_set] at ha1
      by_cases hkn : k = n
      · subst hkn
        simp only [if_true, hklt, Option.some.injEq] at ha1
        rw [hr] at ha
        simp only [Option.some.injEq] at ha
        subst ha ha1
        exact ⟨hf.2.2.2.1, hf.2.2.2.2.1⟩
      · simp only [hkn, if_false] at ha1
        rw [ha] at ha1
        simp only [Option.some.injEq] at ha1
        subst ha1
        exact ⟨rfl, rfl⟩
    · simp only [records_after, hmr, hr]
      simp [List.getElem?_set, hklt]

theorem settled_after_step (req : post_request) (s s1 : plexi_state) (p : Nat × Nat)
    (t : Bool) (hwf : wf_state s) (hc : request_consistent req)
    (h : post_stats_link req s p = some (none, s1, t)) :
    settled_at req s1 p ∧ t = selected_at req s1 p ∧ wf_state s1 ∧
      skeleton s1.schedule = skeleton s.schedule ∧
      ∀ q, q ≠ p → records_at s1 q = records_at s q := by
  obtain ⟨r, s2, t2, h1, h2, h3, _, h5, _, h7, _, h9⟩ := post_link_step req s p hwf hc.1
  rw [h] at h1
  simp only [Option.some.injEq, Prod.mk.injEq] at h1
  obtain ⟨rfl, rfl, rfl⟩ := h1
  have hsel := selected_of_skeleton req s s1 p h3
  refine ⟨?_, by rw [hsel]; exact h7 rfl, h2, h3, h5⟩
  intro hs
  rw [hsel] at hs
  obtain ⟨g1, g2⟩ := h9 rfl hs
  rw [g1]
  exact records_after_settled req _ hc g2

theorem step_of_settled (req : post_request) (s : plexi_state) (p : Nat × Nat)
    (hwf : wf_state s) (hreq : request_words req) (h : settled_at req s p) :
    post_stats_link req s p = some (none, s, selected_at req s p) := by
  cases hst : selected_at req s p with
  | false =>
    exact post_link_skip req s p (fun l hl hsel => by
      rw [selected_at_of_link req s p l hl] at hst
      simp at hst
      exact hst hsel)
  | true =>
    obtain ⟨l, hl, hsel⟩ := selected_at_true req s p hst
    obtain ⟨k, r, h1, h2, h3, h4, h5⟩ := h hst
    exact post_link_noop req s p l k r hwf hreq hl hsel h1 h2 h3 h4 h5

/-- The walk run again from the state it has left ends in the same way and
changes nothing. -/
theorem post_loop_again (req : post_request) (hc : request_consistent req) :
    ∀ (ps : List (Nat × Nat)) (s : plexi_state) (inst : Bool) (r : Option coap_response)
      (s1 : plexi_state) (i1 : Bool), wf_state s → ps.Nodup →
      post_stats_loop req ps s inst = some (r, s1, i1) →
      post_stats_loop req ps s1 inst = some (r, s1, i1) := by
  intro ps
  induction ps with
  | nil =>
    intro s inst r s1 i1 _ _ h
    simp only [post_stats_loop, Option.some.injEq, Prod.mk.injEq] at h
    obtain ⟨rfl, rfl, rfl⟩ := h
    rfl
  | cons p ps ih =>
    intro s inst r s1 i1 hwf hnd h
    obtain ⟨hpn, hnd2⟩ := List.nodup_cons.mp hnd
    obtain ⟨r0, s0, t, h1, h2, _, _, _, h6, _⟩ := post_link_step req s p hwf hc.1
    cases r0 with
    | some e =>
      have hs0 : s0 = s := h6 (by simp)
      subst hs0
      rw [post_loop_cons_error req p ps s0 s0 inst t e h1] at h
      simp only [Option.some.injEq, Prod.mk.injEq] at h
      obtain ⟨rfl, rfl, rfl⟩ := h
      exact post_loop_cons_error req p ps s0 s0 inst t e h1
    | none =>
      rw [post_loop_cons_ok req p ps s s0 inst t h1] at h
      obtain ⟨hset, ht, _, _, _⟩ := settled_after_step req s s0 p t hwf hc h1
      obtain ⟨_, sx, _, g1, g2, g3, _, g5⟩ := post_loop_run req hc.1 ps s0 (inst || t) h2
      rw [h] at g1
      simp only [Option.some.injEq, Prod.mk.injEq] at g1
      obtain ⟨_, rfl, _⟩ := g1
      have hsel : selected_at req s1 p = selected_at req s0 p :=
        selected_of_skeleton req s0 s1 p g3
      have hset1 : settled_at req s1 p := by
        intro hs
        rw [hsel] at hs
        rw [g5 p hpn]
        exact hset hs
      have hstep := step_of_settled req s1 p g2 hc.1 hset1
      rw [post_loop_cons_ok req p ps s1 s1 inst _ hstep, hsel, ← ht]
      exact ih s0 (inst || t) r s1 i1 h2 hnd2 h

theorem end_element_again (req : post_request) (s : plexi_state) (hwf : wf_state s)
    (hc : request_consistent req) :
    ∃ resp s1, post_stats_end_element req s = some (resp, s1) ∧ wf_state s1 ∧
      post_stats_end_element req s1 = some (resp, s1) := by
  by_cases hm : plexi_get_statistics_metric (some req.stats) = NONE
  · have e : post_stats_end_element req s =
        some (⟨some coap_status.BAD_REQUEST_4_00,
          "Invalid statistics configuration (metric missing)"⟩, s) := by
      simp only [post_stats_end_element, if_pos hm]
    exact ⟨_, s, e, hwf, e⟩
  · by_cases hf : stats_walk_frames s.schedule req.flags req.slotframe = []
    · have e : post_stats_end_element req s =
          some (⟨some coap_status.NOT_FOUND_4_04, "No slotframes found"⟩, s) := by
        simp only [post_stats_end_element, if_neg hm, if_pos hf]
      exact ⟨_, s, e, hwf, e⟩
    · obtain ⟨r, s1, i1, g1, g2, g3, _, _⟩ := post_loop_run req hc.1
        (stats_walk s.schedule req.flags req.slotframe req.slot) s false hwf
      have g4 := post_loop_again req hc _ s false r s1 i1 hwf (stats_walk_nodup _ _ _ _) g1
      have hw : stats_walk s1.schedule req.flags req.slotframe req.slot =
          stats_walk s.schedule req.flags req.slotframe req.slot := by
        rw [← stats_walk_skeleton s1.schedule, g3, stats_walk_skeleton]
      have hfr : stats_walk_frames s1.schedule req.flags req.slotframe =
          stats_walk_frames s.schedule req.flags req.slotframe := by
        rw [← walk_frames_skeleton s1.schedule, g3, walk_frames_skeleton]
      have e1 : post_stats_end_element req s =
          (match post_stats_loop req (stats_walk s.schedule req.flags req.slotframe req.slot)
              s false with
            | none => none
            | some (some r, s1, _) => some (r, s1)
            | some (none, s1, installed) =>
              if installed then
                some (⟨some coap_status.CHANGED_2_04, ""⟩, s1)
              else
                some (⟨some coap_status.NOT_FOUND_4_04,
                  "Link not found to install statistics resource"⟩, s1)) := by
        simp only [post_stats_end_element, if_neg hm, if_neg hf]
      have e2 : post_stats_end_element req s1 =
          (match post_stats_loop req (stats_walk s.schedule req.flags req.slotframe req.slot)
              s1 false with
            | none => none
            | some (some r, s1, _) => some (r, s1)
            | some (none, s1, installed) =>
              if installed then
                some (⟨some coap_status.CHANGED_2_04, ""⟩, s1)
              else
                some (⟨some coap_status.NOT_FOUND_4_04,
                  "Link not found to install statistics resource"⟩, s1)) := by
        simp only [post_stats_end_element, if_neg hm, hfr, if_neg hf, hw]
      rw [g1] at e1
      rw [g4] at e2
      cases r with
      | some e => exact ⟨e, s1, e1, g2, e2⟩
      | none =>
        cases i1 with
        | true => exact ⟨_, s1, e1, g2, e2⟩
        | false => exact ⟨_, s1, e1, g2, e2⟩

theorem applied_set_id_words (r : plexi_stats) (v : Nat) (h : r.metainfo < 65536) :
    (applied plexi_set_statistics_id r v).metainfo < 65536 ∧
      (applied plexi_set_statistics_id r v).value = r.value := by
  by_cases hv : v < 32
  · rw [applied_set_id r v hv]
    exact ⟨update_lt 64543 5 5 _ _ (by norm_num) hv (by norm_num), rfl⟩
  · simp [applied, plexi_set_statistics_id, hv, h]

theorem applied_set_window_words (r : plexi_stats) (v : Nat) (h : r.metainfo < 65536) :
    (applied plexi_set_statistics_window r v).metainfo < 65536 ∧
      (applied plexi_set_statistics_window r v).value = r.value := by
  by_cases hv : v < 64
  · rw [applied_set_window r v hv]
    exact ⟨update_lt 1023 10 6 _ _ (by norm_num) hv (by norm_num), rfl⟩
  · simp [applied, plexi_set_statistics_window, hv, h]

theorem applied_set_metric_words (r : plexi_stats) (v : Nat) (h : r.metainfo < 65536) :
    (applied plexi_set_statistics_metric r v).metainfo < 65536 ∧
      (applied plexi_set_statistics_metric r v).value = r.value := by
  by_cases hv : v < 16
  · rw [applied_set_metric r v hv]
    exact ⟨update_lt 65505 1 4 _ _ (by norm_num) hv (by norm_num), rfl⟩
  · simp [applied, plexi_set_statistics_metric, hv, h]

theorem applied_set_enable_words (r : plexi_stats) (v : Nat) (h : r.metainfo < 65536) :
    (applied plexi_set_statistics_enable r v).metainfo < 65536 ∧
      (applied plexi_set_statistics_enable r v).value = r.value := by
  by_cases hv : v < 2
  · rw [applied_set_enable r v hv]
    exact ⟨update_lt 65534 0 1 _ _ (by norm_num) hv (by norm_num), rfl⟩
  · simp [applied, plexi_set_statistics_enable, hv, h]

theorem consistent_of_stats (req : post_request) (st : plexi_stats)
    (hc : request_consistent req) (h1 : st.metainfo < 65536)
    (h2 : st.value = req.stats.value) :
    request_consistent { req with stats := st } := by
  refine ⟨⟨h1, ?_⟩, ?_⟩
  · show st.value < 65536
    rw [h2]; exact hc.1.2
  · intro hti
    show st.value = SENTINEL
    rw [h2]; exact hc.2 hti

theorem post_parse_again_number (eui64 : String → Option linkaddr_t) (js_ok : Bool)
    (evs : List json_event) (field : String) (value : Int)
    (ih : ∀ (req : post_request) (s : plexi_state), wf_state s → request_consistent req →
      ∃ resp s1, post_stats_parse eui64 js_ok s evs req = some (resp, s1) ∧ wf_state s1 ∧
        post_stats_parse eui64 js_ok s1 evs req = some (resp, s1))
    (req : post_request) (s : plexi_state) (hwf : wf_state s) (hc : request_consistent req) :
    ∃ resp s1,
      post_stats_parse eui64 js_ok s (json_event.number field value :: evs) req =
        some (resp, s1) ∧ wf_state s1 ∧
      post_stats_parse eui64 js_ok s1 (json_event.number field value :: evs) req =
        some (resp, s1) := by
  simp only [post_stats_parse]
  by_cases h1 : field = "frame"
  · simp only [if_pos h1]
    exact ih _ s hwf hc
  simp only [if_neg h1]
  by_cases h2 : field = "slot"
  · simp only [if_pos h2]
    exact ih _ s hwf hc
  simp only [if_neg h2]
  by_cases h3 : field = "channel"
  · simp only [if_pos h3]
    exact ih _ s hwf hc
  simp only [if_neg h3]
  by_cases h4 : field = "value"
  · simp only [if_pos h4]
    apply ih _ s hwf
    exact ⟨⟨hc.1.1, of_int_lt value⟩, fun h => by simp at h⟩
  simp only [if_neg h4]
  by_cases h5 : field = "id"
  · simp only [if_pos h5]
    have h := applied_set_id_words req.stats (of_int value) hc.1.1
    by_cases h6 : plexi_get_statistics_id
        (some (applied plexi_set_statistics_id req.stats (of_int value))) < 1
    · simp only [if_pos h6]
      exact ⟨_, s, rfl, hwf, rfl⟩
    · simp only [if_neg h6]
      apply ih _ s hwf
      exact consistent_of_stats _ _ hc h.1 h.2
  simp only [if_neg h5]
  by_cases h7 : field = "enable"
  · simp only [if_pos h7]
    apply ih _ s hwf
    by_cases h8 : of_int value = 1
    · simp only [if_pos h8]
      have h := applied_set_enable_words req.stats ENABLE hc.1.1
      exact consistent_of_stats req _ hc h.1 h.2
    · simp only [if_neg h8]
      have h := applied_set_enable_words req.stats DISABLE hc.1.1
      exact consistent_of_stats req _ hc h.1 h.2
  simp only [if_neg h7]
  exact ih _ s hwf hc

theorem post_parse_again_string (eui64 : String → Option linkaddr_t) (js_ok : Bool)
    (evs : List json_event) (field value : String)
    (ih : ∀ (req : post_request) (s : plexi_state), wf_state s → request_consistent req →
      ∃ resp s1, post_stats_parse eui64 js_ok s evs req = some (resp, s1) ∧ wf_state s1 ∧
        post_stats_parse eui64 js_ok s1 evs req = some (resp, s1))
    (req : post_request) (s : plexi_state) (hwf : wf_state s) (hc : request_consistent req) :
    ∃ resp s1,
      post_stats_parse eui64 js_ok s (json_event.string field value :: evs) req =
        some (resp, s1) ∧ wf_state s1 ∧
      post_stats_parse eui64 js_ok s1 (json_event.string field value :: evs) req =
        some (resp, s1) := by
  simp only [post_stats_parse]
  by_cases h1 : field = "tna"
  · simp only [if_pos h1]
    cases he : eui64 value with
    | none => exact ⟨_, s, rfl, hwf, rfl⟩
    | some a => exact ih _ s hwf hc
  simp only [if_neg h1]
  by_cases h2 : field = "enable"
  · simp only [if_pos h2]
    apply ih _ s hwf
    by_cases h3 : value = "y" ∨ value = "yes" ∨ value = "true"
    · simp only [if_pos h3]
      have h := applied_set_enable_words req.stats ENABLE hc.1.1
      exact consistent_of_stats req _ hc h.1 h.2
    · simp only [if_neg h3]
      by_cases h4 : value = "n" ∨ value = "no" ∨ value = "false"
      · simp only [if_pos h4]
        have h := applied_set_enable_words req.stats DISABLE hc.1.1
        exact consistent_of_stats req _ hc h.1 h.2
      · simp only [if_neg h4]
        exact hc
  simp only [if_neg h2]
  by_cases h5 : field = "metric"
  · simp only [if_pos h5]
    by_cases v1 : value = "etx"
    · simp only [if_pos v1]
      have h := applied_set_metric_words req.stats ETX hc.1.1
      exact ih _ s hwf (consistent_of_stats req _ hc h.1 h.2)
    simp only [if_neg v1]
    by_cases v2 : value = "rssi"
    · simp only [if_pos v2]
      have h := applied_set_metric_words req.stats RSSI hc.1.1
      exact ih _ s hwf (consistent_of_stats req _ hc h.1 h.2)
    simp only [if_neg v2]
    by_cases v3 : value = "lqi"
    · simp only [if_pos v3]
      have h := applied_set_metric_words req.stats LQI hc.1.1
      exact ih _ s hwf (consistent_of_stats req _ hc h.1 h.2)
    simp only [if_neg v3]
    by_cases v4 : value = "asn"
    · simp only [if_pos v4]
      have h := applied_set_metric_words req.stats ASN hc.1.1
      exact ih _ s hwf (consistent_of_stats req _ hc h.1 h.2)
    simp only [if_neg v4]
    by_cases v5 : value = "pdr"
    · simp only [if_pos v5]
      have h := applied_set_metric_words req.stats PDR hc.1.1
      exact ih _ s hwf (consistent_of_stats req _ hc h.1 h.2)
    simp only [if_neg v5]
    exact ⟨_, s, rfl, hwf, rfl⟩
  simp only [if_neg h5]
  exact ih _ s hwf hc

/-- The parsing loop, started with a consistent local record, ends, leaves a
well-formed state, and run again on that state ends in the same way without
changing it. -/
theorem post_parse_again (eui64 : String → Option linkaddr_t) (js_ok : Bool) :
    ∀ (evs : List json_event) (req : post_request) (s : plexi_state), wf_state s →
      request_consistent req →
      ∃ resp s1, post_stats_parse eui64 js_ok s evs req = some (resp, s1) ∧ wf_state s1 ∧
        post_stats_parse eui64 js_ok s1 evs req = some (resp, s1) := by
  intro evs
  induction evs with
  | nil =>
    intro req s hwf _
    cases js_ok with
    | true => exact ⟨⟨none, ""⟩, s, by simp [post_stats_parse], hwf, by simp [post_stats_parse]⟩
    | false =>
      exact ⟨⟨some coap_status.BAD_REQUEST_4_00, "Can only support JSON payload format"⟩, s,
        by simp [post_stats_parse], hwf, by simp [post_stats_parse]⟩
  | cons ev evs ih =>
    intro req s hwf hc
    cases ev with
    | object_start =>
      simp only [post_stats_parse]
      apply ih _ s hwf
      have h1 := applied_set_window_words req.stats 0 hc.1.1
      have h2 := applied_set_enable_words _ DISABLE h1.1
      have h3 := applied_set_metric_words _ NONE h2.1
      have hv : of_int (-1) = SENTINEL := by decide
      have h4 := applied_set_id_words
        { applied plexi_set_statistics_metric
            (applied plexi_set_statistics_enable
              (applied plexi_set_statistics_window req.stats 0) DISABLE) NONE with
          value := of_int (-1) } (of_int (-1)) h3.1
      refine ⟨⟨h4.1, ?_⟩, ?_⟩
      · exact lt_of_eq_of_lt h4.2 (of_int_lt (-1))
      · intro _
        exact h4.2.trans hv
    | object_end =>
      simp only [post_stats_parse]
      exact end_element_again req s hwf hc
    | number field value =>
      exact post_parse_again_number eui64 js_ok evs field value ih req s hwf hc
    | string field value =>
      exact post_parse_again_string eui64 js_ok evs field value ih req s hwf hc
    | other =>
      simp only [post_stats_parse]
      exact ih _ s hwf hc

/-- C6: an Upsert request (a JSON object, so the first event is the opening
brace) processed on a well-formed state gives a response and a state, and
processed again on that state gives the same response and leaves the state
(every chain, every record and the pool) exactly as it is. -/
theorem upsert_twice_same_state (eui64 : String → Option linkaddr_t) (js_ok : Bool)
    (events : List json_event) (s : plexi_state) (hwf : wf_state s) :
    ∃ resp s1,
      plexi_post_stats_handler eui64 js_ok (json_event.object_start :: events) s =
        some (resp, s1) ∧
      plexi_post_stats_handler eui64 js_ok (json_event.object_start :: events) s1 =
        some (resp, s1) := by
  have hinit : request_consistent
      { post_request_init with
        stats := applied plexi_set_statistics_id
          { applied plexi_set_statistics_metric
              (applied plexi_set_statistics_enable
                (applied plexi_set_statistics_window post_request_init.stats 0) DISABLE)
              NONE with value := of_int (-1) } (of_int (-1))
        channel := -1, slot := -1, slotframe := -1 } := by
    refine ⟨⟨?_, ?_⟩, ?_⟩ <;> decide
  obtain ⟨resp, s1, h1, _, h3⟩ := post_parse_again eui64 js_ok events _ s hwf hinit
  refine ⟨resp, s1, ?_, ?_⟩
  · simp only [plexi_post_stats_handler, post_stats_parse]
    exact h1
  · simp only [plexi_post_stats_handler, post_stats_parse]
    exact h3

/-! ### The claims at concrete inputs -/

/-- C4 (the code departs from the claim): a link whose chain holds two records,
in blocks 0 and 1 of a full pool of two. The link-removal callback
`plexi_purge_link_statistics` frees the block `link->data` points to and does
not follow `next`: the pool goes from 2 used blocks to 1, not to 0, and block 1
is still in use. -/
theorem purge_link_frees_first_record_only :
    chain_at two_records_state (0, 0) = [0, 1] ∧
      memb_used two_records_state.plexi_stats_mem = 2 ∧
      memb_used (plexi_purge_link_statistics two_records_state
        (example_link 3 1 (some 0))).plexi_stats_mem = 1 ∧
      ((plexi_purge_link_statistics two_records_state
        (example_link 3 1 (some 0))).plexi_stats_mem[1]?).map (fun b => b.count) = some 1 := by
  decide

/-- C10 (the code departs from the claim): two links without statistics, so the
ids of all records are pairwise distinct, and the request with the fields
metric "rssi" and id 7 and no filter. The request succeeds and leaves a record
with id 7 on each of the two links. -/
theorem upsert_repeats_id_on_every_matched_link :
    records_at two_links_state (0, 0) = [] ∧ records_at two_links_state (0, 1) = [] ∧
      (plexi_post_stats_handler no_address true rssi_id7_events two_links_state).map
        (fun x => (x.1.status,
          (records_at x.2 (0, 0)).map (fun r => plexi_get_statistics_id (some r)),
          (records_at x.2 (0, 1)).map (fun r => plexi_get_statistics_id (some r)))) =
        some (some coap_status.CHANGED_2_04, [7], [7]) := by
  decide

/-- Witness of C5 (amended): the first of three links holds the RSSI record with
id 7 the request looks for (window 5, value 100), the second and third have no
statistics, one block of the pool is free; the record of the first link is
updated, a record is created on the second link, and the third finds the pool
full. -/
theorem upsert_fails_when_pool_exhausted_witness :
    ∃ s1, post_stats_end_element (example_request 251 16) window_record_state =
        some (⟨some coap_status.INTERNAL_SERVER_ERROR_5_00,
          "Not enough memory (too many statistics)"⟩, s1) ∧
      (∀ q ∈ [(0, 0), (0, 1)], needs_record (example_request 251 16) window_record_state q = true →
        records_at s1 q = records_at window_record_state q ++ [created_view (example_request 251
            16)]) ∧
      (∀ q ∈ [(0, 0), (0, 1)], ∀ k r, selected_at (example_request 251 16) window_record_state q
          = true →
        match_records (example_request 251 16).stats (example_request 251 16).flags (records_at
            window_record_state q) = match_result.found k →
        (records_at window_record_state q)[k]? = some r →
        records_at s1 q = (records_at window_record_state q).set k (post_stats_update_record r
            (example_request 251 16).stats)) ∧
      (∀ q, (q ∉ [(0, 0), (0, 1)] ∨ selected_at (example_request 251 16) window_record_state q =
          false) → records_at s1 q = records_at window_record_state q) ∧
      memb_used s1.plexi_stats_mem = s1.plexi_stats_mem.length ∧
      (∀ q i r, (records_at window_record_state q)[i]? = some r →
        ∃ r1, (records_at s1 q)[i]? = some r1 ∧
          plexi_get_statistics_id (some r1) = plexi_get_statistics_id (some r) ∧
          plexi_get_statistics_metric (some r1) = plexi_get_statistics_metric (some r) ∧
          ((q ∉ [(0, 0), (0, 1)] ∨ selected_at (example_request 251 16) window_record_state q =
              false ∨
              match_records (example_request 251 16).stats (example_request 251 16).flags
                  (records_at window_record_state q) ≠ match_result.found i) →
            r1 = r) ∧
          (q ∈ [(0, 0), (0, 1)] → selected_at (example_request 251 16) window_record_state q =
              true →
            match_records (example_request 251 16).stats (example_request 251 16).flags
                (records_at window_record_state q) = match_result.found i →
            plexi_get_statistics_enable (some r1) =
                plexi_get_statistics_enable (some (example_request 251 16).stats) ∧
              plexi_get_statistics_window (some r1) =
                plexi_get_statistics_window (some (example_request 251 16).stats) ∧
              r1.value = (example_request 251 16).stats.value)) :=
  upsert_fails_when_pool_exhausted (example_request 251 16) window_record_state
    [(0, 0), (0, 1)] [] (0, 2) (by decide) (by decide) (by decide) (by decide) (by decide)
    (by decide) (by decide) (by decide)

/-- Witness of C7 (amended): the first link has no statistics and gets the
record of the request, the second holds an RSSI record with id 3 against the
requested id 7. -/
theorem upsert_rejects_id_metric_mismatch_witness :
    post_stats_link (example_request 251 16) mismatch_reached_state (0, 1) =
        some (some ⟨some coap_status.BAD_REQUEST_4_00,
          "Statistics ID represents a different metric"⟩, mismatch_reached_state, false) ∧
      post_stats_end_element (example_request 251 16) mismatch_state =
        some (⟨some coap_status.BAD_REQUEST_4_00,
          "Statistics ID represents a different metric"⟩, mismatch_reached_state) ∧
      records_at mismatch_reached_state (0, 1) = records_at mismatch_state (0, 1) ∧
      (∀ q, q ∉ [(0, 0)] → records_at mismatch_reached_state q = records_at mismatch_state q) ∧
      mismatch_reached_state.plexi_stats_mem.length = mismatch_state.plexi_stats_mem.length ∧
      ([(0, 0)] = ([] : List (Nat × Nat)) → mismatch_reached_state = mismatch_state) :=
  upsert_rejects_id_metric_mismatch (example_request 251 16) mismatch_state
    mismatch_reached_state [(0, 0)] [] (0, 1) true (example_link 4 1 (some 0)) (by decide)
    (by decide) (by decide) (by decide) (by decide) (by decide) rfl (by decide) (by decide)
    (by decide) (by decide)

/-- Witness of C8: a shared link without statistics and a request for ETX. -/
theorem upsert_rejects_delivery_metric_on_shared_link_witness :
    ∃ msg, post_stats_end_element (example_request 25 0) shared_link_state =
        some (⟨some coap_status.BAD_REQUEST_4_00, msg⟩, shared_link_state) ∧
      records_at shared_link_state (0, 0) = records_at shared_link_state (0, 0) :=
  upsert_rejects_delivery_metric_on_shared_link (example_request 25 0) shared_link_state
    shared_link_state [] [] (0, 0) false (example_link 3 7 none) (by decide) (by decide)
    (by decide) (by decide) rfl rfl (by decide) (by decide) (by decide)

/-- Witness of C6: the request for RSSI with id 7 on three links without
statistics and a pool of two free blocks. -/
theorem upsert_twice_same_state_witness :
    ∃ resp s1,
      plexi_post_stats_handler no_address true
          (json_event.object_start ::
            [json_event.string "metric" "rssi", json_event.number "id" 7,
              json_event.object_end]) three_links_state = some (resp, s1) ∧
      plexi_post_stats_handler no_address true
          (json_event.object_start ::
            [json_event.string "metric" "rssi", json_event.number "id" 7,
              json_event.object_end]) s1 = some (resp, s1) :=
  upsert_twice_same_state no_address true
    [json_event.string "metric" "rssi", json_event.number "id" 7, json_event.object_end]
    three_links_state (by decide)

/-! ### The setters, field by field -/

theorem set_enable_word (mi v : Nat) (hmi : mi < 65536) (hv : v < 2) :
    ((mi &&& 65534) ||| v) &&& 1 = v ∧
      (((mi &&& 65534) ||| v) >>> 1) &&& 15 = (mi >>> 1) &&& 15 ∧
      (((mi &&& 65534) ||| v) >>> 5) &&& 31 = (mi >>> 5) &&& 31 ∧
      ((mi &&& 65534) ||| v) >>> 10 = mi >>> 10 := by
  have h0 : v <<< 0 = v := Nat.shiftLeft_zero
  have hv1 : v < 2 ^ 1 := hv
  have h1 := field_update_same 65534 0 1 mi v testBit_65534 hv1
  have h2 := field_update_other 65534 0 1 1 4 mi v testBit_65534 hv1 (Or.inr (by norm_num))
    (by norm_num)
  have h3 := field_update_other 65534 0 1 5 5 mi v testBit_65534 hv1 (Or.inr (by norm_num))
    (by norm_num)
  have h4 := shift_update_other 65534 0 1 mi v testBit_65534 hv1 (by norm_num) hmi
  rw [h0] at h1 h2 h3 h4
  rw [Nat.shiftRight_zero] at h1
  exact ⟨h1, h2, h3, h4⟩

theorem set_metric_word (mi v : Nat) (hmi : mi < 65536) (hv : v < 16) :
    ((mi &&& 65505) ||| (v <<< 1)) &&& 1 = mi &&& 1 ∧
      (((mi &&& 65505) ||| (v <<< 1)) >>> 1) &&& 15 = v ∧
      (((mi &&& 65505) ||| (v <<< 1)) >>> 5) &&& 31 = (mi >>> 5) &&& 31 ∧
      ((mi &&& 65505) ||| (v <<< 1)) >>> 10 = mi >>> 10 := by
  have hv1 : v < 2 ^ 4 := hv
  have h1 := field_update_other 65505 1 4 0 1 mi v testBit_65505 hv1 (Or.inl (by norm_num))
    (by norm_num)
  have h2 := field_update_same 65505 1 4 mi v testBit_65505 hv1
  have h3 := field_update_other 65505 1 4 5 5 mi v testBit_65505 hv1 (Or.inr (by norm_num))
    (by norm_num)
  have h4 := shift_update_other 65505 1 4 mi v testBit_65505 hv1 (by norm_num) hmi
  rw [Nat.shiftRight_zero, Nat.shiftRight_zero] at h1
  exact ⟨h1, h2, h3, h4⟩

theorem set_id_word (mi v : Nat) (hmi : mi < 65536) (hv : v < 32) :
    ((mi &&& 64543) ||| (v <<< 5)) &&& 1 = mi &&& 1 ∧
      (((mi &&& 64543) ||| (v <<< 5)) >>> 1) &&& 15 = (mi >>> 1) &&& 15 ∧
      (((mi &&& 64543) ||| (v <<< 5)) >>> 5) &&& 31 = v ∧
      ((mi &&& 64543) ||| (v <<< 5)) >>> 10 = mi >>> 10 := by
  have hv1 : v < 2 ^ 5 := hv
  have h1 := field_update_other 64543 5 5 0 1 mi v testBit_64543 hv1 (Or.inl (by norm_num))
    (by norm_num)
  have h2 := field_update_other 64543 5 5 1 4 mi v testBit_64543 hv1 (Or.inl (by norm_num))
    (by norm_num)
  have h3 := field_update_same 64543 5 5 mi v testBit_64543 hv1
  have h4 := shift_update_other 64543 5 5 mi v testBit_64543 hv1 (by norm_num) hmi
  rw [Nat.shiftRight_zero, Nat.shiftRight_zero] at h1
  exact ⟨h1, h2, h3, h4⟩

theorem set_window_word (mi v : Nat) (hv : v < 64) :
    ((mi &&& 1023) ||| (v <<< 10)) &&& 1 = mi &&& 1 ∧
      (((mi &&& 1023) ||| (v <<< 10)) >>> 1) &&& 15 = (mi >>> 1) &&& 15 ∧
      (((mi &&& 1023) ||| (v <<< 10)) >>> 5) &&& 31 = (mi >>> 5) &&& 31 ∧
      ((mi &&& 1023) ||| (v <<< 10)) >>> 10 = v := by
  have hv1 : v < 2 ^ 6 := hv
  have h1 := field_update_other 1023 10 6 0 1 mi v testBit_1023 hv1 (Or.inl (by norm_num))
    (by norm_num)
  have h2 := field_update_other 1023 10 6 1 4 mi v testBit_1023 hv1 (Or.inl (by norm_num))
    (by norm_num)
  have h3 := field_update_other 1023 10 6 5 5 mi v testBit_1023 hv1 (Or.inl (by norm_num))
    (by norm_num)
  have h4 := shift_update_same mi v hv1
  rw [Nat.shiftRight_zero, Nat.shiftRight_zero] at h1
  exact ⟨h1, h2, h3, h4⟩

/-- C14: on a record whose `metainfo` is a 16-bit word, each of the four setters
called with a value in the range of its field returns 1; afterwards the getter
of that field returns the value and the getters of the other three fields
return what they returned before. -/
theorem setter_writes_its_field_only (st : plexi_stats) (v : Nat)
    (hw : st.metainfo < 65536) :
    (v < 2 →
      (plexi_set_statistics_enable (some st) v).1 = 1 ∧
      plexi_get_statistics_enable (plexi_set_statistics_enable (some st) v).2 = v ∧
      plexi_get_statistics_metric (plexi_set_statistics_enable (some st) v).2 =
        plexi_get_statistics_metric (some st) ∧
      plexi_get_statistics_id (plexi_set_statistics_enable (some st) v).2 =
        plexi_get_statistics_id (some st) ∧
      plexi_get_statistics_window (plexi_set_statistics_enable (some st) v).2 =
        plexi_get_statistics_window (some st)) ∧
    (v < 16 →
      (plexi_set_statistics_metric (some st) v).1 = 1 ∧
      plexi_get_statistics_metric (plexi_set_statistics_metric (some st) v).2 = v ∧
      plexi_get_statistics_enable (plexi_set_statistics_metric (some st) v).2 =
        plexi_get_statistics_enable (some st) ∧
      plexi_get_statistics_id (plexi_set_statistics_metric (some st) v).2 =
        plexi_get_statistics_id (some st) ∧
      plexi_get_statistics_window (plexi_set_statistics_metric (some st) v).2 =
        plexi_get_statistics_window (some st)) ∧
    (v < 32 →
      (plexi_set_statistics_id (some st) v).1 = 1 ∧
      plexi_get_statistics_id (plexi_set_statistics_id (some st) v).2 = v ∧
      plexi_get_statistics_enable (plexi_set_statistics_id (some st) v).2 =
        plexi_get_statistics_enable (some st) ∧
      plexi_get_statistics_metric (plexi_set_statistics_id (some st) v).2 =
        plexi_get_statistics_metric (some st) ∧
      plexi_get_statistics_window (plexi_set_statistics_id (some st) v).2 =
        plexi_get_statistics_window (some st)) ∧
    (v < 64 →
      (plexi_set_statistics_window (some st) v).1 = 1 ∧
      plexi_get_statistics_window (plexi_set_statistics_window (some st) v).2 = v ∧
      plexi_get_statistics_enable (plexi_set_statistics_window (some st) v).2 =
        plexi_get_statistics_enable (some st) ∧
      plexi_get_statistics_metric (plexi_set_statistics_window (some st) v).2 =
        plexi_get_statistics_metric (some st) ∧
      plexi_get_statistics_id (plexi_set_statistics_window (some st) v).2 =
        plexi_get_statistics_id (some st)) := by
  refine ⟨?_, ?_, ?_, ?_⟩
  · intro hv
    obtain ⟨h1, h2, h3, h4⟩ := set_enable_word st.metainfo v hw hv
    simp only [plexi_set_statistics_enable, if_pos hv, plexi_get_statistics_enable,
      plexi_get_statistics_metric, plexi_get_statistics_id, plexi_get_statistics_window]
    exact ⟨trivial, h1, h2, h3, h4⟩
  · intro hv
    obtain ⟨h1, h2, h3, h4⟩ := set_metric_word st.metainfo v hw hv
    simp only [plexi_set_statistics_metric, if_pos hv, plexi_get_statistics_enable,
      plexi_get_statistics_metric, plexi_get_statistics_id, plexi_get_statistics_window]
    exact ⟨trivial, h2, h1, h3, h4⟩
  · intro hv
    obtain ⟨h1, h2, h3, h4⟩ := set_id_word st.metainfo v hw hv
    simp only [plexi_set_statistics_id, if_pos hv, plexi_get_statistics_enable,
      plexi_get_statistics_metric, plexi_get_statistics_id, plexi_get_statistics_window]
    exact ⟨trivial, h3, h1, h2, h4⟩
  · intro hv
    obtain ⟨h1, h2, h3, h4⟩ := set_window_word st.metainfo v hv
    simp only [plexi_set_statistics_window, if_pos hv, plexi_get_statistics_enable,
      plexi_get_statistics_metric, plexi_get_statistics_id, plexi_get_statistics_window]
    exact ⟨trivial, h4, h1, h2, h3⟩

/-- C15: each of the four setters called with a value outside the range of its
field returns 0 and leaves the record (its `metainfo` word, its value and its
`next` pointer) as it is; called on the null pointer, each setter returns 0
whatever the value. -/
theorem setter_rejects_out_of_range (st : plexi_stats) (v : Nat) :
    (2 ≤ v → plexi_set_statistics_enable (some st) v = (0, some st)) ∧
    (16 ≤ v → plexi_set_statistics_metric (some st) v = (0, some st)) ∧
    (32 ≤ v → plexi_set_statistics_id (some st) v = (0, some st)) ∧
    (64 ≤ v → plexi_set_statistics_window (some st) v = (0, some st)) ∧
    (plexi_set_statistics_enable none v).1 = 0 ∧
    (plexi_set_statistics_metric none v).1 = 0 ∧
    (plexi_set_statistics_id none v).1 = 0 ∧
    (plexi_set_statistics_window none v).1 = 0 := by
  refine ⟨?_, ?_, ?_, ?_, rfl, rfl, rfl, rfl⟩
  · intro hv
    simp only [plexi_set_statistics_enable, if_neg (Nat.not_lt.mpr hv)]
  · intro hv
    simp only [plexi_set_statistics_metric, if_neg (Nat.not_lt.mpr hv)]
  · intro hv
    simp only [plexi_set_statistics_id, if_neg (Nat.not_lt.mpr hv)]
  · intro hv
    simp only [plexi_set_statistics_window, if_neg (Nat.not_lt.mpr hv)]
/-- Witness of C14: the word 123 (enable 1, metric RSSI, id 3, window 0) and the
value 1, which is in the range of all four fields. -/
theorem setter_writes_its_field_only_witness :
    (plexi_set_statistics_enable (some ⟨none, 123, 65535⟩) 1).1 = 1 ∧
      plexi_get_statistics_enable (plexi_set_statistics_enable (some ⟨none, 123, 65535⟩) 1).2 =
        1 ∧
      plexi_get_statistics_metric (plexi_set_statistics_metric (some ⟨none, 123, 65535⟩) 1).2 =
        1 ∧
      plexi_get_statistics_id (plexi_set_statistics_metric (some ⟨none, 123, 65535⟩) 1).2 =
        plexi_get_statistics_id (some ⟨none, 123, 65535⟩) ∧
      plexi_get_statistics_id (plexi_set_statistics_id (some ⟨none, 123, 65535⟩) 1).2 = 1 ∧
      plexi_get_statistics_window (plexi_set_statistics_window (some ⟨none, 123, 65535⟩) 1).2 =
        1 :=
  have h := setter_writes_its_field_only ⟨none, 123, 65535⟩ 1 (by decide)
  ⟨(h.1 (by decide)).1, (h.1 (by decide)).2.1, (h.2.1 (by decide)).2.1,
    (h.2.1 (by decide)).2.2.2.1, (h.2.2.1 (by decide)).2.1, (h.2.2.2 (by decide)).2.1⟩

/-- Witness of C15: the word 123 and the value 64, which is outside the range of
all four fields. -/
theorem setter_rejects_out_of_range_witness :
    plexi_set_statistics_enable (some ⟨none, 123, 65535⟩) 64 = (0, some ⟨none, 123, 65535⟩) ∧
      plexi_set_statistics_metric (some ⟨none, 123, 65535⟩) 64 =
        (0, some ⟨none, 123, 65535⟩) ∧
      plexi_set_statistics_id (some ⟨none, 123, 65535⟩) 64 = (0, some ⟨none, 123, 65535⟩) ∧
      plexi_set_statistics_window (some ⟨none, 123, 65535⟩) 64 =
        (0, some ⟨none, 123, 65535⟩) :=
  have h := setter_rejects_out_of_range ⟨none, 123, 65535⟩ 64
  ⟨h.1 (by decide), h.2.1 (by decide), h.2.2.1 (by decide), h.2.2.2.1 (by decide)⟩

/-! ### The walk against a scan of all links -/

theorem first_index_unique {α : Type} (key : α → Nat) (k : Int) (l : List α)
    (hnd : (l.map key).Nodup) (i : Nat) (a : α) (ha : l[i]? = some a)
    (hk : (key a : Int) = k) :
    first_index (fun x => decide ((key x : Int) = k)) l = some i := by
  induction l generalizing i with
  | nil => simp at ha
  | cons b l ih =>
    rw [List.map_cons, List.nodup_cons] at hnd
    cases i with
    | zero =>
      simp only [List.getElem?_cons_zero, Option.some.injEq] at ha
      subst ha
      simp [first_index, hk]
    | succ i =>
      simp only [List.getElem?_cons_succ] at ha
      have hmem : key a ∈ l.map key := List.mem_map_of_mem key (List.getElem?_mem ha)
      have hne : ¬ ((key b : Int) = k) := by
        intro e
        have e2 : key b = key a := by
          have e3 : (key b : Int) = (key a : Int) := e.trans hk.symm
          exact_mod_cast e3
        exact hnd.1 (e2 ▸ hmem)
      simp only [first_index, decide_eq_true_eq, if_neg hne, ih hnd.2 i ha, Option.map_some']

theorem mem_stats_walk_frames (schedule : List tsch_slotframe) (flags : Nat) (frame : Int)
    (hframes : (schedule.map (fun sf => sf.handle)).Nodup) (i : Nat) :
    i ∈ stats_walk_frames schedule flags frame ↔
      ∃ sf, schedule[i]? = some sf ∧ (flags &&& 1 = 0 ∨ (sf.handle : Int) = frame) := by
  unfold stats_walk_frames tsch_schedule_get_slotframe_by_handle
  by_cases hf : flags &&& 1 = 0
  · simp only [hf, ne_eq, not_true_eq_false, if_false, List.mem_range, true_or, and_true]
    constructor
    · intro h
      exact ⟨schedule[i], by simp [h]⟩
    · rintro ⟨sf, hsf⟩
      exact (List.getElem?_eq_some_iff.mp hsf).1
  · simp only [ne_eq, hf, not_false_eq_true, if_true, false_or]
    constructor
    · intro h
      cases hfi : first_index (fun sf => decide ((sf.handle : Int) = frame)) schedule with
      | none => simp [hfi] at h
      | some k =>
        simp only [hfi, List.mem_singleton] at h
        subst h
        obtain ⟨sf, h1, h2⟩ := first_index_spec _ _ _ hfi
        exact ⟨sf, h1, by simpa using h2⟩
    · rintro ⟨sf, h1, h2⟩
      rw [first_index_unique (fun sf => sf.handle) frame schedule hframes i sf h1 h2]
      simp

theorem mem_stats_walk_links (sf : tsch_slotframe) (flags : Nat) (slot : Int)
    (hslots : (sf.links_list.map (fun l => l.timeslot)).Nodup) (j : Nat) :
    j ∈ stats_walk_links sf flags slot ↔
      ∃ l, sf.links_list[j]? = some l ∧ (flags &&& 2 = 0 ∨ (l.timeslot : Int) = slot) := by
  unfold stats_walk_links tsch_schedule_get_link_by_timeslot
  by_cases hf : flags &&& 2 = 0
  · simp only [hf, ne_eq, not_true_eq_false, if_false, List.mem_range, true_or, and_true]
    constructor
    · intro h
      exact ⟨sf.links_list[j], by simp [h]⟩
    · rintro ⟨l, hl⟩
      exact (List.getElem?_eq_some_iff.mp hl).1
  · simp only [ne_eq, hf, not_false_eq_true, if_true, false_or]
    constructor
    · intro h
      cases hfi : first_index (fun l => decide ((l.timeslot : Int) = slot)) sf.links_list with
      | none => simp [hfi] at h
      | some k =>
        simp only [hfi, List.mem_singleton] at h
        subst h
        obtain ⟨l, h1, h2⟩ := first_index_spec _ _ _ hfi
        exact ⟨l, h1, by simpa using h2⟩
    · rintro ⟨l, h1, h2⟩
      rw [first_index_unique (fun l => l.timeslot) slot sf.links_list hslots j l h1 h2]
      simp

theorem mem_stats_walk (schedule : List tsch_slotframe) (flags : Nat) (frame slot : Int)
    (hframes : (schedule.map (fun sf => sf.handle)).Nodup)
    (hslots : ∀ sf ∈ schedule, (sf.links_list.map (fun l => l.timeslot)).Nodup)
    (p : Nat × Nat) :
    p ∈ stats_walk schedule flags frame slot ↔
      ∃ sf l, schedule[p.1]? = some sf ∧ sf.links_list[p.2]? = some l ∧
        (flags &&& 1 = 0 ∨ (sf.handle : Int) = frame) ∧
        (flags &&& 2 = 0 ∨ (l.timeslot : Int) = slot) := by
  unfold stats_walk
  simp only [List.mem_flatMap]
  constructor
  · rintro ⟨i, hi, hp⟩
    obtain ⟨sf, hsf, hfr⟩ := (mem_stats_walk_frames schedule flags frame hframes i).mp hi
    simp only [hsf, List.mem_map] at hp
    obtain ⟨j, hj, rfl⟩ := hp
    obtain ⟨l, hl, hsl⟩ := (mem_stats_walk_links sf flags slot
      (hslots sf (List.getElem?_mem hsf)) j).mp hj
    exact ⟨sf, l, hsf, hl, hfr, hsl⟩
  · rintro ⟨sf, l, hsf, hl, hfr, hsl⟩
    refine ⟨p.1, (mem_stats_walk_frames schedule flags frame hframes p.1).mpr ⟨sf, hsf, hfr⟩, ?_⟩
    simp only [hsf, List.mem_map]
    exact ⟨p.2, (mem_stats_walk_links sf flags slot
      (hslots sf (List.getElem?_mem hsf)) p.2).mpr ⟨l, hl, hsl⟩, rfl⟩

theorem mem_naive_filter_scan (schedule : List tsch_slotframe) (flags : Nat)
    (frame slot channel : Int) (tna : linkaddr_t) (p : Nat × Nat) :
    p ∈ naive_filter_scan schedule flags frame slot channel tna ↔
      ∃ sf l, schedule[p.1]? = some sf ∧ sf.links_list[p.2]? = some l ∧
        (flags &&& 1 = 0 ∨ (sf.handle : Int) = frame) ∧
        (flags &&& 2 = 0 ∨ (l.timeslot : Int) = slot) ∧
        (flags &&& 4 = 0 ∨ (l.channel_offset : Int) = channel) ∧
        (flags &&& 8 = 0 ∨ l.addr = tna) := by
  unfold naive_filter_scan
  rw [List.mem_filter, mem_all_positions]
  constructor
  · rintro ⟨⟨l, hl⟩, h⟩
    cases hsf : schedule[p.1]? with
    | none => simp [link_at, hsf] at hl
    | some sf =>
      have hl2 : sf.links_list[p.2]? = some l := by simpa [link_at, hsf] using hl
      simp only [hsf, hl, decide_eq_true_eq] at h
      exact ⟨sf, l, rfl, hl2, h⟩
  · rintro ⟨sf, l, hsf, hl, h⟩
    have hl2 : link_at schedule p = some l := by simp [link_at, hsf, hl]
    refine ⟨⟨l, hl2⟩, ?_⟩
    simp only [hsf, hl2, decide_eq_true_eq]
    exact h

theorem and_bit_self (flags b : Nat) : (flags &&& b) &&& b = flags &&& b := by
  rw [Nat.and_assoc, Nat.and_self]

theorem and_bit_other (flags a b : Nat) (h : a &&& b = 0) : (flags &&& a) &&& b = 0 := by
  rw [Nat.and_assoc, h, Nat.and_zero]

/-- In a schedule whose slotframe handles are pairwise distinct and whose
slotframes hold at most one link per timeslot, for all filters: a link is among
those the walk reaches and the test of the body lets through exactly when the
scan of all links keeps it, and the scan with all supplied filters keeps exactly
the links that the four scans with one of the filters each keep. The walk
visits no link twice. -/
theorem stats_visited_iff_scan (schedule : List tsch_slotframe)
    (flags : Nat) (frame slot channel : Int) (tna : linkaddr_t)
    (hframes : (schedule.map (fun sf => sf.handle)).Nodup)
    (hslots : ∀ sf ∈ schedule, (sf.links_list.map (fun l => l.timeslot)).Nodup) :
    (∀ p, p ∈ stats_visited schedule flags frame slot channel tna ↔
      p ∈ naive_filter_scan schedule flags frame slot channel tna) ∧
    (∀ p, p ∈ naive_filter_scan schedule flags frame slot channel tna ↔
      p ∈ naive_filter_scan schedule (flags &&& 1) frame slot channel tna ∧
      p ∈ naive_filter_scan schedule (flags &&& 2) frame slot channel tna ∧
      p ∈ naive_filter_scan schedule (flags &&& 4) frame slot channel tna ∧
      p ∈ naive_filter_scan schedule (flags &&& 8) frame slot channel tna) ∧
    (stats_visited schedule flags frame slot channel tna).Nodup := by
  refine ⟨?_, ?_, ?_⟩
  · intro p
    rw [mem_naive_filter_scan]
    unfold stats_visited
    rw [List.mem_filter, mem_stats_walk schedule flags frame slot hframes hslots]
    constructor
    · rintro ⟨⟨sf, l, hsf, hl, h1, h2⟩, h⟩
      have hl2 : link_at schedule p = some l := by simp [link_at, hsf, hl]
      simp only [hl2, stats_link_filter, decide_eq_true_eq] at h
      exact ⟨sf, l, hsf, hl, h1, h2, h.1, h.2⟩
    · rintro ⟨sf, l, hsf, hl, h1, h2, h3, h4⟩
      have hl2 : link_at schedule p = some l := by simp [link_at, hsf, hl]
      refine ⟨⟨sf, l, hsf, hl, h1, h2⟩, ?_⟩
      simp only [hl2, stats_link_filter, decide_eq_true_eq]
      exact ⟨h3, h4⟩
  · intro p
    simp only [mem_naive_filter_scan, and_bit_self,
      and_bit_other flags 1 2 (by decide), and_bit_other flags 1 4 (by decide),
      and_bit_other flags 1 8 (by decide), and_bit_other flags 2 1 (by decide),
      and_bit_other flags 2 4 (by decide), and_bit_other flags 2 8 (by decide),
      and_bit_other flags 4 1 (by decide), and_bit_other flags 4 2 (by decide),
      and_bit_other flags 4 8 (by decide), and_bit_other flags 8 1 (by decide),
      and_bit_other flags 8 2 (by decide), and_bit_other flags 8 4 (by decide),
      true_or, true_and, and_true]
    constructor
    · rintro ⟨sf, l, hsf, hl, h1, h2, h3, h4⟩
      exact ⟨⟨sf, l, hsf, hl, h1⟩, ⟨sf, l, hsf, hl, h2⟩, ⟨sf, l, hsf, hl, h3⟩,
        ⟨sf, l, hsf, hl, h4⟩⟩
    · rintro ⟨⟨sf, l, hsf, hl, h1⟩, ⟨sf2, l2, hsf2, hl2, h2⟩, ⟨sf3, l3, hsf3, hl3, h3⟩,
        ⟨sf4, l4, hsf4, hl4, h4⟩⟩
      rw [hsf] at hsf2 hsf3 hsf4
      simp only [Option.some.injEq] at hsf2 hsf3 hsf4
      subst hsf2 hsf3 hsf4
      rw [hl] at hl2 hl3 hl4
      simp only [Option.some.injEq] at hl2 hl3 hl4
      subst hl2 hl3 hl4
      exact ⟨sf, l, hsf, hl, h1, h2, h3, h4⟩
  · exact (stats_walk_nodup schedule flags frame slot).filter _

/-! ### The neighbor list -/

theorem execute_eq_link_calls (m : memb) (link : tsch_link) (target : Option linkaddr_t)
    (c : List Nat) (h : link_chain m link = some c) :
    plexi_execute_over_link_stats m link target =
      some ((if memb_inmemb m link.data then 1 else 0), link_calls m target link) := by
  unfold plexi_execute_over_link_stats link_calls link_records
  rw [h]
  unfold link_chain at h
  by_cases hin : memb_inmemb m link.data = true
  · rw [if_pos hin] at h
    simp only [hin, if_true, h, Option.map_some', Option.getD_some, chain_records,
      List.map_map]
    rfl
  · rw [if_neg hin] at h
    simp only [Option.some.injEq] at h
    subst h
    simp [hin, chain_records]

theorem mem_all_links (schedule : List tsch_slotframe) (l : tsch_link)
    (h : l ∈ all_links schedule) : ∃ p, link_at schedule p = some l := by
  unfold all_links at h
  obtain ⟨sf, hsf, hl⟩ := List.mem_flatMap.mp h
  obtain ⟨i, hi⟩ := List.getElem?_of_mem hsf
  obtain ⟨j, hj⟩ := List.getElem?_of_mem hl
  exact ⟨(i, j), by simp [link_at, hi, hj]⟩

theorem aggregate_links_eq (m : memb) (lla : linkaddr_t) (links : List tsch_link)
    (a : aggregate_stats_struct)
    (h : ∀ l ∈ links, ∃ c, link_chain m l = some c) :
    aggregate_links m lla links a =
      some ((links.flatMap (link_calls m (some lla))).foldl
        (fun a c => aggregate_statistics a c.1 c.2.1 c.2.2) a) := by
  induction links generalizing a with
  | nil => rfl
  | cons l links ih =>
    obtain ⟨c, hc⟩ := h l (List.mem_cons_self _ _)
    simp only [aggregate_links, execute_eq_link_calls m l (some lla) c hc, List.flatMap_cons,
      List.foldl_append]
    exact ih _ (fun l1 h1 => h l1 (List.mem_cons_of_mem _ h1))

theorem call_values_link (m : memb) (lla : linkaddr_t) (metric : Nat) (l : tsch_link) :
    call_values metric (link_calls m (some lla) l) =
      if l.addr = lla then
        ((link_records m l).filter (fun r =>
          decide (plexi_get_statistics_metric (some r) = metric ∧
            to_int16 r.value ≠ -1))).map (fun r => to_int16 r.value)
      else [] := by
  unfold call_values link_calls
  by_cases h : l.addr = lla
  · rw [if_pos h]
    simp only [h, if_true, List.filter_map, List.map_map]
    rfl
  · rw [if_neg h]
    have h2 : ¬ lla = l.addr := fun e => h e.symm
    simp [h2]

theorem call_values_append (metric : Nat) (c1 c2 : List (Nat × Nat × Int)) :
    call_values metric (c1 ++ c2) = call_values metric c1 ++ call_values metric c2 := by
  simp [call_values]

theorem call_values_flatMap (m : memb) (lla : linkaddr_t) (metric : Nat)
    (links : List tsch_link) :
    call_values metric (links.flatMap (link_calls m (some lla))) =
      links.flatMap (fun l =>
        if l.addr = lla then
          ((link_records m l).filter (fun r =>
            decide (plexi_get_statistics_metric (some r) = metric ∧
              to_int16 r.value ≠ -1))).map (fun r => to_int16 r.value)
        else []) := by
  induction links with
  | nil => rfl
  | cons l links ih =>
    rw [List.flatMap_cons, List.flatMap_cons, call_values_append, ih, call_values_link]

theorem aggregate_sum_rssi (a : aggregate_stats_struct) : aggregate_sum a RSSI = a.rssi := rfl
theorem aggregate_sum_lqi (a : aggregate_stats_struct) : aggregate_sum a LQI = a.lqi := rfl
theorem aggregate_sum_etx (a : aggregate_stats_struct) : aggregate_sum a ETX = a.etx := rfl
theorem aggregate_sum_pdr (a : aggregate_stats_struct) : aggregate_sum a PDR = a.pdr := rfl
theorem aggregate_counter_rssi (a : aggregate_stats_struct) :
    aggregate_counter a RSSI = a.rssi_counter := rfl
theorem aggregate_counter_lqi (a : aggregate_stats_struct) :
    aggregate_counter a LQI = a.lqi_counter := rfl
theorem aggregate_counter_etx (a : aggregate_stats_struct) :
    aggregate_counter a ETX = a.etx_counter := rfl
theorem aggregate_counter_pdr (a : aggregate_stats_struct) :
    aggregate_counter a PDR = a.pdr_counter := rfl

theorem aggregate_statistics_cases (a : aggregate_stats_struct) (id m : Nat) (v : Int) :
    (v = -1 ∧ aggregate_statistics a id m v = a) ∨
    (v ≠ -1 ∧ m = RSSI ∧ aggregate_statistics a id m v =
      { a with rssi := (if a.rssi = -1 then v else a.rssi + v)
               rssi_counter := a.rssi_counter + 1 }) ∨
    (v ≠ -1 ∧ m = LQI ∧ aggregate_statistics a id m v =
      { a with lqi := (if a.lqi = -1 then v else a.lqi + v)
               lqi_counter := a.lqi_counter + 1 }) ∨
    (v ≠ -1 ∧ m = ETX ∧ aggregate_statistics a id m v =
      { a with etx := (if a.etx = -1 then v else a.etx + v)
               etx_counter := a.etx_counter + 1 }) ∨
    (v ≠ -1 ∧ m = PDR ∧ aggregate_statistics a id m v =
      { a with pdr := (if a.pdr = -1 then v else a.pdr + v)
               pdr_counter := a.pdr_counter + 1 }) ∨
    (m ≠ RSSI ∧ m ≠ LQI ∧ m ≠ ETX ∧ m ≠ PDR ∧
      aggregate_sum (aggregate_statistics a id m v) = aggregate_sum a ∧
      aggregate_counter (aggregate_statistics a id m v) = aggregate_counter a) := by
  by_cases hv : v = -1
  · left
    refine ⟨hv, ?_⟩
    unfold aggregate_statistics
    rw [if_neg (not_not.mpr hv)]
  · right
    unfold aggregate_statistics
    rw [if_pos hv]
    by_cases h1 : m = RSSI
    · left; rw [if_pos h1]; exact ⟨hv, h1, rfl⟩
    · right
      rw [if_neg h1]
      by_cases h2 : m = LQI
      · left; rw [if_pos h2]; exact ⟨hv, h2, rfl⟩
      · right
        rw [if_neg h2]
        by_cases h3 : m = ETX
        · left; rw [if_pos h3]; exact ⟨hv, h3, rfl⟩
        · right
          rw [if_neg h3]
          by_cases h4 : m = PDR
          · left; rw [if_pos h4]; exact ⟨hv, h4, rfl⟩
          · right
            rw [if_neg h4]
            refine ⟨h1, h2, h3, h4, ?_⟩
            by_cases h5 : m = ASN
            · rw [if_pos h5]; exact ⟨rfl, rfl⟩
            · rw [if_neg h5]; exact ⟨rfl, rfl⟩

theorem aggregate_step (a : aggregate_stats_struct) (id m metric : Nat) (v : Int)
    (hM : metric = RSSI ∨ metric = LQI ∨ metric = ETX ∨ metric = PDR) :
    aggregate_sum (aggregate_statistics a id m v) metric =
        (if m = metric ∧ v ≠ -1 then
          (if aggregate_sum a metric = -1 then v else aggregate_sum a metric + v)
         else aggregate_sum a metric) ∧
      aggregate_counter (aggregate_statistics a id m v) metric =
        (if m = metric ∧ v ≠ -1 then aggregate_counter a metric + 1
         else aggregate_counter a metric) := by
  by_cases hc : m = metric ∧ v ≠ -1
  · rw [if_pos hc, if_pos hc]
    obtain ⟨hm, hv⟩ := hc
    rcases aggregate_statistics_cases a id m v with ⟨hv1, _⟩ | ⟨_, hm1, e⟩ | ⟨_, hm1, e⟩ |
      ⟨_, hm1, e⟩ | ⟨_, hm1, e⟩ | ⟨h1, h2, h3, h4, _, _⟩
    · exact absurd hv1 hv
    · rw [e]
      have e2 : metric = RSSI := hm.symm.trans hm1
      subst e2
      exact ⟨rfl, rfl⟩
    · rw [e]
      have e2 : metric = LQI := hm.symm.trans hm1
      subst e2
      exact ⟨rfl, rfl⟩
    · rw [e]
      have e2 : metric = ETX := hm.symm.trans hm1
      subst e2
      exact ⟨rfl, rfl⟩
    · rw [e]
      have e2 : metric = PDR := hm.symm.trans hm1
      subst e2
      exact ⟨rfl, rfl⟩
    · rw [hm] at h1 h2 h3 h4
      rcases hM with h | h | h | h
      · exact absurd h h1
      · exact absurd h h2
      · exact absurd h h3
      · exact absurd h h4
  · rw [if_neg hc, if_neg hc]
    rcases aggregate_statistics_cases a id m v with ⟨_, e⟩ | ⟨hv, hm1, e⟩ | ⟨hv, hm1, e⟩ |
      ⟨hv, hm1, e⟩ | ⟨hv, hm1, e⟩ | ⟨_, _, _, _, e1, e2⟩
    · rw [e]; exact ⟨rfl, rfl⟩
    · rw [e]
      have hne : metric ≠ RSSI := fun h => hc ⟨hm1.trans h.symm, hv⟩
      rcases hM with h | rfl | rfl | rfl
      · exact absurd h hne
      · exact ⟨rfl, rfl⟩
      · exact ⟨rfl, rfl⟩
      · exact ⟨rfl, rfl⟩
    · rw [e]
      have hne : metric ≠ LQI := fun h => hc ⟨hm1.trans h.symm, hv⟩
      rcases hM with rfl | h | rfl | rfl
      · exact ⟨rfl, rfl⟩
      · exact absurd h hne
      · exact ⟨rfl, rfl⟩
      · exact ⟨rfl, rfl⟩
    · rw [e]
      have hne : metric ≠ ETX := fun h => hc ⟨hm1.trans h.symm, hv⟩
      rcases hM with rfl | rfl | h | rfl
      · exact ⟨rfl, rfl⟩
      · exact ⟨rfl, rfl⟩
      · exact absurd h hne
      · exact ⟨rfl, rfl⟩
    · rw [e]
      have hne : metric ≠ PDR := fun h => hc ⟨hm1.trans h.symm, hv⟩
      rcases hM with rfl | rfl | rfl | h
      · exact ⟨rfl, rfl⟩
      · exact ⟨rfl, rfl⟩
      · exact ⟨rfl, rfl⟩
      · exact absurd h hne
    · rw [e1, e2]; exact ⟨rfl, rfl⟩
theorem aggregate_fold (metric : Nat)
    (hM : metric = RSSI ∨ metric = LQI ∨ metric = ETX ∨ metric = PDR)
    (calls : List (Nat × Nat × Int)) (a : aggregate_stats_struct) :
    aggregate_sum (calls.foldl (fun a c => aggregate_statistics a c.1 c.2.1 c.2.2) a) metric =
        sum_from_mark (aggregate_sum a metric) (call_values metric calls) ∧
      aggregate_counter (calls.foldl (fun a c => aggregate_statistics a c.1 c.2.1 c.2.2) a)
          metric =
        aggregate_counter a metric + (call_values metric calls).length := by
  induction calls generalizing a with
  | nil => simp [sum_from_mark, call_values]
  | cons c calls ih =>
    obtain ⟨h1, h2⟩ := aggregate_step a c.1 c.2.1 metric c.2.2 hM
    obtain ⟨g1, g2⟩ := ih (aggregate_statistics a c.1 c.2.1 c.2.2)
    rw [List.foldl_cons, g1, g2, h1, h2]
    by_cases hc : c.2.1 = metric ∧ c.2.2 ≠ -1
    · have e : call_values metric (c :: calls) = c.2.2 :: call_values metric calls := by
        simp [call_values, hc]
      rw [if_pos hc, if_pos hc, e]
      simp only [sum_from_mark, List.foldl_cons, List.length_cons]
      constructor
      · trivial
      · push_cast; ring
    · have e : call_values metric (c :: calls) = call_values metric calls := by
        simp only [call_values]
        rw [List.filter_cons_of_neg (by simpa using hc)]
      rw [if_neg hc, if_neg hc, e]
      exact ⟨rfl, rfl⟩

theorem sum_from_mark_nonneg (vs : List Int) (acc : Int) (hacc : 0 ≤ acc)
    (h : ∀ v ∈ vs, 0 ≤ v) : sum_from_mark acc vs = acc + vs.sum ∧ 0 ≤ acc + vs.sum := by
  induction vs generalizing acc with
  | nil => simp [sum_from_mark, hacc]
  | cons v vs ih =>
    have hv := h v (List.mem_cons_self _ _)
    have hne : ¬ acc = -1 := by omega
    obtain ⟨h1, h2⟩ := ih (acc + v) (by omega) (fun x hx => h x (List.mem_cons_of_mem _ hx))
    simp only [sum_from_mark, List.foldl_cons, if_neg hne, List.sum_cons]
    simp only [sum_from_mark] at h1
    rw [h1]
    constructor
    · ring
    · have : acc + (v + vs.sum) = acc + v + vs.sum := by ring
      rw [this]; exact h2

theorem sum_from_mark_start_nonneg (vs : List Int) (hne : vs ≠ [])
    (h : ∀ v ∈ vs, 0 ≤ v) : sum_from_mark (-1) vs = vs.sum ∧ -1 < vs.sum := by
  cases vs with
  | nil => exact absurd rfl hne
  | cons v vs =>
    have hv := h v (List.mem_cons_self _ _)
    obtain ⟨h1, h2⟩ := sum_from_mark_nonneg vs v hv (fun x hx => h x (List.mem_cons_of_mem _ hx))
    simp only [sum_from_mark, List.foldl_cons, List.sum_cons] at h1 ⊢
    simp only [if_true]
    exact ⟨h1, by omega⟩

theorem sum_from_mark_neg (vs : List Int) (acc : Int) (hacc : acc < -1)
    (h : ∀ v ∈ vs, v < -1) : sum_from_mark acc vs = acc + vs.sum ∧ acc + vs.sum < -1 := by
  induction vs generalizing acc with
  | nil => simp [sum_from_mark, hacc]
  | cons v vs ih =>
    have hv := h v (List.mem_cons_self _ _)
    have hne : ¬ acc = -1 := by omega
    obtain ⟨h1, h2⟩ := ih (acc + v) (by omega) (fun x hx => h x (List.mem_cons_of_mem _ hx))
    simp only [sum_from_mark, List.foldl_cons, if_neg hne, List.sum_cons]
    simp only [sum_from_mark] at h1
    rw [h1]
    constructor
    · ring
    · have : acc + (v + vs.sum) = acc + v + vs.sum := by ring
      rw [this]; exact h2

theorem sum_from_mark_start_neg (vs : List Int) (hne : vs ≠ [])
    (h : ∀ v ∈ vs, v < -1) : sum_from_mark (-1) vs = vs.sum ∧ vs.sum < -1 := by
  cases vs with
  | nil => exact absurd rfl hne
  | cons v vs =>
    have hv := h v (List.mem_cons_self _ _)
    obtain ⟨h1, h2⟩ := sum_from_mark_neg vs v hv (fun x hx => h x (List.mem_cons_of_mem _ hx))
    simp only [sum_from_mark, List.foldl_cons, List.sum_cons] at h1 ⊢
    simp only [if_true]
    exact ⟨h1, h2⟩

/-- What the handler holds for a neighbor in a well-formed state: the sums and
counters of the four averaged metrics, from the samples the specification
names. -/
theorem neighbor_aggregate_eq (s : plexi_state) (lla : linkaddr_t) (hwf : wf_state s) :
    ∃ a, neighbor_aggregate s lla = some a ∧
      ∀ metric, metric = RSSI ∨ metric = LQI ∨ metric = ETX ∨ metric = PDR →
        aggregate_sum a metric = sum_from_mark (-1) (contributing_values s lla metric) ∧
        aggregate_counter a metric = (contributing_values s lla metric).length := by
  have hall : ∀ l ∈ all_links s.schedule, ∃ c, link_chain s.plexi_stats_mem l = some c := by
    intro l hl
    obtain ⟨p, hp⟩ := mem_all_links _ _ hl
    exact ⟨_, (wf_link s p l hwf hp).1⟩
  refine ⟨_, aggregate_links_eq _ lla _ _ hall, ?_⟩
  intro metric hM
  obtain ⟨h1, h2⟩ := aggregate_fold metric hM
    ((all_links s.schedule).flatMap (link_calls s.plexi_stats_mem (some lla)))
    aggregate_stats_init
  rw [h1, h2, call_values_flatMap]
  have e1 : aggregate_sum aggregate_stats_init metric = -1 := by
    rcases hM with rfl | rfl | rfl | rfl <;> rfl
  have e2 : aggregate_counter aggregate_stats_init metric = 0 := by
    rcases hM with rfl | rfl | rfl | rfl <;> rfl
  rw [e1, e2, zero_add]
  exact ⟨rfl, rfl⟩

theorem fields_lookup_rssi (a : aggregate_stats_struct) (h : a.rssi < -1) :
    (neighbor_object_fields a).lookup "rssi" = some (Int.tdiv a.rssi a.rssi_counter) := by
  unfold neighbor_object_fields
  rw [if_pos h]
  simp [List.lookup]

theorem fields_lookup_lqi (a : aggregate_stats_struct) (h : a.lqi > -1) :
    (neighbor_object_fields a).lookup "lqi" = some (Int.tdiv a.lqi a.lqi_counter) := by
  unfold neighbor_object_fields
  rw [if_pos h]
  by_cases h1 : a.rssi < -1
  · simp [List.lookup, h1]
  · simp [List.lookup, h1]

theorem fields_lookup_etx (a : aggregate_stats_struct) (h : a.etx > -1) :
    (neighbor_object_fields a).lookup "etx" =
      some (Int.tdiv (Int.tdiv a.etx 256) a.etx_counter) := by
  unfold neighbor_object_fields
  rw [if_pos h]
  by_cases h1 : a.rssi < -1 <;> by_cases h2 : a.lqi > -1 <;> simp [List.lookup, h1, h2]

theorem fields_lookup_pdr (a : aggregate_stats_struct) (h : a.pdr > -1) :
    (neighbor_object_fields a).lookup "pdr" = some (Int.tdiv a.pdr a.pdr_counter) := by
  unfold neighbor_object_fields
  rw [if_pos h]
  by_cases h1 : a.rssi < -1 <;> by_cases h2 : a.lqi > -1 <;> by_cases h3 : a.etx > -1 <;>
    simp [List.lookup, h1, h2, h3]

theorem to_unsigned_le (i : Int) : to_unsigned i ≤ 4294967295 := by
  unfold to_unsigned
  have h1 : 0 ≤ i % 4294967296 := Int.emod_nonneg _ (by norm_num)
  have h2 : i % 4294967296 < 4294967296 := Int.emod_lt_of_pos _ (by norm_num)
  omega

theorem fields_lookup_asn (a : aggregate_stats_struct) (h : a.asn ≤ 4294967295) :
    (neighbor_object_fields a).lookup "asn" = none := by
  unfold neighbor_object_fields
  have h0 : ¬ a.asn > to_unsigned (-1) := by
    have : to_unsigned (-1) = 4294967295 := by decide
    rw [this]; omega
  rw [if_neg h0]
  by_cases h1 : a.rssi < -1 <;> by_cases h2 : a.lqi > -1 <;> by_cases h3 : a.etx > -1 <;>
    by_cases h4 : a.pdr > -1 <;> simp [List.lookup, h1, h2, h3, h4]

/-- C17 (the code departs from the claim): one link toward the neighbor 9 with
one ASN record holding 5. The handler aggregates the sample (`asn` is 5, one
sample counted), but the object it prints for the neighbor has no ASN field:
the test `temp_aggregate_stats.asn > -1` compares in `unsigned int` and never
holds. -/
theorem neighbor_summary_omits_asn :
    contributing_values (asn_record_state 5) 9 ASN = [5] ∧
      (neighbor_aggregate (asn_record_state 5) 9).map
        (fun a => (a.asn, a.asn_counter, (neighbor_object_fields a).lookup "asn")) =
        some (5, 1, none) := by
  decide

/-- C18 (the code departs from the claim): the link L1 of slotframe 1 with one
ETX record with id 7 that holds 281, the value the packet-sent events with the
transmission counts 1, 1, 2 leave in a record that started at the sentinel. The
read of the links of slotframe 1 with the subresource `stats` answers id 7 with
the value 4294967295: `plexi_execute_over_link_stats` is called with a null
target and hands -1 to `print_stats` for every record. -/
theorem links_read_prints_minus_one_for_every_value :
    packet_sent_updates ETX SENTINEL [1, 1, 2] = some 281 ∧
      (records_at (etx_record_state 281) (0, 0)).map
        (fun r => (plexi_get_statistics_id (some r), r.value)) = [(7, 281)] ∧
      plexi_get_links_handler ⟨4, 0, 1, 0, 0⟩ (etx_record_state 281) =
        some ⟨none, "[\x7b\"id\":7,\"value\":4294967295\x7d]"⟩ := by
  decide

/-! ### Records returned to the pool -/

theorem purge_eq_free (m : memb) (i : Nat) :
    plexi_purge_statistics m (some i) = memb_free m (some i) := by
  unfold plexi_purge_statistics
  by_cases h : memb_inmemb m (some i) = true
  · rw [if_pos h]
  · rw [if_neg h]
    simp only [memb_inmemb, decide_eq_true_eq, not_lt] at h
    simp [memb_free, List.getElem?_eq_none_iff.mpr h]

theorem memb_free_getElem? (m : memb) (i k : Nat) :
    (memb_free m (some i))[k]? =
      if k = i then (m[i]?).map (fun b => { b with count := b.count - 1 }) else m[k]? := by
  cases h : m[i]? with
  | none =>
    simp only [memb_free, h]
    by_cases hk : k = i
    · subst hk; simp [h]
    · simp [hk]
  | some b =>
    have hlt : i < m.length := (List.getElem?_eq_some_iff.mp h).1
    simp only [memb_free, h]
    by_cases hc : 0 < b.count
    · simp only [if_pos hc, List.getElem?_set, Option.map_some']
      by_cases hk : k = i
      · subst hk; simp [hlt]
      · have hk2 : ¬ i = k := fun e => hk e.symm
        simp [hk, hk2]
    · simp only [if_neg hc, Option.map_some']
      by_cases hk : k = i
      · subst hk
        have hz : b.count = 0 := by omega
        rw [if_pos rfl, h]
        cases b with
        | mk c o =>
          simp only at hz
          subst hz
          rfl
      · simp [hk]

theorem memb_free_length (m : memb) (ptr : Option Nat) : (memb_free m ptr).length = m.length := by
  cases ptr with
  | none => rfl
  | some i =>
    cases h : m[i]? with
    | none => simp only [memb_free, h]
    | some b =>
      simp only [memb_free, h]
      split <;> simp

theorem memb_used_free (m : memb) (i : Nat) (b : memb_block) (hb : m[i]? = some b)
    (hc : b.count = 1) : memb_used (memb_free m (some i)) + 1 = memb_used m := by
  have h := countP_set_used m i b { b with count := b.count - 1 } hb
  simp only [memb_free, hb, hc]
  simp only [hc] at h
  simp at h
  simp
  omega

theorem record_view_free (m : memb) (i k : Nat) :
    record_view (memb_free m (some i)) k = record_view m k := by
  unfold record_view
  rw [memb_free_getElem?]
  by_cases hk : k = i
  · subst hk
    cases m[k]? with
    | none => simp
    | some b => simp
  · simp [hk]

theorem record_view_store_next (m : memb) (i k : Nat) (ptr : Option Nat) :
    record_view (memb_store m i (fun o => { o with next := ptr })) k = record_view m k := by
  unfold record_view
  rw [memb_store_getElem?]
  by_cases hk : k = i
  · subst hk
    cases m[k]? with
    | none => simp
    | some b => simp
  · simp [hk]

theorem record_filter_view (q : stats_query) (m : memb) (i : Nat) (b : memb_block)
    (hb : m[i]? = some b) :
    stats_record_filter q b.obj = stats_record_filter q (record_view m i) := by
  rw [record_view_of_some m i b hb]
  rfl

/-! ### Chains with a record taken out -/

theorem is_chain_head (m : memb) (ptr : Option Nat) (c : List Nat) (h : is_chain m ptr c) :
    ptr = c.head? := by
  cases c with
  | nil => exact h
  | cons i c => exact h.1

theorem is_chain_split (m : memb) (data : Option Nat) (kept rest : List Nat)
    (h : is_chain m data (kept ++ rest)) :
    is_chain m rest.head? rest ∧ (kept = [] → data = rest.head?) ∧
      ∀ k, kept.getLast? = some k → ∃ bk, m[k]? = some bk ∧ bk.obj.next = rest.head? := by
  induction kept generalizing data with
  | nil =>
    have e := is_chain_head m data rest h
    simp only [List.nil_append] at h
    refine ⟨e ▸ h, fun _ => e, ?_⟩
    intro k hk
    simp at hk
  | cons a kept ih =>
    obtain ⟨_, b, hb, hc⟩ := h
    obtain ⟨h1, h2, h3⟩ := ih b.obj.next hc
    refine ⟨h1, fun e => by simp at e, ?_⟩
    intro k hk
    cases kept with
    | nil =>
      simp only [List.getLast?_singleton, Option.some.injEq] at hk
      subst hk
      exact ⟨b, hb, h2 rfl⟩
    | cons a2 kept2 =>
      rw [List.getLast?_cons_cons] at hk
      exact h3 k hk

theorem is_chain_remove (m m1 : memb) (data : Option Nat) (kept : List Nat) (k j : Nat)
    (rest : List Nat) (h : is_chain m data (kept ++ k :: j :: rest))
    (hag : ∀ i ∈ kept ++ rest, ∀ b, m[i]? = some b →
      ∃ b1, m1[i]? = some b1 ∧ b1.obj.next = b.obj.next)
    (hk : ∀ bj, m[j]? = some bj → ∃ bk, m1[k]? = some bk ∧ bk.obj.next = bj.obj.next) :
    is_chain m1 data (kept ++ k :: rest) := by
  induction kept generalizing data with
  | nil =>
    obtain ⟨hd, b, hb, hc⟩ := h
    obtain ⟨hn, bj, hbj, hcj⟩ := hc
    obtain ⟨bk, hbk, hnk⟩ := hk bj hbj
    refine ⟨hd, bk, hbk, ?_⟩
    rw [hnk]
    exact is_chain_congr m m1 _ _ hcj (fun i hi b hb => hag i (by simpa using hi) b hb)
  | cons a kept ih =>
    obtain ⟨hd, b, hb, hc⟩ := h
    obtain ⟨b1, hb1, hn1⟩ := hag a (by simp) b hb
    refine ⟨hd, b1, hb1, ?_⟩
    rw [hn1]
    exact ih b.obj.next hc (fun i hi => hag i (by
      rcases List.mem_append.mp hi with h | h
      · exact List.mem_append.mpr (Or.inl (List.mem_cons_of_mem _ h))
      · exact List.mem_append.mpr (Or.inr h)))
/-! ### The loop of the delete over one chain -/

theorem getter_view (m : memb) (i : Nat) (b : memb_block) (hb : m[i]? = some b) :
    plexi_get_statistics_id (some b.obj) = plexi_get_statistics_id (some (record_view m i)) ∧
      plexi_get_statistics_metric (some b.obj) =
        plexi_get_statistics_metric (some (record_view m i)) ∧
      plexi_get_statistics_enable (some b.obj) =
        plexi_get_statistics_enable (some (record_view m i)) := by
  rw [record_view_of_some m i b hb]
  exact ⟨rfl, rfl, rfl⟩

theorem filter_cons_pos {α : Type} (p : α → Bool) (a : α) (l : List α) (h : p a = true) :
    (a :: l).filter p = a :: l.filter p :=
  List.filter_cons_of_pos h

theorem filter_cons_neg {α : Type} (p : α → Bool) (a : α) (l : List α) (h : ¬ p a = true) :
    (a :: l).filter p = l.filter p :=
  List.filter_cons_of_neg h

/-- The loop over a chain, started anywhere in it: `kept` are the records gone
through and left in place, `rest` the ones to come. The records of `rest` that
pass the filter are taken out of the chain, freed and printed; nothing else
changes but the `next` pointers of records that stay. -/
theorem delete_chain_spec (na : linkaddr_t → String) (q : stats_query) (link : tsch_link)
    (htna : q.flags &&& 8 = 0 ∨ q.tna = link.addr) (rest : List Nat) :
    ∀ (kept : List Nat) (m : memb) (data : Option Nat) (fuel : Nat) (content : String)
      (first_item : Bool),
      is_chain m data (kept ++ rest) → (kept ++ rest).Nodup → rest.length ≤ fuel →
      (∀ i ∈ rest, ∃ b, m[i]? = some b ∧ b.count = 1) →
      ∃ m1 data1,
        delete_stats_chain na q link fuel m data kept.getLast? rest.head? content first_item =
          some (m1, data1,
            content ++ delete_entries_text na q link first_item
              ((rest.filter (fun i => stats_record_filter q (record_view m i))).map
                (record_view m)),
            first_item &&
              (rest.filter (fun i => stats_record_filter q (record_view m i))).isEmpty) ∧
        is_chain m1 data1
          (kept ++ rest.filter (fun i => !stats_record_filter q (record_view m i))) ∧
        m1.length = m.length ∧
        (∀ i, i ∉ kept ++ rest → m1[i]? = m[i]?) ∧
        (∀ i, record_view m1 i = record_view m i) ∧
        (∀ i, i ∉ rest.filter (fun i => stats_record_filter q (record_view m i)) →
          (m1[i]?).map (fun b => b.count) = (m[i]?).map (fun b => b.count)) ∧
        memb_used m1 +
          (rest.filter (fun i => stats_record_filter q (record_view m i))).length =
            memb_used m ∧
        (∀ (i : Nat) (b1 : memb_block), m1[i]? = some b1 →
          ∃ b, m[i]? = some b ∧ b1.count ≤ b.count) := by
  induction rest with
  | nil =>
    intro kept m data fuel content first_item _ _ _ _
    refine ⟨m, data, ?_, ?_, rfl, fun _ _ => rfl, fun _ => rfl, fun _ _ => rfl, rfl,
      fun i b1 h => ⟨b1, h, Nat.le_refl _⟩⟩
    · cases fuel <;> simp [delete_stats_chain, delete_entries_text]
    · simpa using ‹is_chain m data (kept ++ [])›
  | cons j rest ih =>
    intro kept m data fuel content first_item hch hnd hfuel hcount
    obtain ⟨fuel, rfl⟩ : ∃ f, fuel = f + 1 := ⟨fuel - 1, by simp at hfuel; omega⟩
    obtain ⟨hsplit, hdata, hlast⟩ := is_chain_split m data kept (j :: rest) hch
    obtain ⟨_, bj, hbj, hcj⟩ := hsplit
    have hnext : bj.obj.next = rest.head? := is_chain_head m _ _ hcj
    obtain ⟨bj2, hbj2, hcount1⟩ := hcount j (List.mem_cons_self _ _)
    rw [hbj] at hbj2
    simp only [Option.some.injEq] at hbj2
    subst hbj2
    have hndr : (j :: rest).Nodup := (List.nodup_append.mp hnd).2.1
    have hjr : j ∉ rest := (List.nodup_cons.mp hndr).1
    have hjk : j ∉ kept := fun hk =>
      (List.nodup_append.mp hnd).2.2 hk (List.mem_cons_self _ _)
    have hview := record_filter_view q m j bj hbj
    obtain ⟨g1, g2, g3⟩ := getter_view m j bj hbj
    by_cases hf : stats_record_filter q bj.obj = true
    · have hfv : stats_record_filter q (record_view m j) = true := hview ▸ hf
      by_cases hd : data = some j
      · -- the head of the chain is removed
        have hk : kept = [] := by
          cases kept with
          | nil => rfl
          | cons a kept =>
            have ha : data = some a := hch.1
            rw [hd] at ha
            simp only [Option.some.injEq] at ha
            exact absurd (ha ▸ List.mem_cons_self _ _) hjk
        subst hk
        have hrv : ∀ i, record_view (memb_free m (some j)) i = record_view m i :=
          record_view_free m j
        have hch1 : is_chain (memb_free m (some j)) bj.obj.next ([] ++ rest) := by
          rw [List.nil_append]
          apply is_chain_congr m _ _ _ hcj
          intro i hi b hb
          have hij : i ≠ j := fun e => hjr (e ▸ hi)
          exact ⟨b, by rw [memb_free_getElem?, if_neg hij]; exact hb, rfl⟩
        have hc1 : ∀ i ∈ rest, ∃ b, (memb_free m (some j))[i]? = some b ∧ b.count = 1 := by
          intro i hi
          have hij : i ≠ j := fun e => hjr (e ▸ hi)
          rw [memb_free_getElem?, if_neg hij]
          exact hcount i (List.mem_cons_of_mem _ hi)
        obtain ⟨m1, data1, e1, e2, e3, e4, e5, e6, e7, e8⟩ := ih [] (memb_free m (some j))
          bj.obj.next fuel
          (content ++ delete_stats_print na q link first_item
            (plexi_get_statistics_id (some bj.obj)) (plexi_get_statistics_metric (some bj.obj))
            (plexi_get_statistics_enable (some bj.obj))) false hch1
          (by simpa using (List.nodup_cons.mp hndr).2) (by simp at hfuel; omega) hc1
        have hrvf : record_view (memb_free m (some j)) = record_view m := funext hrv
        simp only [hrv, hrvf] at e1 e2 e6 e7
        refine ⟨m1, data1, ?_, ?_, ?_, ?_, ?_, ?_, ?_, ?_⟩
        · simp only [delete_stats_chain, List.head?_cons, hbj, hf, if_true, if_pos htna, hd,
            purge_eq_free]
          rw [← hnext] at e1
          simp only [List.getLast?_nil] at e1 ⊢
          rw [e1, filter_cons_pos (fun i => stats_record_filter q (record_view m i)) j rest hfv, List.map_cons]
          simp only [delete_entries_text, String.append_assoc, Bool.false_and, List.isEmpty_cons,
            Bool.and_false, g1, g2, g3]
        · rw [filter_cons_neg (fun i => !stats_record_filter q (record_view m i)) j rest (by simp [hfv])]
          exact e2
        · rw [e3, memb_free_length]
        · intro i hi
          have hij : i ≠ j := fun e => hi (by simp [e])
          rw [e4 i (fun h => hi (by simpa using Or.inr (by simpa using h))),
            memb_free_getElem?, if_neg hij]
        · intro i
          rw [e5, hrv]
        · intro i hi
          rw [filter_cons_pos (fun i => stats_record_filter q (record_view m i)) j rest hfv] at hi
          have hij : i ≠ j := fun e => hi (by simp [e])
          rw [e6 i (fun h => hi (List.mem_cons_of_mem _ h)), memb_free_getElem?, if_neg hij]
        · rw [filter_cons_pos (fun i => stats_record_filter q (record_view m i)) j rest hfv, List.length_cons]
          have := memb_used_free m j bj hbj hcount1
          omega
        · intro i b1 hb1
          obtain ⟨b2, hb2, hle⟩ := e8 i b1 hb1
          rw [memb_free_getElem?] at hb2
          by_cases hij : i = j
          · rw [hij] at hb2 ⊢
            rw [if_pos rfl, hbj] at hb2
            simp only [Option.map_some', Option.some.injEq] at hb2
            rw [← hb2] at hle
            exact ⟨bj, hbj, by simp only at hle; omega⟩
          · rw [if_neg hij] at hb2
            exact ⟨b2, hb2, hle⟩
      · -- a record further down the chain is removed
        cases hkl : kept.getLast? with
        | none =>
          exact absurd (hdata (List.getLast?_eq_none_iff.mp hkl)) hd
        | some k =>
          obtain ⟨kept1, rfl⟩ := List.getLast?_eq_some_iff.mp hkl
          obtain ⟨bk, hbk, hbkn⟩ := hlast k hkl
          have hkj : k ≠ j := fun e => hjk (by simp [e])
          have hknr : k ∉ rest := fun h =>
            (List.nodup_append.mp hnd).2.2 (by simp) (List.mem_cons_of_mem _ h)
          have hget : ∀ i, (memb_free (memb_store m k (fun o => { o with next := bj.obj.next }))
              (some j))[i]? =
                if i = j then some { bj with count := bj.count - 1 }
                else if i = k then some { bk with obj := { bk.obj with next := bj.obj.next } }
                else m[i]? := by
            intro i
            rw [memb_free_getElem?, memb_store_getElem?, memb_store_getElem?]
            by_cases hij : i = j
            · subst hij
              have : ¬ i = k := fun e => hkj e.symm
              simp [this, hbj]
            · by_cases hik : i = k
              · subst hik; simp [hij, hbk]
              · simp [hij, hik]
          have hrv : ∀ i, record_view (memb_free (memb_store m k
              (fun o => { o with next := bj.obj.next })) (some j)) i = record_view m i := by
            intro i
            rw [record_view_free, record_view_store_next]
          have hch1 : is_chain (memb_free (memb_store m k
              (fun o => { o with next := bj.obj.next })) (some j)) data
              ((kept1 ++ [k]) ++ rest) := by
            rw [List.append_assoc, List.singleton_append]
            apply is_chain_remove m _ data kept1 k j rest
              (by simpa [List.append_assoc] using hch)
            · intro i hi b hb
              have hij : i ≠ j := by
                rintro rfl
                rcases List.mem_append.mp hi with h | h
                · exact hjk (by simp [h])
                · exact hjr h
              have hik : i ≠ k := by
                rintro rfl
                rcases List.mem_append.mp hi with h | h
                · have := (List.nodup_append.mp (List.nodup_append.mp hnd).1).2.2 h
                    (List.mem_singleton_self _)
                  exact this
                · exact hknr h
              exact ⟨b, by rw [hget, if_neg hij, if_neg hik]; exact hb, rfl⟩
            · intro bj1 hbj1
              rw [hbj] at hbj1
              simp only [Option.some.injEq] at hbj1
              subst hbj1
              exact ⟨{ bk with obj := { bk.obj with next := bj.obj.next } },
                by rw [hget, if_neg hkj, if_pos rfl], rfl⟩
          have hc1 : ∀ i ∈ rest, ∃ b, (memb_free (memb_store m k
              (fun o => { o with next := bj.obj.next })) (some j))[i]? = some b ∧
              b.count = 1 := by
            intro i hi
            have hij : i ≠ j := fun e => hjr (e ▸ hi)
            have hik : i ≠ k := fun e => hknr (e ▸ hi)
            rw [hget, if_neg hij, if_neg hik]
            exact hcount i (List.mem_cons_of_mem _ hi)
          have hnd1 : ((kept1 ++ [k]) ++ rest).Nodup := by
            have h1 := List.nodup_append.mp hnd
            refine List.nodup_append.mpr ⟨h1.1, (List.nodup_cons.mp h1.2.1).2, ?_⟩
            intro a ha hb
            exact h1.2.2 ha (List.mem_cons_of_mem _ hb)
          obtain ⟨m1, data1, e1, e2, e3, e4, e5, e6, e7, e8⟩ := ih (kept1 ++ [k]) _ data fuel
            (content ++ delete_stats_print na q link first_item
              (plexi_get_statistics_id (some bj.obj))
              (plexi_get_statistics_metric (some bj.obj))
              (plexi_get_statistics_enable (some bj.obj))) false hch1 hnd1
            (by simp at hfuel; omega) hc1
          have hrvf : record_view (memb_free (memb_store m k
              (fun o => { o with next := bj.obj.next })) (some j)) = record_view m := funext hrv
          simp only [hrv, hrvf] at e1 e2 e6 e7
          refine ⟨m1, data1, ?_, ?_, ?_, ?_, ?_, ?_, ?_, ?_⟩
          · simp only [delete_stats_chain, List.head?_cons, hbj, hf, if_true, if_pos htna,
              if_neg hd, purge_eq_free]
            rw [← hnext, hkl] at e1
            rw [e1, filter_cons_pos (fun i => stats_record_filter q (record_view m i)) j rest hfv, List.map_cons]
            simp only [delete_entries_text, String.append_assoc, Bool.false_and,
              List.isEmpty_cons, Bool.and_false, g1, g2, g3]
          · rw [filter_cons_neg (fun i => !stats_record_filter q (record_view m i)) j rest (by simp [hfv])]
            exact e2
          · rw [e3, memb_free_length, memb_store_length]
          · intro i hi
            have hij : i ≠ j := fun e => hi (by simp [e])
            have hik : i ≠ k := fun e => hi (by simp [e])
            rw [e4 i (fun h => hi (by
              rcases List.mem_append.mp h with h | h
              · exact List.mem_append.mpr (Or.inl h)
              · exact List.mem_append.mpr (Or.inr (List.mem_cons_of_mem _ h)))),
              hget, if_neg hij, if_neg hik]
          · intro i
            rw [e5, hrv]
          · intro i hi
            rw [filter_cons_pos (fun i => stats_record_filter q (record_view m i)) j rest hfv] at hi
            have hij : i ≠ j := fun e => hi (by simp [e])
            rw [e6 i (fun h => hi (List.mem_cons_of_mem _ h)), hget, if_neg hij]
            by_cases hik : i = k
            · subst hik; simp [hbk]
            · simp [hik]
          · rw [filter_cons_pos (fun i => stats_record_filter q (record_view m i)) j rest hfv, List.length_cons]
            have h1 := memb_used_free (memb_store m k (fun o => { o with next := bj.obj.next }))
              j bj (by rw [memb_store_getElem?, if_neg (fun e => hkj e.symm)]; exact hbj) hcount1
            rw [memb_used_store] at h1
            omega
          · intro i b1 hb1
            obtain ⟨b2, hb2, hle⟩ := e8 i b1 hb1
            rw [hget] at hb2
            by_cases hij : i = j
            · rw [hij] at hb2 ⊢
              rw [if_pos rfl] at hb2
              simp only [Option.some.injEq] at hb2
              rw [← hb2] at hle
              exact ⟨bj, hbj, by simp only at hle; omega⟩
            · rw [if_neg hij] at hb2
              by_cases hik : i = k
              · rw [hik] at hb2 ⊢
                rw [if_pos rfl] at hb2
                simp only [Option.some.injEq] at hb2
                rw [← hb2] at hle
                exact ⟨bk, hbk, hle⟩
              · rw [if_neg hik] at hb2
                exact ⟨b2, hb2, hle⟩
    · -- the record stays
      have hfv : ¬ stats_record_filter q (record_view m j) = true := hview ▸ hf
      have hch1 : is_chain m data ((kept ++ [j]) ++ rest) := by
        simpa [List.append_assoc] using hch
      have hnd1 : ((kept ++ [j]) ++ rest).Nodup := by
        simpa [List.append_assoc] using hnd
      obtain ⟨m1, data1, e1, e2, e3, e4, e5, e6, e7, e8⟩ := ih (kept ++ [j]) m data fuel content
        first_item hch1 hnd1 (by simp at hfuel; omega)
        (fun i hi => hcount i (List.mem_cons_of_mem _ hi))
      refine ⟨m1, data1, ?_, ?_, e3, ?_, e5, ?_, ?_, e8⟩
      · simp only [delete_stats_chain, List.head?_cons, hbj, hf, Bool.false_eq_true, if_false]
        rw [← hnext, List.getLast?_concat] at e1
        rw [e1, filter_cons_neg (fun i => stats_record_filter q (record_view m i)) j rest hfv]
      · rw [filter_cons_pos (fun i => !stats_record_filter q (record_view m i)) j rest (by simpa using hfv)]
        simpa [List.append_assoc] using e2
      · intro i hi
        exact e4 i (by simpa [List.append_assoc] using hi)
      · intro i hi
        rw [filter_cons_neg (fun i => stats_record_filter q (record_view m i)) j rest hfv] at hi
        exact e6 i hi
      · rw [filter_cons_neg (fun i => stats_record_filter q (record_view m i)) j rest hfv]
        exact e7

/-! ### The body of the delete on one link -/

theorem link_chain_of_data (m : memb) (l : tsch_link) (data : Option Nat) (c : List Nat)
    (h : is_chain m data c) (hlen : c.length ≤ m.length) :
    link_chain m { l with data := data } = some c := by
  cases c with
  | nil =>
    simp only [is_chain] at h
    subst h
    simp [link_chain, memb_inmemb]
  | cons i c =>
    have hlt : i < m.length := is_chain_lt m data _ h i (List.mem_cons_self _ _)
    apply link_chain_of_is_chain
    · have hd : data = some i := h.1
      simp [hd, memb_inmemb, hlt]
    · exact h
    · exact hlen

theorem all_positions_set_link_data (schedule : List tsch_slotframe) (p : Nat × Nat)
    (ptr : Option Nat) :
    all_positions (set_link_data schedule p ptr) = all_positions schedule := by
  rw [← all_positions_skeleton, skeleton_set_link_data, all_positions_skeleton]

theorem delete_entries_nil (na : linkaddr_t → String) (qr : stats_query) (l : tsch_link)
    (first_item : Bool) : delete_entries_text na qr l first_item [] = "" := by
  cases first_item <;> rfl

theorem removed_text_nil (na : linkaddr_t → String) (qr : stats_query) (s : plexi_state)
    (p : Nat × Nat) (first_item : Bool) (h : removed_at qr s p = []) :
    removed_text na qr s p first_item = "" := by
  unfold removed_text
  cases link_at s.schedule p with
  | none => rfl
  | some l => simp only [h, delete_entries_nil]

theorem isEmpty_map_eq {α β : Type} (f : α → β) (l : List α) :
    (l.map f).isEmpty = l.isEmpty := by
  cases l <;> rfl

theorem filter_map_view (qr : stats_query) (m : memb) (c : List Nat) :
    (c.filter (fun i => stats_record_filter qr (record_view m i))).map (record_view m) =
      (chain_records m c).filter (stats_record_filter qr) ∧
    (c.filter (fun i => !stats_record_filter qr (record_view m i))).map (record_view m) =
      (chain_records m c).filter (fun r => !stats_record_filter qr r) := by
  unfold chain_records
  constructor
  · rw [List.filter_map]; rfl
  · rw [List.filter_map]; rfl

/-- The body of the walk of the delete on one link of a well-formed state whose
use counters are 0 or 1: the records of the link that pass the filters are
taken out of its chain, returned to the pool and printed; the other records of
the link and the chains of the other links stay as they are. -/
theorem delete_link_spec (na : linkaddr_t → String) (qr : stats_query) (s : plexi_state)
    (p : Nat × Nat) (content : String) (first_item : Bool) (hwf : wf_state s)
    (hcnt : pool_counts s) :
    ∃ s1, delete_stats_link na qr s p content first_item =
        some (s1, content ++ removed_text na qr s p first_item,
          first_item && (removed_at qr s p).isEmpty) ∧
      wf_state s1 ∧ pool_counts s1 ∧ skeleton s1.schedule = skeleton s.schedule ∧
      s1.plexi_stats_mem.length = s.plexi_stats_mem.length ∧
      records_at s1 p = records_after_delete qr s p ∧
      (∀ q, q ≠ p → records_at s1 q = records_at s q) ∧
      memb_used s1.plexi_stats_mem + (removed_at qr s p).length =
        memb_used s.plexi_stats_mem := by
  have hsame : ∀ (hrem : removed_at qr s p = []) (_ : records_after_delete qr s p = records_at s p)
      (_ : delete_stats_link na qr s p content first_item = some (s, content, first_item)),
      ∃ s1, delete_stats_link na qr s p content first_item =
        some (s1, content ++ removed_text na qr s p first_item,
          first_item && (removed_at qr s p).isEmpty) ∧
      wf_state s1 ∧ pool_counts s1 ∧ skeleton s1.schedule = skeleton s.schedule ∧
      s1.plexi_stats_mem.length = s.plexi_stats_mem.length ∧
      records_at s1 p = records_after_delete qr s p ∧
      (∀ q, q ≠ p → records_at s1 q = records_at s q) ∧
      memb_used s1.plexi_stats_mem + (removed_at qr s p).length =
        memb_used s.plexi_stats_mem := by
    intro hrem hrec hstep
    refine ⟨s, ?_, hwf, hcnt, rfl, rfl, hrec.symm, fun _ _ => rfl, ?_⟩
    · rw [hstep, removed_text_nil na qr s p first_item hrem, hrem]
      simp
    · rw [hrem]; rfl
  cases hl : link_at s.schedule p with
  | none =>
    apply hsame
    · simp [removed_at, delete_selected, hl]
    · simp [records_after_delete, delete_selected, hl]
    · simp [delete_stats_link, hl]
  | some l =>
    by_cases hsel : stats_link_filter qr.flags qr.channel qr.tna l = true
    · obtain ⟨hc, hnd, hused, hclen⟩ := wf_link s p l hwf hl
      have hrecs := records_at_eq s p
      by_cases hin : memb_inmemb s.plexi_stats_mem l.data = true
      · rcases link_chain_cases _ l _ hc with ⟨_, hch⟩ | ⟨hin2, _⟩
        · have htna : qr.flags &&& 8 = 0 ∨ qr.tna = l.addr := by
            simp only [stats_link_filter, decide_eq_true_eq] at hsel
            rcases hsel.2 with h | h
            · exact Or.inl h
            · exact Or.inr h.symm
          have hcount : ∀ i ∈ chain_at s p, ∃ b, s.plexi_stats_mem[i]? = some b ∧
              b.count = 1 := by
            intro i hi
            obtain ⟨b, hb, hbc⟩ := hused i hi
            have := hcnt b (List.getElem?_mem hb)
            exact ⟨b, hb, by omega⟩
          obtain ⟨m1, data1, e1, e2, e3, e4, e5, e6, e7, e8⟩ :=
            delete_chain_spec na qr l htna (chain_at s p) [] s.plexi_stats_mem l.data
              s.plexi_stats_mem.length content first_item (by simpa using hch)
              (by simpa using hnd) hclen hcount
          simp only [List.nil_append] at e2 e4
          rw [← is_chain_head _ _ _ hch, List.getLast?_nil] at e1
          obtain ⟨f1, f2⟩ := filter_map_view qr s.plexi_stats_mem (chain_at s p)
          rw [← hrecs] at f1 f2
          have hrem : removed_at qr s p = (records_at s p).filter (stats_record_filter qr) := by
            simp [removed_at, delete_selected, hl, hsel]
          have haft : records_after_delete qr s p =
              (records_at s p).filter (fun r => !stats_record_filter qr r) := by
            simp [records_after_delete, delete_selected, hl, hsel]
          have hsub : ∀ i ∈ (chain_at s p).filter
              (fun i => !stats_record_filter qr (record_view s.plexi_stats_mem i)),
              i ∈ chain_at s p := fun i hi => (List.mem_filter.mp hi).1
          have hafter := wf_after_mk s (set_link_data s.schedule p data1) m1 p
            { l with data := data1 }
            ((chain_at s p).filter
              (fun i => !stats_record_filter qr (record_view s.plexi_stats_mem i)))
            hwf (all_positions_set_link_data _ _ _)
            (fun q hq => by rw [link_at_set_link_data, if_neg hq])
            e3
            (fun q hq i hi => e4 i (fun h => wf_disjoint s q p hwf hq i hi h))
            (by rw [link_at_set_link_data, if_pos rfl, hl]; rfl)
            (link_chain_of_data m1 l data1 _ e2 (by
              rw [e3]
              exact Nat.le_trans (List.length_filter_le _ _) hclen))
            (hnd.filter _)
            (fun i hi q hq => wf_disjoint s p q hwf (fun e => hq e.symm) i (hsub i hi))
            (by
              intro i hi b1 hb1
              have hnot : i ∉ (chain_at s p).filter
                  (fun i => stats_record_filter qr (record_view s.plexi_stats_mem i)) := by
                intro h
                have h1 := (List.mem_filter.mp hi).2
                have h2 := (List.mem_filter.mp h).2
                simp [h2] at h1
              have h6 := e6 i hnot
              obtain ⟨b, hb, hbc⟩ := hused i (hsub i hi)
              rw [hb1, hb] at h6
              simp only [Option.map_some', Option.some.injEq] at h6
              rw [h6]; exact hbc)
            (by
              intro b1 hb1
              obtain ⟨i, hi⟩ := List.getElem?_of_mem hb1
              obtain ⟨b, hb, _⟩ := e8 i b1 hi
              have h5 := e5 i
              rw [record_view_of_some m1 i b1 hi,
                record_view_of_some s.plexi_stats_mem i b hb] at h5
              have hw := hwf.2.2.2.2 b (List.getElem?_mem hb)
              have hm := congrArg plexi_stats.metainfo h5
              have hv := congrArg plexi_stats.value h5
              simp only at hm hv
              rw [hm, hv]; exact hw)
          obtain ⟨hwf1, hchain1, hframe⟩ := hafter
          refine ⟨⟨set_link_data s.schedule p data1, m1⟩, ?_, hwf1, ?_, ?_, e3, ?_,
            fun q hq => (hframe q hq).2, ?_⟩
          · simp only [delete_stats_link, hl, hsel, hin, and_self, if_true, e1]
            simp only [removed_text, hl, hrem, f1]
            rw [← f1, isEmpty_map_eq]
          · intro b1 hb1
            obtain ⟨i, hi⟩ := List.getElem?_of_mem hb1
            obtain ⟨b, hb, hle⟩ := e8 i b1 hi
            have := hcnt b (List.getElem?_mem hb)
            omega
          · exact skeleton_set_link_data _ _ _
          · rw [records_at_eq, hchain1, haft, ← f2]
            unfold chain_records
            exact List.map_congr_left (fun i _ => e5 i)
          · rw [hrem, ← f1, List.length_map]
            exact e7
        · rw [hin2] at hin
          exact absurd hin (by decide)
      · have hnil : chain_at s p = [] := by
          rcases link_chain_cases _ l _ hc with ⟨h, _⟩ | ⟨_, h⟩
          · exact absurd h hin
          · exact h
        have hrnil : records_at s p = [] := by rw [hrecs, hnil]; rfl
        apply hsame
        · simp [removed_at, hrnil]
        · simp [records_after_delete, hrnil]
        · simp [delete_stats_link, hl, hin]
    · apply hsame
      · simp [removed_at, delete_selected, hl, hsel]
      · simp [records_after_delete, delete_selected, hl, hsel]
      · simp [delete_stats_link, hl, hsel]

/-! ### The walk of the delete -/

theorem stats_link_filter_blank (flags : Nat) (channel : Int) (tna : linkaddr_t)
    (l : tsch_link) :
    stats_link_filter flags channel tna { l with data := none } =
      stats_link_filter flags channel tna l := rfl

theorem delete_selected_congr (qr : stats_query) (s s1 : plexi_state) (q : Nat × Nat)
    (h : skeleton s1.schedule = skeleton s.schedule) :
    delete_selected qr s1 q = delete_selected qr s q := by
  have := link_at_of_skeleton s.schedule s1.schedule q h
  unfold delete_selected
  cases h1 : link_at s1.schedule q with
  | none =>
    cases h2 : link_at s.schedule q with
    | none => rfl
    | some l => simp [h1, h2] at this
  | some l1 =>
    cases h2 : link_at s.schedule q with
    | none => simp [h1, h2] at this
    | some l =>
      simp only [h1, h2, Option.map_some', Option.some.injEq] at this
      simp only
      rw [← stats_link_filter_blank _ _ _ l1, ← stats_link_filter_blank _ _ _ l, this]

theorem removed_at_congr (qr : stats_query) (s s1 : plexi_state) (q : Nat × Nat)
    (h : skeleton s1.schedule = skeleton s.schedule) (hr : records_at s1 q = records_at s q) :
    removed_at qr s1 q = removed_at qr s q ∧
      records_after_delete qr s1 q = records_after_delete qr s q := by
  unfold removed_at records_after_delete
  rw [delete_selected_congr qr s s1 q h, hr]
  exact ⟨rfl, rfl⟩

theorem delete_entries_blank (na : linkaddr_t → String) (qr : stats_query) (l : tsch_link)
    (first_item : Bool) (rs : List plexi_stats) :
    delete_entries_text na qr { l with data := none } first_item rs =
      delete_entries_text na qr l first_item rs := by
  induction rs generalizing first_item with
  | nil => rfl
  | cons r rs ih =>
    simp only [delete_entries_text, ih]
    rfl

theorem removed_text_congr (na : linkaddr_t → String) (qr : stats_query) (s s1 : plexi_state)
    (q : Nat × Nat) (first_item : Bool)
    (h : skeleton s1.schedule = skeleton s.schedule) (hr : records_at s1 q = records_at s q) :
    removed_text na qr s1 q first_item = removed_text na qr s q first_item := by
  have := link_at_of_skeleton s.schedule s1.schedule q h
  unfold removed_text
  rw [(removed_at_congr qr s s1 q h hr).1]
  cases h1 : link_at s1.schedule q with
  | none =>
    cases h2 : link_at s.schedule q with
    | none => rfl
    | some l => simp [h1, h2] at this
  | some l1 =>
    cases h2 : link_at s.schedule q with
    | none => simp [h1, h2] at this
    | some l =>
      simp only [h1, h2, Option.map_some', Option.some.injEq] at this
      simp only
      rw [← delete_entries_blank na qr l1, ← delete_entries_blank na qr l, this]

theorem removed_text_walk_congr (na : linkaddr_t → String) (qr : stats_query)
    (s s1 : plexi_state) (ps : List (Nat × Nat)) (first_item : Bool)
    (h : skeleton s1.schedule = skeleton s.schedule)
    (hr : ∀ q ∈ ps, records_at s1 q = records_at s q) :
    removed_text_walk na qr s1 ps first_item = removed_text_walk na qr s ps first_item := by
  induction ps generalizing first_item with
  | nil => rfl
  | cons p ps ih =>
    simp only [removed_text_walk]
    rw [removed_text_congr na qr s s1 p first_item h (hr p (List.mem_cons_self _ _)),
      (removed_at_congr qr s s1 p h (hr p (List.mem_cons_self _ _))).1,
      ih _ (fun q hq => hr q (List.mem_cons_of_mem _ hq))]

/-- The walk of the delete over links visited once each, from a well-formed
state whose use counters are 0 or 1. -/
theorem delete_loop_spec (na : linkaddr_t → String) (qr : stats_query)
    (ps : List (Nat × Nat)) :
    ∀ (s : plexi_state) (content : String) (first_item : Bool), wf_state s → pool_counts s →
      ps.Nodup →
      ∃ s1, delete_stats_loop na qr ps s content first_item =
          some (s1, content ++ removed_text_walk na qr s ps first_item,
            first_item && ps.all (fun p => (removed_at qr s p).isEmpty)) ∧
        wf_state s1 ∧ pool_counts s1 ∧ skeleton s1.schedule = skeleton s.schedule ∧
        s1.plexi_stats_mem.length = s.plexi_stats_mem.length ∧
        (∀ p ∈ ps, records_at s1 p = records_after_delete qr s p) ∧
        (∀ p, p ∉ ps → records_at s1 p = records_at s p) ∧
        memb_used s1.plexi_stats_mem + (ps.map (fun p => (removed_at qr s p).length)).sum =
          memb_used s.plexi_stats_mem := by
  induction ps with
  | nil =>
    intro s content first_item hwf hcnt _
    refine ⟨s, ?_, hwf, hcnt, rfl, rfl, ?_, fun _ _ => rfl, by simp⟩
    · simp [delete_stats_loop, removed_text_walk]
    · intro p hp
      simp at hp
  | cons p ps ih =>
    intro s content first_item hwf hcnt hnd
    obtain ⟨hp, hnd1⟩ := List.nodup_cons.mp hnd
    obtain ⟨s1, h1, hwf1, hcnt1, hsk1, hlen1, hrec1, hoth1, hused1⟩ :=
      delete_link_spec na qr s p content first_item hwf hcnt
    obtain ⟨s2, g1, hwf2, hcnt2, hsk2, hlen2, hrec2, hoth2, hused2⟩ :=
      ih s1 (content ++ removed_text na qr s p first_item)
        (first_item && (removed_at qr s p).isEmpty) hwf1 hcnt1 hnd1
    have hne : ∀ q ∈ ps, q ≠ p := fun q hq e => hp (e ▸ hq)
    have hcong : ∀ q ∈ ps, removed_at qr s1 q = removed_at qr s q ∧
        records_after_delete qr s1 q = records_after_delete qr s q :=
      fun q hq => removed_at_congr qr s s1 q hsk1 (hoth1 q (hne q hq))
    refine ⟨s2, ?_, hwf2, hcnt2, hsk2.trans hsk1, hlen2.trans hlen1, ?_, ?_, ?_⟩
    · simp only [delete_stats_loop, h1, g1, removed_text_walk, List.all_cons]
      rw [removed_text_walk_congr na qr s s1 ps _ hsk1 (fun q hq => hoth1 q (hne q hq)),
        String.append_assoc, Bool.and_assoc]
      have hall : ps.all (fun p => (removed_at qr s1 p).isEmpty) =
          ps.all (fun p => (removed_at qr s p).isEmpty) := by
        rw [Bool.eq_iff_iff]
        simp only [List.all_eq_true]
        constructor
        · intro h q hq
          rw [← (hcong q hq).1]; exact h q hq
        · intro h q hq
          rw [(hcong q hq).1]; exact h q hq
      rw [hall]
    · intro q hq
      rcases List.mem_cons.mp hq with rfl | hq
      · rw [hoth2 q hp, hrec1]
      · rw [hrec2 q hq, (hcong q hq).2]
    · intro q hq
      have hqp : q ≠ p := fun e => hq (e ▸ List.mem_cons_self _ _)
      rw [hoth2 q (fun h => hq (List.mem_cons_of_mem _ h)), hoth1 q hqp]
    · have e : ps.map (fun p => (removed_at qr s1 p).length) =
          ps.map (fun p => (removed_at qr s p).length) :=
        List.map_congr_left (fun q hq => by rw [(hcong q hq).1])
      rw [e] at hused2
      simp only [List.map_cons, List.sum_cons]
      omega
/-! ### The reply of the delete -/

theorem comma_before_append (a b : List String) :
    comma_before (a ++ b) = comma_before a ++ comma_before b := by
  induction a with
  | nil => simp [comma_before]
  | cons e a ih =>
    rw [List.cons_append]
    simp only [comma_before]
    rw [ih]
    simp only [String.append_assoc]

theorem entries_text_false (es : List String) : entries_text false es = comma_before es := by
  cases es with
  | nil => rfl
  | cons e es => simp [entries_text, comma_before]

theorem entries_text_append (first_item : Bool) (a b : List String) :
    entries_text first_item (a ++ b) =
      entries_text first_item a ++ entries_text (first_item && a.isEmpty) b := by
  cases a with
  | nil => simp [entries_text]
  | cons e a =>
    have h1 : entries_text first_item (e :: (a ++ b)) =
        (if first_item then "[" else ",") ++ e ++ comma_before (a ++ b) := rfl
    have h2 : entries_text first_item (e :: a) =
        (if first_item then "[" else ",") ++ e ++ comma_before a := rfl
    rw [List.cons_append, h1, h2, comma_before_append, List.isEmpty_cons, Bool.and_false,
      entries_text_false]
    simp only [String.append_assoc]

theorem isEmpty_append_eq {α : Type} (a b : List α) :
    (a ++ b).isEmpty = (a.isEmpty && b.isEmpty) := by
  cases a <;> simp
theorem delete_entries_eq (na : linkaddr_t → String) (qr : stats_query) (l : tsch_link)
    (first_item : Bool) (rs : List plexi_stats) :
    delete_entries_text na qr l first_item rs =
      entries_text first_item (rs.map (fun r =>
        delete_stats_object na qr l (plexi_get_statistics_id (some r))
          (plexi_get_statistics_metric (some r)) (plexi_get_statistics_enable (some r)))) := by
  induction rs generalizing first_item with
  | nil => rfl
  | cons r rs ih =>
    have h1 : delete_entries_text na qr l first_item (r :: rs) =
        delete_stats_print na qr l first_item (plexi_get_statistics_id (some r))
          (plexi_get_statistics_metric (some r)) (plexi_get_statistics_enable (some r)) ++
          delete_entries_text na qr l false rs := rfl
    have h2 : ∀ (e : String) (es : List String), entries_text first_item (e :: es) =
        (if first_item then "[" else ",") ++ e ++ comma_before es := fun _ _ => rfl
    have h3 : ∀ id metric enable, delete_stats_print na qr l first_item id metric enable =
        (if first_item then "[" else ",") ++ delete_stats_object na qr l id metric enable :=
      fun _ _ _ => rfl
    rw [h1, ih, List.map_cons, h2, entries_text_false, h3]

theorem removed_text_walk_eq (na : linkaddr_t → String) (qr : stats_query) (s : plexi_state)
    (ps : List (Nat × Nat)) (first_item : Bool) :
    removed_text_walk na qr s ps first_item =
        entries_text first_item (removed_objects na qr s ps) ∧
      ps.all (fun p => (removed_at qr s p).isEmpty) = (removed_objects na qr s ps).isEmpty := by
  induction ps generalizing first_item with
  | nil => exact ⟨rfl, rfl⟩
  | cons p ps ih =>
    have hobj : removed_objects na qr s (p :: ps) =
        (match link_at s.schedule p with
          | some l =>
            (removed_at qr s p).map (fun r =>
              delete_stats_object na qr l (plexi_get_statistics_id (some r))
                (plexi_get_statistics_metric (some r)) (plexi_get_statistics_enable (some r)))
          | none => []) ++ removed_objects na qr s ps := by
      simp [removed_objects]
    rw [hobj, entries_text_append]
    simp only [removed_text_walk, List.all_cons, (ih _).1, (ih true).2]
    cases hl : link_at s.schedule p with
    | none =>
      have hr : removed_at qr s p = [] := by simp [removed_at, delete_selected, hl]
      simp [removed_text, hl, hr, entries_text]
    | some l =>
      simp only [removed_text, hl, delete_entries_eq, isEmpty_map_eq, isEmpty_append_eq]
      exact ⟨trivial, trivial⟩

theorem all_positions_nodup (schedule : List tsch_slotframe) :
    (all_positions schedule).Nodup := by
  have h := stats_walk_nodup schedule 0 0 0
  have e : stats_walk schedule 0 0 0 = all_positions schedule := by
    unfold stats_walk all_positions stats_walk_frames stats_walk_links
    simp
  rw [e] at h
  exact h

theorem mem_naive_iff_walk (schedule : List tsch_slotframe) (qr : stats_query)
    (s : plexi_state) (hs : s.schedule = schedule)
    (hframes : (schedule.map (fun sf => sf.handle)).Nodup)
    (hslots : ∀ sf ∈ schedule, (sf.links_list.map (fun l => l.timeslot)).Nodup)
    (p : Nat × Nat) :
    p ∈ naive_filter_scan schedule qr.flags qr.frame qr.slot qr.channel qr.tna ↔
      p ∈ stats_walk schedule qr.flags qr.frame qr.slot ∧ delete_selected qr s p = true := by
  subst hs
  rw [mem_naive_filter_scan, mem_stats_walk _ _ _ _ hframes hslots]
  constructor
  · rintro ⟨sf, l, hsf, hl, h1, h2, h3, h4⟩
    have hl2 : link_at s.schedule p = some l := by simp [link_at, hsf, hl]
    refine ⟨⟨sf, l, hsf, hl, h1, h2⟩, ?_⟩
    simp only [delete_selected, hl2, stats_link_filter, decide_eq_true_eq]
    exact ⟨h3, h4⟩
  · rintro ⟨⟨sf, l, hsf, hl, h1, h2⟩, h⟩
    have hl2 : link_at s.schedule p = some l := by simp [link_at, hsf, hl]
    simp only [delete_selected, hl2, stats_link_filter, decide_eq_true_eq] at h
    exact ⟨sf, l, hsf, hl, h1, h2, h.1, h.2⟩

theorem sum_over_walk (all walk : List (Nat × Nat)) (f : Nat × Nat → Nat)
    (hall : all.Nodup) (hwalk : walk.Nodup) (hsub : ∀ p ∈ walk, p ∈ all)
    (hzero : ∀ p, p ∉ walk → f p = 0) : (all.map f).sum = (walk.map f).sum := by
  rw [← List.sum_toFinset f hall, ← List.sum_toFinset f hwalk]
  symm
  apply Finset.sum_subset
  · intro p hp
    exact List.mem_toFinset.mpr (hsub p (List.mem_toFinset.mp hp))
  · intro p _ hp
    exact hzero p (fun h => hp (List.mem_toFinset.mpr h))

theorem stats_walk_nil_of_frames (schedule : List tsch_slotframe) (flags : Nat)
    (frame slot : Int) (h : stats_walk_frames schedule flags frame = []) :
    stats_walk schedule flags frame slot = [] := by
  unfold stats_walk
  rw [h]
  rfl

/-- The delete after the query has been read, on a well-formed state whose use
counters are 0 or 1: it returns, and the state it leaves is described link by
link along the walk. -/
theorem delete_run_spec (na : linkaddr_t → String) (qr : stats_query) (s : plexi_state)
    (hwf : wf_state s) (hcnt : pool_counts s) :
    ∃ resp s1, delete_stats_run na qr "" s = some (resp, s1) ∧
      wf_state s1 ∧ pool_counts s1 ∧ skeleton s1.schedule = skeleton s.schedule ∧
      (∀ p ∈ stats_walk s.schedule qr.flags qr.frame qr.slot,
        records_at s1 p = records_after_delete qr s p) ∧
      (∀ p, p ∉ stats_walk s.schedule qr.flags qr.frame qr.slot →
        records_at s1 p = records_at s p) ∧
      memb_used s1.plexi_stats_mem +
        ((stats_walk s.schedule qr.flags qr.frame qr.slot).map
          (fun p => (removed_at qr s p).length)).sum = memb_used s.plexi_stats_mem ∧
      (removed_objects na qr s (stats_walk s.schedule qr.flags qr.frame qr.slot) ≠ [] →
        resp = ⟨none, json_array
          (removed_objects na qr s (stats_walk s.schedule qr.flags qr.frame qr.slot))⟩) := by
  unfold delete_stats_run
  rw [if_neg (by simp)]
  by_cases hfr : stats_walk_frames s.schedule qr.flags qr.frame = []
  · rw [if_pos hfr]
    have hw := stats_walk_nil_of_frames s.schedule qr.flags qr.frame qr.slot hfr
    rw [hw]
    refine ⟨_, s, rfl, hwf, hcnt, rfl, ?_, fun _ _ => rfl, by simp, ?_⟩
    · intro p hp
      simp at hp
    · intro h
      simp [removed_objects] at h
  · rw [if_neg hfr]
    obtain ⟨s1, h1, hwf1, hcnt1, hsk1, _, hrec1, hoth1, hused1⟩ :=
      delete_loop_spec na qr (stats_walk s.schedule qr.flags qr.frame qr.slot) s "" true hwf
        hcnt (stats_walk_nodup _ _ _ _)
    obtain ⟨t1, t2⟩ := removed_text_walk_eq na qr s
      (stats_walk s.schedule qr.flags qr.frame qr.slot) true
    rw [h1, t1, t2]
    simp only [Bool.true_and, String.empty_append]
    cases hobj : removed_objects na qr s (stats_walk s.schedule qr.flags qr.frame qr.slot) with
    | nil =>
      refine ⟨_, s1, rfl, hwf1, hcnt1, hsk1, hrec1, hoth1, hused1, ?_⟩
      intro h
      exact absurd rfl h
    | cons e es =>
      refine ⟨_, s1, rfl, hwf1, hcnt1, hsk1, hrec1, hoth1, hused1, ?_⟩
      intro _
      simp [entries_text, json_array]
/-- C12: a statistics delete whose query is well formed, on a well-formed state
whose use counters are 0 or 1 and whose schedule has pairwise distinct
slotframe handles and at most one link per timeslot in a slotframe: the handler
returns; on every link that satisfies the frame, slot, channel and address
filters the records left are those that do not pass the metric, enable and id
filters, in the order they had; the records of every other link are as they
were; and the number of blocks in use has gone down by the number of records
that are gone. -/
theorem delete_removes_matching_records (eui64 : String → Option linkaddr_t)
    (na : linkaddr_t → String) (tna0 : linkaddr_t) (query : List (String × String))
    (qr : stats_query) (s : plexi_state) (hwf : wf_state s) (hcnt : pool_counts s)
    (hframes : (s.schedule.map (fun sf => sf.handle)).Nodup)
    (hslots : ∀ sf ∈ s.schedule, (sf.links_list.map (fun l => l.timeslot)).Nodup)
    (hq : stats_query_parse eui64 tna0 query = Sum.inr qr) :
    ∃ resp s1, plexi_delete_stats_handler eui64 na tna0 "" query s = some (resp, s1) ∧
      wf_state s1 ∧
      (∀ p, p ∈ naive_filter_scan s.schedule qr.flags qr.frame qr.slot qr.channel qr.tna →
        records_at s1 p = (records_at s p).filter (fun r => !stats_record_filter qr r)) ∧
      (∀ p, p ∉ naive_filter_scan s.schedule qr.flags qr.frame qr.slot qr.channel qr.tna →
        records_at s1 p = records_at s p) ∧
      memb_used s1.plexi_stats_mem +
        ((all_positions s.schedule).map
          (fun p => (records_at s p).length - (records_at s1 p).length)).sum =
        memb_used s.plexi_stats_mem := by
  obtain ⟨resp, s1, h1, hwf1, _, _, hrec, hoth, hused, _⟩ := delete_run_spec na qr s hwf hcnt
  have hmem := mem_naive_iff_walk s.schedule qr s rfl hframes hslots
  refine ⟨resp, s1, ?_, hwf1, ?_, ?_, ?_⟩
  · simp only [plexi_delete_stats_handler, hq]
    exact h1
  · intro p hp
    obtain ⟨hw, hsel⟩ := (hmem p).mp hp
    rw [hrec p hw, records_after_delete, if_pos hsel]
  · intro p hp
    by_cases hw : p ∈ stats_walk s.schedule qr.flags qr.frame qr.slot
    · have hsel : ¬ delete_selected qr s p = true := fun h => hp ((hmem p).mpr ⟨hw, h⟩)
      rw [hrec p hw, records_after_delete, if_neg hsel]
    · exact hoth p hw
  · have hdiff : ∀ p ∈ stats_walk s.schedule qr.flags qr.frame qr.slot,
        (records_at s p).length - (records_at s1 p).length = (removed_at qr s p).length := by
      intro p hw
      rw [hrec p hw]
      unfold records_after_delete removed_at
      by_cases hsel : delete_selected qr s p = true
      · rw [if_pos hsel, if_pos hsel]
        have := List.length_eq_length_filter_add (l := records_at s p) (stats_record_filter qr)
        omega
      · rw [if_neg hsel, if_neg hsel]
        simp
    rw [sum_over_walk (all_positions s.schedule)
      (stats_walk s.schedule qr.flags qr.frame qr.slot) _ (all_positions_nodup _)
      (stats_walk_nodup _ _ _ _)
      (fun p hp => by
        obtain ⟨sf, l, hsf, hl, _⟩ := (mem_stats_walk _ _ _ _ hframes hslots p).mp hp
        exact (mem_all_positions _ _).mpr ⟨l, by simp [link_at, hsf, hl]⟩)
      (fun p hp => by rw [hoth p hp]; simp),
      List.map_congr_left hdiff]
    exact hused

/-- C13 (amended): a statistics delete whose query is well formed and that
removes at least one record, on a well-formed state whose use counters are 0
or 1: the reply is the JSON array of one object per removed record, link by
link in the order of the walk and record by record in the order of the chain;
the object of a record is made of the id, metric and enable flag the record had
and of the frame, slot and channel (and address) of its link, and of nothing
else, so not of its value. -/
theorem delete_reply_lists_removed_records (eui64 : String → Option linkaddr_t)
    (na : linkaddr_t → String) (tna0 : linkaddr_t) (query : List (String × String))
    (qr : stats_query) (s : plexi_state) (hwf : wf_state s) (hcnt : pool_counts s)
    (hq : stats_query_parse eui64 tna0 query = Sum.inr qr)
    (hne : removed_objects na qr s (stats_walk s.schedule qr.flags qr.frame qr.slot) ≠ []) :
    ∃ s1, plexi_delete_stats_handler eui64 na tna0 "" query s =
      some (⟨none, json_array
        (removed_objects na qr s (stats_walk s.schedule qr.flags qr.frame qr.slot))⟩, s1) := by
  obtain ⟨resp, s1, h1, _, _, _, _, _, _, hresp⟩ := delete_run_spec na qr s hwf hcnt
  refine ⟨s1, ?_⟩
  simp only [plexi_delete_stats_handler, hq]
  rw [h1, hresp hne]

/-- Witness of C12: a link whose chain holds an RSSI, an ETX and an LQI record,
and the delete with the query `metric=etx`. -/
theorem delete_removes_matching_records_witness :
    ∃ resp s1, plexi_delete_stats_handler no_address plain_address 0 "" [("metric", "etx")]
        three_records_state = some (resp, s1) ∧
      wf_state s1 ∧
      (∀ p, p ∈ naive_filter_scan three_records_state.schedule 16 (-1) (-1) (-1) 0 →
        records_at s1 p = (records_at three_records_state p).filter
          (fun r => !stats_record_filter ⟨16, -1, -1, -1, 0, 12, 0, -1⟩ r)) ∧
      (∀ p, p ∉ naive_filter_scan three_records_state.schedule 16 (-1) (-1) (-1) 0 →
        records_at s1 p = records_at three_records_state p) ∧
      memb_used s1.plexi_stats_mem +
        ((all_positions three_records_state.schedule).map
          (fun p => (records_at three_records_state p).length - (records_at s1 p).length)).sum =
        memb_used three_records_state.plexi_stats_mem :=
  delete_removes_matching_records no_address plain_address 0 [("metric", "etx")]
    ⟨16, -1, -1, -1, 0, 12, 0, -1⟩ three_records_state (by decide) (by decide) (by decide)
    (by decide) (by decide)

/-- Witness of C13 (amended): the same state and the same delete. -/
theorem delete_reply_lists_removed_records_witness :
    ∃ s1, plexi_delete_stats_handler no_address plain_address 0 "" [("metric", "etx")]
        three_records_state =
      some (⟨none, json_array
        (removed_objects plain_address ⟨16, -1, -1, -1, 0, 12, 0, -1⟩ three_records_state
          (stats_walk three_records_state.schedule 16 (-1) (-1)))⟩, s1) :=
  delete_reply_lists_removed_records no_address plain_address 0 [("metric", "etx")]
    ⟨16, -1, -1, -1, 0, 12, 0, -1⟩ three_records_state (by decide) (by decide) (by decide)
    (by decide)

/-- C13 (counterexample): the link L1 with one ETX record with id 7, once holding
the value 281 and once the value 5, and the delete without query. The record is
removed in both cases and the reply is the same text, in which the value does
not occur. -/
theorem delete_reply_has_no_value :
    (plexi_delete_stats_handler no_address plain_address 0 "" [] (etx_record_state 281)).map
        (fun x => (x.1, records_at x.2 (0, 0))) =
      some (⟨none, "[\x7b\"id\":7,\"frame\":1,\"slot\":3,\"channel\":5,\"metric\":\"etx\"," ++
        "\"enable\":0,\"tna\":\"9\"\x7d]"⟩, []) ∧
    (plexi_delete_stats_handler no_address plain_address 0 "" [] (etx_record_state 5)).map
        (fun x => (x.1, records_at x.2 (0, 0))) =
      some (⟨none, "[\x7b\"id\":7,\"frame\":1,\"slot\":3,\"channel\":5,\"metric\":\"etx\"," ++
        "\"enable\":0,\"tna\":\"9\"\x7d]"⟩, []) := by
  decide

/-- C19 (the code departs from the claim): the link L1 with one ETX record with id
7 holding 281. The read with the projection `id` answers `[7]`; the reads with
the projections `value` and `window`, which the handler accepts as
subresources, answer the whole object of the record, in which neither the value
nor the window occurs: the chain of tests on the subresource has no branch for
them. -/
theorem read_of_value_prints_whole_object :
    plexi_get_stats_handler no_address plain_address 0 "id" [] (etx_record_state 281) =
      some ⟨none, "[7]"⟩ ∧
    plexi_get_stats_handler no_address plain_address 0 "value" [] (etx_record_state 281) =
      some ⟨none, "[\x7b\"id\":7,\"frame\":1,\"slot\":3,\"channel\":5,\"metric\":\"etx\"," ++
        "\"enable\":0,\"tna\":\"9\"\x7d]"⟩ ∧
    plexi_get_stats_handler no_address plain_address 0 "window" [] (etx_record_state 281) =
      some ⟨none, "[\x7b\"id\":7,\"frame\":1,\"slot\":3,\"channel\":5,\"metric\":\"etx\"," ++
        "\"enable\":0,\"tna\":\"9\"\x7d]"⟩ := by
  decide

/-- C20 (the code departs from the claim): a link at timeslot 0 of slotframe 0
that holds one record. The filter text `abc` is read by `strtoul` as 0, which
the test `slot < 0` lets through: the delete with `slot=abc` walks the links at
timeslot 0 and removes the record, and the read with `frame=abc` answers the
records of slotframe 0. The unsupported-query error is raised for a text such
as `-1`. -/
theorem non_numeric_filter_is_read_as_zero :
    strtoul "abc" = 0 ∧
    stats_query_parse no_address 0 [("slot", "abc")] = Sum.inr ⟨2, -1, 0, -1, 0, 0, 0, -1⟩ ∧
    records_at slot_zero_state (0, 0) = [⟨none, 123, 65535⟩] ∧
    (plexi_delete_stats_handler no_address plain_address 0 "" [("slot", "abc")]
        slot_zero_state).map
        (fun x => (x.1.status, records_at x.2 (0, 0), memb_used x.2.plexi_stats_mem)) =
      some (none, [], 0) ∧
    (plexi_get_stats_handler no_address plain_address 0 "id" [("frame", "abc")]
        slot_zero_state) = some ⟨none, "[3]"⟩ ∧
    (plexi_get_stats_handler no_address plain_address 0 "id" [("frame", "-1")]
        slot_zero_state) = some ⟨some coap_status.NOT_IMPLEMENTED_5_01,
      "Supports queries only on slot frame id and/or slotoffset and channeloffset"⟩ := by
  decide

theorem tdiv_blend_same (a : Int) : Int.tdiv (a * 10 + a * 90) 100 = a := by
  have h : a * 10 + a * 90 = a * 100 := by ring
  rw [h]
  exact Int.mul_tdiv_cancel a (by norm_num)

theorem ewma_same_sample (metric s old : Nat) (hm : metric = RSSI ∨ metric = LQI ∨ metric = ETX)
    (hs : s < 65536) (hold : old = SENTINEL ∨ old = s) :
    plexi_update_ewma_statistics metric (some old) s = some (some s) := by
  unfold plexi_update_ewma_statistics
  by_cases hr : metric = RSSI
  · simp only [hr, if_true]
    by_cases ho : old = SENTINEL
    · simp only [ho, ne_eq, not_true_eq_false, if_false]
      rw [of_int_to_int16 s hs]
    · have hos : old = s := by
        rcases hold with h | h
        · exact absurd h ho
        · exact h
      simp only [ne_eq, ho, not_false_eq_true, if_true]
      rw [hos, tdiv_blend_same, of_int_to_int16 s hs]
  · have hm2 : metric = LQI ∨ metric = ETX := by
      rcases hm with h | h
      · exact absurd h hr
      · exact h
    simp only [hr, if_false, hm2, if_true]
    by_cases ho : old = SENTINEL
    · simp only [ho, ne_eq, not_true_eq_false, if_false]
    · have hos : old = s := by
        rcases hold with h | h
        · exact absurd h ho
        · exact h
      simp only [ne_eq, ho, not_false_eq_true, if_true]
      have h : (s * 10 + s * 90) / 100 % 65536 = s := by omega
      rw [hos, h]

theorem ewma_updates_same (metric s : Nat) (hm : metric = RSSI ∨ metric = LQI ∨ metric = ETX)
    (hs : s < 65536) :
    ∀ (n old : Nat), (old = SENTINEL ∨ old = s) → 1 ≤ n → ewma_updates metric s n old = some s := by
  intro n
  induction n with
  | zero => intro old _ h; omega
  | succ k ih =>
    intro old hold _
    unfold ewma_updates
    rw [ewma_same_sample metric s old hm hs hold]
    cases k with
    | zero => rfl
    | succ j => exact ih s (Or.inr rfl) (by omega)

/-- C24: for the metrics RSSI, LQI and ETX, every 16-bit sample `s` and every
`n ≥ 1`: on a record that holds the never-sampled word, `n` successive calls of
`plexi_update_ewma_statistics` with the same sample `s` all have a defined
result and leave exactly `s` in the record. -/
theorem ewma_repeated_sample_is_stored (metric s n : Nat)
    (hm : metric = RSSI ∨ metric = LQI ∨ metric = ETX) (hs : s < 65536) (hn : 1 ≤ n) :
    ewma_updates metric s n SENTINEL = some s :=
  ewma_updates_same metric s hm hs n SENTINEL (Or.inl rfl) hn

theorem ewma_repeated_sample_is_stored_witness :
    (RSSI = RSSI ∨ RSSI = LQI ∨ RSSI = ETX) ∧ 65446 < 65536 ∧ 1 ≤ 3 ∧
      ewma_updates RSSI 65446 3 SENTINEL = some 65446 :=
  ⟨Or.inl rfl, by decide, by decide,
    ewma_repeated_sample_is_stored RSSI 65446 3 (Or.inl rfl) (by decide) (by decide)⟩

theorem ewma_unsigned_step (metric old s : Nat) (hm : metric = LQI ∨ metric = ETX)
    (hold : old ≠ SENTINEL) :
    plexi_update_ewma_statistics metric (some old) s =
      some (some ((s * 10 + old * 90) / 100 % 65536)) := by
  unfold plexi_update_ewma_statistics
  have hr : metric ≠ RSSI := by
    rcases hm with h | h <;> rw [h] <;> decide
  simp only [hr, if_false, hm, if_true, ne_eq, hold, not_false_eq_true]

theorem ewma_blend_fixed (old s : Nat) (hold : old < 65535) (h1 : old ≤ s) (h2 : s - old < 10) :
    (s * 10 + old * 90) / 100 % 65536 = old := by
  have h0 : (s * 10 + old * 90) / 100 = old := by omega
  rw [h0]
  exact Nat.mod_eq_of_lt (by omega)

theorem ewma_blend_lt (old s : Nat) (hold : old < 65535) (hs : s < 65536) :
    (s * 10 + old * 90) / 100 % 65536 = (s * 10 + old * 90) / 100 := by
  apply Nat.mod_eq_of_lt
  omega

theorem ewma_updates_fixed (metric old s : Nat) (hm : metric = LQI ∨ metric = ETX)
    (hold : old < 65535) (h1 : old ≤ s) (h2 : s - old < 10) :
    ∀ n : Nat, ewma_updates metric s n old = some old := by
  intro n
  induction n with
  | zero => rfl
  | succ k ih =>
    unfold ewma_updates
    rw [ewma_unsigned_step metric old s hm (by unfold SENTINEL; omega)]
    rw [ewma_blend_fixed old s hold h1 h2]
    exact ih

/-- C25: for the metrics LQI and ETX, a 16-bit old value other than the
never-sampled word and a 16-bit sample `s`, `plexi_update_ewma_statistics` has a
defined result `v`: for `s ≥ old` it is `old + ⌊(s - old) / 10⌋`, hence `old`
itself whenever `s - old < 10`, and then every further call with the same sample
leaves `old` in place; for `s < old` it is `old - ⌈(old - s) / 10⌉`, which is
smaller than `old`; `v` lies between the smaller and the larger of `old` and
`s` and fits 16 bits. -/
theorem ewma_step_moves_a_tenth (metric old s : Nat) (hm : metric = LQI ∨ metric = ETX)
    (hold : old < 65535) (hs : s < 65536) :
    ∃ v : Nat, plexi_update_ewma_statistics metric (some old) s = some (some v) ∧
      (old ≤ s → v = old + (s - old) / 10) ∧
      (old ≤ s → s - old < 10 → v = old ∧ ∀ n : Nat, ewma_updates metric s n old = some old) ∧
      (s < old → v = old - (old - s + 9) / 10 ∧ v < old) ∧
      min old s ≤ v ∧ v ≤ max old s ∧ v < 65536 := by
  refine ⟨(s * 10 + old * 90) / 100 % 65536,
    ewma_unsigned_step metric old s hm (by unfold SENTINEL; omega), ?_, ?_, ?_, ?_, ?_, ?_⟩
    <;> rw [ewma_blend_lt old s hold hs]
  · intro h; omega
  · intro h1 h2
    exact ⟨by omega, ewma_updates_fixed metric old s hm hold h1 h2⟩
  · intro h; constructor <;> omega
  · rw [Nat.min_def]; split <;> omega
  · rw [Nat.max_def]; split <;> omega
  · omega

theorem ewma_step_moves_a_tenth_witness :
    (ETX = LQI ∨ ETX = ETX) ∧ 256 < 65535 ∧ 265 < 65536 ∧
      ∃ v : Nat, plexi_update_ewma_statistics ETX (some 256) 265 = some (some v) ∧
        (256 ≤ 265 → v = 256 + (265 - 256) / 10) ∧
        (256 ≤ 265 → 265 - 256 < 10 →
          v = 256 ∧ ∀ n : Nat, ewma_updates ETX 265 n 256 = some 256) ∧
        (265 < 256 → v = 256 - (256 - 265 + 9) / 10 ∧ v < 256) ∧
        min 256 265 ≤ v ∧ v ≤ max 256 265 ∧ v < 65536 :=
  ⟨Or.inr rfl, by decide, by decide,
    ewma_step_moves_a_tenth ETX 256 265 (Or.inr rfl) (by decide) (by decide)⟩

/-- C26: the word a measured RSSI of -1 is stored as is the never-sampled word
(all ones, the initial value of a created record, which reads as -1 in the
signed view), so for every 16-bit sample `s` the call
`plexi_update_ewma_statistics(RSSI, old, s)` on a record whose average is
exactly -1 stores `s` itself, the result on a never-sampled record, whereas on
any other average the weighted sum is stored. -/
theorem rssi_minus_one_is_the_sentinel (s : Nat) (hs : s < 65536) :
    of_int (-1) = SENTINEL ∧ to_int16 SENTINEL = -1 ∧
      (∀ (r : plexi_stats) (st : plexi_stats), st.metainfo < 65536 →
        (post_stats_new_record r st false).value = of_int (-1)) ∧
      plexi_update_ewma_statistics RSSI (some (of_int (-1))) s = some (some s) ∧
      plexi_update_ewma_statistics RSSI (some (of_int (-1))) s =
        plexi_update_ewma_statistics RSSI (some SENTINEL) s ∧
      ∀ old : Nat, old ≠ SENTINEL →
        plexi_update_ewma_statistics RSSI (some old) s =
          some (some (of_int (Int.tdiv (to_int16 s * 10 + to_int16 old * 90) 100))) := by
  have h1 : of_int (-1) = SENTINEL := by decide
  refine ⟨h1, by decide, ?_, ?_, ?_, ?_⟩
  · intro r st hst
    rw [h1, new_record_eq r st false hst]
    rfl
  · rw [h1]
    exact ewma_same_sample RSSI s SENTINEL (Or.inl rfl) hs (Or.inl rfl)
  · rw [h1]
  · intro old hold
    unfold plexi_update_ewma_statistics
    simp only [if_true, ne_eq, hold, not_false_eq_true]

theorem rssi_minus_one_is_the_sentinel_witness :
    65446 < 65536 ∧
      (of_int (-1) = SENTINEL ∧ to_int16 SENTINEL = -1 ∧
      (∀ (r : plexi_stats) (st : plexi_stats), st.metainfo < 65536 →
        (post_stats_new_record r st false).value = of_int (-1)) ∧
      plexi_update_ewma_statistics RSSI (some (of_int (-1))) 65446 = some (some 65446) ∧
      plexi_update_ewma_statistics RSSI (some (of_int (-1))) 65446 =
        plexi_update_ewma_statistics RSSI (some SENTINEL) 65446 ∧
      ∀ old : Nat, old ≠ SENTINEL →
        plexi_update_ewma_statistics RSSI (some old) 65446 =
          some (some (of_int (Int.tdiv (to_int16 65446 * 10 + to_int16 old * 90) 100)))) :=
  ⟨by decide, rssi_minus_one_is_the_sentinel 65446 (by decide)⟩

/-- The body on a link where a record has to be created and the check of the
link options lets the creation through: the result is there, and it is not the
error of that check. -/
theorem post_link_not_refused (req : post_request) (s : plexi_state) (p : Nat × Nat)
    (l : tsch_link) (hwf : wf_state s) (hl : link_at s.schedule p = some l)
    (hsel : link_selected req l)
    (hm : match_records req.stats req.flags (records_at s p) = match_result.absent)
    (hr : ¬ creation_refused req l) :
    (∃ r, post_stats_link req s p = some r) ∧
      ∀ (s1 : plexi_state) (t : Bool), post_stats_link req s p ≠
        some (some ⟨some coap_status.BAD_REQUEST_4_00,
          "Broadcast cells cannot measure ETX and PDR"⟩, s1, t) := by
  unfold link_selected at hsel
  unfold creation_refused at hr
  unfold post_stats_link
  simp only [hl, if_pos hsel, link_scan_eq req s p l hwf hl, hm, scan_of_match, if_neg hr]
  cases ha : memb_alloc s.plexi_stats_mem with
  | mk r m1 =>
    cases r with
    | none =>
      refine ⟨⟨_, rfl⟩, ?_⟩
      intro s1 t h
      simp only [Option.some.injEq, Prod.mk.injEq] at h
      have h1 := congrArg coap_response.status h.1
      simp at h1
    | some j =>
      cases hg : (chain_at s p).getLast? with
      | none =>
        refine ⟨⟨_, rfl⟩, ?_⟩
        intro s1 t h
        simp at h
      | some k =>
        refine ⟨⟨_, rfl⟩, ?_⟩
        intro s1 t h
        simp at h

/-- C27: the body of the walk of an Upsert on a link the request selects and
whose chain holds no record for the request, so that a record has to be created
(on a well-formed state). The body has a result. For the metrics ETX and PDR the
result is the error 4.00 'Broadcast cells cannot measure ETX and PDR', with the
state unchanged, if and only if `link_options` differs from 1; so it is for the
options 3 and 2. For any other metric (RSSI, LQI, ASN) the result is never that
error. -/
theorem creation_rejected_iff_options_not_one (req : post_request) (s : plexi_state)
    (p : Nat × Nat) (l : tsch_link) (hwf : wf_state s) (hl : link_at s.schedule p = some l)
    (hsel : link_selected req l)
    (hm : match_records req.stats req.flags (records_at s p) = match_result.absent) :
    (∃ r, post_stats_link req s p = some r) ∧
      ((plexi_get_statistics_metric (some req.stats) = ETX ∨
          plexi_get_statistics_metric (some req.stats) = PDR) →
        ((post_stats_link req s p =
            some (some ⟨some coap_status.BAD_REQUEST_4_00,
              "Broadcast cells cannot measure ETX and PDR"⟩, s, false) ↔
          l.link_options ≠ 1) ∧
        (l.link_options = 3 ∨ l.link_options = 2 →
          post_stats_link req s p =
            some (some ⟨some coap_status.BAD_REQUEST_4_00,
              "Broadcast cells cannot measure ETX and PDR"⟩, s, false)))) ∧
      (¬ (plexi_get_statistics_metric (some req.stats) = ETX ∨
          plexi_get_statistics_metric (some req.stats) = PDR) →
        ∀ (s1 : plexi_state) (t : Bool), post_stats_link req s p ≠
          some (some ⟨some coap_status.BAD_REQUEST_4_00,
            "Broadcast cells cannot measure ETX and PDR"⟩, s1, t)) := by
  refine ⟨?_, ?_, ?_⟩
  · by_cases hr : creation_refused req l
    · exact ⟨_, post_link_refused req s p l hwf hl hsel hm hr⟩
    · exact (post_link_not_refused req s p l hwf hl hsel hm hr).1
  · intro hmetric
    refine ⟨⟨?_, ?_⟩, ?_⟩
    · intro h hopt
      have hr : ¬ creation_refused req l := fun hc => hc.1 hopt
      exact (post_link_not_refused req s p l hwf hl hsel hm hr).2 s false h
    · intro hopt
      exact post_link_refused req s p l hwf hl hsel hm ⟨hopt, hmetric⟩
    · intro hopt
      have hne : l.link_options ≠ 1 := by
        rcases hopt with h | h <;> rw [h] <;> decide
      exact post_link_refused req s p l hwf hl hsel hm ⟨hne, hmetric⟩
  · intro hmetric
    have hr : ¬ creation_refused req l := fun hc => hmetric hc.2
    exact (post_link_not_refused req s p l hwf hl hsel hm hr).2

/-- Witness of C27: a dedicated link with the options transmit and receive,
without statistics, and a request for ETX. -/
theorem creation_rejected_iff_options_not_one_witness :
    (∃ r, post_stats_link (example_request 25 0) tx_rx_link_state (0, 0) = some r) ∧
      ((plexi_get_statistics_metric (some (example_request 25 0).stats) = ETX ∨
          plexi_get_statistics_metric (some (example_request 25 0).stats) = PDR) →
        ((post_stats_link (example_request 25 0) tx_rx_link_state (0, 0) =
            some (some ⟨some coap_status.BAD_REQUEST_4_00,
              "Broadcast cells cannot measure ETX and PDR"⟩, tx_rx_link_state, false) ↔
          (example_link 3 3 none).link_options ≠ 1) ∧
        ((example_link 3 3 none).link_options = 3 ∨ (example_link 3 3 none).link_options = 2 →
          post_stats_link (example_request 25 0) tx_rx_link_state (0, 0) =
            some (some ⟨some coap_status.BAD_REQUEST_4_00,
              "Broadcast cells cannot measure ETX and PDR"⟩, tx_rx_link_state, false)))) ∧
      (¬ (plexi_get_statistics_metric (some (example_request 25 0).stats) = ETX ∨
          plexi_get_statistics_metric (some (example_request 25 0).stats) = PDR) →
        ∀ (s1 : plexi_state) (t : Bool),
          post_stats_link (example_request 25 0) tx_rx_link_state (0, 0) ≠
            some (some ⟨some coap_status.BAD_REQUEST_4_00,
              "Broadcast cells cannot measure ETX and PDR"⟩, s1, t)) :=
  creation_rejected_iff_options_not_one (example_request 25 0) tx_rx_link_state (0, 0)
    (example_link 3 3 none) (by decide) rfl (by decide) (by decide)

theorem id_after_set_enable (r : plexi_stats) (v : Nat) (hv : v < 2) (h : r.metainfo < 65536) :
    plexi_get_statistics_id (some (applied plexi_set_statistics_enable r v)) =
      plexi_get_statistics_id (some r) := by
  rw [applied_set_enable r v hv]
  simp only [plexi_get_statistics_id, Nat.shiftLeft_zero]
  exact (set_enable_word r.metainfo v h hv).2.2.1

theorem id_after_set_metric (r : plexi_stats) (v : Nat) (hv : v < 16) (h : r.metainfo < 65536) :
    plexi_get_statistics_id (some (applied plexi_set_statistics_metric r v)) =
      plexi_get_statistics_id (some r) := by
  rw [applied_set_metric r v hv]
  simp only [plexi_get_statistics_id]
  exact (set_metric_word r.metainfo v h hv).2.2.1

/-- The parsing loop over fields that are neither braces nor an id field: it
reaches the rest of the payload, and the id bits of the local record are the
ones it started with. -/
theorem post_parse_plain_fields (eui64 : String → Option linkaddr_t) (js_ok : Bool)
    (s : plexi_state) (tail : List json_event) :
    ∀ (fields : List json_event) (req : post_request),
      (∀ e ∈ fields, plain_field eui64 e = true) → req.stats.metainfo < 65536 →
      ∃ req1 : post_request,
        post_stats_parse eui64 js_ok s (fields ++ tail) req =
          post_stats_parse eui64 js_ok s tail req1 ∧
        req1.stats.metainfo < 65536 ∧
        plexi_get_statistics_id (some req1.stats) = plexi_get_statistics_id (some req.stats) := by
  intro fields
  induction fields with
  | nil =>
    intro req _ hmi
    exact ⟨req, rfl, hmi, rfl⟩
  | cons ev evs ih =>
    intro req hf hmi
    have hev : plain_field eui64 ev = true := hf ev (List.mem_cons_self _ _)
    have hrest : ∀ e ∈ evs, plain_field eui64 e = true :=
      fun e he => hf e (List.mem_cons_of_mem _ he)
    rw [List.cons_append]
    cases ev with
    | object_start => simp [plain_field] at hev
    | object_end => simp [plain_field] at hev
    | other =>
      simp only [post_stats_parse]
      exact ih req hrest hmi
    | number field value =>
      have h5 : field ≠ "id" := by simpa [plain_field] using hev
      simp only [post_stats_parse]
      by_cases h1 : field = "frame"
      · simp only [if_pos h1]
        exact ih _ hrest hmi
      simp only [if_neg h1]
      by_cases h2 : field = "slot"
      · simp only [if_pos h2]
        exact ih _ hrest hmi
      simp only [if_neg h2]
      by_cases h3 : field = "channel"
      · simp only [if_pos h3]
        exact ih _ hrest hmi
      simp only [if_neg h3]
      by_cases h4 : field = "value"
      · simp only [if_pos h4]
        exact ih _ hrest hmi
      simp only [if_neg h4, if_neg h5]
      by_cases h7 : field = "enable"
      · simp only [if_pos h7]
        by_cases h8 : of_int value = 1
        · simp only [if_pos h8]
          obtain ⟨req1, e1, e2, e3⟩ := ih
            { req with stats := applied plexi_set_statistics_enable req.stats ENABLE } hrest
            (applied_set_enable_words req.stats ENABLE hmi).1
          exact ⟨req1, e1, e2, e3.trans (id_after_set_enable req.stats ENABLE (by decide) hmi)⟩
        · simp only [if_neg h8]
          obtain ⟨req1, e1, e2, e3⟩ := ih
            { req with stats := applied plexi_set_statistics_enable req.stats DISABLE } hrest
            (applied_set_enable_words req.stats DISABLE hmi).1
          exact ⟨req1, e1, e2, e3.trans (id_after_set_enable req.stats DISABLE (by decide) hmi)⟩
      simp only [if_neg h7]
      exact ih _ hrest hmi
    | string field value =>
      simp only [post_stats_parse]
      by_cases h1 : field = "tna"
      · simp only [if_pos h1]
        cases he : eui64 value with
        | none => simp [plain_field, h1, he] at hev
        | some a => exact ih _ hrest hmi
      simp only [if_neg h1]
      by_cases h2 : field = "enable"
      · simp only [if_pos h2]
        by_cases h3 : value = "y" ∨ value = "yes" ∨ value = "true"
        · simp only [if_pos h3]
          obtain ⟨req1, e1, e2, e3⟩ := ih
            { req with stats := applied plexi_set_statistics_enable req.stats ENABLE } hrest
            (applied_set_enable_words req.stats ENABLE hmi).1
          exact ⟨req1, e1, e2, e3.trans (id_after_set_enable req.stats ENABLE (by decide) hmi)⟩
        · simp only [if_neg h3]
          by_cases h4 : value = "n" ∨ value = "no" ∨ value = "false"
          · simp only [if_pos h4]
            obtain ⟨req1, e1, e2, e3⟩ := ih
              { req with stats := applied plexi_set_statistics_enable req.stats DISABLE } hrest
              (applied_set_enable_words req.stats DISABLE hmi).1
            exact ⟨req1, e1, e2,
              e3.trans (id_after_set_enable req.stats DISABLE (by decide) hmi)⟩
          · simp only [if_neg h4]
            exact ih _ hrest hmi
      simp only [if_neg h2]
      by_cases h5 : field = "metric"
      · simp only [if_pos h5]
        by_cases v1 : value = "etx"
        · simp only [if_pos v1]
          obtain ⟨req1, e1, e2, e3⟩ := ih
            { req with stats := applied plexi_set_statistics_metric req.stats ETX } hrest
            (applied_set_metric_words req.stats ETX hmi).1
          exact ⟨req1, e1, e2, e3.trans (id_after_set_metric req.stats ETX (by decide) hmi)⟩
        simp only [if_neg v1]
        by_cases v2 : value = "rssi"
        · simp only [if_pos v2]
          obtain ⟨req1, e1, e2, e3⟩ := ih
            { req with stats := applied plexi_set_statistics_metric req.stats RSSI } hrest
            (applied_set_metric_words req.stats RSSI hmi).1
          exact ⟨req1, e1, e2, e3.trans (id_after_set_metric req.stats RSSI (by decide) hmi)⟩
        simp only [if_neg v2]
        by_cases v3 : value = "lqi"
        · simp only [if_pos v3]
          obtain ⟨req1, e1, e2, e3⟩ := ih
            { req with stats := applied plexi_set_statistics_metric req.stats LQI } hrest
            (applied_set_metric_words req.stats LQI hmi).1
          exact ⟨req1, e1, e2, e3.trans (id_after_set_metric req.stats LQI (by decide) hmi)⟩
        simp only [if_neg v3]
        by_cases v4 : value = "asn"
        · simp only [if_pos v4]
          obtain ⟨req1, e1, e2, e3⟩ := ih
            { req with stats := applied plexi_set_statistics_metric req.stats ASN } hrest
            (applied_set_metric_words req.stats ASN hmi).1
          exact ⟨req1, e1, e2, e3.trans (id_after_set_metric req.stats ASN (by decide) hmi)⟩
        simp only [if_neg v4]
        by_cases v5 : value = "pdr"
        · simp only [if_pos v5]
          obtain ⟨req1, e1, e2, e3⟩ := ih
            { req with stats := applied plexi_set_statistics_metric req.stats PDR } hrest
            (applied_set_metric_words req.stats PDR hmi).1
          exact ⟨req1, e1, e2, e3.trans (id_after_set_metric req.stats PDR (by decide) hmi)⟩
        simp [plain_field, h1, h2, h5, v1, v2, v3, v4, v5] at hev
      simp only [if_neg h5]
      exact ih _ hrest hmi

theorem id_check_step (eui64 : String → Option linkaddr_t) (js_ok : Bool) (s : plexi_state)
    (rest : List json_event) (req : post_request) (v : Int)
    (hmi : req.stats.metainfo < 65536) (h0 : plexi_get_statistics_id (some req.stats) = 0) :
    (1 ≤ of_int v ∧ of_int v ≤ 31 →
      plexi_get_statistics_id (some (applied plexi_set_statistics_id req.stats (of_int v))) =
          of_int v ∧
        post_stats_parse eui64 js_ok s (json_event.number "id" v :: rest) req =
          post_stats_parse eui64 js_ok s rest
            { req with stats := applied plexi_set_statistics_id req.stats (of_int v),
                       flags := req.flags ||| 16 }) ∧
    (of_int v = 0 ∨ 32 ≤ of_int v →
      post_stats_parse eui64 js_ok s (json_event.number "id" v :: rest) req =
        some (⟨some coap_status.BAD_REQUEST_4_00,
          "Invalid statistics configuration (invalid id)"⟩, s)) := by
  have e1 : ¬ ("id" = "frame") := by decide
  have e2 : ¬ ("id" = "slot") := by decide
  have e3 : ¬ ("id" = "channel") := by decide
  have e4 : ¬ ("id" = "value") := by decide
  have hstep : post_stats_parse eui64 js_ok s (json_event.number "id" v :: rest) req =
      if plexi_get_statistics_id
          (some (applied plexi_set_statistics_id req.stats (of_int v))) < 1 then
        some (⟨some coap_status.BAD_REQUEST_4_00,
          "Invalid statistics configuration (invalid id)"⟩, s)
      else
        post_stats_parse eui64 js_ok s rest
          { req with stats := applied plexi_set_statistics_id req.stats (of_int v),
                     flags := req.flags ||| 16 } := by
    simp only [post_stats_parse, if_neg e1, if_neg e2, if_neg e3, if_neg e4, if_true]
  constructor
  · intro hv
    have hlt : of_int v < 32 := by omega
    have hid : plexi_get_statistics_id
        (some (applied plexi_set_statistics_id req.stats (of_int v))) = of_int v := by
      rw [applied_set_id req.stats (of_int v) hlt]
      simp only [plexi_get_statistics_id]
      exact (set_id_word req.stats.metainfo (of_int v) hmi hlt).2.2.1
    refine ⟨hid, ?_⟩
    rw [hstep, hid, if_neg (by omega)]
  · intro hv
    have hid : plexi_get_statistics_id
        (some (applied plexi_set_statistics_id req.stats (of_int v))) = 0 := by
      rcases hv with hv | hv
      · rw [applied_set_id req.stats (of_int v) (by omega)]
        simp only [plexi_get_statistics_id]
        rw [(set_id_word req.stats.metainfo (of_int v) hmi (by omega)).2.2.1]
        exact hv
      · have hnot : ¬ of_int v < 32 := by omega
        have : applied plexi_set_statistics_id req.stats (of_int v) = req.stats := by
          simp [applied, plexi_set_statistics_id, hnot]
        rw [this]
        exact h0
    rw [hstep, hid, if_pos (by decide)]

/-- C29: an Upsert whose JSON object supplies one id field, after any fields
the parsing loop passes (`plain_field`) and before the rest of the payload, with
`w` the id converted to the 16-bit parameter of `plexi_set_statistics_id` (the
id modulo 2^16). Up to the id field the id bits of the local record are 0. If
`1 ≤ w ≤ 31` the check passes: `w` is stored in the local record and the loop
goes on with the rest of the payload and the id flag set. If `w = 0` or
`32 ≤ w` the request ends there with 4.00 'Invalid statistics configuration
(invalid id)' and the state (schedule and pool, so every record) is the one
the request started with. -/
theorem upsert_checks_id_range (eui64 : String → Option linkaddr_t) (js_ok : Bool)
    (s : plexi_state) (fields rest : List json_event) (v : Int)
    (hf : ∀ e ∈ fields, plain_field eui64 e = true) :
    ∃ req : post_request, plexi_get_statistics_id (some req.stats) = 0 ∧
      plexi_post_stats_handler eui64 js_ok
          (json_event.object_start :: (fields ++ json_event.number "id" v :: rest)) s =
        post_stats_parse eui64 js_ok s (json_event.number "id" v :: rest) req ∧
      (1 ≤ of_int v ∧ of_int v ≤ 31 →
        plexi_get_statistics_id
            (some (applied plexi_set_statistics_id req.stats (of_int v))) = of_int v ∧
          plexi_post_stats_handler eui64 js_ok
              (json_event.object_start :: (fields ++ json_event.number "id" v :: rest)) s =
            post_stats_parse eui64 js_ok s rest
              { req with stats := applied plexi_set_statistics_id req.stats (of_int v),
                         flags := req.flags ||| 16 }) ∧
      (of_int v = 0 ∨ 32 ≤ of_int v →
        plexi_post_stats_handler eui64 js_ok
            (json_event.object_start :: (fields ++ json_event.number "id" v :: rest)) s =
          some (⟨some coap_status.BAD_REQUEST_4_00,
            "Invalid statistics configuration (invalid id)"⟩, s)) := by
  have hinit : ({ post_request_init with
        stats := applied plexi_set_statistics_id
          { applied plexi_set_statistics_metric
              (applied plexi_set_statistics_enable
                (applied plexi_set_statistics_window post_request_init.stats 0) DISABLE)
              NONE with value := of_int (-1) } (of_int (-1))
        channel := -1, slot := -1, slotframe := -1 } : post_request).stats.metainfo = 1 := by
    decide
  obtain ⟨req, h1, h2, h3⟩ := post_parse_plain_fields eui64 js_ok s
    (json_event.number "id" v :: rest) fields _ hf (by rw [hinit]; decide)
  have h0 : plexi_get_statistics_id (some req.stats) = 0 := by
    rw [h3]
    simp only [plexi_get_statistics_id, hinit]
    decide
  have hh : plexi_post_stats_handler eui64 js_ok
          (json_event.object_start :: (fields ++ json_event.number "id" v :: rest)) s =
        post_stats_parse eui64 js_ok s (json_event.number "id" v :: rest) req := by
    simp only [plexi_post_stats_handler, post_stats_parse]
    exact h1
  have hs := id_check_step eui64 js_ok s rest req v h2 h0
  refine ⟨req, h0, hh, ?_, ?_⟩
  · intro hv
    exact ⟨(hs.1 hv).1, hh.trans (hs.1 hv).2⟩
  · intro hv
    exact hh.trans (hs.2 hv)

/-- Witness of C29: the object with the fields metric "rssi" and id 32 on two
links without statistics. -/
theorem upsert_checks_id_range_witness :
    ∃ req : post_request, plexi_get_statistics_id (some req.stats) = 0 ∧
      plexi_post_stats_handler no_address true
          (json_event.object_start :: ([json_event.string "metric" "rssi"] ++
            json_event.number "id" 32 :: [json_event.object_end])) two_links_state =
        post_stats_parse no_address true two_links_state
          (json_event.number "id" 32 :: [json_event.object_end]) req ∧
      (1 ≤ of_int 32 ∧ of_int 32 ≤ 31 →
        plexi_get_statistics_id
            (some (applied plexi_set_statistics_id req.stats (of_int 32))) = of_int 32 ∧
          plexi_post_stats_handler no_address true
              (json_event.object_start :: ([json_event.string "metric" "rssi"] ++
                json_event.number "id" 32 :: [json_event.object_end])) two_links_state =
            post_stats_parse no_address true two_links_state [json_event.object_end]
              { req with stats := applied plexi_set_statistics_id req.stats (of_int 32),
                         flags := req.flags ||| 16 }) ∧
      (of_int 32 = 0 ∨ 32 ≤ of_int 32 →
        plexi_post_stats_handler no_address true
            (json_event.object_start :: ([json_event.string "metric" "rssi"] ++
              json_event.number "id" 32 :: [json_event.object_end])) two_links_state =
          some (⟨some coap_status.BAD_REQUEST_4_00,
            "Invalid statistics configuration (invalid id)"⟩, two_links_state)) :=
  upsert_checks_id_range no_address true two_links_state [json_event.string "metric" "rssi"]
    [json_event.object_end] 32 (by decide)

theorem records_total_eq (s : plexi_state) :
    records_total s = ((all_positions s.schedule).map (fun p => (records_at s p).length)).sum := by
  unfold records_total
  congr 1
  apply List.map_congr_left
  intro p _
  rw [records_at_eq]
  simp [chain_records]

theorem all_positions_of_skeleton (sched sched1 : List tsch_slotframe)
    (h : skeleton sched1 = skeleton sched) : all_positions sched1 = all_positions sched := by
  rw [← all_positions_skeleton sched1, h, all_positions_skeleton]

theorem stats_walk_sub_all (schedule : List tsch_slotframe) (flags : Nat) (frame slot : Int)
    (p : Nat × Nat) (hp : p ∈ stats_walk schedule flags frame slot) :
    p ∈ all_positions schedule := by
  unfold stats_walk at hp
  simp only [List.mem_flatMap] at hp
  obtain ⟨i, _, hp⟩ := hp
  cases hsf : schedule[i]? with
  | none => simp [hsf] at hp
  | some sf =>
    simp only [hsf, List.mem_map] at hp
    obtain ⟨j, hj, rfl⟩ := hp
    have hlt : j < sf.links_list.length := by
      unfold stats_walk_links at hj
      split at hj
      · cases hf : tsch_schedule_get_link_by_timeslot sf slot with
        | none => simp [hf] at hj
        | some k =>
          simp only [hf, List.mem_singleton] at hj
          subst hj
          exact first_index_lt _ _ _ hf
      · exact List.mem_range.mp hj
    refine (mem_all_positions _ _).mpr ⟨sf.links_list[j], ?_⟩
    simp [link_at, hsf, List.getElem?_eq_getElem hlt]

/-- Two functions on positions that differ at one position of a list without
repetition: the sums differ by the difference there. -/
theorem sum_change_at (all : List (Nat × Nat)) (f g : Nat × Nat → Nat) (p : Nat × Nat)
    (hall : all.Nodup) (hp : p ∈ all) (hoth : ∀ q, q ≠ p → g q = f q) :
    (all.map g).sum + f p = (all.map f).sum + g p := by
  induction all with
  | nil => simp at hp
  | cons a l ih =>
    rw [List.nodup_cons] at hall
    simp only [List.map_cons, List.sum_cons]
    by_cases hap : a = p
    · subst hap
      have hl : l.map g = l.map f := by
        apply List.map_congr_left
        intro q hq
        exact hoth q (fun e => hall.1 (e ▸ hq))
      rw [hl]
      omega
    · have hpl : p ∈ l := by
        rcases List.mem_cons.mp hp with h | h
        · exact absurd h.symm hap
        · exact h
      have := ih hall.2 hpl
      rw [hoth a hap]
      omega

/-- The total after a step that changes the records of one link only. -/
theorem records_total_step (s s1 : plexi_state) (p : Nat × Nat)
    (hsk : skeleton s1.schedule = skeleton s.schedule)
    (hp : p ∈ all_positions s.schedule)
    (hoth : ∀ q, q ≠ p → records_at s1 q = records_at s q) :
    records_total s1 + (records_at s p).length =
      records_total s + (records_at s1 p).length := by
  rw [records_total_eq, records_total_eq, all_positions_of_skeleton _ _ hsk]
  exact sum_change_at (all_positions s.schedule) (fun q => (records_at s q).length)
    (fun q => (records_at s1 q).length) p (all_positions_nodup _) hp
    (fun q hq => by simp only [hoth q hq])

theorem counts_store (m : memb) (i : Nat) (f : plexi_stats → plexi_stats)
    (h : ∀ b ∈ m, b.count ≤ 1) : ∀ b ∈ memb_store m i f, b.count ≤ 1 := by
  intro b hb
  rcases mem_memb_store m i f b hb with h1 | ⟨b0, hb0, rfl⟩
  · exact h b h1
  · exact h b0 (List.getElem?_mem hb0)

theorem counts_alloc (m m1 : memb) (j : Nat) (ha : memb_alloc m = (some j, m1))
    (h : ∀ b ∈ m, b.count ≤ 1) : ∀ b ∈ m1, b.count ≤ 1 := by
  obtain ⟨b0, _, _, rfl⟩ := memb_alloc_some m m1 j ha
  intro b hb
  rcases List.mem_or_eq_of_mem_set hb with h1 | h1
  · exact h b h1
  · rw [h1]

/-- The body of the walk of an Upsert leaves the use counters at 0 or 1. -/
theorem post_link_counts (req : post_request) (s : plexi_state) (p : Nat × Nat)
    (hcnt : pool_counts s) (r : Option coap_response) (s1 : plexi_state) (t : Bool)
    (h : post_stats_link req s p = some (r, s1, t)) : pool_counts s1 := by
  unfold pool_counts at hcnt ⊢
  unfold post_stats_link at h
  cases hl : link_at s.schedule p with
  | none =>
    simp only [hl, Option.some.injEq, Prod.mk.injEq] at h
    rw [← h.2.1]
    exact hcnt
  | some l =>
    simp only [hl] at h
    split at h
    · split at h
      · simp at h
      · simp only [Option.some.injEq, Prod.mk.injEq] at h
        rw [← h.2.1]
        exact hcnt
      · split at h
        · simp only [Option.some.injEq, Prod.mk.injEq] at h
          rw [← h.2.1]
          exact hcnt
        · split at h
          · simp only [Option.some.injEq, Prod.mk.injEq] at h
            rw [← h.2.1]
            exact hcnt
          · rename_i j m1 ha
            have hm1 := counts_alloc _ m1 j ha hcnt
            split at h
            · simp only [Option.some.injEq, Prod.mk.injEq] at h
              rw [← h.2.1]
              dsimp only
              exact counts_store _ _ _ (counts_store _ _ _ hm1)
            · simp only [Option.some.injEq, Prod.mk.injEq] at h
              rw [← h.2.1]
              dsimp only
              exact counts_store _ _ _ hm1
      · simp only [Option.some.injEq, Prod.mk.injEq] at h
        rw [← h.2.1]
        dsimp only
        exact counts_store _ _ _ hcnt
    · simp only [Option.some.injEq, Prod.mk.injEq] at h
      rw [← h.2.1]
      exact hcnt

/-- The body of the walk of an Upsert on one link keeps the invariant of the
store, whatever it does there. -/
theorem post_link_invariant (req : post_request) (hreq : request_words req) (s : plexi_state)
    (p : Nat × Nat) (hinv : pool_invariant s) :
    ∃ r s1 t, post_stats_link req s p = some (r, s1, t) ∧ pool_invariant s1 := by
  obtain ⟨hwf, hcnt, hacc⟩ := hinv
  cases hl : link_at s.schedule p with
  | none =>
    exact ⟨none, s, false, post_link_skip req s p (fun l h => by rw [hl] at h; simp at h),
      hwf, hcnt, hacc⟩
  | some l =>
    have hp : p ∈ all_positions s.schedule := (mem_all_positions _ _).mpr ⟨l, hl⟩
    by_cases hsel : link_selected req l
    · cases hm : match_records req.stats req.flags (records_at s p) with
      | conflict =>
        exact ⟨_, s, false, post_link_conflict req s p l hwf hl hsel hm, hwf, hcnt, hacc⟩
      | absent =>
        by_cases hr : creation_refused req l
        · exact ⟨_, s, false, post_link_refused req s p l hwf hl hsel hm hr, hwf, hcnt, hacc⟩
        · by_cases hfree : ∃ b ∈ s.plexi_stats_mem, b.count = 0
          · obtain ⟨s1, h1, h2, h3, _, h5, h6, h7⟩ :=
              post_link_create req s p l hwf hreq hl hsel hm hr hfree
            refine ⟨none, s1, true, h1, h2, post_link_counts req s p hcnt _ _ _ h1, ?_⟩
            have ht := records_total_step s s1 p h3 hp h7
            rw [h6, List.length_append, List.length_singleton] at ht
            unfold pool_accounted at hacc ⊢
            omega
          · have hfull : ∀ b ∈ s.plexi_stats_mem, b.count ≠ 0 :=
              fun b hb hc => hfree ⟨b, hb, hc⟩
            exact ⟨_, s, false, post_link_full req s p l hwf hl hsel hm hr hfull,
              hwf, hcnt, hacc⟩
      | found k =>
        obtain ⟨s1, r, h1, h2, h3, _, h5, _, h7, h8⟩ :=
          post_link_update req s p l k hwf hreq hl hsel hm
        refine ⟨none, s1, true, h1, h2, post_link_counts req s p hcnt _ _ _ h1, ?_⟩
        have ht := records_total_step s s1 p (by rw [h3]) hp h8
        rw [h7, List.length_set] at ht
        unfold pool_accounted at hacc ⊢
        omega
    · have hsk := post_link_skip req s p (fun l1 h => by
        rw [hl] at h
        simp only [Option.some.injEq] at h
        subst h
        exact hsel)
      exact ⟨none, s, false, hsk, hwf, hcnt, hacc⟩

/-- The walk of an Upsert always ends and keeps the invariant of the store,
also when it ends with an error part-way. -/
theorem post_loop_invariant (req : post_request) (hreq : request_words req) :
    ∀ (ps : List (Nat × Nat)) (s : plexi_state) (inst : Bool), pool_invariant s →
      ∃ r s1 i1, post_stats_loop req ps s inst = some (r, s1, i1) ∧ pool_invariant s1 := by
  intro ps
  induction ps with
  | nil =>
    intro s inst hinv
    exact ⟨none, s, inst, rfl, hinv⟩
  | cons p ps ih =>
    intro s inst hinv
    obtain ⟨r, s1, t, h1, h2⟩ := post_link_invariant req hreq s p hinv
    cases r with
    | some e => exact ⟨some e, s1, inst, post_loop_cons_error req p ps s s1 inst t e h1, h2⟩
    | none =>
      obtain ⟨r2, s2, i2, g1, g2⟩ := ih s1 (inst || t) h2
      exact ⟨r2, s2, i2, by rw [post_loop_cons_ok req p ps s s1 inst t h1, g1], g2⟩

theorem end_element_invariant (req : post_request) (hreq : request_words req)
    (s : plexi_state) (hinv : pool_invariant s) :
    ∃ resp s1, post_stats_end_element req s = some (resp, s1) ∧ pool_invariant s1 := by
  unfold post_stats_end_element
  by_cases h1 : plexi_get_statistics_metric (some req.stats) = NONE
  · rw [if_pos h1]
    exact ⟨_, s, rfl, hinv⟩
  rw [if_neg h1]
  by_cases h2 : stats_walk_frames s.schedule req.flags req.slotframe = []
  · rw [if_pos h2]
    exact ⟨_, s, rfl, hinv⟩
  rw [if_neg h2]
  obtain ⟨r, s1, i1, g1, g2⟩ := post_loop_invariant req hreq
    (stats_walk s.schedule req.flags req.slotframe req.slot) s false hinv
  rw [g1]
  cases r with
  | some e => exact ⟨e, s1, rfl, g2⟩
  | none =>
    cases i1 with
    | true => exact ⟨_, s1, rfl, g2⟩
    | false => exact ⟨_, s1, rfl, g2⟩

theorem words_of_stats (req : post_request) (st : plexi_stats) (hc : request_words req)
    (h1 : st.metainfo < 65536) (h2 : st.value = req.stats.value) :
    request_words { req with stats := st } :=
  ⟨h1, by rw [h2]; exact hc.2⟩

/-- The parsing loop of an Upsert, started on a state that satisfies the
invariant of the store with a local record of 16-bit words, ends and leaves a
state that satisfies the invariant. -/
theorem post_parse_invariant (eui64 : String → Option linkaddr_t) (js_ok : Bool) :
    ∀ (evs : List json_event) (req : post_request) (s : plexi_state), pool_invariant s →
      request_words req →
      ∃ resp s1, post_stats_parse eui64 js_ok s evs req = some (resp, s1) ∧
        pool_invariant s1 := by
  intro evs
  induction evs with
  | nil =>
    intro req s hinv _
    cases js_ok with
    | true => exact ⟨⟨none, ""⟩, s, by simp [post_stats_parse], hinv⟩
    | false =>
      exact ⟨⟨some coap_status.BAD_REQUEST_4_00, "Can only support JSON payload format"⟩, s,
        by simp [post_stats_parse], hinv⟩
  | cons ev evs ih =>
    intro req s hinv hc
    cases ev with
    | object_start =>
      simp only [post_stats_parse]
      apply ih _ s hinv
      have h1 := applied_set_window_words req.stats 0 hc.1
      have h2 := applied_set_enable_words _ DISABLE h1.1
      have h3 := applied_set_metric_words _ NONE h2.1
      have h4 := applied_set_id_words
        { applied plexi_set_statistics_metric
            (applied plexi_set_statistics_enable
              (applied plexi_set_statistics_window req.stats 0) DISABLE) NONE with
          value := of_int (-1) } (of_int (-1)) h3.1
      exact ⟨h4.1, lt_of_eq_of_lt h4.2 (of_int_lt (-1))⟩
    | object_end =>
      simp only [post_stats_parse]
      exact end_element_invariant req hc s hinv
    | other =>
      simp only [post_stats_parse]
      exact ih _ s hinv hc
    | number field value =>
      simp only [post_stats_parse]
      by_cases h1 : field = "frame"
      · simp only [if_pos h1]
        exact ih _ s hinv hc
      simp only [if_neg h1]
      by_cases h2 : field = "slot"
      · simp only [if_pos h2]
        exact ih _ s hinv hc
      simp only [if_neg h2]
      by_cases h3 : field = "channel"
      · simp only [if_pos h3]
        exact ih _ s hinv hc
      simp only [if_neg h3]
      by_cases h4 : field = "value"
      · simp only [if_pos h4]
        exact ih _ s hinv ⟨hc.1, of_int_lt value⟩
      simp only [if_neg h4]
      by_cases h5 : field = "id"
      · simp only [if_pos h5]
        have h := applied_set_id_words req.stats (of_int value) hc.1
        by_cases h6 : plexi_get_statistics_id
            (some (applied plexi_set_statistics_id req.stats (of_int value))) < 1
        · simp only [if_pos h6]
          exact ⟨_, s, rfl, hinv⟩
        · simp only [if_neg h6]
          exact ih _ s hinv (words_of_stats _ _ hc h.1 h.2)
      simp only [if_neg h5]
      by_cases h7 : field = "enable"
      · simp only [if_pos h7]
        apply ih _ s hinv
        by_cases h8 : of_int value = 1
        · simp only [if_pos h8]
          have h := applied_set_enable_words req.stats ENABLE hc.1
          exact words_of_stats req _ hc h.1 h.2
        · simp only [if_neg h8]
          have h := applied_set_enable_words req.stats DISABLE hc.1
          exact words_of_stats req _ hc h.1 h.2
      simp only [if_neg h7]
      exact ih _ s hinv hc
    | string field value =>
      simp only [post_stats_parse]
      by_cases h1 : field = "tna"
      · simp only [if_pos h1]
        cases he : eui64 value with
        | none => exact ⟨_, s, rfl, hinv⟩
        | some a => exact ih _ s hinv hc
      simp only [if_neg h1]
      by_cases h2 : field = "enable"
      · simp only [if_pos h2]
        apply ih _ s hinv
        by_cases h3 : value = "y" ∨ value = "yes" ∨ value = "true"
        · simp only [if_pos h3]
          have h := applied_set_enable_words req.stats ENABLE hc.1
          exact words_of_stats req _ hc h.1 h.2
        · simp only [if_neg h3]
          by_cases h4 : value = "n" ∨ value = "no" ∨ value = "false"
          · simp only [if_pos h4]
            have h := applied_set_enable_words req.stats DISABLE hc.1
            exact words_of_stats req _ hc h.1 h.2
          · simp only [if_neg h4]
            exact hc
      simp only [if_neg h2]
      by_cases h5 : field = "metric"
      · simp only [if_pos h5]
        by_cases v1 : value = "etx"
        · simp only [if_pos v1]
          have h := applied_set_metric_words req.stats ETX hc.1
          exact ih _ s hinv (words_of_stats req _ hc h.1 h.2)
        simp only [if_neg v1]
        by_cases v2 : value = "rssi"
        · simp only [if_pos v2]
          have h := applied_set_metric_words req.stats RSSI hc.1
          exact ih _ s hinv (words_of_stats req _ hc h.1 h.2)
        simp only [if_neg v2]
        by_cases v3 : value = "lqi"
        · simp only [if_pos v3]
          have h := applied_set_metric_words req.stats LQI hc.1
          exact ih _ s hinv (words_of_stats req _ hc h.1 h.2)
        simp only [if_neg v3]
        by_cases v4 : value = "asn"
        · simp only [if_pos v4]
          have h := applied_set_metric_words req.stats ASN hc.1
          exact ih _ s hinv (words_of_stats req _ hc h.1 h.2)
        simp only [if_neg v4]
        by_cases v5 : value = "pdr"
        · simp only [if_pos v5]
          have h := applied_set_metric_words req.stats PDR hc.1
          exact ih _ s hinv (words_of_stats req _ hc h.1 h.2)
        simp only [if_neg v5]
        exact ⟨_, s, rfl, hinv⟩
      simp only [if_neg h5]
      exact ih _ s hinv hc

/-- A statistics delete keeps the invariant of the store. -/
theorem delete_run_invariant (na : linkaddr_t → String) (qr : stats_query)
    (uri_subresource : String) (s : plexi_state) (hinv : pool_invariant s) :
    ∃ resp s1, delete_stats_run na qr uri_subresource s = some (resp, s1) ∧
      pool_invariant s1 := by
  by_cases hsub : uri_subresource ≠ ""
  · refine ⟨⟨some coap_status.NOT_FOUND_4_04, "Subresources are not allowed"⟩, s, ?_, hinv⟩
    unfold delete_stats_run
    rw [if_pos hsub]
  have hsub2 : uri_subresource = "" := by
    by_contra h
    exact hsub h
  subst hsub2
  obtain ⟨hwf, hcnt, hacc⟩ := hinv
  obtain ⟨resp, s1, h1, hwf1, hcnt1, hsk, hrec, hoth, hused, _⟩ :=
    delete_run_spec na qr s hwf hcnt
  refine ⟨resp, s1, h1, hwf1, hcnt1, ?_⟩
  have hlen : ∀ p, (records_at s p).length =
      (records_at s1 p).length +
        (if p ∈ stats_walk s.schedule qr.flags qr.frame qr.slot then
          (removed_at qr s p).length else 0) := by
    intro p
    by_cases hw : p ∈ stats_walk s.schedule qr.flags qr.frame qr.slot
    · rw [if_pos hw, hrec p hw]
      unfold records_after_delete removed_at
      by_cases hsel : delete_selected qr s p = true
      · rw [if_pos hsel, if_pos hsel]
        have := List.length_eq_length_filter_add (l := records_at s p) (stats_record_filter qr)
        omega
      · rw [if_neg hsel, if_neg hsel]
        simp
    · rw [if_neg hw, hoth p hw]
      rfl
  have hsum : ((stats_walk s.schedule qr.flags qr.frame qr.slot).map
      (fun p => (removed_at qr s p).length)).sum =
      ((all_positions s.schedule).map
        (fun p => if p ∈ stats_walk s.schedule qr.flags qr.frame qr.slot then
          (removed_at qr s p).length else 0)).sum := by
    rw [sum_over_walk (all_positions s.schedule)
      (stats_walk s.schedule qr.flags qr.frame qr.slot) _ (all_positions_nodup _)
      (stats_walk_nodup _ _ _ _) (stats_walk_sub_all _ _ _ _)
      (fun p hp => by rw [if_neg hp])]
    congr 1
    apply List.map_congr_left
    intro p hp
    rw [if_pos hp]
  have htot : records_total s = records_total s1 +
      ((all_positions s.schedule).map
        (fun p => if p ∈ stats_walk s.schedule qr.flags qr.frame qr.slot then
          (removed_at qr s p).length else 0)).sum := by
    rw [records_total_eq, records_total_eq, all_positions_of_skeleton _ _ hsk,
      ← List.sum_map_add]
    congr 1
    apply List.map_congr_left
    intro p _
    exact hlen p
  unfold pool_accounted at hacc ⊢
  omega

/-- C28: on a state that satisfies the invariant of the store (the number of
blocks of the pool in use equals the number of records reachable from the
chains of all links, no record is on two chains, the chains are well formed and
the use counters are 0 or 1), every Upsert request, whatever its payload and
whether it succeeds or ends with an error part-way, and every statistics DELETE
request, whatever its query and subresource, has a result, and the state it
leaves satisfies the invariant again. -/
theorem pool_accounting_is_preserved (eui64 : String → Option linkaddr_t)
    (na : linkaddr_t → String) (tna0 : linkaddr_t) (js_ok : Bool) (events : List json_event)
    (uri_subresource : String) (query : List (String × String)) (s : plexi_state)
    (hwf : wf_state s) (hcnt : pool_counts s) (hacc : pool_accounted s) :
    (∃ resp s1, plexi_post_stats_handler eui64 js_ok events s = some (resp, s1) ∧
      wf_state s1 ∧ pool_counts s1 ∧ pool_accounted s1) ∧
    (∃ resp s1, plexi_delete_stats_handler eui64 na tna0 uri_subresource query s =
        some (resp, s1) ∧
      wf_state s1 ∧ pool_counts s1 ∧ pool_accounted s1) := by
  have hinv : pool_invariant s := ⟨hwf, hcnt, hacc⟩
  constructor
  · exact post_parse_invariant eui64 js_ok events post_request_init s hinv
      ⟨by decide, by decide⟩
  · unfold plexi_delete_stats_handler
    cases hq : stats_query_parse eui64 tna0 query with
    | inl r => exact ⟨r, s, rfl, hinv⟩
    | inr qr => exact delete_run_invariant na qr uri_subresource s hinv

/-- Witness of C28: three links without statistics and a pool of two free
blocks; the Upsert for RSSI with id 7 on all links creates two records and
fails on the third link, the delete finds nothing to remove. -/
theorem pool_accounting_is_preserved_witness :
    (∃ resp s1, plexi_post_stats_handler no_address true rssi_id7_events three_links_state =
        some (resp, s1) ∧
      wf_state s1 ∧ pool_counts s1 ∧ pool_accounted s1) ∧
    (∃ resp s1, plexi_delete_stats_handler no_address plain_address 0 "" [("metric", "etx")]
        three_links_state = some (resp, s1) ∧
      wf_state s1 ∧ pool_counts s1 ∧ pool_accounted s1) :=
  pool_accounting_is_preserved no_address plain_address 0 true rssi_id7_events ""
    [("metric", "etx")] three_links_state (by decide) (by decide) (by decide)

theorem metric_blank (r : plexi_stats) :
    plexi_get_statistics_metric (some (blank_flags_record r)) =
      plexi_get_statistics_metric (some r) := by
  simp only [plexi_get_statistics_metric, blank_flags_record]
  apply Nat.eq_of_testBit_eq
  intro j
  have h15 : (15 : Nat) = 2 ^ 4 - 1 := by norm_num
  rw [h15, testBit_field, testBit_field, Nat.testBit_and]
  by_cases hj : j < 4
  · have hbit : Nat.testBit 1022 (1 + j) = true := by
      interval_cases j <;> decide
    rw [hbit, Bool.and_true]
  · simp [hj]

theorem received_value_blank (pkt : packetbuf) (r : plexi_stats) :
    packet_received_value pkt (blank_flags_record r) = packet_received_value pkt r := by
  unfold packet_received_value
  rw [metric_blank]
  rfl

theorem sent_value_blank (pkt : packetbuf) (r : plexi_stats) :
    packet_sent_value pkt (blank_flags_record r) = packet_sent_value pkt r := by
  unfold packet_sent_value
  rw [metric_blank]
  rfl

theorem memb_store_blank (m : memb) (i v : Nat) :
    (memb_store m i (fun r => { r with value := v })).map
        (fun b => { b with obj := blank_flags_record b.obj }) =
      memb_store (m.map (fun b => { b with obj := blank_flags_record b.obj })) i
        (fun r => { r with value := v }) := by
  unfold memb_store
  rw [List.getElem?_map]
  cases h : m[i]? with
  | none => rfl
  | some b =>
    simp only [Option.map_some', List.map_set]
    rfl

/-- The loop over a chain commutes with clearing the enable flags and windows,
for a body that reads neither. -/
theorem update_chain_blank (body : plexi_stats → Option Nat)
    (hbody : ∀ r, body (blank_flags_record r) = body r) :
    ∀ (fuel : Nat) (m : memb) (ptr : Option Nat),
      (packet_update_chain body fuel m ptr).map
          (List.map (fun b => { b with obj := blank_flags_record b.obj })) =
        packet_update_chain body fuel
          (m.map (fun b => { b with obj := blank_flags_record b.obj })) ptr := by
  intro fuel
  induction fuel with
  | zero =>
    intro m ptr
    cases ptr with
    | none => simp [packet_update_chain]
    | some i => simp [packet_update_chain]
  | succ k ih =>
    intro m ptr
    cases ptr with
    | none => simp [packet_update_chain]
    | some i =>
      simp only [packet_update_chain, List.getElem?_map]
      cases h : m[i]? with
      | none => rfl
      | some b =>
        simp only [Option.map_some', hbody]
        cases hb : body b.obj with
        | none => rfl
        | some v =>
          simp only []
          rw [ih, memb_store_blank]
          rfl

theorem update_link_blank (body : plexi_stats → Option Nat)
    (hbody : ∀ r, body (blank_flags_record r) = body r) (pkt : packetbuf) (s : plexi_state) :
    (packet_update_link body pkt s).map blank_flags =
      packet_update_link body pkt (blank_flags s) := by
  unfold packet_update_link
  have hs : (blank_flags s).schedule = s.schedule := rfl
  rw [hs]
  cases h1 : tsch_schedule_get_slotframe_by_handle s.schedule
      ((pkt.tsch_slotframe % 65536 : Nat) : Int) with
  | none => rfl
  | some i =>
    simp only []
    cases h2 : s.schedule[i]? with
    | none => rfl
    | some slotframe =>
      simp only []
      cases h3 : tsch_schedule_get_link_by_timeslot slotframe
          ((pkt.tsch_timeslot % 65536 : Nat) : Int) with
      | none => rfl
      | some j =>
        simp only []
        cases h4 : slotframe.links_list[j]? with
        | none => rfl
        | some link =>
          simp only []
          have hin : memb_inmemb (blank_flags s).plexi_stats_mem link.data =
              memb_inmemb s.plexi_stats_mem link.data := by
            simp [memb_inmemb, blank_flags]
          have hlen : (blank_flags s).plexi_stats_mem.length = s.plexi_stats_mem.length := by
            simp [blank_flags]
          rw [hin, hlen]
          by_cases hm : memb_inmemb s.plexi_stats_mem link.data = true
          · rw [if_pos hm, if_pos hm]
            have hc := update_chain_blank body hbody s.plexi_stats_mem.length
              s.plexi_stats_mem link.data
            have hb : (blank_flags s).plexi_stats_mem =
                s.plexi_stats_mem.map (fun b => { b with obj := blank_flags_record b.obj }) :=
              rfl
            rw [hb, ← hc]
            cases packet_update_chain body s.plexi_stats_mem.length s.plexi_stats_mem
                link.data with
            | none => rfl
            | some m1 => rfl
          · rw [if_neg hm, if_neg hm]
            rfl

theorem received_blank (pkt : packetbuf) (s : plexi_state) :
    (plexi_packet_received pkt s).map blank_flags = plexi_packet_received pkt (blank_flags s) :=
  update_link_blank _ (received_value_blank pkt) pkt s

theorem sent_blank (tx_ok : Bool) (pkt : packetbuf) (s : plexi_state) :
    (plexi_packet_sent tx_ok pkt s).map blank_flags =
      plexi_packet_sent tx_ok pkt (blank_flags s) := by
  unfold plexi_packet_sent
  by_cases h : tx_ok = true ∧ pkt.mac_ack ≠ 0
  · rw [if_pos h, if_pos h]
    exact update_link_blank _ (sent_value_blank pkt) pkt s
  · rw [if_neg h, if_neg h]
    rfl

theorem pool_values_blank (s : plexi_state) : pool_values (blank_flags s) = pool_values s := by
  simp [pool_values, blank_flags, blank_flags_record, Function.comp_def]

theorem values_of_blank_eq (x y : Option plexi_state)
    (h : x.map blank_flags = y.map blank_flags) : x.map pool_values = y.map pool_values := by
  have hx : x.map pool_values = (x.map blank_flags).map pool_values := by
    cases x with
    | none => rfl
    | some a => simp [pool_values_blank]
  have hy : y.map pool_values = (y.map blank_flags).map pool_values := by
    cases y with
    | none => rfl
    | some a => simp [pool_values_blank]
  rw [hx, hy, h]

/-- C30: two states that differ only in the enable flags and windows of records
(they are the same once these bits are cleared in every record), and any
packet: `plexi_packet_received` has a defined result on both or on neither, and
so has `plexi_packet_sent`; the states after the callback again differ only in
the enable flags and windows, and the value words of all records are the same
in both runs. -/
theorem packet_updates_ignore_enable_and_window (tx_ok : Bool) (pkt : packetbuf)
    (s1 s2 : plexi_state) (h : blank_flags s1 = blank_flags s2) :
    (plexi_packet_received pkt s1).map blank_flags =
        (plexi_packet_received pkt s2).map blank_flags ∧
      (plexi_packet_received pkt s1).map pool_values =
        (plexi_packet_received pkt s2).map pool_values ∧
      (plexi_packet_sent tx_ok pkt s1).map blank_flags =
        (plexi_packet_sent tx_ok pkt s2).map blank_flags ∧
      (plexi_packet_sent tx_ok pkt s1).map pool_values =
        (plexi_packet_sent tx_ok pkt s2).map pool_values := by
  have hr : (plexi_packet_received pkt s1).map blank_flags =
      (plexi_packet_received pkt s2).map blank_flags := by
    rw [received_blank, received_blank, h]
  have hs : (plexi_packet_sent tx_ok pkt s1).map blank_flags =
      (plexi_packet_sent tx_ok pkt s2).map blank_flags := by
    rw [sent_blank, sent_blank, h]
  exact ⟨hr, values_of_blank_eq _ _ hr, hs, values_of_blank_eq _ _ hs⟩

/-- Witness of C30: the same two records, enabled with window 0 in one state and
disabled with window 5 in the other, and a packet with an RSSI of -80 after two
transmissions. -/
theorem packet_updates_ignore_enable_and_window_witness :
    (plexi_packet_received example_packet (sampled_state 0 0)).map blank_flags =
        (plexi_packet_received example_packet (sampled_state 1 5)).map blank_flags ∧
      (plexi_packet_received example_packet (sampled_state 0 0)).map pool_values =
        (plexi_packet_received example_packet (sampled_state 1 5)).map pool_values ∧
      (plexi_packet_sent true example_packet (sampled_state 0 0)).map blank_flags =
        (plexi_packet_sent true example_packet (sampled_state 1 5)).map blank_flags ∧
      (plexi_packet_sent true example_packet (sampled_state 0 0)).map pool_values =
        (plexi_packet_sent true example_packet (sampled_state 1 5)).map pool_values :=
  packet_updates_ignore_enable_and_window true example_packet (sampled_state 0 0)
    (sampled_state 1 5) (by decide)

theorem packet_example_values :
    (plexi_packet_received example_packet (sampled_state 1 5)).map pool_values =
        some [65447, 256] ∧
      (plexi_packet_sent true example_packet (sampled_state 1 5)).map pool_values =
        some [65446, 281] := by
  decide

/-- C21 (the code departs from the claim): the schedule with the slotframes 1
and 3 and the DELETE request with the query `frame=3`. The handler never
assigns its local `query`, so the branch of a deletion by id is not taken and
the loop of the request without a query runs: both slotframes are removed, no
slotframe is left in the schedule, and the reply is the array of the two. -/
theorem slotframe_delete_by_id_removes_every_slotframe :
    plexi_delete_slotframe_handler "" [("frame", "3")] two_slotframes =
      some (⟨some coap_status.DELETED_2_02,
        "[\x7b\"frame\":1, \"slots\":13\x7d,\x7b\"frame\":3, \"slots\":101\x7d]"⟩, []) := by
  decide

/-- C22 (the code departs from the claim): the schedule with the slotframes 1
and 3. The read without a query and without a subresource returns the array of
the two objects, and the read of the subresource `slots` the array of the
sizes. The read with the query `frame=3`, with or without subresource, has no
defined result: the handler never assigns its local `query` and compares the
label with the text behind that null pointer for the first slotframe. -/
theorem slotframe_read_by_id_reads_null_query :
    plexi_get_slotframe_handler "" [] two_slotframes =
        some ⟨none, "[\x7b\"frame\":1,\"slots\":13\x7d,\x7b\"frame\":3,\"slots\":101\x7d]"⟩ ∧
      plexi_get_slotframe_handler "/slots" [] two_slotframes = some ⟨none, "[13,101]"⟩ ∧
      plexi_get_slotframe_handler "" [("frame", "3")] two_slotframes = none ∧
      plexi_get_slotframe_handler "/slots" [("frame", "3")] two_slotframes = none := by
  decide

/-- C23 (the code departs from the claim): the neighbor 5 and two links without
statistics, so that the neighbor has no sample of any metric. The read of the
subresource `pdr` with the query `tna=5` answers with an empty body and no
error status: the brackets are printed only when no address is given, and
nothing is printed for the neighbor. Without the query the same read gives the
empty array. -/
theorem neighbor_projection_without_samples_is_empty_text :
    plexi_get_neighbors_handler address_five plain_address "/pdr" [("tna", "5")] [5]
        two_links_state = some ⟨none, ""⟩ ∧
      plexi_get_neighbors_handler address_five plain_address "/pdr" [] [5] two_links_state =
        some ⟨none, "[]"⟩ := by
  decide

/-- C7 (counterexample): the first link has no statistics, the second holds an
RSSI record with id 3, one block of the pool is free, and the request asks for
RSSI with id 7 on all links. The request is rejected at the second link with
"Statistics ID represents a different metric", and the pool is not as it was:
the record created on the first link stays, 2 blocks are in use instead of 1. -/
theorem upsert_mismatch_keeps_earlier_creation :
    (plexi_post_stats_handler no_address true rssi_id7_events mismatch_state).map
        (fun x => (x.1, memb_used x.2.plexi_stats_mem, (records_at x.2 (0, 0)).length)) =
      some (⟨some coap_status.BAD_REQUEST_4_00,
        "Statistics ID represents a different metric"⟩, 2, 1) ∧
      memb_used mismatch_state.plexi_stats_mem = 1 ∧
      (records_at mismatch_state (0, 0)).length = 0 := by
  decide

/-- C5 (counterexample): the first of three links holds an enabled RSSI record
with id 7, window 5 and value 100, one block of the pool is free, and the
request asks for RSSI with id 7 on all links. The record of the first link is
the one the request looks for and is rewritten (disabled, window 0, value
65535), a record is created on the second link, and the request fails on the
third with the out-of-memory error: the record that existed has not kept its
enable flag, window and value. -/
theorem upsert_failure_keeps_earlier_update :
    (plexi_post_stats_handler no_address true rssi_id7_events window_record_state).map
        (fun x => (x.1, (records_at x.2 (0, 0)).map (fun r =>
          (plexi_get_statistics_enable (some r), plexi_get_statistics_window (some r),
            r.value)))) =
      some (⟨some coap_status.INTERNAL_SERVER_ERROR_5_00,
        "Not enough memory (too many statistics)"⟩, [(1, 0, 65535)]) ∧
      (records_at window_record_state (0, 0)).map (fun r =>
        (plexi_get_statistics_enable (some r), plexi_get_statistics_window (some r),
          r.value)) = [(0, 5, 100)] := by
  decide

theorem window_after_set_enable (r : plexi_stats) (v : Nat) (hv : v < 2)
    (h : r.metainfo < 65536) :
    plexi_get_statistics_window (some (applied plexi_set_statistics_enable r v)) =
      plexi_get_statistics_window (some r) := by
  rw [applied_set_enable r v hv]
  simp only [plexi_get_statistics_window, Nat.shiftLeft_zero]
  exact (set_enable_word r.metainfo v h hv).2.2.2

theorem window_after_set_metric (r : plexi_stats) (v : Nat) (hv : v < 16)
    (h : r.metainfo < 65536) :
    plexi_get_statistics_window (some (applied plexi_set_statistics_metric r v)) =
      plexi_get_statistics_window (some r) := by
  rw [applied_set_metric r v hv]
  simp only [plexi_get_statistics_window]
  exact (set_metric_word r.metainfo v h hv).2.2.2

theorem window_after_set_id (r : plexi_stats) (v : Nat) (h : r.metainfo < 65536) :
    plexi_get_statistics_window (some (applied plexi_set_statistics_id r v)) =
      plexi_get_statistics_window (some r) := by
  by_cases hv : v < 32
  · rw [applied_set_id r v hv]
    simp only [plexi_get_statistics_window]
    exact (set_id_word r.metainfo v h hv).2.2.2
  · have : applied plexi_set_statistics_id r v = r := by
      simp [applied, plexi_set_statistics_id, hv]
    rw [this]

/-- The parsing loop of an Upsert over the fields of one JSON object (no brace
among them): either a field ends the request with an error and the state it
started with, or the loop reaches the rest of the payload with a local record
of 16-bit words whose window is the one it started with: no field writes the
window. -/
theorem post_parse_fields (eui64 : String → Option linkaddr_t) (js_ok : Bool)
    (s : plexi_state) (tail : List json_event) :
    ∀ (fields : List json_event) (req : post_request),
      (∀ e ∈ fields, e ≠ json_event.object_start ∧ e ≠ json_event.object_end) →
      request_words req →
      (∃ err, post_stats_parse eui64 js_ok s (fields ++ tail) req = some (err, s)) ∨
      ∃ req1 : post_request,
        post_stats_parse eui64 js_ok s (fields ++ tail) req =
          post_stats_parse eui64 js_ok s tail req1 ∧
        request_words req1 ∧
        plexi_get_statistics_window (some req1.stats) =
          plexi_get_statistics_window (some req.stats) := by
  intro fields
  induction fields with
  | nil =>
    intro req _ hw
    exact Or.inr ⟨req, rfl, hw, rfl⟩
  | cons ev evs ih =>
    intro req hf hw
    have hev := hf ev (List.mem_cons_self _ _)
    have hrest : ∀ e ∈ evs, e ≠ json_event.object_start ∧ e ≠ json_event.object_end :=
      fun e he => hf e (List.mem_cons_of_mem _ he)
    have step : ∀ req2 : post_request, request_words req2 →
        plexi_get_statistics_window (some req2.stats) =
          plexi_get_statistics_window (some req.stats) →
        (∃ err, post_stats_parse eui64 js_ok s (evs ++ tail) req2 = some (err, s)) ∨
        ∃ req1 : post_request,
          post_stats_parse eui64 js_ok s (evs ++ tail) req2 =
            post_stats_parse eui64 js_ok s tail req1 ∧
          request_words req1 ∧
          plexi_get_statistics_window (some req1.stats) =
            plexi_get_statistics_window (some req.stats) := by
      intro req2 hw2 hwin
      rcases ih req2 hrest hw2 with h | ⟨req1, e1, e2, e3⟩
      · exact Or.inl h
      · exact Or.inr ⟨req1, e1, e2, e3.trans hwin⟩
    rw [List.cons_append]
    cases ev with
    | object_start => exact absurd rfl hev.1
    | object_end => exact absurd rfl hev.2
    | other =>
      simp only [post_stats_parse]
      exact step req hw rfl
    | number field value =>
      simp only [post_stats_parse]
      by_cases h1 : field = "frame"
      · simp only [if_pos h1]
        exact step _ hw rfl
      simp only [if_neg h1]
      by_cases h2 : field = "slot"
      · simp only [if_pos h2]
        exact step _ hw rfl
      simp only [if_neg h2]
      by_cases h3 : field = "channel"
      · simp only [if_pos h3]
        exact step _ hw rfl
      simp only [if_neg h3]
      by_cases h4 : field = "value"
      · simp only [if_pos h4]
        exact step _ ⟨hw.1, of_int_lt value⟩ rfl
      simp only [if_neg h4]
      by_cases h5 : field = "id"
      · simp only [if_pos h5]
        have h := applied_set_id_words req.stats (of_int value) hw.1
        by_cases h6 : plexi_get_statistics_id
            (some (applied plexi_set_statistics_id req.stats (of_int value))) < 1
        · simp only [if_pos h6]
          exact Or.inl ⟨_, rfl⟩
        · simp only [if_neg h6]
          exact step _ (words_of_stats _ _ hw h.1 h.2)
            (window_after_set_id req.stats (of_int value) hw.1)
      simp only [if_neg h5]
      by_cases h7 : field = "enable"
      · simp only [if_pos h7]
        by_cases h8 : of_int value = 1
        · simp only [if_pos h8]
          have h := applied_set_enable_words req.stats ENABLE hw.1
          exact step _ (words_of_stats req _ hw h.1 h.2)
            (window_after_set_enable req.stats ENABLE (by decide) hw.1)
        · simp only [if_neg h8]
          have h := applied_set_enable_words req.stats DISABLE hw.1
          exact step _ (words_of_stats req _ hw h.1 h.2)
            (window_after_set_enable req.stats DISABLE (by decide) hw.1)
      simp only [if_neg h7]
      exact step _ hw rfl
    | string field value =>
      simp only [post_stats_parse]
      by_cases h1 : field = "tna"
      · simp only [if_pos h1]
        cases he : eui64 value with
        | none => exact Or.inl ⟨_, rfl⟩
        | some a => exact step _ hw rfl
      simp only [if_neg h1]
      by_cases h2 : field = "enable"
      · simp only [if_pos h2]
        by_cases h3 : value = "y" ∨ value = "yes" ∨ value = "true"
        · simp only [if_pos h3]
          have h := applied_set_enable_words req.stats ENABLE hw.1
          exact step _ (words_of_stats req _ hw h.1 h.2)
            (window_after_set_enable req.stats ENABLE (by decide) hw.1)
        · simp only [if_neg h3]
          by_cases h4 : value = "n" ∨ value = "no" ∨ value = "false"
          · simp only [if_pos h4]
            have h := applied_set_enable_words req.stats DISABLE hw.1
            exact step _ (words_of_stats req _ hw h.1 h.2)
              (window_after_set_enable req.stats DISABLE (by decide) hw.1)
          · simp only [if_neg h4]
            exact step _ hw rfl
      simp only [if_neg h2]
      by_cases h5 : field = "metric"
      · simp only [if_pos h5]
        by_cases v1 : value = "etx"
        · simp only [if_pos v1]
          have h := applied_set_metric_words req.stats ETX hw.1
          exact step _ (words_of_stats req _ hw h.1 h.2)
            (window_after_set_metric req.stats ETX (by decide) hw.1)
        simp only [if_neg v1]
        by_cases v2 : value = "rssi"
        · simp only [if_pos v2]
          have h := applied_set_metric_words req.stats RSSI hw.1
          exact step _ (words_of_stats req _ hw h.1 h.2)
            (window_after_set_metric req.stats RSSI (by decide) hw.1)
        simp only [if_neg v2]
        by_cases v3 : value = "lqi"
        · simp only [if_pos v3]
          have h := applied_set_metric_words req.stats LQI hw.1
          exact step _ (words_of_stats req _ hw h.1 h.2)
            (window_after_set_metric req.stats LQI (by decide) hw.1)
        simp only [if_neg v3]
        by_cases v4 : value = "asn"
        · simp only [if_pos v4]
          have h := applied_set_metric_words req.stats ASN hw.1
          exact step _ (words_of_stats req _ hw h.1 h.2)
            (window_after_set_metric req.stats ASN (by decide) hw.1)
        simp only [if_neg v4]
        by_cases v5 : value = "pdr"
        · simp only [if_pos v5]
          have h := applied_set_metric_words req.stats PDR hw.1
          exact step _ (words_of_stats req _ hw h.1 h.2)
            (window_after_set_metric req.stats PDR (by decide) hw.1)
        simp only [if_neg v5]
        exact Or.inl ⟨_, rfl⟩
      simp only [if_neg h5]
      exact step _ hw rfl

/-- The object `plexi_get_neighbors_handler` prints for a neighbor is made of
the address and of the fields of `neighbor_object_fields`, in their order. -/
theorem neighbor_object_print_eq (buf : String) (a : aggregate_stats_struct) :
    neighbor_object_print buf a =
      "\x7b\"tna\":\"" ++ buf ++ "\"" ++ neighbor_fields_text (neighbor_object_fields a) ++
        "\x7d" := by
  have e1 : ∀ v : Int, neighbor_field_text ("rssi", v) = ",\"rssi\":" ++ toString v := by
    intro v; rfl
  have e2 : ∀ v : Int, neighbor_field_text ("lqi", v) =
      ",\"lqi\":" ++ toString (to_unsigned v) := by
    intro v; rfl
  have e3 : ∀ v : Int, neighbor_field_text ("etx", v) = ",\"etx\":" ++ toString v := by
    intro v; rfl
  have e4 : ∀ v : Int, neighbor_field_text ("pdr", v) =
      ",\"pdr\":" ++ toString (to_unsigned v) := by
    intro v; rfl
  have e5 : ∀ n : Nat, neighbor_field_text ("asn", (n : Int)) =
      ",\"asn\":\"" ++ print_hex n ++ "\"" := by
    intro n
    show ",\"" ++ "asn" ++ "\":" ++ ("\"" ++ print_hex (n : Int).toNat ++ "\"") = _
    rw [Int.toNat_natCast]
    simp only [String.append_assoc]
    rfl
  unfold neighbor_object_print neighbor_object_fields
  by_cases h1 : a.rssi < -1 <;> by_cases h2 : a.lqi > -1 <;> by_cases h3 : a.etx > -1 <;>
    by_cases h4 : a.pdr > -1 <;> by_cases h5 : a.asn > to_unsigned (-1) <;>
    simp only [h1, h2, h3, h4, h5, if_true, if_false, List.nil_append, List.append_nil,
      List.cons_append, neighbor_fields_text, e1, e2, e3, e4, e5, String.append_assoc,
      String.append_empty, String.empty_append]

/-- The loop over the neighbor table at the base url prints the neighbor
summary. -/
theorem neighbors_loop_base (na : linkaddr_t → String) (s : plexi_state) (hwf : wf_state s) :
    ∀ (neighbors : List linkaddr_t) (content : String) (first_item found : Bool),
      (first_item = false → found = true) →
      get_neighbors_loop na "" s neighbors content first_item found =
        some (content ++ neighbor_objects_text na s first_item neighbors) := by
  intro neighbors
  induction neighbors with
  | nil =>
    intro content first_item found _
    simp only [get_neighbors_loop, neighbor_objects_text, String.append_empty]
  | cons lla rest ih =>
    intro content first_item found hff
    obtain ⟨a, ha, _⟩ := neighbor_aggregate_eq s lla hwf
    have hsub : uri_subresource_of "" = "" := by decide
    have n1 : ¬ (("" : String) = "tna") := by decide
    have n2 : ¬ (("" : String) = "rssi") := by decide
    have n3 : ¬ (("" : String) = "lqi") := by decide
    have n4 : ¬ (("" : String) = "etx") := by decide
    have n5 : ¬ (("" : String) = "pdr") := by decide
    have n6 : ¬ (("" : String) = "asn") := by decide
    have hfields : neighbor_summary_fields s lla = neighbor_object_fields a := by
      simp only [neighbor_summary_fields, ha]
    simp only [get_neighbors_loop, hsub, n1, n2, n3, n4, n5, n6, if_false, ha, and_false,
      if_true]
    rw [ih _ false true (fun _ => rfl), neighbor_object_print_eq]
    simp only [neighbor_objects_text, hfields]
    cases first_item with
    | true => simp only [if_true, String.append_assoc, String.empty_append]
    | false =>
      have hf : found = true := hff rfl
      simp only [hf, if_true, Bool.false_eq_true, if_false, String.append_assoc]

/-- The read of the neighbor list at the base url, without a query, answers with
the neighbor summary between brackets. -/
theorem neighbors_read_base (eui64 : String → Option linkaddr_t) (na : linkaddr_t → String)
    (neighbors : List linkaddr_t) (s : plexi_state) (hwf : wf_state s) :
    plexi_get_neighbors_handler eui64 na "" [] neighbors s =
      some ⟨none, "[" ++ neighbor_objects_text na s true neighbors ++ "]"⟩ := by
  have hsub : uri_subresource_of "" = "" := by decide
  have hq : get_query_variable [] "tna" = none := rfl
  simp only [plexi_get_neighbors_handler, hq, hsub]
  have hlen : ¬ (("" : String).length > 1) := by decide
  simp only [hlen, false_and, Option.isSome_none, Bool.false_eq_true, or_self, if_false,
    if_true, neighbors_loop_base na s hwf neighbors "[" true false (fun h => by simp at h)]

/-- C16 (amended): in a well-formed state the read of the neighbor list at the
base url answers with the neighbor summary: one object per neighbor of the
table, made of its address and of its statistics fields. For a metric with at
least one contributing sample the fields of the neighbor hold: for RSSI, when
the contributing samples are below -1, the sum of the samples divided by their
number; for LQI and PDR, when the contributing samples are not negative, the
sum divided by the number; for ETX, when the contributing samples are not
negative, the sum divided by 256 and then by the number (the divisions are
those of C, which truncate). -/
theorem neighbor_summary_reports_mean (eui64 : String → Option linkaddr_t)
    (na : linkaddr_t → String) (neighbors : List linkaddr_t) (s : plexi_state)
    (lla : linkaddr_t) (hwf : wf_state s) :
    plexi_get_neighbors_handler eui64 na "" [] neighbors s =
        some ⟨none, "[" ++ neighbor_objects_text na s true neighbors ++ "]"⟩ ∧
      (contributing_values s lla RSSI ≠ [] →
        (∀ v ∈ contributing_values s lla RSSI, v < -1) →
        (neighbor_summary_fields s lla).lookup "rssi" =
          some (Int.tdiv (contributing_values s lla RSSI).sum
            (contributing_values s lla RSSI).length)) ∧
      (contributing_values s lla LQI ≠ [] →
        (∀ v ∈ contributing_values s lla LQI, 0 ≤ v) →
        (neighbor_summary_fields s lla).lookup "lqi" =
          some (Int.tdiv (contributing_values s lla LQI).sum
            (contributing_values s lla LQI).length)) ∧
      (contributing_values s lla PDR ≠ [] →
        (∀ v ∈ contributing_values s lla PDR, 0 ≤ v) →
        (neighbor_summary_fields s lla).lookup "pdr" =
          some (Int.tdiv (contributing_values s lla PDR).sum
            (contributing_values s lla PDR).length)) ∧
      (contributing_values s lla ETX ≠ [] →
        (∀ v ∈ contributing_values s lla ETX, 0 ≤ v) →
        (neighbor_summary_fields s lla).lookup "etx" =
          some (Int.tdiv (Int.tdiv (contributing_values s lla ETX).sum 256)
            (contributing_values s lla ETX).length)) := by
  obtain ⟨a, ha, hall⟩ := neighbor_aggregate_eq s lla hwf
  have hfields : neighbor_summary_fields s lla = neighbor_object_fields a := by
    simp only [neighbor_summary_fields, ha]
  rw [hfields]
  refine ⟨neighbors_read_base eui64 na neighbors s hwf, ?_, ?_, ?_, ?_⟩
  · intro hne hv
    obtain ⟨h1, h2⟩ := hall RSSI (Or.inl rfl)
    obtain ⟨g1, g2⟩ := sum_from_mark_start_neg _ hne hv
    rw [aggregate_sum_rssi, g1] at h1
    rw [aggregate_counter_rssi] at h2
    rw [fields_lookup_rssi a (by rw [h1]; exact g2), h1, h2]
  · intro hne hv
    obtain ⟨h1, h2⟩ := hall LQI (Or.inr (Or.inl rfl))
    obtain ⟨g1, g2⟩ := sum_from_mark_start_nonneg _ hne hv
    rw [aggregate_sum_lqi, g1] at h1
    rw [aggregate_counter_lqi] at h2
    rw [fields_lookup_lqi a (by rw [h1]; exact g2), h1, h2]
  · intro hne hv
    obtain ⟨h1, h2⟩ := hall PDR (Or.inr (Or.inr (Or.inr rfl)))
    obtain ⟨g1, g2⟩ := sum_from_mark_start_nonneg _ hne hv
    rw [aggregate_sum_pdr, g1] at h1
    rw [aggregate_counter_pdr] at h2
    rw [fields_lookup_pdr a (by rw [h1]; exact g2), h1, h2]
  · intro hne hv
    obtain ⟨h1, h2⟩ := hall ETX (Or.inr (Or.inr (Or.inl rfl)))
    obtain ⟨g1, g2⟩ := sum_from_mark_start_nonneg _ hne hv
    rw [aggregate_sum_etx, g1] at h1
    rw [aggregate_counter_etx] at h2
    rw [fields_lookup_etx a (by rw [h1]; exact g2), h1, h2]

/-- Witness of C16 (amended): two links toward the neighbor 9 with the LQI
samples 100 and 105, whose sum 205 is reported as 102, and two links toward the
neighbor 9 with the ETX samples 600 and 700, whose sum 1300 is reported as 2. -/
theorem neighbor_summary_reports_mean_witness :
    plexi_get_neighbors_handler no_address plain_address "" [] [9] two_samples_state =
        some ⟨none, "[" ++ neighbor_objects_text plain_address two_samples_state true [9] ++
          "]"⟩ ∧
      contributing_values two_samples_state 9 LQI = [100, 105] ∧
      (neighbor_summary_fields two_samples_state 9).lookup "lqi" =
        some (Int.tdiv (contributing_values two_samples_state 9 LQI).sum
          (contributing_values two_samples_state 9 LQI).length) ∧
      plexi_get_neighbors_handler no_address plain_address "" [] [9] two_samples_state =
        some ⟨none, "[\x7b\"tna\":\"9\",\"lqi\":102\x7d]"⟩ ∧
      contributing_values two_etx_samples_state 9 ETX = [600, 700] ∧
      (neighbor_summary_fields two_etx_samples_state 9).lookup "etx" =
        some (Int.tdiv (Int.tdiv (contributing_values two_etx_samples_state 9 ETX).sum 256)
          (contributing_values two_etx_samples_state 9 ETX).length) ∧
      plexi_get_neighbors_handler no_address plain_address "" [] [9] two_etx_samples_state =
        some ⟨none, "[\x7b\"tna\":\"9\",\"etx\":2\x7d]"⟩ :=
  have h := neighbor_summary_reports_mean no_address plain_address [9] two_samples_state 9
    (by decide)
  have k := neighbor_summary_reports_mean no_address plain_address [9] two_etx_samples_state 9
    (by decide)
  ⟨h.1, by decide, h.2.2.1 (by decide) (by decide), by decide, by decide,
    k.2.2.2.2 (by decide) (by decide), by decide⟩

/-- C16 (counterexample): the link of the running example, toward the neighbor 9,
with one ETX record holding 281. The only contributing ETX sample is 281, so
sum/count is 281; the object the handler prints for the neighbor holds the ETX
value 1. -/
theorem neighbor_summary_etx_is_not_sum_over_count :
    contributing_values (etx_record_state 281) 9 ETX = [281] ∧
      plexi_get_neighbors_handler no_address plain_address "" [] [9] (etx_record_state 281) =
        some ⟨none, "[\x7b\"tna\":\"9\",\"etx\":1\x7d]"⟩ ∧
      (neighbor_aggregate (etx_record_state 281) 9).map
        (fun a => (neighbor_object_fields a).lookup "etx") = some (some 1) ∧
      Int.tdiv ([281] : List Int).sum ([281] : List Int).length ≠ 1 := by
  decide

/-- The Upsert handler on a payload that is one JSON object: either a field ends
the request with an error and the state untouched, or the handler is the walk
of `post_stats_end_element` for the locals the fields have filled, whose
statistics words are well formed and whose window is 0. -/
theorem post_handler_parse (eui64 : String → Option linkaddr_t) (js_ok : Bool)
    (fields rest : List json_event) (s : plexi_state)
    (hbr : ∀ e ∈ fields, e ≠ json_event.object_start ∧ e ≠ json_event.object_end) :
    (∃ err, plexi_post_stats_handler eui64 js_ok
        (json_event.object_start :: (fields ++ json_event.object_end :: rest)) s =
          some (err, s)) ∨
    ∃ req : post_request, request_words req ∧
      plexi_get_statistics_window (some req.stats) = 0 ∧
      plexi_post_stats_handler eui64 js_ok
          (json_event.object_start :: (fields ++ json_event.object_end :: rest)) s =
        post_stats_end_element req s := by
  have hinit : request_words
      { post_request_init with
        stats := applied plexi_set_statistics_id
          { applied plexi_set_statistics_metric
              (applied plexi_set_statistics_enable
                (applied plexi_set_statistics_window post_request_init.stats 0) DISABLE)
              NONE with value := of_int (-1) } (of_int (-1))
        channel := -1, slot := -1, slotframe := -1 } := by
    refine ⟨?_, ?_⟩ <;> decide
  have hh : ∀ x, plexi_post_stats_handler eui64 js_ok
      (json_event.object_start :: (fields ++ json_event.object_end :: rest)) s = x ↔
      post_stats_parse eui64 js_ok s (fields ++ json_event.object_end :: rest)
        { post_request_init with
          stats := applied plexi_set_statistics_id
            { applied plexi_set_statistics_metric
                (applied plexi_set_statistics_enable
                  (applied plexi_set_statistics_window post_request_init.stats 0) DISABLE)
                NONE with value := of_int (-1) } (of_int (-1))
          channel := -1, slot := -1, slotframe := -1 } = x := by
    intro x
    simp only [plexi_post_stats_handler, post_stats_parse]
  rcases post_parse_fields eui64 js_ok s (json_event.object_end :: rest) fields _ hbr hinit
    with ⟨err, herr⟩ | ⟨req, h1, hreq, hwin⟩
  · exact Or.inl ⟨err, (hh _).mpr herr⟩
  · refine Or.inr ⟨req, hreq, ?_, ?_⟩
    · rw [hwin]
      decide
    · rw [(hh _).mpr h1]
      simp only [post_stats_parse]

theorem flatMap_sublist {α β : Type} (G H : α → List β) (hGH : ∀ a, List.Sublist (G a) (H a)) :
    ∀ {l1 l2 : List α}, List.Sublist l1 l2 → List.Sublist (l1.flatMap G) (l2.flatMap H) := by
  intro l1 l2 h
  induction h with
  | slnil => simp
  | cons a _ ih =>
    rw [List.flatMap_cons]
    exact ih.trans (List.sublist_append_right _ _)
  | cons₂ a _ ih =>
    rw [List.flatMap_cons, List.flatMap_cons]
    exact List.Sublist.append (hGH a) ih

theorem stats_walk_frames_sublist (schedule : List tsch_slotframe) (flags : Nat) (frame : Int) :
    List.Sublist (stats_walk_frames schedule flags frame) (List.range schedule.length) := by
  unfold stats_walk_frames
  split
  · cases hf : tsch_schedule_get_slotframe_by_handle schedule frame with
    | none => simp
    | some i =>
      simp only [List.singleton_sublist, List.mem_range]
      exact first_index_lt _ _ _ hf
  · exact List.Sublist.refl _

theorem stats_walk_links_sublist (sf : tsch_slotframe) (flags : Nat) (slot : Int) :
    List.Sublist (stats_walk_links sf flags slot) (List.range sf.links_list.length) := by
  unfold stats_walk_links
  split
  · cases hf : tsch_schedule_get_link_by_timeslot sf slot with
    | none => simp
    | some j =>
      simp only [List.singleton_sublist, List.mem_range]
      exact first_index_lt _ _ _ hf
  · exact List.Sublist.refl _

/-- The walk visits the links in the order of the scan of all links. -/
theorem stats_walk_sublist (schedule : List tsch_slotframe) (flags : Nat) (frame slot : Int) :
    List.Sublist (stats_walk schedule flags frame slot) (all_positions schedule) := by
  unfold stats_walk all_positions
  apply flatMap_sublist _ _ _ (stats_walk_frames_sublist schedule flags frame)
  intro i
  cases schedule[i]? with
  | none => exact List.Sublist.refl _
  | some sf => exact (stats_walk_links_sublist sf flags slot).map _

theorem sublist_eq_filter {α : Type} (P : α → Bool) (w l : List α) (hl : l.Nodup)
    (hsub : List.Sublist w l) (hmem : ∀ x, x ∈ w ↔ x ∈ l ∧ P x = true) :
    w = l.filter P := by
  have hw : w.filter P = w := List.filter_eq_self.mpr (fun x hx => ((hmem x).mp hx).2)
  have h1 : List.Sublist w (l.filter P) := by
    have := hsub.filter P
    rwa [hw] at this
  apply h1.eq_of_length_le
  have hnd : (l.filter P).Nodup := hl.filter _
  have hss : l.filter P ⊆ w := by
    intro x hx
    exact (hmem x).mpr (List.mem_filter.mp hx)
  exact (hnd.subperm hss).length_le

theorem mem_stats_visited (schedule : List tsch_slotframe) (flags : Nat)
    (frame slot channel : Int) (tna : linkaddr_t)
    (hframes : (schedule.map (fun sf => sf.handle)).Nodup)
    (hslots : ∀ sf ∈ schedule, (sf.links_list.map (fun l => l.timeslot)).Nodup)
    (p : Nat × Nat) :
    p ∈ stats_visited schedule flags frame slot channel tna ↔
      p ∈ naive_filter_scan schedule flags frame slot channel tna := by
  rw [mem_naive_filter_scan]
  unfold stats_visited
  rw [List.mem_filter, mem_stats_walk schedule flags frame slot hframes hslots]
  constructor
  · rintro ⟨⟨sf, l, hsf, hl, h1, h2⟩, h⟩
    have hl2 : link_at schedule p = some l := by simp [link_at, hsf, hl]
    simp only [hl2, stats_link_filter, decide_eq_true_eq] at h
    exact ⟨sf, l, hsf, hl, h1, h2, h.1, h.2⟩
  · rintro ⟨sf, l, hsf, hl, h1, h2, h3, h4⟩
    have hl2 : link_at schedule p = some l := by simp [link_at, hsf, hl]
    refine ⟨⟨sf, l, hsf, hl, h1, h2⟩, ?_⟩
    simp only [hl2, stats_link_filter, decide_eq_true_eq]
    exact ⟨h3, h4⟩

/-- The links the handlers work on are those the naive scan keeps, in the same
order. -/
theorem stats_visited_eq_scan (schedule : List tsch_slotframe) (flags : Nat)
    (frame slot channel : Int) (tna : linkaddr_t)
    (hframes : (schedule.map (fun sf => sf.handle)).Nodup)
    (hslots : ∀ sf ∈ schedule, (sf.links_list.map (fun l => l.timeslot)).Nodup) :
    stats_visited schedule flags frame slot channel tna =
      naive_filter_scan schedule flags frame slot channel tna := by
  unfold naive_filter_scan
  apply sublist_eq_filter _ _ _ (all_positions_nodup schedule)
  · exact (List.filter_sublist _).trans (stats_walk_sublist schedule flags frame slot)
  · intro p
    have h := mem_stats_visited schedule flags frame slot channel tna hframes hslots p
    unfold naive_filter_scan at h
    rw [h, List.mem_filter]

theorem get_stats_entries_append (na : linkaddr_t → String) (q : stats_query)
    (sub : String) :
    ∀ (A B : List (tsch_link × plexi_stats)) (first_item : Bool),
      get_stats_entries na q sub first_item (A ++ B) =
        get_stats_entries na q sub first_item A ++
          get_stats_entries na q sub (first_item && A.isEmpty) B := by
  intro A
  induction A with
  | nil =>
    intro B first_item
    simp [get_stats_entries]
  | cons a A ih =>
    intro B first_item
    have h1 : get_stats_entries na q sub first_item (a :: A ++ B) =
        get_stats_print na q sub a.1 first_item a.2 ++
          get_stats_entries na q sub false (A ++ B) := rfl
    have h2 : get_stats_entries na q sub first_item (a :: A) =
        get_stats_print na q sub a.1 first_item a.2 ++
          get_stats_entries na q sub false A := rfl
    rw [h1, h2, ih B false, String.append_assoc]
    simp only [List.isEmpty_cons, Bool.and_false, Bool.false_and]

/-- The loop over the records of one chain prints the records that pass the
filters. -/
theorem get_stats_fold (na : linkaddr_t → String) (q : stats_query) (sub : String)
    (link : tsch_link) :
    ∀ (rs : List plexi_stats) (acc : String × Bool),
      rs.foldl (fun (acc : String × Bool) r =>
        if stats_record_filter q r then
          (acc.1 ++ get_stats_print na q sub link acc.2 r, false)
        else acc) acc =
        (acc.1 ++ get_stats_entries na q sub acc.2
            ((rs.filter (stats_record_filter q)).map (fun r => (link, r))),
          acc.2 && (rs.filter (stats_record_filter q)).isEmpty) := by
  intro rs
  induction rs with
  | nil =>
    intro acc
    simp [get_stats_entries]
  | cons r rs ih =>
    intro acc
    rw [List.foldl_cons, ih]
    by_cases hr : stats_record_filter q r = true
    · simp only [hr, if_true, List.filter_cons_of_pos, List.map_cons, get_stats_entries,
        String.append_assoc, List.isEmpty_cons, Bool.and_false, Bool.false_and]
    · simp only [hr, if_false, Bool.false_eq_true]
      rw [filter_cons_neg _ _ _ hr]

/-- The records a read prints on the links of a list: on every link that passes
the channel and address test, the records that pass the record filters. -/
theorem get_stats_loop_eq (na : linkaddr_t → String) (q : stats_query) (sub : String)
    (s : plexi_state) (hwf : wf_state s) :
    ∀ (ps : List (Nat × Nat)) (content : String) (first_item : Bool),
      get_stats_loop na q sub s ps content first_item =
        some (content ++ get_stats_entries na q sub first_item
            ((ps.filter (delete_selected q s)).flatMap (fun p =>
              match link_at s.schedule p with
              | some l =>
                ((records_at s p).filter (stats_record_filter q)).map (fun r => (l, r))
              | none => [])),
          first_item && ((ps.filter (delete_selected q s)).flatMap (fun p =>
              match link_at s.schedule p with
              | some l =>
                ((records_at s p).filter (stats_record_filter q)).map (fun r => (l, r))
              | none => [])).isEmpty) := by
  intro ps
  induction ps with
  | nil =>
    intro content first_item
    simp [get_stats_loop, get_stats_entries]
  | cons p ps ih =>
    intro content first_item
    cases hl : link_at s.schedule p with
    | none =>
      have hsel : delete_selected q s p = false := by simp [delete_selected, hl]
      simp only [get_stats_loop, hl, ih]
      rw [filter_cons_neg _ _ _ (by rw [hsel]; simp)]
    | some l =>
      obtain ⟨hc, _, _, _⟩ := wf_link s p l hwf hl
      by_cases hsel : stats_link_filter q.flags q.channel q.tna l = true
      · have hsel2 : delete_selected q s p = true := by simp [delete_selected, hl, hsel]
        have hrec : records_at s p = (chain_at s p).map (record_view s.plexi_stats_mem) := by
          rw [records_at_eq]; rfl
        have hfold : (chain_at s p).foldl (fun (acc : String × Bool) i =>
              if stats_record_filter q (record_view s.plexi_stats_mem i) then
                (acc.1 ++ get_stats_print na q sub l acc.2
                  (record_view s.plexi_stats_mem i), false)
              else acc) (content, first_item) =
            ((chain_at s p).map (record_view s.plexi_stats_mem)).foldl
              (fun (acc : String × Bool) r =>
                if stats_record_filter q r then
                  (acc.1 ++ get_stats_print na q sub l acc.2 r, false)
                else acc) (content, first_item) := by
          rw [List.foldl_map]
        simp only [get_stats_loop, hl, get_stats_link, hsel, if_true, hc, hfold]
        rw [get_stats_fold, ih, filter_cons_pos _ _ _ hsel2, List.flatMap_cons, hl, ← hrec,
          get_stats_entries_append]
        simp only [String.append_assoc, isEmpty_append_eq, isEmpty_map_eq, Bool.and_assoc]
      · have hsel2 : delete_selected q s p = false := by simp [delete_selected, hl, hsel]
        simp only [get_stats_loop, hl, get_stats_link, hsel, if_false, Bool.false_eq_true, ih]
        rw [filter_cons_neg _ _ _ (by rw [hsel2]; simp)]

theorem walk_filter_eq_visited (q : stats_query) (s : plexi_state) :
    (stats_walk s.schedule q.flags q.frame q.slot).filter (delete_selected q s) =
      stats_visited s.schedule q.flags q.frame q.slot q.channel q.tna := by
  unfold stats_visited
  congr 1

/-- The read handler prints the records of the links the naive scan keeps. -/
theorem get_stats_handler_eq (eui64 : String → Option linkaddr_t) (na : linkaddr_t → String)
    (tna0 : linkaddr_t) (sub : String) (query : List (String × String)) (q : stats_query)
    (s : plexi_state) (hwf : wf_state s)
    (hframes : (s.schedule.map (fun sf => sf.handle)).Nodup)
    (hslots : ∀ sf ∈ s.schedule, (sf.links_list.map (fun l => l.timeslot)).Nodup)
    (hq : stats_query_parse eui64 tna0 query = Sum.inr q)
    (hsub : ¬ (sub ≠ "" ∧ sub ≠ "frame" ∧ sub ≠ "slot" ∧ sub ≠ "channel" ∧ sub ≠ "window" ∧
      sub ≠ "metric" ∧ sub ≠ "value" ∧ sub ≠ "tna" ∧ sub ≠ "enable" ∧ sub ≠ "id"))
    (hfr : stats_walk_frames s.schedule q.flags q.frame ≠ []) :
    plexi_get_stats_handler eui64 na tna0 sub query s =
      some (naive_get_stats_reply na q sub s) := by
  simp only [plexi_get_stats_handler, hq, if_neg hsub, if_neg hfr,
    get_stats_loop_eq na q sub s hwf, walk_filter_eq_visited,
    stats_visited_eq_scan s.schedule q.flags q.frame q.slot q.channel q.tna hframes hslots]
  unfold naive_get_stats_reply naive_scan_records
  simp only [Bool.true_and, String.empty_append]
  split <;> rfl

/-- The body of the walk of an Upsert on one link, by what it does: a link that
does not pass the channel and address test is left alone; on a link that
passes it the record looked for is updated or created, or the body ends the
request with a bad-request or an out-of-memory error and changes nothing. -/
theorem post_link_effect (req : post_request) (s : plexi_state) (p : Nat × Nat)
    (hwf : wf_state s) (hreq : request_words req) :
    ∃ r s1 t, post_stats_link req s p = some (r, s1, t) ∧ wf_state s1 ∧
      skeleton s1.schedule = skeleton s.schedule ∧
      (∀ q, q ≠ p → records_at s1 q = records_at s q) ∧
      (selected_at req s p = false → r = none ∧ s1 = s ∧ t = false) ∧
      (selected_at req s p = true →
        (r = none → t = true ∧ records_at s1 p = records_after req (records_at s p)) ∧
        (∀ e, r = some e → s1 = s ∧
          (e.status = some coap_status.BAD_REQUEST_4_00 ∨
            e.status = some coap_status.INTERNAL_SERVER_ERROR_5_00))) := by
  cases hl : link_at s.schedule p with
  | none =>
    have hsk := post_link_skip req s p (fun l h => by rw [hl] at h; simp at h)
    have hsel : selected_at req s p = false := by simp [selected_at, hl]
    exact ⟨none, s, false, hsk, hwf, rfl, fun _ _ => rfl, fun _ => ⟨rfl, rfl, rfl⟩,
      fun h => by rw [hsel] at h; simp at h⟩
  | some l =>
    have hsa := selected_at_of_link req s p l hl
    by_cases hsel : link_selected req l
    · have hst : selected_at req s p = true := by rw [hsa]; simpa using hsel
      have hnf : ¬ selected_at req s p = false := by rw [hst]; simp
      cases hm : match_records req.stats req.flags (records_at s p) with
      | conflict =>
        exact ⟨_, s, false, post_link_conflict req s p l hwf hl hsel hm, hwf, rfl,
          fun _ _ => rfl, fun h => absurd h hnf,
          fun _ => ⟨fun h => by simp at h, fun e he => by
            simp only [Option.some.injEq] at he
            subst he
            exact ⟨rfl, Or.inl rfl⟩⟩⟩
      | absent =>
        by_cases hr : creation_refused req l
        · exact ⟨_, s, false, post_link_refused req s p l hwf hl hsel hm hr, hwf, rfl,
            fun _ _ => rfl, fun h => absurd h hnf,
            fun _ => ⟨fun h => by simp at h, fun e he => by
              simp only [Option.some.injEq] at he
              subst he
              exact ⟨rfl, Or.inl rfl⟩⟩⟩
        · by_cases hfree : ∃ b ∈ s.plexi_stats_mem, b.count = 0
          · obtain ⟨s1, h1, h2, h3, _, _, h6, h7⟩ :=
              post_link_create req s p l hwf hreq hl hsel hm hr hfree
            refine ⟨none, s1, true, h1, h2, h3, h7, fun h => absurd h hnf,
              fun _ => ⟨fun _ => ⟨rfl, ?_⟩, fun e he => by simp at he⟩⟩
            rw [h6]
            simp only [records_after, hm]
          · have hfull : ∀ b ∈ s.plexi_stats_mem, b.count ≠ 0 :=
              fun b hb hc => hfree ⟨b, hb, hc⟩
            exact ⟨_, s, false, post_link_full req s p l hwf hl hsel hm hr hfull, hwf, rfl,
              fun _ _ => rfl, fun h => absurd h hnf,
              fun _ => ⟨fun h => by simp at h, fun e he => by
                simp only [Option.some.injEq] at he
                subst he
                exact ⟨rfl, Or.inr rfl⟩⟩⟩
      | found k =>
        obtain ⟨s1, r, h1, h2, h3, _, _, h6, h7, h8⟩ :=
          post_link_update req s p l k hwf hreq hl hsel hm
        refine ⟨none, s1, true, h1, h2, by rw [h3], h8, fun h => absurd h hnf,
          fun _ => ⟨fun _ => ⟨rfl, ?_⟩, fun e he => by simp at he⟩⟩
        rw [h7]
        simp only [records_after, hm, h6]
    · have hst : selected_at req s p = false := by rw [hsa]; simpa using hsel
      have hsk := post_link_skip req s p (fun l1 h => by
        rw [hl] at h
        simp only [Option.some.injEq] at h
        subst h
        exact hsel)
      exact ⟨none, s, false, hsk, hwf, rfl, fun _ _ => rfl, fun _ => ⟨rfl, rfl, rfl⟩,
        fun h => by rw [hst] at h; simp at h⟩

/-- The walk of an Upsert over a list of links, by what it does: the links that
do not pass the channel and address test are left alone; without an error every
link that passes it has its record updated or created, and `installed` is set
when there is such a link; an error is a bad-request or an out-of-memory error
raised on a link that passes the test. -/
theorem post_loop_effect (req : post_request) (hreq : request_words req) :
    ∀ (ps : List (Nat × Nat)) (s : plexi_state) (inst : Bool), wf_state s → ps.Nodup →
      ∃ r s1 i1, post_stats_loop req ps s inst = some (r, s1, i1) ∧
        (∀ q, (q ∉ ps ∨ selected_at req s q = false) → records_at s1 q = records_at s q) ∧
        (r = none →
          i1 = (inst || ps.any (selected_at req s)) ∧
          ∀ q ∈ ps, selected_at req s q = true →
            records_at s1 q = records_after req (records_at s q)) ∧
        (∀ e, r = some e →
          (e.status = some coap_status.BAD_REQUEST_4_00 ∨
            e.status = some coap_status.INTERNAL_SERVER_ERROR_5_00) ∧
          ∃ q ∈ ps, selected_at req s q = true) := by
  intro ps
  induction ps with
  | nil =>
    intro s inst _ _
    exact ⟨none, s, inst, rfl, fun _ _ => rfl, fun _ => ⟨by simp, by simp⟩,
      fun e he => by simp at he⟩
  | cons p ps ih =>
    intro s inst hwf hnd
    obtain ⟨hpn, hnd2⟩ := List.nodup_cons.mp hnd
    obtain ⟨r, s1, t, h1, h2, h3, h4, h5, h6⟩ := post_link_effect req s p hwf hreq
    have hselq : ∀ q, selected_at req s1 q = selected_at req s q :=
      fun q => selected_of_skeleton req s s1 q h3
    cases hsp : selected_at req s p with
    | false =>
      obtain ⟨hr, hs1, ht⟩ := h5 hsp
      subst hr hs1 ht
      obtain ⟨r2, s2, i2, g1, g2, g3, g4⟩ := ih s1 inst h2 hnd2
      refine ⟨r2, s2, i2, ?_, ?_, ?_, ?_⟩
      · rw [post_loop_cons_ok req p ps s1 s1 inst false h1, Bool.or_false, g1]
      · intro q hq
        apply g2 q
        rcases hq with hq | hq
        · exact Or.inl (fun h => hq (List.mem_cons_of_mem _ h))
        · exact Or.inr hq
      · intro hr
        obtain ⟨e1, e2⟩ := g3 hr
        refine ⟨?_, ?_⟩
        · rw [e1, List.any_cons, hsp, Bool.false_or]
        · intro q hq hsq
          rcases List.mem_cons.mp hq with h | h
          · rw [h, hsp] at hsq; simp at hsq
          · exact e2 q h hsq
      · intro e he
        obtain ⟨e1, q, hq, hsq⟩ := g4 e he
        exact ⟨e1, q, List.mem_cons_of_mem _ hq, hsq⟩
    | true =>
      obtain ⟨k1, k2⟩ := h6 hsp
      cases r with
      | some e =>
        obtain ⟨hs1, hst⟩ := k2 e rfl
        subst hs1
        refine ⟨some e, s1, inst, post_loop_cons_error req p ps s1 s1 inst t e h1,
          fun _ _ => rfl, fun h => by simp at h, ?_⟩
        intro e2 he2
        simp only [Option.some.injEq] at he2
        subst he2
        exact ⟨hst, p, List.mem_cons_self _ _, hsp⟩
      | none =>
        obtain ⟨ht, hrecp⟩ := k1 rfl
        subst ht
        obtain ⟨r2, s2, i2, g1, g2, g3, g4⟩ := ih s1 (inst || true) h2 hnd2
        refine ⟨r2, s2, i2, ?_, ?_, ?_, ?_⟩
        · rw [post_loop_cons_ok req p ps s s1 inst true h1, g1]
        · intro q hq
          have hqp : q ≠ p := by
            rcases hq with hq | hq
            · exact fun e => hq (e ▸ List.mem_cons_self _ _)
            · intro e
              rw [e, hsp] at hq
              simp at hq
          rw [g2 q (by
            rcases hq with hq | hq
            · exact Or.inl (fun h => hq (List.mem_cons_of_mem _ h))
            · exact Or.inr (by rw [hselq]; exact hq)), h4 q hqp]
        · intro hr
          obtain ⟨e1, e2⟩ := g3 hr
          refine ⟨?_, ?_⟩
          · rw [e1, List.any_cons, hsp]
            simp
          · intro q hq hsq
            rcases List.mem_cons.mp hq with h | h
            · rw [h, g2 p (Or.inl hpn), hrecp]
            · have hqp : q ≠ p := fun e => hpn (e ▸ h)
              rw [e2 q h (by rw [hselq]; exact hsq), h4 q hqp]
        · intro e he
          obtain ⟨e1, q, hq, hsq⟩ := g4 e he
          exact ⟨e1, q, List.mem_cons_of_mem _ hq, by rw [← hselq]; exact hsq⟩

theorem mem_scan_iff_selected (req : post_request) (s : plexi_state)
    (hframes : (s.schedule.map (fun sf => sf.handle)).Nodup)
    (hslots : ∀ sf ∈ s.schedule, (sf.links_list.map (fun l => l.timeslot)).Nodup)
    (p : Nat × Nat) :
    p ∈ naive_filter_scan s.schedule req.flags req.slotframe req.slot req.channel req.tna ↔
      p ∈ stats_walk s.schedule req.flags req.slotframe req.slot ∧
        selected_at req s p = true := by
  rw [mem_naive_filter_scan, mem_stats_walk _ _ _ _ hframes hslots]
  constructor
  · rintro ⟨sf, l, hsf, hl, h1, h2, h3, h4⟩
    have hl2 : link_at s.schedule p = some l := by simp [link_at, hsf, hl]
    refine ⟨⟨sf, l, hsf, hl, h1, h2⟩, ?_⟩
    simp only [selected_at, hl2, link_selected, decide_eq_true_eq]
    exact ⟨h3, h4⟩
  · rintro ⟨⟨sf, l, hsf, hl, h1, h2⟩, h⟩
    have hl2 : link_at s.schedule p = some l := by simp [link_at, hsf, hl]
    simp only [selected_at, hl2, link_selected, decide_eq_true_eq] at h
    exact ⟨sf, l, hsf, hl, h1, h2, h.1, h.2⟩

/-- The case `'}'` of an Upsert, by what it does to the links: the links the
naive scan does not keep are left alone; a request that succeeds has updated or
created the record looked for on every link of the scan; and the request
answers not-found exactly when the scan keeps no link. -/
theorem post_end_element_scan (req : post_request) (s : plexi_state) (hwf : wf_state s)
    (hreq : request_words req)
    (hframes : (s.schedule.map (fun sf => sf.handle)).Nodup)
    (hslots : ∀ sf ∈ s.schedule, (sf.links_list.map (fun l => l.timeslot)).Nodup) :
    ∃ resp s1, post_stats_end_element req s = some (resp, s1) ∧
      (∀ p, p ∉ naive_filter_scan s.schedule req.flags req.slotframe req.slot req.channel
          req.tna → records_at s1 p = records_at s p) ∧
      (resp.status = some coap_status.CHANGED_2_04 →
        naive_filter_scan s.schedule req.flags req.slotframe req.slot req.channel req.tna ≠ [] ∧
        ∀ p ∈ naive_filter_scan s.schedule req.flags req.slotframe req.slot req.channel
            req.tna, records_at s1 p = records_after req (records_at s p)) ∧
      (plexi_get_statistics_metric (some req.stats) ≠ NONE →
        (resp.status = some coap_status.NOT_FOUND_4_04 ↔
          naive_filter_scan s.schedule req.flags req.slotframe req.slot req.channel
            req.tna = [])) := by
  have hmem := mem_scan_iff_selected req s hframes hslots
  unfold post_stats_end_element
  by_cases h1 : plexi_get_statistics_metric (some req.stats) = NONE
  · rw [if_pos h1]
    exact ⟨_, s, rfl, fun _ _ => rfl, fun h => by simp at h, fun h => absurd h1 h⟩
  rw [if_neg h1]
  by_cases h2 : stats_walk_frames s.schedule req.flags req.slotframe = []
  · rw [if_pos h2]
    have hw := stats_walk_nil_of_frames s.schedule req.flags req.slotframe req.slot h2
    have hnil : naive_filter_scan s.schedule req.flags req.slotframe req.slot req.channel
        req.tna = [] := by
      apply List.eq_nil_iff_forall_not_mem.mpr
      intro p hp
      have := ((hmem p).mp hp).1
      rw [hw] at this
      simp at this
    exact ⟨_, s, rfl, fun _ _ => rfl, fun h => by simp at h, fun _ => ⟨fun _ => hnil,
      fun _ => rfl⟩⟩
  rw [if_neg h2]
  obtain ⟨r, s1, i1, g1, g2, g3, g4⟩ := post_loop_effect req hreq
    (stats_walk s.schedule req.flags req.slotframe req.slot) s false hwf
    (stats_walk_nodup _ _ _ _)
  rw [g1]
  have hoff : ∀ p, p ∉ naive_filter_scan s.schedule req.flags req.slotframe req.slot
      req.channel req.tna → records_at s1 p = records_at s p := by
    intro p hp
    apply g2 p
    by_cases hw : p ∈ stats_walk s.schedule req.flags req.slotframe req.slot
    · right
      cases hs : selected_at req s p with
      | false => rfl
      | true => exact absurd ((hmem p).mpr ⟨hw, hs⟩) hp
    · exact Or.inl hw
  cases r with
  | some e =>
    obtain ⟨hst, q, hq, hsq⟩ := g4 e rfl
    have hne : naive_filter_scan s.schedule req.flags req.slotframe req.slot req.channel
        req.tna ≠ [] := List.ne_nil_of_mem ((hmem q).mpr ⟨hq, hsq⟩)
    refine ⟨e, s1, rfl, hoff, ?_, fun _ => ⟨?_, fun h => absurd h hne⟩⟩
    · intro h
      rcases hst with h0 | h0 <;> rw [h0] at h <;> simp at h
    · intro h
      rcases hst with h0 | h0 <;> rw [h0] at h <;> simp at h
  | none =>
    obtain ⟨hi, hon⟩ := g3 rfl
    rw [Bool.false_or] at hi
    cases hi1 : i1 with
    | true =>
      rw [hi1] at hi
      obtain ⟨q, hq, hsq⟩ := List.any_eq_true.mp hi.symm
      have hne : naive_filter_scan s.schedule req.flags req.slotframe req.slot req.channel
          req.tna ≠ [] := List.ne_nil_of_mem ((hmem q).mpr ⟨hq, hsq⟩)
      refine ⟨_, s1, rfl, hoff, fun _ => ⟨hne, ?_⟩, fun _ => ⟨fun h => by simp at h,
        fun h => absurd h hne⟩⟩
      intro p hp
      obtain ⟨hw, hs⟩ := (hmem p).mp hp
      exact hon p hw hs
    | false =>
      rw [hi1] at hi
      have hnil : naive_filter_scan s.schedule req.flags req.slotframe req.slot req.channel
          req.tna = [] := by
        apply List.eq_nil_iff_forall_not_mem.mpr
        intro p hp
        obtain ⟨hw, hs⟩ := (hmem p).mp hp
        have : (stats_walk s.schedule req.flags req.slotframe req.slot).any
            (selected_at req s) = true := List.any_eq_true.mpr ⟨p, hw, hs⟩
        rw [← hi] at this
        simp at this
      refine ⟨_, s1, rfl, hoff, fun h => by simp at h, fun _ => ⟨fun _ => hnil, fun _ => rfl⟩⟩

/-- C11: in a well-formed state whose slotframe handles are pairwise distinct and
whose slotframes hold at most one link per timeslot, for all filters. The links
the handlers work on (lookup by handle and by timeslot, then the channel and
neighbor test) are, in the same order, the links the naive scan of all links
keeps, and the scan with all supplied filters keeps exactly the links that the
four scans with one of the filters each keep. The read handler prints the
records of exactly the links of the scan. The walk of the Upsert leaves the
links outside the scan alone, updates or creates the record on every link of
the scan when it succeeds, and answers not-found exactly when the scan keeps no
link; the Upsert handler on a payload of one JSON object either stops on a
field with the state untouched or is that walk. The delete removes the
matching records on the links of the scan and leaves the other links alone. -/
theorem stats_handlers_work_on_naive_scan (eui64 : String → Option linkaddr_t)
    (na : linkaddr_t → String) (tna0 : linkaddr_t) (sub : String)
    (query : List (String × String)) (q : stats_query) (req : post_request)
    (s : plexi_state)
    (hframes : (s.schedule.map (fun sf => sf.handle)).Nodup)
    (hslots : ∀ sf ∈ s.schedule, (sf.links_list.map (fun l => l.timeslot)).Nodup)
    (hwf : wf_state s) (hcnt : pool_counts s) (hreq : request_words req)
    (hq : stats_query_parse eui64 tna0 query = Sum.inr q)
    (hsub : ¬ (sub ≠ "" ∧ sub ≠ "frame" ∧ sub ≠ "slot" ∧ sub ≠ "channel" ∧ sub ≠ "window" ∧
      sub ≠ "metric" ∧ sub ≠ "value" ∧ sub ≠ "tna" ∧ sub ≠ "enable" ∧ sub ≠ "id")) :
    (∀ (flags : Nat) (frame slot channel : Int) (tna : linkaddr_t),
      stats_visited s.schedule flags frame slot channel tna =
        naive_filter_scan s.schedule flags frame slot channel tna ∧
      ∀ p, p ∈ naive_filter_scan s.schedule flags frame slot channel tna ↔
        p ∈ naive_filter_scan s.schedule (flags &&& 1) frame slot channel tna ∧
        p ∈ naive_filter_scan s.schedule (flags &&& 2) frame slot channel tna ∧
        p ∈ naive_filter_scan s.schedule (flags &&& 4) frame slot channel tna ∧
        p ∈ naive_filter_scan s.schedule (flags &&& 8) frame slot channel tna) ∧
    plexi_get_stats_handler eui64 na tna0 sub query s =
      some (if stats_walk_frames s.schedule q.flags q.frame = [] then
          ⟨some coap_status.NOT_FOUND_4_04, "No slotframes found"⟩
        else naive_get_stats_reply na q sub s) ∧
    (∃ resp s1, post_stats_end_element req s = some (resp, s1) ∧
      (∀ p, p ∉ naive_filter_scan s.schedule req.flags req.slotframe req.slot req.channel
          req.tna → records_at s1 p = records_at s p) ∧
      (resp.status = some coap_status.CHANGED_2_04 →
        naive_filter_scan s.schedule req.flags req.slotframe req.slot req.channel req.tna ≠ [] ∧
        ∀ p ∈ naive_filter_scan s.schedule req.flags req.slotframe req.slot req.channel
            req.tna, records_at s1 p = records_after req (records_at s p)) ∧
      (plexi_get_statistics_metric (some req.stats) ≠ NONE →
        (resp.status = some coap_status.NOT_FOUND_4_04 ↔
          naive_filter_scan s.schedule req.flags req.slotframe req.slot req.channel
            req.tna = []))) ∧
    (∀ (js_ok : Bool) (fields rest : List json_event),
      (∀ e ∈ fields, e ≠ json_event.object_start ∧ e ≠ json_event.object_end) →
      (∃ err, plexi_post_stats_handler eui64 js_ok
          (json_event.object_start :: (fields ++ json_event.object_end :: rest)) s =
            some (err, s)) ∨
      ∃ req1 : post_request, request_words req1 ∧
        plexi_post_stats_handler eui64 js_ok
            (json_event.object_start :: (fields ++ json_event.object_end :: rest)) s =
          post_stats_end_element req1 s) ∧
    (∃ resp s1, plexi_delete_stats_handler eui64 na tna0 "" query s = some (resp, s1) ∧
      (∀ p, p ∈ naive_filter_scan s.schedule q.flags q.frame q.slot q.channel q.tna →
        records_at s1 p = (records_at s p).filter (fun r => !stats_record_filter q r)) ∧
      (∀ p, p ∉ naive_filter_scan s.schedule q.flags q.frame q.slot q.channel q.tna →
        records_at s1 p = records_at s p)) := by
  refine ⟨?_, ?_, post_end_element_scan req s hwf hreq hframes hslots, ?_, ?_⟩
  · intro flags frame slot channel tna
    exact ⟨stats_visited_eq_scan s.schedule flags frame slot channel tna hframes hslots,
      (stats_visited_iff_scan s.schedule flags frame slot channel tna hframes hslots).2.1⟩
  · by_cases hfr : stats_walk_frames s.schedule q.flags q.frame = []
    · rw [if_pos hfr]
      simp only [plexi_get_stats_handler, hq, if_neg hsub, if_pos hfr]
    · rw [if_neg hfr]
      exact get_stats_handler_eq eui64 na tna0 sub query q s hwf hframes hslots hq hsub hfr
  · intro js_ok fields rest hbr
    rcases post_handler_parse eui64 js_ok fields rest s hbr with h | ⟨req1, h1, _, h3⟩
    · exact Or.inl h
    · exact Or.inr ⟨req1, h1, h3⟩
  · obtain ⟨resp, s1, h1, _, _, _, hrec, hoth, _, _⟩ := delete_run_spec na q s hwf hcnt
    have hmem := mem_naive_iff_walk s.schedule q s rfl hframes hslots
    refine ⟨resp, s1, ?_, ?_, ?_⟩
    · simp only [plexi_delete_stats_handler, hq]
      exact h1
    · intro p hp
      obtain ⟨hw, hsel⟩ := (hmem p).mp hp
      rw [hrec p hw, records_after_delete, if_pos hsel]
    · intro p hp
      by_cases hw : p ∈ stats_walk s.schedule q.flags q.frame q.slot
      · have hsel : ¬ delete_selected q s p = true := fun h => hp ((hmem p).mpr ⟨hw, h⟩)
        rw [hrec p hw, records_after_delete, if_neg hsel]
      · exact hoth p hw

/-- Witness of C11: two slotframes, the filters slot 3 and channel 5; the scan
keeps the two links at timeslot 3, each of which holds one record. -/
theorem stats_handlers_work_on_naive_scan_witness :
    (∀ (flags : Nat) (frame slot channel : Int) (tna : linkaddr_t),
      stats_visited scan_example_state.schedule flags frame slot channel tna =
        naive_filter_scan scan_example_state.schedule flags frame slot channel tna ∧
      ∀ p, p ∈ naive_filter_scan scan_example_state.schedule flags frame slot channel tna ↔
        p ∈ naive_filter_scan scan_example_state.schedule (flags &&& 1) frame slot channel tna ∧
        p ∈ naive_filter_scan scan_example_state.schedule (flags &&& 2) frame slot channel tna ∧
        p ∈ naive_filter_scan scan_example_state.schedule (flags &&& 4) frame slot channel tna ∧
        p ∈ naive_filter_scan scan_example_state.schedule (flags &&& 8) frame slot channel tna) ∧
    plexi_get_stats_handler no_address plain_address 0 "" [("slot", "3"), ("channel", "5")]
        scan_example_state =
      some (if stats_walk_frames scan_example_state.schedule 6 (-1) = [] then
          ⟨some coap_status.NOT_FOUND_4_04, "No slotframes found"⟩
        else naive_get_stats_reply plain_address ⟨6, -1, 3, 5, 0, 0, 0, -1⟩ "" scan_example_state) ∧
    (∃ resp s1, post_stats_end_element scan_example_request scan_example_state = some (resp, s1) ∧
      (∀ p, p ∉ naive_filter_scan scan_example_state.schedule scan_example_request.flags
          scan_example_request.slotframe scan_example_request.slot scan_example_request.channel
          scan_example_request.tna → records_at s1 p = records_at scan_example_state p) ∧
      (resp.status = some coap_status.CHANGED_2_04 →
        naive_filter_scan scan_example_state.schedule scan_example_request.flags
            scan_example_request.slotframe scan_example_request.slot scan_example_request.channel
                scan_example_request.tna ≠ [] ∧
        ∀ p ∈ naive_filter_scan scan_example_state.schedule scan_example_request.flags
            scan_example_request.slotframe scan_example_request.slot scan_example_request.channel
            scan_example_request.tna, records_at s1 p = records_after scan_example_request
                (records_at scan_example_state p)) ∧
      (plexi_get_statistics_metric (some scan_example_request.stats) ≠ NONE →
        (resp.status = some coap_status.NOT_FOUND_4_04 ↔
          naive_filter_scan scan_example_state.schedule scan_example_request.flags
              scan_example_request.slotframe scan_example_request.slot scan_example_request.channel
            scan_example_request.tna = []))) ∧
    (∀ (js_ok : Bool) (fields rest : List json_event),
      (∀ e ∈ fields, e ≠ json_event.object_start ∧ e ≠ json_event.object_end) →
      (∃ err, plexi_post_stats_handler no_address js_ok
          (json_event.object_start :: (fields ++ json_event.object_end :: rest))
          scan_example_state = some (err, scan_example_state)) ∨
      ∃ req1 : post_request, request_words req1 ∧
        plexi_post_stats_handler no_address js_ok
            (json_event.object_start :: (fields ++ json_event.object_end :: rest))
            scan_example_state =
          post_stats_end_element req1 scan_example_state) ∧
    (∃ resp s1, plexi_delete_stats_handler no_address plain_address 0 "" [("slot", "3"),
        ("channel", "5")] scan_example_state = some (resp, s1) ∧
      (∀ p, p ∈ naive_filter_scan scan_example_state.schedule 6 (-1) 3 5 0 →
        records_at s1 p = (records_at scan_example_state p).filter (fun r => !stats_record_filter
            ⟨6, -1, 3, 5, 0, 0, 0, -1⟩ r)) ∧
      (∀ p, p ∉ naive_filter_scan scan_example_state.schedule 6 (-1) 3 5 0 →
        records_at s1 p = records_at scan_example_state p)) :=
  stats_handlers_work_on_naive_scan no_address plain_address 0 ""
    [("slot", "3"), ("channel", "5")] ⟨6, -1, 3, 5, 0, 0, 0, -1⟩ scan_example_request
    scan_example_state (by decide) (by decide) (by decide) (by decide) (by decide) (by decide)
    (by decide)

end Plexi
